import Mathlib

/-!
# cb-event-forwarder: the JSON message processor

A shallow embedding of `internal/messageprocessor/json_message_processor.go`
and theorems about it.

Conventions of the embedding

* A Go `interface{}` value is a `Value`; one constructor per dynamic type that
  the program creates or tests for.
* A Go `map[string]interface{}` is a `Record`, an association list read through
  `Record.get?`, written through `Record.set` and `Record.delete`.  The entry
  found first for a key is the entry of the map.
* `range` over a map visits the keys in an unspecified order.  Loops over a map
  take the visiting order as a list of keys.
* A run-time panic (index out of range, failed type assertion) is `none`.
* A Go string is a `String`; `len` is the length in bytes of its UTF-8 form.
-/

namespace messageprocessor

/-! ## Dynamic values and records -/

/-- A Go `interface{}` value, by dynamic type. -/
inductive Value where
  /-- The nil interface (JSON `null`). -/
  | null : Value
  /-- A Go `bool`. -/
  | bool : Bool → Value
  /-- A Go `string`. -/
  | str : String → Value
  /-- A `json.Number`: the literal text of the number. -/
  | num : String → Value
  /-- A Go `int`. -/
  | int : Int → Value
  /-- A Go `int64`. -/
  | int64 : Int → Value
  /-- A `[]interface{}` (JSON array). -/
  | arr : List Value → Value
  /-- A `map[string]interface{}` (JSON object). -/
  | obj : List (String × Value) → Value
  /-- A `[]string`. -/
  | strs : List String → Value
  /-- A `[]map[string]interface{}`. -/
  | objs : List (List (String × Value)) → Value
  /-- A `map[string]map[string]interface{}`. -/
  | srcs : List (String × List (String × Value)) → Value

/-- A Go `map[string]interface{}`. -/
abbrev Record := List (String × Value)

/-- Map read `m[k]` with the comma-ok form: `none` when the key is absent. -/
def Record.get? : Record → String → Option Value
  | [], _ => none
  | (k, v) :: m, key => if k = key then some v else Record.get? m key

/-- Map write `m[k] = v`. -/
def Record.set : Record → String → Value → Record
  | [], key, v => [(key, v)]
  | (k, w) :: m, key, v => if k = key then (k, v) :: m else (k, w) :: Record.set m key v

/-- Map removal `delete(m, k)`. -/
def Record.delete : Record → String → Record
  | [], _ => []
  | (k, w) :: m, key => if k = key then Record.delete m key else (k, w) :: Record.delete m key

/-- The keys of a map, in the order of the association list. -/
def Record.keys (m : Record) : List String := m.map Prod.fst

/-- A `map[string]map[string]interface{}`, as used for `alliance_data_map`. -/
abbrev SourceMap := List (String × Record)

/-- Map read on a `SourceMap`, comma-ok form. -/
def SourceMap.get? : SourceMap → String → Option Record
  | [], _ => none
  | (k, v) :: m, key => if k = key then some v else SourceMap.get? m key

/-- Map write on a `SourceMap`. -/
def SourceMap.set : SourceMap → String → Record → SourceMap
  | [], key, v => [(key, v)]
  | (k, w) :: m, key, v => if k = key then (k, v) :: m else (k, w) :: SourceMap.set m key v

/-! ## Library functions of Go used by the program -/

/-- Go `len(s)` of a string: its length in bytes. -/
def len (s : String) : Nat := s.utf8ByteSize

/-- The pieces of a character list between occurrences of `sep`. -/
def splitChars (sep : Char) : List Char → List (List Char)
  | [] => [[]]
  | c :: cs =>
    if c = sep then [] :: splitChars sep cs
    else
      match splitChars sep cs with
      | [] => [[c]]
      | p :: ps => (c :: p) :: ps

/-- Go `strings.Split(s, sep)` for a separator of one character. -/
def strings.Split (s : String) (sep : Char) : List String :=
  (splitChars sep s.data).map String.mk

/-- Go `strings.HasPrefix(s, p)`. -/
def strings.HasPrefix (s p : String) : Bool := p.data.isPrefixOf s.data

/-- Whether `pat` occurs as a contiguous run inside the list. -/
def containsChars (pat : List Char) : List Char → Bool
  | [] => pat.isEmpty
  | c :: cs => pat.isPrefixOf (c :: cs) || containsChars pat cs

/-- Go `strings.Contains(s, sub)`. -/
def strings.Contains (s sub : String) : Bool := containsChars sub.data s.data

/-- Go `unicode.ToUpper(r)`: the letters `a` to `z` are mapped to `A` to `Z`
and the other ASCII characters are kept; a rune outside ASCII is mapped by the
Unicode case tables, which are the parameter `table`. -/
def unicode.ToUpper (table : Char → Char) (r : Char) : Char :=
  if r.toNat < 128 then r.toUpper else table r

/-- The error kinds of `strconv.NumError`. -/
inductive NumError where
  | ErrSyntax : NumError
  | ErrRange : NumError
deriving DecidableEq, Repr

/-- The digit loop of `strconv.ParseUint(s, 10, bitSize)`: `n` is the value read
so far. Returns the value and the error, as Go does. -/
def parseUintLoop (bitSize : Nat) : List Char → Nat → Nat × Option NumError
  | [], n => (n, none)
  | c :: cs, n =>
    if c.isDigit then
      let d := c.toNat - 48
      -- n*base overflows
      if n ≥ (2 ^ 64 - 1) / 10 + 1 then (2 ^ bitSize - 1, some .ErrRange)
      else
        let n1 := n * 10 + d
        -- n+d overflows
        if n1 ≥ 2 ^ 64 ∨ n1 > 2 ^ bitSize - 1 then (2 ^ bitSize - 1, some .ErrRange)
        else parseUintLoop bitSize cs n1
    else (0, some .ErrSyntax)

/-- Go `strconv.ParseUint(s, 10, bitSize)`. -/
def strconv.ParseUint (s : List Char) (bitSize : Nat) : Nat × Option NumError :=
  match s with
  | [] => (0, some .ErrSyntax)
  | _ :: _ => parseUintLoop bitSize s 0

/-- Go `strconv.ParseInt(s, 10, bitSize)`: the value and the error (`none` is a
nil error). -/
def strconv.ParseInt (s : String) (bitSize : Nat) : Int × Option NumError :=
  match s.data with
  | [] => (0, some .ErrSyntax)
  | c :: cs =>
    -- pick off leading sign
    let neg := decide (c = '-')
    let body := if c = '+' ∨ c = '-' then cs else c :: cs
    match strconv.ParseUint body bitSize with
    | (_, some .ErrSyntax) => (0, some .ErrSyntax)
    | (un, _) =>
      let cutoff : Nat := 2 ^ (bitSize - 1)
      if !neg && decide (un ≥ cutoff) then (((cutoff - 1 : Nat) : Int), some .ErrRange)
      else if neg && decide (un > cutoff) then (-(cutoff : Int), some .ErrRange)
      else (if neg then -(un : Int) else (un : Int), none)

/-- The decimal digits of `n`, most significant first; `fuel` bounds their number. -/
def natDigits : Nat → Nat → List Char
  | 0, _ => []
  | fuel + 1, n =>
    if n < 10 then [Nat.digitChar n]
    else natDigits fuel (n / 10) ++ [Nat.digitChar (n % 10)]

/-- Go formatting of an integer with the verb `%d`. -/
def formatInt : Int → String
  | .ofNat n => ⟨natDigits (n + 1) n⟩
  | .negSucc n => ⟨'-' :: natDigits (n + 2) (n + 1)⟩

/-- Go `json.Number.Int64()`. -/
def Number.Int64 (n : String) : Int × Option NumError := strconv.ParseInt n 64

/-! ## Collaborators declared outside this file -/

/-- Functions of other packages that the processor calls; they are taken as
parameters. -/
structure Extern where
  /-- The function `util.GetIPv4AddressSigned`, on the value of its `int32` argument. -/
  GetIPv4AddressSigned : Int → String
  /-- The function `util.ParseFullGUID`: the two results as printed by `%v`,
  `none` when it returns an error. -/
  ParseFullGUID : String → Option (String × String)
  /-- Go `json.Unmarshal` into a `map[string]string`; `none` when it returns an error. -/
  UnmarshalStringMap : String → Option (List (String × String))
  /-- Go `url.ParseQuery`; `none` when it returns an error.  Each key comes with
  its first value and the further ones: the library never stores an empty
  list of values. -/
  ParseQuery : String → Option (List (String × String × List String))
  /-- The method `CbAPI.GetReport`: title, score and link; `none` when it returns
  an error. -/
  GetReport : Int → String → Option (String × Int × String)
  /-- The decoder of `encoding/json` with `UseNumber`, run on a message body into
  a `map[string]interface{}`; `none` when it returns an error. -/
  Decode : String → Option Record
  /-- The Unicode case tables of Go `unicode.ToUpper`: the upper case of a rune
  outside ASCII. -/
  ToUpperRune : Char → Char
  /-- The upper case of a rune is its own upper case. -/
  ToUpperRune_idem : ∀ r, 128 ≤ r.toNat →
    unicode.ToUpper ToUpperRune (ToUpperRune r) = ToUpperRune r

/-- Go `strings.ToUpper(s)`: `unicode.ToUpper` applied to every rune of `s`.  On
a string of ASCII characters this is the result of the loop over bytes that
the function runs in that case. -/
def strings.ToUpper (ext : Extern) (s : String) : String :=
  ⟨s.data.map (unicode.ToUpper ext.ToUpperRune)⟩

/-- Modelled from the spec: `deepcopy.Iface`, declared in `internal/deepcopy`, is
"a generic structural deep-clone"; on values without sharing the clone equals
its argument. -/
def deepcopy.Iface (v : Value) : Value := v

/-! ## Routing keys -/

/-- Removes `p` from the front of the list; `none` when the list does not start
with `p`. -/
def stripChars : List Char → List Char → Option (List Char)
  | [], s => some s
  | _ :: _, [] => none
  | p :: ps, c :: cs => if p = c then stripChars ps cs else none

/-- The regular expression `^feed\.(\d+)\.(.*)$`: the two groups of
`FindStringSubmatch`, `none` when the routing key does not match.  `\d` is an
ASCII digit; `.` is any character but a line feed; `$` is the end of the text. -/
def feedParserRegex (routingKey : String) : Option (String × String) :=
  match stripChars "feed.".data routingKey.data with
  | none => none
  | some t =>
    match t.takeWhile Char.isDigit, t.dropWhile Char.isDigit with
    | d :: ds, '.' :: rest =>
      if rest.all (fun c => c != '\n') then some (⟨d :: ds⟩, ⟨rest⟩) else none
    | _, _ => none

/-- Source: `fixupMessageType`. -/
def fixupMessageType (routingKey : String) : String :=
  match feedParserRegex routingKey with
  | some (_, rest) => "feed." ++ rest
  | none => routingKey

/-! ## The key-rewrite pass -/

/-- Source: `parseQueryString`.  The results `queryIndex` and `parsedQuery`;
`none` when the error result is not nil. -/
def parseQueryString (ext : Extern) (encodedQuery : List (String × String)) :
    Option (String × String) :=
  match encodedQuery.lookup "index_type" with
  | none => none
  | some queryIndex =>
    match encodedQuery.lookup "search_query" with
    | none => none
    | some rawQuery =>
      match ext.ParseQuery rawQuery with
      | none => none
      | some query =>
        match query.lookup "q" with
        | none => none
        | some (first, _) => some (queryIndex, first)

/-- The variables that the loop of `handleKeyValues` updates: the message and
`alliance_data_map`. -/
structure KeyValueState where
  msg : Record
  alliance_data_map : SourceMap

/-- The cases of the `switch` in the loop of `handleKeyValues` that follow the
`alliance_` case, for one entry `key, value`; none of them reads or writes
`alliance_data_map`.  The result is `msg` after the case, `none` on a panic. -/
def handleOtherKey (ext : Extern) (msg : Record) (key : String) (value : Value) :
    Option Record :=
  if key = "endpoint" then
    let endpointstr : Option String :=
      match value with
      | .str s => some s
      | .arr (.str s :: _) => some s
      -- index 0 out of range, or the element is not a string
      | .arr _ => none
      | _ => some ""
    match endpointstr with
    | none => none
    | some endpointstr =>
      match strings.Split endpointstr '|' with
      | hostname :: sensorID :: _ =>
        some (((msg.set "hostname" (.str hostname)).set "sensor_id" (.str sensorID)).delete
          "endpoint")
      -- parts[1]: index out of range
      | _ => none
  else if key = "highlights_by_doc" then
    some (msg.delete "highlights_by_doc")
  else if key = "highlights" then
    some (msg.delete "highlights")
  else if key = "timestamp" then
    some ((msg.set "event_timestamp" value).delete "timestamp")
  else if key = "computer_name" then
    some ((msg.set "hostname" value).delete "computer_name")
  else if key = "md5" ∨ key = "parent_md5" ∨ key = "process_md5" then
    match value with
    | .str md5 =>
      if len md5 = 32 then some (msg.set key (.str (strings.ToUpper ext md5)))
      else some msg
    | _ => some msg
  else if key = "ioc_type" then
    match value with
    | .obj iocType =>
      match Record.get? iocType "md5" with
      | some (.str md5) =>
        some (msg.set key (.obj (Record.set iocType "md5" (.str (strings.ToUpper ext md5)))))
      | _ => some msg
    -- a map with string keys of another type: the type assertion panics
    | .srcs _ => none
    | .str iocType =>
      if iocType = "query" then
        match msg.get? "ioc_value" with
        | some (.str rawIocValue) =>
          match ext.UnmarshalStringMap rawIocValue with
          | some iocValue =>
            match parseQueryString ext iocValue with
            | some (queryIndex, rawQuery) =>
              some ((msg.set "ioc_query_index" (.str queryIndex)).set "ioc_query_string"
                (.str rawQuery))
            | none => some msg
          | none => some msg
        | _ => some msg
      else some msg
    | _ => some msg
  else if key = "comms_ip" ∨ key = "interface_ip" then
    match value with
    | .num value =>
      match strconv.ParseInt value 32 with
      | (ipaddr, none) => some (msg.set key (.str (ext.GetIPv4AddressSigned ipaddr)))
      | _ => some msg
    | _ => some msg
  else some msg

/-- The `alliance_` case of the `switch`: `alliance_data_map` after the key has
been folded into it. -/
def foldAllianceKey (alliance_data_map : SourceMap) (key : String) (value : Value) : SourceMap :=
  match strings.Split key '_' with
  | [_, alliance_data_key, alliance_data_source] =>
    match alliance_data_map.get? alliance_data_source with
    | some alliance_map =>
      alliance_data_map.set alliance_data_source (alliance_map.set alliance_data_key value)
    | none =>
      alliance_data_map.set alliance_data_source (Record.set [] alliance_data_key value)
  | _ => alliance_data_map

/-- The body of the loop of `handleKeyValues` for one entry `key, value`. -/
def handleKeyValue (ext : Extern) (st : KeyValueState) (key : String) (value : Value) :
    Option KeyValueState :=
  if strings.Contains key "alliance_" then
    some ⟨st.msg.delete key, foldAllianceKey st.alliance_data_map key value⟩
  else
    match handleOtherKey ext st.msg key value with
    | none => none
    | some msg => some ⟨msg, st.alliance_data_map⟩

/-- The loop `for key, value := range msg` of `handleKeyValues`, over the keys
in visiting order.  An entry removed before it is reached is not visited; the
value is the one the map holds when the entry is reached. -/
def rangeKeyValues (ext : Extern) : List String → KeyValueState → Option KeyValueState
  | [], st => some st
  | key :: rest, st =>
    match st.msg.get? key with
    | none => rangeKeyValues ext rest st
    | some value =>
      match handleKeyValue ext st key value with
      | none => none
      | some st => rangeKeyValues ext rest st

/-- Source: `handleKeyValues`, with the order in which `range` visits the keys
of `msg` as a parameter.  The result is the message after the call. -/
def handleKeyValuesIn (ext : Extern) (order : List String) (msg : Record) : Option Record :=
  match rangeKeyValues ext order ⟨msg, []⟩ with
  | none => none
  | some st =>
    if st.alliance_data_map.length > 0 then
      some (st.msg.set "alliance_data" (.srcs st.alliance_data_map))
    else some st.msg

/-- Source: `handleKeyValues`, visiting the keys in the order of the record. -/
def handleKeyValues (ext : Extern) (msg : Record) : Option Record :=
  handleKeyValuesIn ext msg.keys msg

/-! ## Field extraction -/

/-- Source: `getString`. -/
def getString (m : Record) (k : String) (dv : String) : String :=
  match m.get? k with
  | some (.str strval) => strval
  | _ => dv

/-- Source: `getNumber`; a `json.Number` is its text. -/
def getNumber (m : Record) (k : String) (dv : String) : String :=
  match m.get? k with
  | some (.num numval) => numval
  | _ => dv

/-- Source: `getIPAddress`. -/
def getIPAddress (ext : Extern) (m : Record) (k : String) (dv : String) : String :=
  match m.get? k with
  | some (.num numval) =>
    match strconv.ParseInt numval 32 with
    | (ipaddr, none) => ext.GetIPv4AddressSigned ipaddr
    | _ => dv
  | some (.str strval) => strval
  | _ => dv

/-- Source: `getBool`; the result is an `interface{}`, nil when the boolean
cannot be decoded. -/
def getBool (m : Record) (k : String) : Value :=
  match m.get? k with
  | some (.bool boolval) => .bool boolval
  | _ => .null

/-! ## Shared copy helpers -/

/-- Source: `copySensorMetadata`; the result is `outmsg` after the call. -/
def copySensorMetadata (ext : Extern) (subdoc outmsg : Record) : Record :=
  let outmsg := outmsg.set "sensor_id" (.num (getNumber subdoc "sensor_id" "0"))
  let outmsg := outmsg.set "hostname" (.str (getString subdoc "hostname" ""))
  let outmsg := outmsg.set "group" (.str (getString subdoc "group" ""))
  let outmsg := outmsg.set "comms_ip" (.str (getIPAddress ext subdoc "comms_ip" ""))
  let outmsg := outmsg.set "interface_ip" (.str (getIPAddress ext subdoc "interface_ip" ""))
  let outmsg := outmsg.set "host_type" (.str (getString subdoc "host_type" ""))
  outmsg.set "os_type" (.str (getString subdoc "os_type" ""))

/-- Source: `copyFeedSensorMetadata`. -/
def copyFeedSensorMetadata (subdoc outmsg : Record) : Record :=
  let outmsg := outmsg.set "sensor_id" (.num (getNumber subdoc "sensor_id" "0"))
  let outmsg := outmsg.set "hostname" (.str (getString subdoc "hostname" ""))
  let outmsg := outmsg.set "group" (.str (getString subdoc "group" ""))
  outmsg.set "os_type" (.str (getString subdoc "os_type" ""))

/-- Source: `copyProcessMetadata`. -/
def copyProcessMetadata (ext : Extern) (subdoc outmsg : Record) : Record :=
  let outmsg := outmsg.set "process_md5"
    (.str (strings.ToUpper ext (getString subdoc "process_md5" "")))
  let outmsg := outmsg.set "process_guid" (.str (getString subdoc "unique_id" ""))
  let outmsg := outmsg.set "process_name" (.str (getString subdoc "process_name" ""))
  let outmsg := outmsg.set "cmdline" (.str (getString subdoc "cmdline" ""))
  let outmsg := outmsg.set "process_pid" (.num (getNumber subdoc "process_pid" "0"))
  let outmsg := outmsg.set "username" (.str (getString subdoc "username" ""))
  let outmsg := outmsg.set "path" (.str (getString subdoc "path" ""))
  let outmsg := outmsg.set "last_update" (.str (getString subdoc "last_update" ""))
  outmsg.set "start" (.str (getString subdoc "start" ""))

/-- Source: `copyParentMetadata`. -/
def copyParentMetadata (subdoc outmsg : Record) : Record :=
  let outmsg := outmsg.set "parent_name" (.str (getString subdoc "parent_name" ""))
  let outmsg := outmsg.set "parent_guid" (.str (getString subdoc "parent_unique_id" ""))
  outmsg.set "parent_pid" (.num (getNumber subdoc "parent_pid" "0"))

/-- The count fields that `copyEventCounts` copies. -/
def eventCountKeys : List String :=
  ["modload_count", "filemod_count", "regmod_count", "emet_count",
   "netconn_count", "crossproc_count", "processblock_count", "childproc_count"]

/-- Source: `copyEventCounts`. -/
def copyEventCounts (subdoc outmsg : Record) : Record :=
  eventCountKeys.foldl (fun outmsg count => outmsg.set count (.num (getNumber subdoc count "0")))
    outmsg

/-- Source: `copyBinaryMetadata`. -/
def copyBinaryMetadata (subdoc outmsg : Record) : Record :=
  let outmsg := outmsg.set "digsig_result" (.str (getString subdoc "digsig_result" "(unknown)"))
  let outmsg := outmsg.set "digsig_result_code" (.str (getString subdoc "digsig_result_code" ""))
  let outmsg := outmsg.set "product_version" (.str (getString subdoc "product_version" ""))
  let outmsg := outmsg.set "copied_mod_len" (.num (getNumber subdoc "copied_mod_len" "0"))
  let outmsg := outmsg.set "orig_mod_len" (.num (getNumber subdoc "orig_mod_len" "0"))
  let outmsg := outmsg.set "is_executable_image" (getBool subdoc "is_executable_image")
  let outmsg := outmsg.set "is_64bit" (getBool subdoc "is_64bit")
  let outmsg := outmsg.set "md5" (.str (getString subdoc "md5" ""))
  let outmsg := outmsg.set "file_version" (.str (getString subdoc "file_version" ""))
  let outmsg := outmsg.set "internal_name" (.str (getString subdoc "internal_name" ""))
  let outmsg := outmsg.set "company_name" (.str (getString subdoc "company_name" ""))
  let outmsg := outmsg.set "original_filename" (.str (getString subdoc "original_filename" ""))
  let outmsg := outmsg.set "os_type" (.str (getString subdoc "os_type" ""))
  let outmsg := outmsg.set "file_desc" (.str (getString subdoc "file_desc" ""))
  let outmsg := outmsg.set "product_name" (.str (getString subdoc "product_name" ""))
  outmsg.set "legal_copyright" (.str (getString subdoc "legal_copyright" ""))

/-- The first loop of `copyAllianceInformation`: the set `alliance_data_sources`
after the keys have been visited, `none` when `alliance_data[2]` is out of
range. -/
def allianceSources : List String → List String → Option (List String)
  | [], sources => some sources
  | key :: rest, sources =>
    if strings.HasPrefix key "alliance_" then
      match strings.Split key '_' with
      | _ :: _ :: alliance_data_source :: _ =>
        allianceSources rest
          (if alliance_data_source ∈ sources then sources else sources ++ [alliance_data_source])
      | _ => none
    else allianceSources rest sources

/-- The body of the second loop of `copyAllianceInformation`: the record `temp`
of one source, `none` when the index into an empty `[]string` panics. -/
def allianceEntry (subdoc : Record) (source : String) : Option Record :=
  let temp : Record := []
  let temp := temp.set "source" (.str source)
  let temp : Option Record :=
    match subdoc.get? ("alliance_data_" ++ source) with
    | some (.strs sliceval) =>
      match sliceval.getLast? with
      | some last => some (temp.set "data" (.str last))
      | none => none
    | some (.str strval) => some (temp.set "data" (.str strval))
    | some _ => some (temp.set "data" (.str ""))
    | none => some temp
  match temp with
  | none => none
  | some temp =>
    let temp := temp.set "score" (.num (getNumber subdoc ("alliance_score_" ++ source) "0"))
    let temp := temp.set "link" (.str (getString subdoc ("alliance_link_" ++ source) ""))
    some (temp.set "updated" (.str (getString subdoc ("alliance_updated_" ++ source) "")))

/-- The second loop of `copyAllianceInformation`, appending to
`alliance_data_list`. -/
def allianceEntries (subdoc : Record) : List String → List Record → Option (List Record)
  | [], alliance_data_list => some alliance_data_list
  | source :: rest, alliance_data_list =>
    match allianceEntry subdoc source with
    | none => none
    | some temp => allianceEntries subdoc rest (alliance_data_list ++ [temp])

/-- Source: `copyAllianceInformation`.  The keys of `subdoc` are visited in the
order of the record, the sources in the order in which they were first
seen. -/
def copyAllianceInformation (subdoc outmsg : Record) : Option Record :=
  match allianceSources subdoc.keys [] with
  | none => none
  | some alliance_data_sources =>
    match allianceEntries subdoc alliance_data_sources [] with
    | none => none
    | some alliance_data_list => some (outmsg.set "alliance_data" (.objs alliance_data_list))

/-! ## Handlers -/

/-- The error values that a handler returns. -/
inductive Error where
  /-- "Could not parse feed_id from incoming alert message", with its cause. -/
  | feedId : NumError → Error
  /-- The error of the JSON decoder. -/
  | decode : Error
deriving DecidableEq, Repr

/-- Source: `JSONMessageHandlerFunc`.  `none` is a panic; otherwise the pair of
results, a nil slice being the empty list and a nil error `none`. -/
abbrev JSONMessageHandlerFunc := String → Record → Option (List Record × Option Error)

/-- The loop `for _, submsg := range subdocs` of the handlers that explode
`docs`: an element that is a `map[string]interface{}` appends the record that
`body` builds from it, any other element is passed over. -/
def rangeDocs (body : Record → Option Record) : List Value → List Record → Option (List Record)
  | [], outmsgs => some outmsgs
  | submsg :: rest, outmsgs =>
    match submsg with
    | .obj subdoc =>
      match body subdoc with
      | none => none
      | some outmsg => rangeDocs body rest (outmsgs ++ [outmsg])
    | _ => rangeDocs body rest outmsgs

/-- The statements `if val, ok := inmsg["docs"]; ok` and
`if subdocs, ok := val.([]interface{}); ok` around the loop. -/
def explodeDocs (inmsg : Record) (body : Record → Option Record) : Option (List Record) :=
  match inmsg.get? "docs" with
  | some (.arr subdocs) => rangeDocs body subdocs []
  | _ => some []

/-- The record built by `watchlistHitProcess` for one sub-document. -/
def watchlistHitProcessDoc (ext : Extern) (inmsg subdoc : Record) : Record :=
  let watchlistName := getString inmsg "watchlist_name" ""
  let watchlistID := getNumber inmsg "watchlist_id" "0"
  let cbVersion := getString inmsg "cb_version" ""
  let eventTimestamp := getNumber inmsg "event_timestamp" "0"
  let outmsg : Record := []
  let outmsg := outmsg.set "type" (.str "watchlist.hit.process")
  let outmsg := outmsg.set "schema_version" (.int 2)
  let outmsg := outmsg.set "watchlist_name" (.str watchlistName)
  let outmsg := outmsg.set "watchlist_id" (.num watchlistID)
  let outmsg := outmsg.set "cb_version" (.str cbVersion)
  let outmsg := outmsg.set "event_timestamp" (.num eventTimestamp)
  let outmsg := copySensorMetadata ext subdoc outmsg
  let outmsg := copyProcessMetadata ext subdoc outmsg
  let outmsg := copyParentMetadata subdoc outmsg
  copyEventCounts subdoc outmsg

/-- Source: `watchlistHitProcess`. -/
def watchlistHitProcess (ext : Extern) : JSONMessageHandlerFunc := fun _msgtype inmsg =>
  match explodeDocs inmsg (fun subdoc => some (watchlistHitProcessDoc ext inmsg subdoc)) with
  | none => none
  | some outmsgs => some (outmsgs, none)

/-- The record built by `watchlistStorageHitProcess` for one sub-document. -/
def watchlistStorageHitProcessDoc (ext : Extern) (inmsg subdoc : Record) : Record :=
  let watchlistName := getString inmsg "watchlist_name" ""
  let watchlistID := getNumber inmsg "watchlist_id" "0"
  let cbVersion := getString inmsg "cb_version" ""
  let eventTimestamp := getNumber inmsg "event_timestamp" "0"
  let outmsg : Record := []
  let outmsg := outmsg.set "type" (.str "watchlist.storage.hit.process")
  let outmsg := outmsg.set "schema_version" (.int 2)
  let outmsg := outmsg.set "watchlist_name" (.str watchlistName)
  let outmsg := outmsg.set "watchlist_id" (.num watchlistID)
  let outmsg := outmsg.set "cb_version" (.str cbVersion)
  let outmsg := outmsg.set "event_timestamp" (.num eventTimestamp)
  let outmsg := copyProcessMetadata ext subdoc outmsg
  let outmsg := copyParentMetadata subdoc outmsg
  copyEventCounts subdoc outmsg

/-- Source: `watchlistStorageHitProcess`. -/
def watchlistStorageHitProcess (ext : Extern) : JSONMessageHandlerFunc := fun _msgtype inmsg =>
  match explodeDocs inmsg
      (fun subdoc => some (watchlistStorageHitProcessDoc ext inmsg subdoc)) with
  | none => none
  | some outmsgs => some (outmsgs, none)

/-- Source: `feedIngressHitProcess`. -/
def feedIngressHitProcess : JSONMessageHandlerFunc := fun _msgtype inmsg =>
  let outmsg : Record := []
  let outmsg := outmsg.set "type" (.str "feed.ingress.hit.process")
  let outmsg := outmsg.set "schema_version" (.int 2)
  let outmsg := outmsg.set "feed_name" (.str (getString inmsg "feed_name" ""))
  let outmsg := outmsg.set "feed_id" (.num (getNumber inmsg "feed_id" "0"))
  let outmsg := outmsg.set "cb_version" (.str (getString inmsg "cb_version" ""))
  let outmsg := outmsg.set "event_timestamp" (.num (getNumber inmsg "event_timestamp" "0"))
  let outmsg := outmsg.set "report_id" (.str (getString inmsg "report_id" ""))
  let outmsg := outmsg.set "report_score" (.num (getNumber inmsg "report_score" "0"))
  let outmsg := copyFeedSensorMetadata inmsg outmsg
  let outmsg := outmsg.set "ioc_type" (.str (getString inmsg "ioc_type" ""))
  let outmsg := outmsg.set "ioc_value" (.str (getString inmsg "ioc_value" ""))
  let outmsg := outmsg.set "process_guid" (.str (getString inmsg "process_id" ""))
  some ([outmsg], none)

/-- The record built by `feedStorageHitProcess` for one sub-document; `none`
when `copyAllianceInformation` panics. -/
def feedStorageHitProcessDoc (ext : Extern) (msgtype : String) (inmsg subdoc : Record) :
    Option Record :=
  let outmsg : Record := []
  let outmsg := outmsg.set "type" (.str msgtype)
  let outmsg := outmsg.set "schema_version" (.int 2)
  let outmsg := outmsg.set "feed_name" (.str (getString inmsg "feed_name" ""))
  let outmsg := outmsg.set "feed_id" (.num (getNumber inmsg "feed_id" "0"))
  let outmsg := outmsg.set "cb_version" (.str (getString inmsg "cb_version" ""))
  let outmsg := outmsg.set "event_timestamp" (.num (getNumber inmsg "event_timestamp" "0"))
  let outmsg := outmsg.set "report_id" (.str (getString inmsg "report_id" ""))
  let outmsg := outmsg.set "report_score" (.num (getNumber inmsg "report_score" "0"))
  let outmsg : Option Record :=
    if msgtype = "feed.storage.hit.process" then copyAllianceInformation inmsg outmsg
    else some outmsg
  match outmsg with
  | none => none
  | some outmsg =>
    let outmsg := outmsg.set "sensor_id" (.num (getNumber inmsg "sensor_id" "0"))
    let outmsg := outmsg.set "hostname" (.str (getString inmsg "hostname" ""))
    let outmsg := outmsg.set "group" (.str (getString inmsg "group" ""))
    let outmsg := outmsg.set "comms_ip" (.str (getIPAddress ext inmsg "comms_ip" ""))
    let outmsg := outmsg.set "interface_ip" (.str (getIPAddress ext inmsg "interface_ip" ""))
    let outmsg := outmsg.set "host_type" (.str (getString subdoc "host_type" ""))
    let outmsg := outmsg.set "os_type" (.str (getString subdoc "os_type" ""))
    let outmsg := copyProcessMetadata ext subdoc outmsg
    let outmsg := copyParentMetadata subdoc outmsg
    some (copyEventCounts subdoc outmsg)

/-- Source: `feedStorageHitProcess`. -/
def feedStorageHitProcess (ext : Extern) : JSONMessageHandlerFunc := fun msgtype inmsg =>
  match explodeDocs inmsg (feedStorageHitProcessDoc ext msgtype inmsg) with
  | none => none
  | some outmsgs => some (outmsgs, none)

/-- The statement shared by several handlers that copies the object under `k`
of `inmsg`, and stores an empty object when there is none. -/
def copyObject (inmsg outmsg : Record) (k : String) : Record :=
  match inmsg.get? k with
  | some (.obj objval) => outmsg.set k (deepcopy.Iface (.obj objval))
  | _ => outmsg.set k (.obj [])

/-- The record built by `watchlistHitBinary` for one sub-document. -/
def watchlistHitBinaryDoc (inmsg subdoc : Record) : Record :=
  let watchlistName := getString inmsg "watchlist_name" ""
  let watchlistID := getNumber inmsg "watchlist_id" "0"
  let cbVersion := getString inmsg "cb_version" ""
  let eventTimestamp := getNumber inmsg "event_timestamp" "0"
  let outmsg : Record := []
  let outmsg := outmsg.set "type" (.str "watchlist.hit.binary")
  let outmsg := outmsg.set "schema_version" (.int 2)
  let outmsg := outmsg.set "watchlist_name" (.str watchlistName)
  let outmsg := outmsg.set "watchlist_id" (.num watchlistID)
  let outmsg := outmsg.set "cb_version" (.str cbVersion)
  let outmsg := outmsg.set "event_timestamp" (.num eventTimestamp)
  let outmsg := outmsg.set "host_count" (.num (getNumber subdoc "host_count" "0"))
  let outmsg := outmsg.set "last_seen" (.str (getString subdoc "last_seen" ""))
  let outmsg := copyBinaryMetadata subdoc outmsg
  ["observed_filename", "endpoint", "group"].foldl (copyObject inmsg) outmsg

/-- Source: `watchlistHitBinary`. -/
def watchlistHitBinary : JSONMessageHandlerFunc := fun _msgtype inmsg =>
  match explodeDocs inmsg (fun subdoc => some (watchlistHitBinaryDoc inmsg subdoc)) with
  | none => none
  | some outmsgs => some (outmsgs, none)

/-- The record built by `watchlistStorageHitBinary` for one sub-document. -/
def watchlistStorageHitBinaryDoc (inmsg subdoc : Record) : Record :=
  let watchlistName := getString inmsg "watchlist_name" ""
  let watchlistID := getNumber inmsg "watchlist_id" "0"
  let cbVersion := getString inmsg "cb_version" ""
  let eventTimestamp := getNumber inmsg "event_timestamp" "0"
  let outmsg : Record := []
  let outmsg := outmsg.set "type" (.str "watchlist.storage.hit.binary")
  let outmsg := outmsg.set "schema_version" (.int 2)
  let outmsg := outmsg.set "watchlist_name" (.str watchlistName)
  let outmsg := outmsg.set "watchlist_id" (.num watchlistID)
  let outmsg := outmsg.set "cb_version" (.str cbVersion)
  let outmsg := outmsg.set "event_timestamp" (.num eventTimestamp)
  let outmsg := outmsg.set "host_count" (.num (getNumber subdoc "host_count" "0"))
  let outmsg := outmsg.set "last_seen" (.str (getString subdoc "last_seen" ""))
  let outmsg := copyBinaryMetadata subdoc outmsg
  let outmsg := outmsg.set "observed_filename" (.str (getString subdoc "observed_filename" ""))
  let endpoint := getString subdoc "endpoint" ""
  let sensorparts := strings.Split endpoint '|'
  let outmsg :=
    match sensorparts with
    | [hostname, sensorID] =>
      let outmsg := outmsg.set "hostname" (.str hostname)
      outmsg.set "sensor_id" (.int64 (strconv.ParseInt sensorID 64).1)
    | _ => outmsg
  let outmsg := outmsg.set "group" (.str (getString subdoc "group" ""))
  outmsg.set "observed_filename" (.str (getString subdoc "observed_filename" ""))

/-- Source: `watchlistStorageHitBinary`. -/
def watchlistStorageHitBinary : JSONMessageHandlerFunc := fun _msgtype inmsg =>
  match explodeDocs inmsg (fun subdoc => some (watchlistStorageHitBinaryDoc inmsg subdoc)) with
  | none => none
  | some outmsgs => some (outmsgs, none)

/-- The statements of `copyAlertMetadata` that follow the branch on `feed_id`. -/
def copyAlertFields (msgtype : String) (inmsg outmsg : Record) : Record :=
  let outmsg := outmsg.set "report_score" (.num (getNumber inmsg "report_score" "0"))
  let outmsg := outmsg.set "id" (.str (getString inmsg "unique_id" ""))
  let outmsg := outmsg.set "alert_severity" (.num (getNumber inmsg "alert_severity" "0"))
  let outmsg := outmsg.set "ioc_confidence" (.num (getNumber inmsg "ioc_confidence" "0"))
  let outmsg := outmsg.set "sensor_criticality" (.num (getNumber inmsg "sensor_criticality" "0"))
  let outmsg := outmsg.set "alert_type" (.str (getString inmsg "alert_type" ""))
  let outmsg := outmsg.set "status" (.str (getString inmsg "status" ""))
  let outmsg := outmsg.set "ioc_type" (.str (getString inmsg "ioc_type" ""))
  if msgtype ≠ "alert.watchlist.hit.query.process" then
    outmsg.set "ioc_value" (.str (getString inmsg "ioc_value" ""))
  else outmsg

/-- Source: `copyAlertMetadata`.  The pair of `outmsg` after the call and the
error result. -/
def copyAlertMetadata (msgtype : String) (inmsg outmsg : Record) : Record × Option Error :=
  let (feedId, err) := Number.Int64 (getNumber inmsg "feed_id" "-1")
  if feedId = -1 then
    let outmsg := outmsg.set "watchlist_name" (.str (getString inmsg "watchlist_name" ""))
    let outmsg := outmsg.set "watchlist_id" (.num (getString inmsg "watchlist_id" "0"))
    (copyAlertFields msgtype inmsg outmsg, none)
  else
    match err with
    | none =>
      let outmsg := outmsg.set "feed_name" (.str (getString inmsg "feed_name" ""))
      let outmsg := outmsg.set "feed_id" (.num (getNumber inmsg "feed_id" "0"))
      let outmsg := outmsg.set "report_id" (.str (getString inmsg "watchlist_id" ""))
      let outmsg := outmsg.set "feed_rating" (.num (getNumber inmsg "feed_rating" "0"))
      (copyAlertFields msgtype inmsg outmsg, none)
    | some e => (outmsg, some (.feedId e))

/-- Source: `alertWatchlistHitProcess`. -/
def alertWatchlistHitProcess (ext : Extern) : JSONMessageHandlerFunc := fun msgtype inmsg =>
  let outmsg : Record := []
  let outmsg := outmsg.set "type" (.str msgtype)
  let outmsg := outmsg.set "schema_version" (.int 2)
  match copyAlertMetadata msgtype inmsg outmsg with
  | (_, some err) => some ([], some err)
  | (outmsg, none) =>
    let outmsg := copyEventCounts inmsg outmsg
    let outmsg := outmsg.set "sensor_id" (.num (getNumber inmsg "sensor_id" "0"))
    let outmsg := outmsg.set "hostname" (.str (getString inmsg "hostname" ""))
    let outmsg := outmsg.set "group" (.str (getString inmsg "group" ""))
    let outmsg := outmsg.set "comms_ip" (.str (getIPAddress ext inmsg "comms_ip" ""))
    let outmsg := outmsg.set "interface_ip" (.str (getIPAddress ext inmsg "interface_ip" ""))
    let outmsg := outmsg.set "os_type" (.str (getString inmsg "os_type" ""))
    let outmsg := outmsg.set "process_name" (.str (getString inmsg "process_name" ""))
    let outmsg := outmsg.set "process_path" (.str (getString inmsg "process_path" ""))
    let outmsg := outmsg.set "username" (.str (getString inmsg "username" ""))
    let outmsg := outmsg.set "process_md5" (.str (getString inmsg "md5" ""))
    let outmsg := outmsg.set "created_time" (.str (getString inmsg "created_time" ""))
    let outmsg := outmsg.set "event_timestamp" (.num (getNumber inmsg "event_timestamp" "0"))
    let outmsg := outmsg.set "process_guid" (.str (getString inmsg "process_unique_id" ""))
    some ([outmsg], none)

/-- Source: `binarystoreFileAdded`. -/
def binarystoreFileAdded : JSONMessageHandlerFunc := fun msgtype inmsg =>
  let outmsg : Record := []
  let outmsg := outmsg.set "type" (.str msgtype)
  let outmsg := outmsg.set "schema_version" (.int 2)
  let outmsg := outmsg.set "md5" (.str (getString inmsg "md5" ""))
  let outmsg := outmsg.set "size" (.num (getNumber inmsg "size" "0"))
  let outmsg := outmsg.set "compressed_size" (.num (getNumber inmsg "compressed_size" "0"))
  let outmsg := outmsg.set "node_id" (.num (getNumber inmsg "node_id" "0"))
  let outmsg := outmsg.set "file_path" (.str (getString inmsg "file_path" ""))
  let outmsg := outmsg.set "event_timestamp" (.num (getNumber inmsg "event_timestamp" "0"))
  some ([outmsg], none)

/-- Source: `binaryinfoObserved`. -/
def binaryinfoObserved : JSONMessageHandlerFunc := fun msgtype inmsg =>
  let outmsg : Record := []
  let outmsg := outmsg.set "type" (.str msgtype)
  let outmsg := outmsg.set "schema_version" (.int 2)
  let outmsg := outmsg.set "md5" (.str (getString inmsg "md5" ""))
  let outmsg :=
    if msgtype = "binaryinfo.host.observed" then
      let outmsg := outmsg.set "hostname" (.str (getString inmsg "hostname" ""))
      outmsg.set "sensor_id" (.num (getNumber inmsg "sensor_id" "0"))
    else if msgtype = "binaryinfo.group.observed" then
      outmsg.set "group" (.str (getString inmsg "group" ""))
    else outmsg
  let outmsg := ["scores", "watchlists"].foldl (copyObject inmsg) outmsg
  let outmsg := outmsg.set "event_timestamp" (.num (getNumber inmsg "event_timestamp" "0"))
  some ([outmsg], none)

/-- Source: `alertWatchlistHitBinary`. -/
def alertWatchlistHitBinary : JSONMessageHandlerFunc := fun msgtype inmsg =>
  let outmsg : Record := []
  let outmsg := outmsg.set "type" (.str msgtype)
  let outmsg := outmsg.set "schema_version" (.int 2)
  match copyAlertMetadata msgtype inmsg outmsg with
  | (_, some err) => some ([], some err)
  | (outmsg, none) =>
    let outmsg := outmsg.set "md5" (.str (getString inmsg "md5" ""))
    let outmsg := outmsg.set "digsig_result" (.str (getString inmsg "digsig_result" "(unknown)"))
    let outmsg := copyObject inmsg outmsg "observed_filename"
    let hostnames : List String := []
    let hostname := getString inmsg "hostname" ""
    let hostnames := if hostname ≠ "" then hostnames ++ [hostname] else hostnames
    let hostnames :=
      match inmsg.get? "other_hostnames" with
      | some (.strs objval) => objval.foldl (fun hostnames hostname => hostnames ++ [hostname]) hostnames
      | _ => hostnames
    let outmsg := outmsg.set "hostnames" (.strs hostnames)
    let outmsg := outmsg.set "event_timestamp" (.num (getNumber inmsg "event_timestamp" "0"))
    let outmsg := outmsg.set "created_time" (.str (getString inmsg "created_time" ""))
    some ([outmsg], none)

/-- Source: `alertWatchlistHitHost`. -/
def alertWatchlistHitHost : JSONMessageHandlerFunc := fun msgtype inmsg =>
  let outmsg : Record := []
  let outmsg := outmsg.set "type" (.str msgtype)
  let outmsg := outmsg.set "schema_version" (.int 2)
  match copyAlertMetadata msgtype inmsg outmsg with
  | (_, some err) => some ([], some err)
  | (outmsg, none) =>
    let outmsg := outmsg.set "event_timestamp" (.num (getNumber inmsg "event_timestamp" "0"))
    let outmsg := outmsg.set "created_time" (.str (getString inmsg "created_time" ""))
    let outmsg := outmsg.set "sensor_id" (.num (getNumber inmsg "sensor_id" "0"))
    let outmsg := outmsg.set "hostname" (.str (getString inmsg "hostname" ""))
    let outmsg := outmsg.set "group" (.str (getString inmsg "group" ""))
    let outmsg := outmsg.set "os_type" (.str (getString inmsg "os_type" ""))
    some ([outmsg], none)

/-! ## The processor -/

/-- The fields of `Config` that `NewJSONProcessor` reads. -/
structure Config where
  DebugFlag : Bool
  DebugStore : String
  CbServerURL : String
  EventMap : List (String × Bool)

/-- Source: `JsonMessageProcessor`; `CbAPI` is `Extern.GetReport`. -/
structure JsonMessageProcessor where
  DebugFlag : Bool
  DebugStore : String
  CbServerURL : String
  EventMap : List (String × Bool)
  messageHandlers : List (String × JSONMessageHandlerFunc)

/-- Source: `NewJSONProcessor`. -/
def NewJSONProcessor (ext : Extern) (newConfig : Config) : JsonMessageProcessor where
  DebugFlag := newConfig.DebugFlag
  DebugStore := newConfig.DebugStore
  EventMap := newConfig.EventMap
  CbServerURL := newConfig.CbServerURL
  messageHandlers :=
    [("watchlist.hit.process", watchlistHitProcess ext),
     ("watchlist.storage.hit.process", watchlistStorageHitProcess ext),
     ("watchlist.hit.binary", watchlistHitBinary),
     ("watchlist.storage.hit.binary", watchlistStorageHitBinary),
     ("feed.ingress.hit.process", feedIngressHitProcess),
     ("feed.storage.hit.process", feedStorageHitProcess ext),
     ("feed.query.hit.process", feedStorageHitProcess ext),
     ("alert.watchlist.hit.ingress.process", alertWatchlistHitProcess ext),
     ("alert.watchlist.hit.query.process", alertWatchlistHitProcess ext),
     ("alert.watchlist.hit.ingress.binary", alertWatchlistHitBinary),
     ("alert.watchlist.hit.query.binary", alertWatchlistHitBinary),
     ("alert.watchlist.hit.ingress.host", alertWatchlistHitHost),
     ("binarystore.file.added", binarystoreFileAdded),
     ("binaryinfo.observed", binaryinfoObserved),
     ("binaryinfo.host.observed", binaryinfoObserved),
     ("binaryinfo.group.observed", binaryinfoObserved)]

/-- Map read `jsp.messageHandlers[messageType]`, comma-ok form. -/
def lookupHandler : List (String × JSONMessageHandlerFunc) → String → Option JSONMessageHandlerFunc
  | [], _ => none
  | (k, h) :: rest, messageType => if k = messageType then some h else lookupHandler rest messageType

/-- The binary-link loop of `addLinksToMessage` for one key. -/
def addBinaryLink (CbServerURL : String) (msg : Record) (key : String) : Record :=
  match msg.get? key with
  | some (.str md5) =>
    if len md5 = 32 then msg.set ("link_" ++ key) (.str (CbServerURL ++ "#/binary/" ++ md5))
    else msg
  | _ => msg

/-- The statement of `addLinksToMessage` that links the GUID under `guidKey`;
`none` when the type assertion to `string` panics. -/
def addGuidLink (ext : Extern) (CbServerURL : String) (msg : Record) (guidKey linkKey : String) :
    Option Record :=
  match msg.get? guidKey with
  | some (.str guid) =>
    match ext.ParseFullGUID guid with
    | some (processID, segmentID) =>
      some (msg.set linkKey (.str (CbServerURL ++ "#analyze/" ++ processID ++ "/" ++ segmentID)))
    | none => some msg
  | some _ => none
  | none => some msg

/-- The statement of `addLinksToMessage` that adds the sensor link. -/
def addSensorLink (CbServerURL : String) (msg : Record) : Record :=
  match msg.get? "sensor_id" with
  | some (.num value) =>
    match strconv.ParseInt value 32 with
    | (hostID, none) =>
      msg.set "link_sensor" (.str (CbServerURL ++ "#/host/" ++ formatInt hostID))
    | _ => msg
  | _ => msg

/-- Source: `addLinksToMessage`; the result is `msg` after the call. -/
def addLinksToMessage (ext : Extern) (jsp : JsonMessageProcessor) (msg : Record) : Option Record :=
  if jsp.CbServerURL = "" then some msg
  else
    let msg := addSensorLink jsp.CbServerURL msg
    let msg := ["md5", "parent_md5", "process_md5"].foldl (addBinaryLink jsp.CbServerURL) msg
    match addGuidLink ext jsp.CbServerURL msg "process_guid" "link_process" with
    | none => none
    | some msg => addGuidLink ext jsp.CbServerURL msg "parent_guid" "link_parent"

/-- The loop `for _, outmsg := range outmsgs` of `ProcessJSONMessage`. -/
def addLinksToMessages (ext : Extern) (jsp : JsonMessageProcessor) :
    List Record → Option (List Record)
  | [] => some []
  | outmsg :: rest =>
    match addLinksToMessage ext jsp outmsg with
    | none => none
    | some outmsg =>
      match addLinksToMessages ext jsp rest with
      | none => none
      | some rest => some (outmsg :: rest)

/-- Source: `ProcessJSONMessage`. -/
def ProcessJSONMessage (ext : Extern) (jsp : JsonMessageProcessor) (msg : Record)
    (routingKey : String) : Option (List Record × Option Error) :=
  let messageType := fixupMessageType routingKey
  match lookupHandler jsp.messageHandlers messageType with
  | some processfunc =>
    match processfunc messageType msg with
    | none => none
    | some (outmsgs, err) =>
      match addLinksToMessages ext jsp outmsgs with
      | none => none
      | some outmsgs => some (outmsgs, err)
  | none => some ([], none)

/-- Source: `ProcessJSON`. -/
def ProcessJSON (ext : Extern) (jsp : JsonMessageProcessor) (routingKey : String)
    (indata : String) : Option (List Record × Option Error) :=
  match ext.Decode indata with
  | none => some ([], some .decode)
  | some msg => ProcessJSONMessage ext jsp msg routingKey

mutual
/-- A value that the JSON decoder with `UseNumber` can produce. -/
def Value.isJSON : Value → Bool
  | .null => true
  | .bool _ => true
  | .str _ => true
  | .num _ => true
  | .arr xs => Value.allJSON xs
  | .obj kvs => Value.fieldsJSON kvs
  | .int _ => false
  | .int64 _ => false
  | .strs _ => false
  | .objs _ => false
  | .srcs _ => false
/-- Every element of the sequence is a value of the JSON decoder. -/
def Value.allJSON : List Value → Bool
  | [] => true
  | x :: xs => x.isJSON && Value.allJSON xs
/-- Every field of the object is a value of the JSON decoder. -/
def Value.fieldsJSON : List (String × Value) → Bool
  | [] => true
  | (_, v) :: kvs => v.isJSON && Value.fieldsJSON kvs
end

/-- A record as the JSON decoder produces it. -/
def Record.IsJSON (m : Record) : Prop := Value.fieldsJSON m = true

/-- Message bodies used in examples, each with the record that the JSON decoder
produces for it. -/
def sampleBodies : List (String × Record) :=
  [("\x7b\"timestamp\": 5\x7d", [("timestamp", .num "5")]),
   ("\x7b\"md5\": \"d41d8cd98f00b204e9800998ecf8427e\"\x7d",
     [("md5", .str "d41d8cd98f00b204e9800998ecf8427e")]),
   ("\x7b\"docs\": [\x7b\"process_md5\": \"d41d8cd98f00b204e9800998ecf8427\"\x7d]\x7d",
     [("docs", .arr [.obj [("process_md5", .str "d41d8cd98f00b204e9800998ecf8427")]])])]

/-- A stand-in for the collaborators, used to evaluate the processor on
concrete messages: every lookup and parse of a collaborator fails, the decoder
knows the bodies of `sampleBodies`, and the case tables map every rune outside
ASCII to itself. -/
def stubExtern : Extern where
  GetIPv4AddressSigned := fun _ => ""
  ParseFullGUID := fun _ => none
  UnmarshalStringMap := fun _ => none
  ParseQuery := fun _ => none
  GetReport := fun _ _ => none
  Decode := fun indata => sampleBodies.lookup indata
  ToUpperRune := fun r => r
  ToUpperRune_idem := fun r h => by simp [unicode.ToUpper, Nat.not_lt.mpr h]

/-- A stand-in whose case tables know one letter outside ASCII: the upper case
of `é` is `É`. -/
def accentExtern : Extern where
  GetIPv4AddressSigned := fun _ => ""
  ParseFullGUID := fun _ => none
  UnmarshalStringMap := fun _ => none
  ParseQuery := fun _ => none
  GetReport := fun _ _ => none
  Decode := fun _ => none
  ToUpperRune := fun r => if r = 'é' then 'É' else r
  ToUpperRune_idem := fun r h => by
    by_cases hr : r = 'é'
    · subst hr
      decide
    · simp [unicode.ToUpper, Nat.not_lt.mpr h, hr]

/-- A configuration without a base server URL. -/
def plainConfig : Config := ⟨false, "", "", []⟩

/-- A configuration with the base server URL `https://cb.local/`. -/
def linkConfig : Config := ⟨false, "", "https://cb.local/", []⟩

/-- The routing-key shape `feed.<digits>.<rest>` of the specification, with
`rest` as the part after the numeric segment. -/
def FeedShape (routingKey : String) (rest : List Char) : Prop :=
  ∃ ds : List Char, ds ≠ [] ∧ (∀ c ∈ ds, c.isDigit = true) ∧
    routingKey.data = "feed.".data ++ ds ++ '.' :: rest

/-- A record with the `type` field `t` and the `schema_version` field `2`. -/
def TypedOutput (t : String) (r : Record) : Prop :=
  r.get? "type" = some (.str t) ∧ r.get? "schema_version" = some (.int 2)

/-- Every record that the handler `h`, called with message type `t`, returns is
typed `t`. -/
def HandlerTyped (t : String) (h : JSONMessageHandlerFunc) : Prop :=
  ∀ m outs err, h t m = some (outs, err) → ∀ r ∈ outs, TypedOutput t r

/-- A key that link enrichment does not write: it does not start with `link_`. -/
def NotLink (k : String) : Prop := strings.HasPrefix k "link_" = false

instance (k : String) : Decidable (NotLink k) := by
  unfold NotLink
  infer_instance

/-- The values under `process_guid` and `parent_guid`, when present, are
strings: the type assertions of `addLinksToMessage` succeed. -/
def GuidOk (m : Record) : Prop :=
  (∀ v, m.get? "process_guid" = some v → ∃ s, v = .str s) ∧
  (∀ v, m.get? "parent_guid" = some v → ∃ s, v = .str s)

/-- The canonical types with a registered handler, as listed in the
specification. -/
def registeredTypes : List String :=
  ["watchlist.hit.process", "watchlist.storage.hit.process", "watchlist.hit.binary",
   "watchlist.storage.hit.binary", "feed.ingress.hit.process", "feed.storage.hit.process",
   "feed.query.hit.process", "alert.watchlist.hit.ingress.process",
   "alert.watchlist.hit.query.process", "alert.watchlist.hit.ingress.binary",
   "alert.watchlist.hit.query.binary", "alert.watchlist.hit.ingress.host",
   "binarystore.file.added", "binaryinfo.observed", "binaryinfo.host.observed",
   "binaryinfo.group.observed"]

/-- The canonical types served by the alert handlers. -/
def alertTypes : List String :=
  ["alert.watchlist.hit.ingress.process", "alert.watchlist.hit.query.process",
   "alert.watchlist.hit.ingress.binary", "alert.watchlist.hit.query.binary",
   "alert.watchlist.hit.ingress.host"]

/-- The field `feed_id` is numeric-typed and its text is the base-10 64-bit
integer `n`. -/
def FeedIdIs (msg : Record) (n : Int) : Prop :=
  ∃ t, msg.get? "feed_id" = some (.num t) ∧ Number.Int64 t = (n, none)

/-- The field `feed_id` is numeric-typed and its text does not parse as a
base-10 64-bit integer. -/
def FeedIdUnparseable (msg : Record) : Prop :=
  ∃ t, msg.get? "feed_id" = some (.num t) ∧ (Number.Int64 t).2 ≠ none

/-- The fields by which an alert record tells a watchlist hit from a feed hit. -/
def originKeys : List String :=
  ["watchlist_name", "watchlist_id", "feed_name", "feed_id", "report_id", "feed_rating"]

/-- The record with which the alert handlers call `copyAlertMetadata`. -/
def alertBase (msgtype : String) : Record :=
  (Record.set [] "type" (.str msgtype)).set "schema_version" (.int 2)

/-- What the three alert handlers share: an error of `copyAlertMetadata` is
returned without a record; otherwise one record is returned, which agrees with
the record of `copyAlertMetadata` on the origin fields and keeps the GUID fields
well-typed. -/
def AlertHandler (h : JSONMessageHandlerFunc) : Prop :=
  ∀ t msg,
    (∀ o e, copyAlertMetadata t msg (alertBase t) = (o, some e) →
      h t msg = some ([], some e)) ∧
    (∀ o, copyAlertMetadata t msg (alertBase t) = (o, none) →
      ∃ r0, h t msg = some ([r0], none) ∧ (∀ k ∈ originKeys, r0.get? k = o.get? k) ∧
        (GuidOk o → GuidOk r0))

/-- The keys, other than the visited one, that a case of the `switch` of
`handleKeyValues` may write. -/
def writtenKeys : List String :=
  ["hostname", "sensor_id", "event_timestamp", "ioc_query_index", "ioc_query_string"]

/-- The keys that have a case of their own in the `switch` of `handleKeyValues`. -/
def specialKeys : List String :=
  ["endpoint", "highlights_by_doc", "highlights", "timestamp", "computer_name", "md5",
   "parent_md5", "process_md5", "ioc_type", "comms_ip", "interface_ip"]

/-- The key `k` has the form `alliance_<field>_<source>`: three parts between
underscores, the first being `alliance`. -/
def AllianceKey (k field source : String) : Prop :=
  k = "alliance_" ++ field ++ "_" ++ source ∧ '_' ∉ field.data ∧ '_' ∉ source.data

/-- The value under `alliance_data` of `m` is a mapping that maps `source` to a
mapping that maps `field` to `v`. -/
def AllianceDataHolds (m : Record) (field source : String) (v : Value) : Prop :=
  ∃ g flds, m.get? "alliance_data" = some (.srcs g) ∧ SourceMap.get? g source = some flds ∧
    Record.get? flds field = some v

/-- The map `alliance_data_map` maps `source` to a mapping that maps `field` to
`v`. -/
def AllianceEntry (amap : SourceMap) (field source : String) (v : Value) : Prop :=
  ∃ flds, amap.get? source = some flds ∧ Record.get? flds field = some v

/-- No key present in `msg` other than `k` is folded into the entry of
`alliance_data_map` for `source` and `field`. -/
def SoleAllianceKey (msg : Record) (k field source : String) : Prop :=
  ∀ k' p, msg.get? k' ≠ none → strings.Contains k' "alliance_" = true →
    strings.Split k' '_' = [p, field, source] → k' = k

/-- Visiting the key `k` of `msg` changes nothing: `k` does not contain
`alliance_` and its case of the `switch` leaves `msg` as it is. -/
def Stable (ext : Extern) (msg : Record) (k : String) : Prop :=
  ∀ v, msg.get? k = some v →
    strings.Contains k "alliance_" = false ∧ handleOtherKey ext msg k v = some msg

/-- The canonical types whose handler explodes `docs`. -/
def docsTypes : List String :=
  ["watchlist.hit.process", "watchlist.storage.hit.process", "watchlist.hit.binary",
   "watchlist.storage.hit.binary", "feed.storage.hit.process", "feed.query.hit.process"]

/-- The elements of a sequence that are records, in order. -/
def recordsOf (subdocs : List Value) : List Record :=
  subdocs.filterMap fun d =>
    match d with
    | .obj sub => some sub
    | _ => none

/-- The elements of `docs` that are records, in order; none when `docs` is
absent or not a sequence. -/
def subDocuments (inmsg : Record) : List Record :=
  match inmsg.get? "docs" with
  | some (.arr subdocs) => recordsOf subdocs
  | _ => []

/-- The record that the handler of the docs-exploding type `t` builds from one
sub-document, `none` when building it panics. -/
def docRecord (ext : Extern) (t : String) (inmsg sub : Record) : Option Record :=
  if t = "watchlist.hit.process" then some (watchlistHitProcessDoc ext inmsg sub)
  else if t = "watchlist.storage.hit.process" then some (watchlistStorageHitProcessDoc ext inmsg sub)
  else if t = "watchlist.hit.binary" then some (watchlistHitBinaryDoc inmsg sub)
  else if t = "watchlist.storage.hit.binary" then some (watchlistStorageHitBinaryDoc inmsg sub)
  else feedStorageHitProcessDoc ext t inmsg sub

/-- Every key of the record that starts with `alliance_` has at least three
parts between underscores. -/
def AllianceKeysWellFormed (msg : Record) : Prop :=
  ∀ k ∈ msg.keys, strings.HasPrefix k "alliance_" = true → 3 ≤ (strings.Split k '_').length

/-- No field of the record holds a `[]string`, as in a record decoded from
JSON. -/
def NoStringSlices (msg : Record) : Prop :=
  ∀ k l, msg.get? k ≠ some (.strs l)

/-- The canonical types whose records carry the `process_md5` of the
sub-document they are built from. -/
def docProcessTypes : List String :=
  ["watchlist.hit.process", "watchlist.storage.hit.process", "feed.storage.hit.process",
   "feed.query.hit.process"]

/-- The canonical types whose records carry the `md5` of the sub-document they
are built from. -/
def docBinaryTypes : List String := ["watchlist.hit.binary", "watchlist.storage.hit.binary"]

/-- The canonical types whose record carries the `md5` of the body. -/
def bodyBinaryTypes : List String :=
  ["alert.watchlist.hit.ingress.binary", "alert.watchlist.hit.query.binary",
   "binarystore.file.added", "binaryinfo.observed", "binaryinfo.host.observed",
   "binaryinfo.group.observed"]

/-- The process alerts, whose record carries the `md5` of the body as
`process_md5`. -/
def processAlertTypes : List String :=
  ["alert.watchlist.hit.ingress.process", "alert.watchlist.hit.query.process"]

/-- The MD5 fields of the record `r` of the docs-exploding type `t` built from
the sub-document `sub`: `md5` is the `md5` string of `sub`, unchanged, for the
binary types and absent otherwise; `process_md5` is the upper-cased
`process_md5` string of `sub` for the process types and absent otherwise;
`parent_md5` is absent. -/
def DocMd5Fields (ext : Extern) (t : String) (sub r : Record) : Prop :=
  r.get? "md5" =
    (if t ∈ docBinaryTypes then some (.str (getString sub "md5" "")) else none) ∧
  r.get? "process_md5" =
    (if t ∈ docProcessTypes then
      some (.str (strings.ToUpper ext (getString sub "process_md5" "")))
    else none) ∧
  r.get? "parent_md5" = none

/-- The MD5 fields of the record `r` of a type `t` that does not explode `docs`,
built from the body `msg`: `md5` is the `md5` string of `msg`, unchanged, for
the binary alerts and the binary store and binary info types, and absent
otherwise; `process_md5` is the `md5` string of `msg`, unchanged, for the
process alerts and absent otherwise; `parent_md5` is absent. -/
def BodyMd5Fields (t : String) (msg r : Record) : Prop :=
  r.get? "md5" =
    (if t ∈ bodyBinaryTypes then some (.str (getString msg "md5" "")) else none) ∧
  r.get? "process_md5" =
    (if t ∈ processAlertTypes then some (.str (getString msg "md5" "")) else none) ∧
  r.get? "parent_md5" = none

/-- Every record that the handler `h`, registered for the type `t`, returns has
the MD5 fields of `BodyMd5Fields`, when `t` does not explode `docs`. -/
def HandlerMd5 (t : String) (h : JSONMessageHandlerFunc) : Prop :=
  t ∉ docsTypes → ∀ m outs err, h t m = some (outs, err) → ∀ r ∈ outs, BodyMd5Fields t m r

/-- Whether `reflect.TypeOf(v).Kind()` is `reflect.String`; `none` when `v` is
the nil interface, for which `reflect.TypeOf` returns nil and the call of
`Kind` panics.  `json.Number` is a string type. -/
def kindIsString : Value → Option Bool
  | .null => none
  | .str _ => some true
  | .num _ => some true
  | _ => some false

/-- Source: `PostprocessJSONMessage`; the result is the returned map, `none` on
a panic. -/
def PostprocessJSONMessage (ext : Extern) (msg : Record) : Option Record :=
  match msg.get? "feed_id", msg.get? "report_id" with
  | some feedID, some reportID =>
    match kindIsString feedID with
    | none => none
    | some false => some msg
    | some true =>
      match kindIsString reportID with
      | none => none
      | some false => some msg
      | some true =>
        match feedID with
        | .num feedID =>
          match Number.Int64 feedID with
          | (iFeedID, none) =>
            match reportID with
            | .str reportID =>
              match ext.GetReport iFeedID reportID with
              | some (reportTitle, reportScore, reportLink) =>
                let msg := msg.set "report_title" (.str reportTitle)
                let msg := msg.set "report_score" (.int reportScore)
                some (msg.set "report_link" (.str reportLink))
              | none => some msg
            -- reportID.(string) on a json.Number
            | _ => none
          | (_, some _) => some msg
        -- feedID.(json.Number) on a string
        | _ => none
  | _, _ => some msg

/-- Every key of the record that starts with `alliance_` has the shape
`alliance_<field>_<source>`. -/
def AllianceKeysShaped (msg : Record) : Prop :=
  ∀ k ∈ msg.keys, strings.HasPrefix k "alliance_" = true → ∃ f s, AllianceKey k f s

/-- The string `s` is the `<source>` suffix of a key `alliance_<field>_<source>`
of the record. -/
def AllianceSource (msg : Record) (s : String) : Prop :=
  ∃ k ∈ msg.keys, ∃ f, AllianceKey k f s

/-- The record `e` is the entry that the list form of the alliance data holds
for the source `s`: `source` is `s`; `score` is the numeric
`alliance_score_<s>`, 0 when absent; `link` and `updated` are the strings
`alliance_link_<s>` and `alliance_updated_<s>`, empty when absent; `data` is
the string `alliance_data_<s>`, the empty string when that key holds a value
that is neither a string nor a `[]string`, and absent when the key is absent. -/
def AllianceListEntry (msg : Record) (s : String) (e : Record) : Prop :=
  e.get? "source" = some (.str s) ∧
  e.get? "score" = some (.num (getNumber msg ("alliance_score_" ++ s) "0")) ∧
  e.get? "link" = some (.str (getString msg ("alliance_link_" ++ s) "")) ∧
  e.get? "updated" = some (.str (getString msg ("alliance_updated_" ++ s) "")) ∧
  (∀ d, msg.get? ("alliance_data_" ++ s) = some (.str d) → e.get? "data" = some (.str d)) ∧
  (∀ v, msg.get? ("alliance_data_" ++ s) = some v → (∀ d, v ≠ .str d) → (∀ l, v ≠ .strs l) →
    e.get? "data" = some (.str "")) ∧
  (msg.get? ("alliance_data_" ++ s) = none → e.get? "data" = none)

/-- The host name and the sensor id that the `endpoint` case of
`handleKeyValues` reads from the value of `endpoint`: the first two parts of
the endpoint string; `none` when the case panics. -/
def endpointParts (value : Value) : Option (String × String) :=
  let endpointstr : Option String :=
    match value with
    | .str s => some s
    | .arr (.str s :: _) => some s
    | .arr _ => none
    | _ => some ""
  match endpointstr with
  | none => none
  | some endpointstr =>
    match strings.Split endpointstr '|' with
    | hostname :: sensorID :: _ => some (hostname, sensorID)
    | _ => none

/-- The lookup of a field of a source in an `alliance_data` mapping. -/
def SourceMap.field (g : SourceMap) (source field : String) : Option Value :=
  match SourceMap.get? g source with
  | some flds => Record.get? flds field
  | none => none

/-- Two values under `alliance_data` are the same mapping: both are absent, or
both are mappings with the same sources that hold the same value for every
field of every source. -/
def SameAllianceData : Option Value → Option Value → Prop
  | none, none => True
  | some (.srcs g₁), some (.srcs g₂) =>
    ∀ s, (SourceMap.get? g₁ s = none ↔ SourceMap.get? g₂ s = none) ∧
      ∀ f, SourceMap.field g₁ s f = SourceMap.field g₂ s f
  | _, _ => False

/-- Two records are the same map: they hold the same value under every key,
the mappings under `alliance_data` being compared as mappings. -/
def SameRecord (a b : Record) : Prop :=
  (∀ j, j ≠ "alliance_data" → a.get? j = b.get? j) ∧
  SameAllianceData (a.get? "alliance_data") (b.get? "alliance_data")

/-- No two keys of the record that contain `alliance_` are folded into the same
field of the same source. -/
def NoAllianceCollision (msg : Record) : Prop :=
  ∀ k p f s, msg.get? k ≠ none → strings.Contains k "alliance_" = true →
    strings.Split k '_' = [p, f, s] → SoleAllianceKey msg k f s

/-- The value that the case of `md5`, `parent_md5` and `process_md5` leaves
under the key for the value `v`. -/
def md5Rewrite (ext : Extern) (v : Value) : Value :=
  match v with
  | .str md5 => if len md5 = 32 then .str (strings.ToUpper ext md5) else v
  | _ => v

/-- The value that the case of `comms_ip` and `interface_ip` leaves under the
key for the value `v`. -/
def ipRewrite (ext : Extern) (v : Value) : Value :=
  match v with
  | .num value =>
    match strconv.ParseInt value 32 with
    | (ipaddr, none) => .str (ext.GetIPv4AddressSigned ipaddr)
    | _ => v
  | _ => v

/-- The value that the case of `ioc_type` leaves under `ioc_type` for the
value `v`. -/
def iocTypeRewrite (ext : Extern) (v : Value) : Value :=
  match v with
  | .obj iocType =>
    match Record.get? iocType "md5" with
    | some (.str md5) => .obj (Record.set iocType "md5" (.str (strings.ToUpper ext md5)))
    | _ => v
  | _ => v

/-- The query index and the query string that the `ioc_type` case of
`handleKeyValues` decodes from `ioc_value` when `ioc_type` is the string
`query`; `none` when nothing is decoded. -/
def iocQuery (ext : Extern) (msg : Record) : Option (String × String) :=
  match msg.get? "ioc_type" with
  | some (.str iocType) =>
    if iocType = "query" then
      match msg.get? "ioc_value" with
      | some (.str rawIocValue) =>
        match ext.UnmarshalStringMap rawIocValue with
        | some iocValue => parseQueryString ext iocValue
        | none => none
      | _ => none
    else none
  | _ => none


/-- A key of the first message `m` that is folded into the field `f` of the
source `s` with the value `v` has been visited: it is absent from `msg`. -/
def FoldedKey (m msg : Record) (s f : String) (v : Value) : Prop :=
  ∃ k p, strings.Contains k "alliance_" = true ∧ strings.Split k '_' = [p, f, s] ∧
    m.get? k = some v ∧ msg.get? k = none

/-- The state of the loop of `handleKeyValues` started on `m`: a key that
contains `alliance_` holds its first value or is gone, and
`alliance_data_map` holds exactly the keys that are gone. -/
def AllianceFolded (m : Record) (st : KeyValueState) : Prop :=
  (∀ k, strings.Contains k "alliance_" = true →
    st.msg.get? k = m.get? k ∨ st.msg.get? k = none) ∧
  (∀ s f v, SourceMap.field st.alliance_data_map s f = some v ↔ FoldedKey m st.msg s f v) ∧
  (∀ s, SourceMap.get? st.alliance_data_map s = none ↔ ¬ ∃ f v, FoldedKey m st.msg s f v)

/-! ## Records: reading after writing -/

theorem Record.get?_set (m : Record) (k k' : String) (v : Value) :
    (m.set k v).get? k' = if k = k' then some v else m.get? k' := by
  induction m with
  | nil => simp [Record.set, Record.get?]
  | cons p m ih =>
    obtain ⟨a, w⟩ := p
    by_cases h : a = k
    · subst h
      by_cases h' : a = k' <;> simp [Record.set, Record.get?, h']
    · by_cases h' : a = k'
      · subst h'
        simp [Record.set, Record.get?, h, Ne.symm h]
      · simp [Record.set, Record.get?, h, h', ih]

theorem Record.get?_set_self (m : Record) (k : String) (v : Value) :
    (m.set k v).get? k = some v := by
  simp [Record.get?_set]

theorem Record.get?_set_ne (m : Record) {k k' : String} (v : Value) (h : k ≠ k') :
    (m.set k v).get? k' = m.get? k' := by
  simp [Record.get?_set, h]

theorem Record.get?_delete (m : Record) (k k' : String) :
    (m.delete k).get? k' = if k = k' then none else m.get? k' := by
  induction m with
  | nil => simp [Record.delete, Record.get?]
  | cons p m ih =>
    obtain ⟨a, w⟩ := p
    by_cases h : a = k
    · subst h
      by_cases h' : a = k'
      · subst h'
        simpa [Record.delete] using ih
      · simp [Record.delete, Record.get?, h', ih]
    · by_cases h' : a = k'
      · subst h'
        simp [Record.delete, Record.get?, h, Ne.symm h]
      · simp [Record.delete, Record.get?, h, h', ih]

theorem Record.set_eq_self (m : Record) (k : String) (v : Value) (h : m.get? k = some v) :
    m.set k v = m := by
  induction m with
  | nil => simp [Record.get?] at h
  | cons p m ih =>
    obtain ⟨a, w⟩ := p
    by_cases ha : a = k
    · simp [Record.get?, ha] at h
      simp [Record.set, ha, h]
    · simp [Record.get?, ha] at h
      simp [Record.set, ha, ih h]

theorem Record.delete_eq_self (m : Record) (k : String) (h : m.get? k = none) :
    m.delete k = m := by
  induction m with
  | nil => rfl
  | cons p m ih =>
    obtain ⟨a, w⟩ := p
    by_cases ha : a = k
    · simp [Record.get?, ha] at h
    · simp [Record.get?, ha] at h
      simp [Record.delete, ha, ih h]

theorem Record.delete_set (m : Record) (k : String) (v : Value) (h : m.get? k = none) :
    (m.set k v).delete k = m := by
  induction m with
  | nil => simp [Record.set, Record.delete]
  | cons p m ih =>
    obtain ⟨a, w⟩ := p
    by_cases ha : a = k
    · simp [Record.get?, ha] at h
    · simp [Record.get?, ha] at h
      simp [Record.set, Record.delete, ha, ih h]

/-! ## Routing keys: the canonical type -/

theorem stripChars_append (p t : List Char) : stripChars p (p ++ t) = some t := by
  induction p with
  | nil => rfl
  | cons c p ih => simp [stripChars, ih]

theorem stripChars_some {p s t : List Char} (h : stripChars p s = some t) : s = p ++ t := by
  induction p generalizing s with
  | nil =>
    simp [stripChars] at h
    simp [h]
  | cons c p ih =>
    cases s with
    | nil => simp [stripChars] at h
    | cons d s =>
      by_cases hcd : c = d
      · simp [stripChars, hcd] at h
        simp [hcd, ih h]
      · simp [stripChars, hcd] at h

theorem takeWhile_digits (ds rest : List Char) (hds : ∀ c ∈ ds, c.isDigit = true) :
    (ds ++ '.' :: rest).takeWhile Char.isDigit = ds := by
  induction ds with
  | nil => simp [List.takeWhile]
  | cons c ds ih =>
    have hc : c.isDigit = true := hds c (List.mem_cons_self _ _)
    have := ih (fun x hx => hds x (List.mem_cons_of_mem _ hx))
    simp [List.takeWhile, hc, this]

theorem dropWhile_digits (ds rest : List Char) (hds : ∀ c ∈ ds, c.isDigit = true) :
    (ds ++ '.' :: rest).dropWhile Char.isDigit = '.' :: rest := by
  induction ds with
  | nil => simp [List.dropWhile]
  | cons c ds ih =>
    have hc : c.isDigit = true := hds c (List.mem_cons_self _ _)
    have := ih (fun x hx => hds x (List.mem_cons_of_mem _ hx))
    simp [List.dropWhile, hc, this]

/-- On a routing key of the shape `feed.<digits>.<rest>` the expression matches
exactly when `rest` has no line feed, and its second group is `rest`. -/
theorem feedParserRegex_of_shape {routingKey : String} {rest : List Char}
    (h : FeedShape routingKey rest) :
    (feedParserRegex routingKey).map Prod.snd =
      if '\n' ∈ rest then none else some ⟨rest⟩ := by
  obtain ⟨ds, hne, hds, hrk⟩ := h
  have hrk' : routingKey.data = "feed.".data ++ (ds ++ '.' :: rest) := by
    simp [hrk]
  cases ds with
  | nil => exact absurd rfl hne
  | cons d ds =>
    have h1 := takeWhile_digits (d :: ds) rest hds
    have h2 := dropWhile_digits (d :: ds) rest hds
    unfold feedParserRegex
    rw [hrk', stripChars_append]
    simp only [h1, h2]
    by_cases hn : '\n' ∈ rest
    · have : (rest.all fun c => c != '\n') = false := by
        simp only [List.all_eq_false]
        exact ⟨'\n', hn, by simp⟩
      simp [this, hn]
    · have : (rest.all fun c => c != '\n') = true := by
        simp only [List.all_eq_true]
        intro c hc
        have : c ≠ '\n' := fun e => hn (e ▸ hc)
        simpa using this
      simp [this, hn]

/-- A routing key that the expression matches has the shape
`feed.<digits>.<rest>`, with the second group as `rest`. -/
theorem shape_of_feedParserRegex {routingKey : String} {g : String × String}
    (h : feedParserRegex routingKey = some g) : FeedShape routingKey g.2.data := by
  unfold feedParserRegex at h
  split at h
  · exact absurd h (by simp)
  · rename_i t ht
    split at h
    · rename_i d ds rest htw hdw
      split at h
      · have hg : g = (⟨d :: ds⟩, ⟨rest⟩) := by
          simpa using h.symm
        refine ⟨d :: ds, by simp, ?_, ?_⟩
        · intro c hc
          have hc' : c ∈ t.takeWhile Char.isDigit := by rw [htw]; exact hc
          exact (List.mem_takeWhile_imp hc')
        · have := stripChars_some ht
          rw [this, hg, ← List.takeWhile_append_dropWhile Char.isDigit t, htw, hdw]
          simp
      · exact absurd h (by simp)
    · exact absurd h (by simp)

/-- C4 (as amended): a routing key of the shape `feed.<digits>.<rest>` whose
`<rest>` holds no line feed is mapped to `feed.<rest>`; every other routing
key, those of that shape with a line feed in `<rest>` included, is returned
unchanged; `feed.42.hit.process` becomes `feed.hit.process` and
`watchlist.hit.process` is unchanged. -/
theorem fixupMessageType_spec (routingKey : String) :
    (∀ rest, FeedShape routingKey rest → '\n' ∉ rest →
        fixupMessageType routingKey = ⟨"feed.".data ++ rest⟩) ∧
    ((∀ rest, FeedShape routingKey rest → '\n' ∈ rest) →
        fixupMessageType routingKey = routingKey) ∧
    fixupMessageType "feed.42.hit.process" = "feed.hit.process" ∧
    fixupMessageType "watchlist.hit.process" = "watchlist.hit.process" := by
  refine ⟨?_, ?_, by decide, by decide⟩
  · intro rest hs hn
    have h := feedParserRegex_of_shape hs
    simp only [hn, if_false] at h
    unfold fixupMessageType
    cases hr : feedParserRegex routingKey with
    | none => simp [hr] at h
    | some g =>
      obtain ⟨a, b⟩ := g
      simp only [hr, Option.map_some', Option.some.injEq] at h
      simp only [h]
      rfl
  · intro hall
    unfold fixupMessageType
    cases hr : feedParserRegex routingKey with
    | none => rfl
    | some g =>
      exfalso
      have hs := shape_of_feedParserRegex hr
      have hn := hall _ hs
      have h := feedParserRegex_of_shape hs
      simp [hn, hr] at h

/-- C4, witness: `feed.7.x` has the shape and no line feed, `plain` has not the
shape. -/
theorem fixupMessageType_spec_witness :
    fixupMessageType "feed.7.x" = ⟨"feed.".data ++ ['x']⟩ ∧
    fixupMessageType "plain" = "plain" :=
  ⟨(fixupMessageType_spec "feed.7.x").1 ['x'] ⟨['7'], by simp, by decide, by decide⟩ (by decide),
   (fixupMessageType_spec "plain").2.1 (by
      intro rest ⟨ds, _, _, h⟩
      have h' : ['p', 'l', 'a', 'i', 'n'] = ['f', 'e', 'e', 'd', '.'] ++ ds ++ '.' :: rest := h
      simp at h')⟩

/-- C4, counterexample: `feed.1.a<LF>b` has the shape `feed.<digits>.<rest>` and
is returned unchanged, not mapped to `feed.a<LF>b`. -/
theorem fixupMessageType_line_feed :
    FeedShape "feed.1.a\nb" ['a', '\n', 'b'] ∧
    fixupMessageType "feed.1.a\nb" = "feed.1.a\nb" ∧
    fixupMessageType "feed.1.a\nb" ≠ ⟨"feed.".data ++ ['a', '\n', 'b']⟩ :=
  ⟨⟨['1'], by simp, by decide, by decide⟩, by decide, by decide⟩

/-! ## Link enrichment leaves the other fields alone -/

theorem hasPrefix_append (p s : String) : strings.HasPrefix (p ++ s) p = true := by
  unfold strings.HasPrefix
  rw [String.data_append, List.isPrefixOf_iff_prefix]
  exact List.prefix_append _ _

theorem NotLink.ne_append {k : String} (h : NotLink k) (key : String) : "link_" ++ key ≠ k := by
  intro e
  have := hasPrefix_append "link_" key
  rw [e] at this
  exact absurd this (by rw [h]; simp)

theorem NotLink.ne_of_prefix {k l : String} (h : NotLink k)
    (hl : strings.HasPrefix l "link_" = true) : l ≠ k := by
  intro e
  rw [e] at hl
  exact absurd hl (by rw [h]; simp)

theorem addBinaryLink_get? (url : String) (m : Record) (key : String) {k : String}
    (hk : NotLink k) : (addBinaryLink url m key).get? k = m.get? k := by
  unfold addBinaryLink
  split
  · split
    · exact Record.get?_set_ne _ _ (hk.ne_append key)
    · rfl
  · rfl

theorem addGuidLink_get? {ext : Extern} {url : String} {m m' : Record} {g l k : String}
    (h : addGuidLink ext url m g l = some m') (hk : l ≠ k) : m'.get? k = m.get? k := by
  unfold addGuidLink at h
  split at h
  · split at h
    · simp at h
      subst h
      exact Record.get?_set_ne _ _ hk
    · simp at h
      subst h
      rfl
  · simp at h
  · simp at h
    subst h
    rfl

theorem addGuidLink_isSome (ext : Extern) (url : String) (m : Record) (g l : String)
    (hg : ∀ v, m.get? g = some v → ∃ s, v = .str s) :
    ∃ m', addGuidLink ext url m g l = some m' := by
  unfold addGuidLink
  cases hv : m.get? g with
  | none => exact ⟨m, rfl⟩
  | some v =>
    obtain ⟨s, rfl⟩ := hg v hv
    cases hp : ext.ParseFullGUID s with
    | none => exact ⟨m, by simp [hp]⟩
    | some p => exact ⟨_, by simp [hp]; rfl⟩

theorem addSensorLink_get? (url : String) (m : Record) {k : String} (hk : NotLink k) :
    (addSensorLink url m).get? k = m.get? k := by
  unfold addSensorLink
  split
  · split
    · exact Record.get?_set_ne _ _ (hk.ne_of_prefix (by decide))
    · rfl
  · rfl

theorem sensorAndBinaryLinks_get? (url : String) (m : Record) {k : String} (hk : NotLink k) :
    (["md5", "parent_md5", "process_md5"].foldl (addBinaryLink url)
      (addSensorLink url m)).get? k = m.get? k := by
  simp only [List.foldl, addBinaryLink_get? _ _ _ hk, addSensorLink_get? _ _ hk]

theorem addLinksToMessage_get? {ext : Extern} {jsp : JsonMessageProcessor} {m m' : Record}
    (h : addLinksToMessage ext jsp m = some m') {k : String} (hk : NotLink k) :
    m'.get? k = m.get? k := by
  unfold addLinksToMessage at h
  split at h
  · simp at h
    subst h
    rfl
  · simp only at h
    split at h
    · simp at h
    · rename_i m1 h1
      rw [addGuidLink_get? h (hk.ne_of_prefix (by decide)),
        addGuidLink_get? h1 (hk.ne_of_prefix (by decide))]
      exact sensorAndBinaryLinks_get? _ _ hk

theorem addLinksToMessage_isSome (ext : Extern) (jsp : JsonMessageProcessor) (m : Record)
    (hm : GuidOk m) : ∃ m', addLinksToMessage ext jsp m = some m' := by
  unfold addLinksToMessage
  split
  · exact ⟨m, rfl⟩
  · simp only
    obtain ⟨m1, h1⟩ := addGuidLink_isSome ext jsp.CbServerURL _ "process_guid" "link_process"
      (by
        rw [sensorAndBinaryLinks_get? jsp.CbServerURL m (by decide)]
        exact hm.1)
    rw [h1]
    simp only
    refine addGuidLink_isSome ext _ _ _ _ ?_
    rw [addGuidLink_get? h1 (by decide), sensorAndBinaryLinks_get? _ _ (by decide)]
    exact hm.2

theorem addLinksToMessages_isSome (ext : Extern) (jsp : JsonMessageProcessor) :
    ∀ outs : List Record, (∀ r ∈ outs, GuidOk r) →
      ∃ outs', addLinksToMessages ext jsp outs = some outs' := by
  intro outs
  induction outs with
  | nil => exact fun _ => ⟨[], rfl⟩
  | cons r outs ih =>
    intro h
    obtain ⟨r', hr⟩ := addLinksToMessage_isSome ext jsp r (h r (List.mem_cons_self _ _))
    obtain ⟨rest, hrest⟩ := ih (fun x hx => h x (List.mem_cons_of_mem _ hx))
    exact ⟨r' :: rest, by simp [addLinksToMessages, hr, hrest]⟩

/-- Every record returned by the link loop is a record of the input after
`addLinksToMessage`. -/
theorem addLinksToMessages_mem {ext : Extern} {jsp : JsonMessageProcessor} :
    ∀ {outs outs' : List Record}, addLinksToMessages ext jsp outs = some outs' →
      ∀ r' ∈ outs', ∃ r ∈ outs, addLinksToMessage ext jsp r = some r' := by
  intro outs
  induction outs with
  | nil =>
    intro outs' h
    simp [addLinksToMessages] at h
    subst h
    simp
  | cons r outs ih =>
    intro outs' h r' hr'
    simp only [addLinksToMessages] at h
    split at h
    · simp at h
    · rename_i r1 hr
      split at h
      · simp at h
      · rename_i rest hrest
        simp at h
        subst h
        rcases List.mem_cons.mp hr' with e | e
        · subst e
          exact ⟨r, List.mem_cons_self _ _, hr⟩
        · obtain ⟨x, hx1, hx2⟩ := ih hrest r' e
          exact ⟨x, List.mem_cons_of_mem _ hx1, hx2⟩

/-! ## Output records carry their type -/

theorem rangeDocs_forall {P : Record → Prop} {body : Record → Option Record}
    (hbody : ∀ sub r, body sub = some r → P r) :
    ∀ (docs : List Value) (acc outs : List Record), (∀ r ∈ acc, P r) →
      rangeDocs body docs acc = some outs → ∀ r ∈ outs, P r := by
  intro docs
  induction docs with
  | nil =>
    intro acc outs hacc h
    simp [rangeDocs] at h
    subst h
    exact hacc
  | cons d docs ih =>
    intro acc outs hacc h
    cases d with
    | obj subdoc =>
      simp only [rangeDocs] at h
      cases hb : body subdoc with
      | none => simp [hb] at h
      | some outmsg =>
        simp only [hb] at h
        refine ih _ _ ?_ h
        intro r hr
        rcases List.mem_append.mp hr with hr | hr
        · exact hacc r hr
        · simp at hr
          subst hr
          exact hbody _ _ hb
    | _ => exact ih _ _ hacc (by simpa [rangeDocs] using h)

theorem explodeDocs_forall {P : Record → Prop} {body : Record → Option Record}
    (hbody : ∀ sub r, body sub = some r → P r) {inmsg : Record} {outs : List Record}
    (h : explodeDocs inmsg body = some outs) : ∀ r ∈ outs, P r := by
  unfold explodeDocs at h
  split at h
  · exact rangeDocs_forall hbody _ _ _ (by simp) h
  · simp at h
    subst h
    simp

theorem copyObject_get? (inmsg o : Record) {key k : String} (h : key ≠ k) :
    (copyObject inmsg o key).get? k = o.get? k := by
  unfold copyObject
  split <;> exact Record.get?_set_ne _ _ h

theorem copyAllianceInformation_eq {inmsg o o' : Record}
    (h : copyAllianceInformation inmsg o = some o') :
    ∃ l, o' = o.set "alliance_data" (.objs l) := by
  unfold copyAllianceInformation at h
  split at h
  · simp at h
  · split at h
    · simp at h
    · rename_i l _
      simp at h
      exact ⟨l, h.symm⟩

theorem copyAlertFields_typed {t t0 : String} {inmsg o : Record} (ho : TypedOutput t0 o) :
    TypedOutput t0 (copyAlertFields t inmsg o) := by
  obtain ⟨h1, h2⟩ := ho
  unfold copyAlertFields
  simp only [TypedOutput]
  split <;> simp [Record.get?_set, h1, h2]

theorem copyAlertMetadata_typed {t t0 : String} {inmsg o o' : Record}
    (h : copyAlertMetadata t inmsg o = (o', none)) (ho : TypedOutput t0 o) :
    TypedOutput t0 o' := by
  unfold copyAlertMetadata at h
  generalize Number.Int64 (getNumber inmsg "feed_id" "-1") = p at h
  obtain ⟨feedId, e⟩ := p
  obtain ⟨h1, h2⟩ := ho
  by_cases hf : feedId = -1
  · simp [hf] at h
    subst h
    exact copyAlertFields_typed (by simp [TypedOutput, Record.get?_set, h1, h2])
  · cases e with
    | some e => simp [hf] at h
    | none =>
      simp [hf] at h
      subst h
      exact copyAlertFields_typed (by simp [TypedOutput, Record.get?_set, h1, h2])

theorem typed_base (t : String) :
    TypedOutput t ((Record.set [] "type" (.str t)).set "schema_version" (.int 2)) := by
  simp [TypedOutput, Record.get?_set]

theorem watchlistHitProcess_typed (ext : Extern) :
    HandlerTyped "watchlist.hit.process" (watchlistHitProcess ext) := by
  intro m outs err h
  unfold watchlistHitProcess at h
  split at h
  · simp at h
  · rename_i o ho
    simp at h
    obtain ⟨rfl, -⟩ := h
    refine explodeDocs_forall ?_ ho
    intro sub r hr
    simp at hr
    subst hr
    simp [TypedOutput, watchlistHitProcessDoc, copySensorMetadata, copyProcessMetadata,
      copyParentMetadata, copyEventCounts, eventCountKeys, Record.get?_set]

theorem watchlistStorageHitProcess_typed (ext : Extern) :
    HandlerTyped "watchlist.storage.hit.process" (watchlistStorageHitProcess ext) := by
  intro m outs err h
  unfold watchlistStorageHitProcess at h
  split at h
  · simp at h
  · rename_i o ho
    simp at h
    obtain ⟨rfl, -⟩ := h
    refine explodeDocs_forall ?_ ho
    intro sub r hr
    simp at hr
    subst hr
    simp [TypedOutput, watchlistStorageHitProcessDoc, copyProcessMetadata,
      copyParentMetadata, copyEventCounts, eventCountKeys, Record.get?_set]

theorem watchlistHitBinary_typed : HandlerTyped "watchlist.hit.binary" watchlistHitBinary := by
  intro m outs err h
  unfold watchlistHitBinary at h
  split at h
  · simp at h
  · rename_i o ho
    simp at h
    obtain ⟨rfl, -⟩ := h
    refine explodeDocs_forall ?_ ho
    intro sub r hr
    simp at hr
    subst hr
    simp [TypedOutput, watchlistHitBinaryDoc, copyBinaryMetadata, copyObject_get?,
      Record.get?_set]

theorem watchlistStorageHitBinary_typed :
    HandlerTyped "watchlist.storage.hit.binary" watchlistStorageHitBinary := by
  intro m outs err h
  unfold watchlistStorageHitBinary at h
  split at h
  · simp at h
  · rename_i o ho
    simp at h
    obtain ⟨rfl, -⟩ := h
    refine explodeDocs_forall ?_ ho
    intro sub r hr
    simp at hr
    subst hr
    unfold watchlistStorageHitBinaryDoc
    simp only [TypedOutput]
    split <;> simp [copyBinaryMetadata, Record.get?_set]

theorem feedIngressHitProcess_typed :
    HandlerTyped "feed.ingress.hit.process" feedIngressHitProcess := by
  intro m outs err h r hr
  simp [feedIngressHitProcess] at h
  obtain ⟨rfl, -⟩ := h
  simp at hr
  subst hr
  simp [TypedOutput, copyFeedSensorMetadata, Record.get?_set]

theorem feedStorageHitProcessDoc_typed {ext : Extern} {t : String} {inmsg sub r : Record}
    (h : feedStorageHitProcessDoc ext t inmsg sub = some r) : TypedOutput t r := by
  unfold feedStorageHitProcessDoc at h
  simp only at h
  split at h
  · simp at h
  · rename_i o ho
    simp at h
    subst h
    split at ho
    · obtain ⟨l, rfl⟩ := copyAllianceInformation_eq ho
      simp [TypedOutput, copyProcessMetadata, copyParentMetadata, copyEventCounts,
        eventCountKeys, Record.get?_set]
    · simp at ho
      subst ho
      simp [TypedOutput, copyProcessMetadata, copyParentMetadata, copyEventCounts,
        eventCountKeys, Record.get?_set]

theorem feedStorageHitProcess_typed (ext : Extern) (t : String) :
    HandlerTyped t (feedStorageHitProcess ext) := by
  intro m outs err h
  unfold feedStorageHitProcess at h
  split at h
  · simp at h
  · rename_i o ho
    simp at h
    obtain ⟨rfl, -⟩ := h
    exact explodeDocs_forall (fun sub r hr => feedStorageHitProcessDoc_typed hr) ho

theorem alertWatchlistHitProcess_typed (ext : Extern) (t : String) :
    HandlerTyped t (alertWatchlistHitProcess ext) := by
  intro m outs err h r hr
  unfold alertWatchlistHitProcess at h
  simp only at h
  split at h
  · simp at h
    obtain ⟨rfl, -⟩ := h
    simp at hr
  · rename_i o ho
    have hty := copyAlertMetadata_typed ho (typed_base t)
    simp at h
    obtain ⟨rfl, -⟩ := h
    simp at hr
    rw [hr]
    obtain ⟨h1, h2⟩ := hty
    simp [TypedOutput, copyEventCounts, eventCountKeys, Record.get?_set, h1, h2]

theorem alertWatchlistHitBinary_typed (t : String) :
    HandlerTyped t alertWatchlistHitBinary := by
  intro m outs err h r hr
  unfold alertWatchlistHitBinary at h
  simp only at h
  split at h
  · simp at h
    obtain ⟨rfl, -⟩ := h
    simp at hr
  · rename_i o ho
    have hty := copyAlertMetadata_typed ho (typed_base t)
    simp at h
    obtain ⟨rfl, -⟩ := h
    simp at hr
    rw [hr]
    obtain ⟨h1, h2⟩ := hty
    simp [TypedOutput, copyObject_get?, Record.get?_set, h1, h2]

theorem alertWatchlistHitHost_typed (t : String) :
    HandlerTyped t alertWatchlistHitHost := by
  intro m outs err h r hr
  unfold alertWatchlistHitHost at h
  simp only at h
  split at h
  · simp at h
    obtain ⟨rfl, -⟩ := h
    simp at hr
  · rename_i o ho
    have hty := copyAlertMetadata_typed ho (typed_base t)
    simp at h
    obtain ⟨rfl, -⟩ := h
    simp at hr
    rw [hr]
    obtain ⟨h1, h2⟩ := hty
    simp [TypedOutput, Record.get?_set, h1, h2]

theorem binarystoreFileAdded_typed (t : String) : HandlerTyped t binarystoreFileAdded := by
  intro m outs err h r hr
  simp [binarystoreFileAdded] at h
  obtain ⟨rfl, -⟩ := h
  simp at hr
  subst hr
  simp [TypedOutput, Record.get?_set]

theorem binaryinfoObserved_typed (t : String) : HandlerTyped t binaryinfoObserved := by
  intro m outs err h r hr
  simp only [binaryinfoObserved] at h
  simp at h
  obtain ⟨rfl, -⟩ := h
  simp at hr
  subst hr
  simp only [TypedOutput]
  split
  · simp [copyObject_get?, Record.get?_set]
  · split <;> simp [copyObject_get?, Record.get?_set]

theorem lookupHandler_mem {tbl : List (String × JSONMessageHandlerFunc)} {t : String}
    {h : JSONMessageHandlerFunc} (hl : lookupHandler tbl t = some h) : (t, h) ∈ tbl := by
  induction tbl with
  | nil => simp [lookupHandler] at hl
  | cons p tbl ih =>
    obtain ⟨k, f⟩ := p
    by_cases hk : k = t
    · simp [lookupHandler, hk] at hl
      simp [hk, hl]
    · simp [lookupHandler, hk] at hl
      exact List.mem_cons_of_mem _ (ih hl)

theorem lookupHandler_none {tbl : List (String × JSONMessageHandlerFunc)} {t : String}
    (h : t ∉ tbl.map Prod.fst) : lookupHandler tbl t = none := by
  induction tbl with
  | nil => rfl
  | cons p tbl ih =>
    obtain ⟨k, f⟩ := p
    simp at h
    have hk : ¬ k = t := fun e => h.1 e.symm
    simp only [lookupHandler, hk, if_false]
    exact ih (by simpa using h.2)

theorem messageHandlers_keys (ext : Extern) (cfg : Config) :
    (NewJSONProcessor ext cfg).messageHandlers.map Prod.fst = registeredTypes := rfl

theorem messageHandlers_typed (ext : Extern) (cfg : Config) :
    ∀ p ∈ (NewJSONProcessor ext cfg).messageHandlers, HandlerTyped p.1 p.2 := by
  simp only [NewJSONProcessor, List.forall_mem_cons]
  refine ⟨watchlistHitProcess_typed ext, watchlistStorageHitProcess_typed ext,
    watchlistHitBinary_typed, watchlistStorageHitBinary_typed, feedIngressHitProcess_typed,
    feedStorageHitProcess_typed ext _, feedStorageHitProcess_typed ext _,
    alertWatchlistHitProcess_typed ext _, alertWatchlistHitProcess_typed ext _,
    alertWatchlistHitBinary_typed _, alertWatchlistHitBinary_typed _,
    alertWatchlistHitHost_typed _, binarystoreFileAdded_typed _, binaryinfoObserved_typed _,
    binaryinfoObserved_typed _, binaryinfoObserved_typed _, ?_⟩
  simp

/-- C1: every record returned by `ProcessJSONMessage` has a `type` field that
is the canonical type of the routing key, a non-empty string, and a
`schema_version` field that is the integer 2. -/
theorem ProcessJSONMessage_typed (ext : Extern) (cfg : Config) (msg : Record)
    (routingKey : String) (outs : List Record) (err : Option Error)
    (h : ProcessJSONMessage ext (NewJSONProcessor ext cfg) msg routingKey = some (outs, err)) :
    ∀ r ∈ outs, r.get? "type" = some (.str (fixupMessageType routingKey)) ∧
      fixupMessageType routingKey ≠ "" ∧ r.get? "schema_version" = some (.int 2) := by
  intro r hr
  unfold ProcessJSONMessage at h
  simp only at h
  split at h
  · rename_i processfunc hl
    have hmem := lookupHandler_mem hl
    have hreg : fixupMessageType routingKey ∈ registeredTypes := by
      rw [← messageHandlers_keys ext cfg]
      exact List.mem_map_of_mem Prod.fst hmem
    have hne : fixupMessageType routingKey ≠ "" := by
      intro e
      rw [e] at hreg
      exact absurd hreg (by decide)
    split at h
    · simp at h
    · rename_i outmsgs err' hp
      split at h
      · simp at h
      · rename_i linked hlinked
        simp at h
        obtain ⟨rfl, -⟩ := h
        obtain ⟨r0, hr0, hlink⟩ := addLinksToMessages_mem hlinked r hr
        obtain ⟨h1, h2⟩ := messageHandlers_typed ext cfg _ hmem _ _ _ hp r0 hr0
        refine ⟨?_, hne, ?_⟩
        · rw [addLinksToMessage_get? hlink (by decide)]
          exact h1
        · rw [addLinksToMessage_get? hlink (by decide)]
          exact h2
  · simp at h
    obtain ⟨rfl, -⟩ := h
    simp at hr

/-- C3: when the canonical type of the routing key has no registered handler,
`ProcessJSONMessage` returns no records and no error. -/
theorem ProcessJSONMessage_unregistered (ext : Extern) (cfg : Config) (msg : Record)
    (routingKey : String) (h : fixupMessageType routingKey ∉ registeredTypes) :
    ProcessJSONMessage ext (NewJSONProcessor ext cfg) msg routingKey = some ([], none) := by
  unfold ProcessJSONMessage
  simp only
  rw [lookupHandler_none (by rw [messageHandlers_keys]; exact h)]

/-- C1, witness: the record returned for an empty `binarystore.file.added`
message. -/
theorem ProcessJSONMessage_typed_witness :
    ProcessJSONMessage stubExtern (NewJSONProcessor stubExtern linkConfig) []
        "binarystore.file.added" =
      some ([[("type", .str "binarystore.file.added"), ("schema_version", .int 2),
        ("md5", .str ""), ("size", .num "0"), ("compressed_size", .num "0"),
        ("node_id", .num "0"), ("file_path", .str ""), ("event_timestamp", .num "0")]], none) ∧
    Record.get? [("type", .str "binarystore.file.added"), ("schema_version", .int 2),
        ("md5", .str ""), ("size", .num "0"), ("compressed_size", .num "0"),
        ("node_id", .num "0"), ("file_path", .str ""), ("event_timestamp", .num "0")] "type" =
      some (.str (fixupMessageType "binarystore.file.added")) ∧
    fixupMessageType "binarystore.file.added" ≠ "" ∧
    Record.get? [("type", .str "binarystore.file.added"), ("schema_version", .int 2),
        ("md5", .str ""), ("size", .num "0"), ("compressed_size", .num "0"),
        ("node_id", .num "0"), ("file_path", .str ""), ("event_timestamp", .num "0")]
        "schema_version" = some (.int 2) :=
  ⟨rfl, ProcessJSONMessage_typed stubExtern linkConfig [] "binarystore.file.added" _ none rfl _
    (List.mem_singleton.mpr rfl)⟩

/-- C3, witness: `feed.42.hit.process` has the canonical type `feed.hit.process`,
which has no handler. -/
theorem ProcessJSONMessage_unregistered_witness :
    fixupMessageType "feed.42.hit.process" ∉ registeredTypes ∧
    ProcessJSONMessage stubExtern (NewJSONProcessor stubExtern linkConfig)
      [("docs", .arr [.obj []])] "feed.42.hit.process" = some ([], none) :=
  ⟨by decide, ProcessJSONMessage_unregistered stubExtern linkConfig _ _ (by decide)⟩

/-! ## Handlers that return one record -/

theorem ProcessJSONMessage_single (ext : Extern) (cfg : Config) (msg : Record)
    (rk : String) {h : JSONMessageHandlerFunc} {r0 : Record}
    (hl : lookupHandler (NewJSONProcessor ext cfg).messageHandlers (fixupMessageType rk) = some h)
    (hh : h (fixupMessageType rk) msg = some ([r0], none)) (hg : GuidOk r0) :
    ∃ r, ProcessJSONMessage ext (NewJSONProcessor ext cfg) msg rk = some ([r], none) ∧
      addLinksToMessage ext (NewJSONProcessor ext cfg) r0 = some r := by
  obtain ⟨r, hr⟩ := addLinksToMessage_isSome ext (NewJSONProcessor ext cfg) r0 hg
  refine ⟨r, ?_, hr⟩
  unfold ProcessJSONMessage
  simp only [hl, hh, addLinksToMessages, hr]

theorem ProcessJSONMessage_error (ext : Extern) (cfg : Config) (msg : Record)
    (rk : String) {h : JSONMessageHandlerFunc} {e : Error}
    (hl : lookupHandler (NewJSONProcessor ext cfg).messageHandlers (fixupMessageType rk) = some h)
    (hh : h (fixupMessageType rk) msg = some ([], some e)) :
    ProcessJSONMessage ext (NewJSONProcessor ext cfg) msg rk = some ([], some e) := by
  unfold ProcessJSONMessage
  simp only [hl, hh, addLinksToMessages]

/-- C6: the `binarystore.file.added` handler returns one record; its `size`,
`compressed_size`, `node_id` and `event_timestamp` hold the text of the input
number when the input field is numeric-typed and the number 0 otherwise; its
`md5` and `file_path` hold the input string, the empty string when the input
field is absent or not a string. -/
theorem binarystoreFileAdded_fields (ext : Extern) (cfg : Config) (msg : Record) :
    ∃ r, ProcessJSONMessage ext (NewJSONProcessor ext cfg) msg "binarystore.file.added" =
        some ([r], none) ∧
      (∀ k ∈ ["size", "compressed_size", "node_id", "event_timestamp"],
        (∀ t, msg.get? k = some (.num t) → r.get? k = some (.num t)) ∧
        ((∀ t, msg.get? k ≠ some (.num t)) → r.get? k = some (.num "0"))) ∧
      (∀ k ∈ ["md5", "file_path"],
        (∀ s, msg.get? k = some (.str s) → r.get? k = some (.str s)) ∧
        ((∀ s, msg.get? k ≠ some (.str s)) → r.get? k = some (.str ""))) := by
  have hnum : ∀ k, (∀ t, msg.get? k = some (.num t) → getNumber msg k "0" = t) ∧
      ((∀ t, msg.get? k ≠ some (.num t)) → getNumber msg k "0" = "0") := by
    intro k
    constructor
    · intro t ht
      simp [getNumber, ht]
    · intro hn
      unfold getNumber
      split
      · rename_i numval hv
        exact absurd hv (hn numval)
      · rfl
  have hstr : ∀ k, (∀ s, msg.get? k = some (.str s) → getString msg k "" = s) ∧
      ((∀ s, msg.get? k ≠ some (.str s)) → getString msg k "" = "") := by
    intro k
    constructor
    · intro t ht
      simp [getString, ht]
    · intro hn
      unfold getString
      split
      · rename_i strval hv
        exact absurd hv (hn strval)
      · rfl
  obtain ⟨r, hr, hlink⟩ := ProcessJSONMessage_single ext cfg msg
    "binarystore.file.added" (h := binarystoreFileAdded) rfl rfl
    (by simp [GuidOk, Record.get?_set, Record.get?])
  refine ⟨r, hr, ?_, ?_⟩
  · intro k hk
    simp only [List.mem_cons, List.mem_singleton, List.not_mem_nil, or_false] at hk
    have hget : r.get? k = some (.num (getNumber msg k "0")) := by
      rcases hk with rfl | rfl | rfl | rfl <;>
        · rw [addLinksToMessage_get? hlink (by decide)]
          simp [Record.get?_set]
    rw [hget]
    refine ⟨fun t ht => ?_, fun hn => ?_⟩
    · rw [(hnum k).1 t ht]
    · rw [(hnum k).2 hn]
  · intro k hk
    simp only [List.mem_cons, List.mem_singleton, List.not_mem_nil, or_false] at hk
    have hget : r.get? k = some (.str (getString msg k "")) := by
      rcases hk with rfl | rfl <;>
        · rw [addLinksToMessage_get? hlink (by decide)]
          simp [Record.get?_set]
    rw [hget]
    refine ⟨fun t ht => ?_, fun hn => ?_⟩
    · rw [(hstr k).1 t ht]
    · rw [(hstr k).2 hn]

/-! ## Alerts: the branch on `feed_id` -/

/-- When `strconv.ParseInt` returns an error, the value it returns is 0 or a
bound of the range, never -1. -/
theorem ParseInt_error_ne_neg_one (s : String) (h : (strconv.ParseInt s 64).2 ≠ none) :
    (strconv.ParseInt s 64).1 ≠ -1 := by
  generalize hp : strconv.ParseInt s 64 = p at h ⊢
  unfold strconv.ParseInt at hp
  split at hp
  · subst hp
    simp
  · rename_i c cs _
    simp only at hp
    split at hp
    · subst hp
      simp
    · rename_i un e _
      split_ifs at hp
      · subst hp
        have : (0 : Int) ≤ ((2 ^ (64 - 1) - 1 : Nat) : Int) := Int.natCast_nonneg _
        simp only [ne_eq]
        omega
      · subst hp
        norm_num
      · subst hp
        simp at h
      · subst hp
        simp at h

theorem getNumber_of_num {msg : Record} {k t : String} (dv : String)
    (h : msg.get? k = some (.num t)) : getNumber msg k dv = t := by
  simp [getNumber, h]

theorem getNumber_default {msg : Record} {k : String} (dv : String)
    (h : ∀ t, msg.get? k ≠ some (.num t)) : getNumber msg k dv = dv := by
  unfold getNumber
  split
  · rename_i numval hv
    exact absurd hv (h numval)
  · rfl

theorem Int64_neg_one : Number.Int64 "-1" = (-1, none) := by decide

/-- The text that `copyAlertMetadata` parses has an error exactly when `feed_id`
is numeric-typed and does not parse. -/
theorem feedId_error_iff (msg : Record) :
    (Number.Int64 (getNumber msg "feed_id" "-1")).2 ≠ none ↔ FeedIdUnparseable msg := by
  constructor
  · intro h
    by_cases hn : ∃ t, msg.get? "feed_id" = some (.num t)
    · obtain ⟨t, ht⟩ := hn
      rw [getNumber_of_num _ ht] at h
      exact ⟨t, ht, h⟩
    · rw [getNumber_default _ (fun t ht => hn ⟨t, ht⟩), Int64_neg_one] at h
      exact absurd rfl h
  · rintro ⟨t, ht, h⟩
    rw [getNumber_of_num _ ht]
    exact h

theorem copyAlertMetadata_watchlist (t : String) (msg o : Record)
    (h : (Number.Int64 (getNumber msg "feed_id" "-1")).1 = -1) :
    copyAlertMetadata t msg o =
      (copyAlertFields t msg
        ((o.set "watchlist_name" (.str (getString msg "watchlist_name" ""))).set "watchlist_id"
          (.num (getString msg "watchlist_id" "0"))), none) := by
  unfold copyAlertMetadata
  generalize Number.Int64 (getNumber msg "feed_id" "-1") = p at h
  obtain ⟨feedId, e⟩ := p
  simp only at h
  simp [h]

theorem copyAlertMetadata_feed (t : String) (msg o : Record)
    (h : (Number.Int64 (getNumber msg "feed_id" "-1")).1 ≠ -1)
    (he : (Number.Int64 (getNumber msg "feed_id" "-1")).2 = none) :
    copyAlertMetadata t msg o =
      (copyAlertFields t msg
        ((((o.set "feed_name" (.str (getString msg "feed_name" ""))).set "feed_id"
          (.num (getNumber msg "feed_id" "0"))).set "report_id"
          (.str (getString msg "watchlist_id" ""))).set "feed_rating"
          (.num (getNumber msg "feed_rating" "0"))), none) := by
  unfold copyAlertMetadata
  generalize Number.Int64 (getNumber msg "feed_id" "-1") = p at h he
  obtain ⟨feedId, e⟩ := p
  simp only at h he
  simp [h, he]

theorem copyAlertMetadata_error (t : String) (msg o : Record) (e : NumError)
    (he : (Number.Int64 (getNumber msg "feed_id" "-1")).2 = some e) :
    copyAlertMetadata t msg o = (o, some (.feedId e)) := by
  have h := ParseInt_error_ne_neg_one (getNumber msg "feed_id" "-1")
    (by
      have he' : (strconv.ParseInt (getNumber msg "feed_id" "-1") 64).2 = some e := he
      rw [he']
      simp)
  unfold copyAlertMetadata
  have h' : (Number.Int64 (getNumber msg "feed_id" "-1")).1 ≠ -1 := h
  generalize Number.Int64 (getNumber msg "feed_id" "-1") = p at h' he
  obtain ⟨feedId, e'⟩ := p
  simp only at h' he
  simp [h', he]

/-- The outcome of `copyAlertMetadata`: an error when `feed_id` does not parse,
else the record of one of the two origins. -/
theorem copyAlertMetadata_cases (t : String) (msg o : Record) :
    (FeedIdUnparseable msg ∧ ∃ e, copyAlertMetadata t msg o = (o, some (.feedId e))) ∨
    (¬ FeedIdUnparseable msg ∧ ∃ o', copyAlertMetadata t msg o = (copyAlertFields t msg o', none) ∧
      ∀ k, k ∉ originKeys → o'.get? k = o.get? k) := by
  cases he : (Number.Int64 (getNumber msg "feed_id" "-1")).2 with
  | some e =>
    left
    exact ⟨(feedId_error_iff msg).mp (by rw [he]; simp), e, copyAlertMetadata_error t msg o e he⟩
  | none =>
    right
    refine ⟨fun hu => absurd he ((feedId_error_iff msg).mpr hu), ?_⟩
    by_cases h : (Number.Int64 (getNumber msg "feed_id" "-1")).1 = -1
    · refine ⟨_, copyAlertMetadata_watchlist t msg o h, ?_⟩
      intro k hk
      simp only [originKeys, List.mem_cons, List.mem_singleton, List.not_mem_nil, or_false,
        not_or] at hk
      rw [Record.get?_set_ne _ _ (Ne.symm hk.2.1), Record.get?_set_ne _ _ (Ne.symm hk.1)]
    · refine ⟨_, copyAlertMetadata_feed t msg o h he, ?_⟩
      intro k hk
      simp only [originKeys, List.mem_cons, List.mem_singleton, List.not_mem_nil, or_false,
        not_or] at hk
      rw [Record.get?_set_ne _ _ (Ne.symm hk.2.2.2.2.2), Record.get?_set_ne _ _ (Ne.symm hk.2.2.2.2.1),
        Record.get?_set_ne _ _ (Ne.symm hk.2.2.2.1), Record.get?_set_ne _ _ (Ne.symm hk.2.2.1)]

theorem copyAlertFields_get? (t : String) (msg o : Record) {k : String}
    (hk : k ∉ ["report_score", "id", "alert_severity", "ioc_confidence", "sensor_criticality",
      "alert_type", "status", "ioc_type", "ioc_value"]) :
    (copyAlertFields t msg o).get? k = o.get? k := by
  simp only [List.mem_cons, List.mem_singleton, List.not_mem_nil, or_false, not_or] at hk
  obtain ⟨h1, h2, h3, h4, h5, h6, h7, h8, h9⟩ := hk
  unfold copyAlertFields
  simp only
  split
  · rw [Record.get?_set_ne _ _ (Ne.symm h9), Record.get?_set_ne _ _ (Ne.symm h8),
      Record.get?_set_ne _ _ (Ne.symm h7), Record.get?_set_ne _ _ (Ne.symm h6),
      Record.get?_set_ne _ _ (Ne.symm h5), Record.get?_set_ne _ _ (Ne.symm h4),
      Record.get?_set_ne _ _ (Ne.symm h3), Record.get?_set_ne _ _ (Ne.symm h2),
      Record.get?_set_ne _ _ (Ne.symm h1)]
  · rw [Record.get?_set_ne _ _ (Ne.symm h8),
      Record.get?_set_ne _ _ (Ne.symm h7), Record.get?_set_ne _ _ (Ne.symm h6),
      Record.get?_set_ne _ _ (Ne.symm h5), Record.get?_set_ne _ _ (Ne.symm h4),
      Record.get?_set_ne _ _ (Ne.symm h3), Record.get?_set_ne _ _ (Ne.symm h2),
      Record.get?_set_ne _ _ (Ne.symm h1)]

theorem alertWatchlistHitProcess_alert (ext : Extern) :
    AlertHandler (alertWatchlistHitProcess ext) := by
  intro t msg
  constructor
  · intro o e h
    unfold alertWatchlistHitProcess
    simp only [alertBase] at h
    simp only [h]
  · intro o h
    unfold alertWatchlistHitProcess
    simp only [alertBase] at h
    simp only [h]
    refine ⟨_, rfl, ?_, ?_⟩
    · intro k hk
      simp only [originKeys, List.mem_cons, List.mem_singleton, List.not_mem_nil, or_false] at hk
      rcases hk with rfl | rfl | rfl | rfl | rfl | rfl <;>
        simp [copyEventCounts, eventCountKeys, Record.get?_set]
    · intro hg
      constructor
      · simp [copyEventCounts, eventCountKeys, Record.get?_set]
      · simpa [copyEventCounts, eventCountKeys, Record.get?_set] using hg.2

theorem alertWatchlistHitBinary_alert : AlertHandler alertWatchlistHitBinary := by
  intro t msg
  constructor
  · intro o e h
    unfold alertWatchlistHitBinary
    simp only [alertBase] at h
    simp only [h]
  · intro o h
    unfold alertWatchlistHitBinary
    simp only [alertBase] at h
    simp only [h]
    refine ⟨_, rfl, ?_, ?_⟩
    · intro k hk
      simp only [originKeys, List.mem_cons, List.mem_singleton, List.not_mem_nil, or_false] at hk
      rcases hk with rfl | rfl | rfl | rfl | rfl | rfl <;>
        simp [copyObject_get?, Record.get?_set]
    · intro hg
      constructor
      · simpa [copyObject_get?, Record.get?_set] using hg.1
      · simpa [copyObject_get?, Record.get?_set] using hg.2

theorem alertWatchlistHitHost_alert : AlertHandler alertWatchlistHitHost := by
  intro t msg
  constructor
  · intro o e h
    unfold alertWatchlistHitHost
    simp only [alertBase] at h
    simp only [h]
  · intro o h
    unfold alertWatchlistHitHost
    simp only [alertBase] at h
    simp only [h]
    refine ⟨_, rfl, ?_, ?_⟩
    · intro k hk
      simp only [originKeys, List.mem_cons, List.mem_singleton, List.not_mem_nil, or_false] at hk
      rcases hk with rfl | rfl | rfl | rfl | rfl | rfl <;>
        simp [Record.get?_set]
    · intro hg
      constructor
      · simpa [Record.get?_set] using hg.1
      · simpa [Record.get?_set] using hg.2

/-- The handler registered for an alert type is one of the three alert
handlers, and the type is its own canonical type. -/
theorem alert_lookup (ext : Extern) (cfg : Config) {rk : String} (hrk : rk ∈ alertTypes) :
    fixupMessageType rk = rk ∧
    ∃ h, lookupHandler (NewJSONProcessor ext cfg).messageHandlers rk = some h ∧
      AlertHandler h := by
  simp only [alertTypes, List.mem_cons, List.mem_singleton, List.not_mem_nil, or_false] at hrk
  rcases hrk with rfl | rfl | rfl | rfl | rfl
  · exact ⟨by decide, _, rfl, alertWatchlistHitProcess_alert ext⟩
  · exact ⟨by decide, _, rfl, alertWatchlistHitProcess_alert ext⟩
  · exact ⟨by decide, _, rfl, alertWatchlistHitBinary_alert⟩
  · exact ⟨by decide, _, rfl, alertWatchlistHitBinary_alert⟩
  · exact ⟨by decide, _, rfl, alertWatchlistHitHost_alert⟩

theorem guidOk_alertFields (t : String) (msg o' : Record)
    (h : ∀ k, k ∉ originKeys → o'.get? k = (alertBase t).get? k) :
    GuidOk (copyAlertFields t msg o') := by
  constructor
  · rw [copyAlertFields_get? _ _ _ (by decide), h _ (by decide)]
    simp [alertBase, Record.get?_set, Record.get?]
  · rw [copyAlertFields_get? _ _ _ (by decide), h _ (by decide)]
    simp [alertBase, Record.get?_set, Record.get?]

/-- The two outcomes of an alert handler behind `ProcessJSONMessage`. -/
theorem alert_outcome (ext : Extern) (cfg : Config) (msg : Record) (rk : String)
    (hrk : rk ∈ alertTypes) :
    (FeedIdUnparseable msg →
      ∃ e, ProcessJSONMessage ext (NewJSONProcessor ext cfg) msg rk = some ([], some e)) ∧
    (¬ FeedIdUnparseable msg →
      ∃ r, ProcessJSONMessage ext (NewJSONProcessor ext cfg) msg rk = some ([r], none)) := by
  obtain ⟨hfix, h, hl, hh⟩ := alert_lookup ext cfg hrk
  obtain ⟨herr, hok⟩ := hh rk msg
  refine ⟨?_, ?_⟩
  · intro hu
    rcases copyAlertMetadata_cases rk msg (alertBase rk) with ⟨-, e, he⟩ | ⟨hn, -⟩
    · exact ⟨_, ProcessJSONMessage_error ext cfg msg rk (by rw [hfix]; exact hl)
        (by rw [hfix]; exact herr _ _ he)⟩
    · exact absurd hu hn
  · intro hn
    rcases copyAlertMetadata_cases rk msg (alertBase rk) with ⟨hu, -⟩ | ⟨-, o', ho, hfr⟩
    · exact absurd hu hn
    · obtain ⟨r0, hr0, -, hg⟩ := hok _ ho
      obtain ⟨r, hr, -⟩ := ProcessJSONMessage_single ext cfg msg rk
        (by rw [hfix]; exact hl) (by rw [hfix]; exact hr0) (hg (guidOk_alertFields rk msg o' hfr))
      exact ⟨r, hr⟩

/-- C7: an alert handler returns an error and no record exactly when `feed_id`
is numeric-typed and its text does not parse as a base-10 64-bit integer, as
with `1.5` or a 25-digit integer; in every other case it returns one record
and no error. -/
theorem alert_error_iff (ext : Extern) (cfg : Config) (msg : Record) (rk : String)
    (hrk : rk ∈ alertTypes) :
    (FeedIdUnparseable msg →
      ∃ e, ProcessJSONMessage ext (NewJSONProcessor ext cfg) msg rk = some ([], some e)) ∧
    (¬ FeedIdUnparseable msg →
      ∃ r, ProcessJSONMessage ext (NewJSONProcessor ext cfg) msg rk = some ([r], none)) ∧
    (Number.Int64 "1.5").2 ≠ none ∧ (Number.Int64 "1234567890123456789012345").2 ≠ none :=
  ⟨(alert_outcome ext cfg msg rk hrk).1, (alert_outcome ext cfg msg rk hrk).2,
    by decide, by decide⟩

/-- C7, witness: an ingress process alert whose `feed_id` is `1.5` is refused,
one whose `feed_id` is `7` yields one record. -/
theorem alert_error_iff_witness :
    (∃ e, ProcessJSONMessage stubExtern (NewJSONProcessor stubExtern linkConfig)
      [("feed_id", .num "1.5")] "alert.watchlist.hit.ingress.process" = some ([], some e)) ∧
    (∃ r, ProcessJSONMessage stubExtern (NewJSONProcessor stubExtern linkConfig)
      [("feed_id", .num "7")] "alert.watchlist.hit.ingress.process" = some ([r], none)) :=
  ⟨(alert_error_iff stubExtern linkConfig [("feed_id", .num "1.5")]
      "alert.watchlist.hit.ingress.process" (by decide)).1 ⟨"1.5", rfl, by decide⟩,
   (alert_error_iff stubExtern linkConfig [("feed_id", .num "7")]
      "alert.watchlist.hit.ingress.process" (by decide)).2.1 (by
        rintro ⟨t, ht, h⟩
        have ht' : t = "7" := by
          simp [Record.get?] at ht
          exact ht.symm
        subst ht'
        exact h (by decide))⟩

/-- The record that `ProcessJSONMessage` returns for an alert agrees, on the
origin fields, with the record `o'` that the branch on `feed_id` built. -/
theorem alert_output_of_branch (ext : Extern) (cfg : Config) (msg : Record) (rk : String)
    (hrk : rk ∈ alertTypes) (o' : Record)
    (ho : copyAlertMetadata rk msg (alertBase rk) = (copyAlertFields rk msg o', none))
    (hfr : ∀ k, k ∉ originKeys → o'.get? k = (alertBase rk).get? k) :
    ∃ r, ProcessJSONMessage ext (NewJSONProcessor ext cfg) msg rk = some ([r], none) ∧
      ∀ k ∈ originKeys, r.get? k = o'.get? k := by
  obtain ⟨hfix, h, hl, hh⟩ := alert_lookup ext cfg hrk
  obtain ⟨r0, hr0, hkeys, hg⟩ := (hh rk msg).2 _ ho
  obtain ⟨r, hr, hlink⟩ := ProcessJSONMessage_single ext cfg msg rk
    (by rw [hfix]; exact hl) (by rw [hfix]; exact hr0) (hg (guidOk_alertFields rk msg o' hfr))
  refine ⟨r, hr, ?_⟩
  intro k hk
  have hnl : NotLink k := by
    simp only [originKeys, List.mem_cons, List.mem_singleton, List.not_mem_nil, or_false] at hk
    rcases hk with rfl | rfl | rfl | rfl | rfl | rfl <;> decide
  have hnf : k ∉ ["report_score", "id", "alert_severity", "ioc_confidence",
      "sensor_criticality", "alert_type", "status", "ioc_type", "ioc_value"] := by
    simp only [originKeys, List.mem_cons, List.mem_singleton, List.not_mem_nil, or_false] at hk
    rcases hk with rfl | rfl | rfl | rfl | rfl | rfl <;> decide
  rw [addLinksToMessage_get? hlink hnl, hkeys k hk, copyAlertFields_get? _ _ _ hnf]

/-- C8: for an alert whose `feed_id` is absent (or not numeric-typed) or -1, the
output record carries `watchlist_name` and, as a number, the input string
`watchlist_id` (0 when absent), and none of `feed_name`, `feed_id`,
`report_id`, `feed_rating`; for an alert whose `feed_id` is another integer
it carries `feed_name`, `feed_id`, `feed_rating` and the input string
`watchlist_id` as `report_id`, and neither `watchlist_name` nor
`watchlist_id`. -/
theorem alert_origin (ext : Extern) (cfg : Config) (msg : Record) (rk : String)
    (hrk : rk ∈ alertTypes) :
    (((∀ t, msg.get? "feed_id" ≠ some (.num t)) ∨ FeedIdIs msg (-1)) →
      ∃ r, ProcessJSONMessage ext (NewJSONProcessor ext cfg) msg rk = some ([r], none) ∧
        r.get? "watchlist_name" = some (.str (getString msg "watchlist_name" "")) ∧
        r.get? "watchlist_id" = some (.num (getString msg "watchlist_id" "0")) ∧
        r.get? "feed_name" = none ∧ r.get? "feed_id" = none ∧
        r.get? "report_id" = none ∧ r.get? "feed_rating" = none) ∧
    (∀ n : Int, n ≠ -1 → FeedIdIs msg n →
      ∃ r, ProcessJSONMessage ext (NewJSONProcessor ext cfg) msg rk = some ([r], none) ∧
        r.get? "feed_name" = some (.str (getString msg "feed_name" "")) ∧
        r.get? "feed_id" = some (.num (getNumber msg "feed_id" "0")) ∧
        r.get? "feed_rating" = some (.num (getNumber msg "feed_rating" "0")) ∧
        r.get? "report_id" = some (.str (getString msg "watchlist_id" "")) ∧
        r.get? "watchlist_name" = none ∧ r.get? "watchlist_id" = none) := by
  constructor
  · intro hw
    have hp : Number.Int64 (getNumber msg "feed_id" "-1") = (-1, none) := by
      rcases hw with hw | ⟨t, ht, hv⟩
      · rw [getNumber_default _ hw, Int64_neg_one]
      · rw [getNumber_of_num _ ht, hv]
    obtain ⟨r, hr, hk⟩ := alert_output_of_branch ext cfg msg rk hrk _
      (copyAlertMetadata_watchlist rk msg (alertBase rk) (by rw [hp]))
      (by
        intro k hk
        simp only [originKeys, List.mem_cons, List.mem_singleton, List.not_mem_nil, or_false,
          not_or] at hk
        rw [Record.get?_set_ne _ _ (Ne.symm hk.2.1), Record.get?_set_ne _ _ (Ne.symm hk.1)])
    refine ⟨r, hr, ?_, ?_, ?_, ?_, ?_, ?_⟩
    · rw [hk _ (by decide)]
      simp [Record.get?_set]
    · rw [hk _ (by decide)]
      simp [Record.get?_set]
    · rw [hk _ (by decide)]
      simp [alertBase, Record.get?_set, Record.get?]
    · rw [hk _ (by decide)]
      simp [alertBase, Record.get?_set, Record.get?]
    · rw [hk _ (by decide)]
      simp [alertBase, Record.get?_set, Record.get?]
    · rw [hk _ (by decide)]
      simp [alertBase, Record.get?_set, Record.get?]
  · rintro n hn ⟨t, ht, hv⟩
    have hp : Number.Int64 (getNumber msg "feed_id" "-1") = (n, none) := by
      rw [getNumber_of_num _ ht, hv]
    obtain ⟨r, hr, hk⟩ := alert_output_of_branch ext cfg msg rk hrk _
      (copyAlertMetadata_feed rk msg (alertBase rk) (by rw [hp]; exact hn) (by rw [hp]))
      (by
        intro k hk
        simp only [originKeys, List.mem_cons, List.mem_singleton, List.not_mem_nil, or_false,
          not_or] at hk
        rw [Record.get?_set_ne _ _ (Ne.symm hk.2.2.2.2.2),
          Record.get?_set_ne _ _ (Ne.symm hk.2.2.2.2.1),
          Record.get?_set_ne _ _ (Ne.symm hk.2.2.2.1), Record.get?_set_ne _ _ (Ne.symm hk.2.2.1)])
    refine ⟨r, hr, ?_, ?_, ?_, ?_, ?_, ?_⟩
    · rw [hk _ (by decide)]
      simp [Record.get?_set]
    · rw [hk _ (by decide)]
      simp [Record.get?_set]
    · rw [hk _ (by decide)]
      simp [Record.get?_set]
    · rw [hk _ (by decide)]
      simp [Record.get?_set]
    · rw [hk _ (by decide)]
      simp [alertBase, Record.get?_set, Record.get?]
    · rw [hk _ (by decide)]
      simp [alertBase, Record.get?_set, Record.get?]

/-- C8, witness: a binary alert without `feed_id` is a watchlist hit, one with
`feed_id` 12 is a feed hit. -/
theorem alert_origin_witness :
    (∃ r, ProcessJSONMessage stubExtern (NewJSONProcessor stubExtern linkConfig)
        [("watchlist_id", .str "31")] "alert.watchlist.hit.query.binary" = some ([r], none) ∧
      r.get? "watchlist_name" = some (.str "") ∧ r.get? "watchlist_id" = some (.num "31") ∧
      r.get? "feed_name" = none ∧ r.get? "feed_id" = none ∧
      r.get? "report_id" = none ∧ r.get? "feed_rating" = none) ∧
    (∃ r, ProcessJSONMessage stubExtern (NewJSONProcessor stubExtern linkConfig)
        [("feed_id", .num "12"), ("watchlist_id", .str "31")] "alert.watchlist.hit.query.binary" =
          some ([r], none) ∧
      r.get? "feed_name" = some (.str "") ∧ r.get? "feed_id" = some (.num "12") ∧
      r.get? "feed_rating" = some (.num "0") ∧ r.get? "report_id" = some (.str "31") ∧
      r.get? "watchlist_name" = none ∧ r.get? "watchlist_id" = none) :=
  ⟨(alert_origin stubExtern linkConfig [("watchlist_id", .str "31")]
      "alert.watchlist.hit.query.binary" (by decide)).1
      (Or.inl (by intro t h; simp [Record.get?] at h)),
   (alert_origin stubExtern linkConfig [("feed_id", .num "12"), ("watchlist_id", .str "31")]
      "alert.watchlist.hit.query.binary" (by decide)).2 12 (by decide) ⟨"12", rfl, by decide⟩⟩

/-! ## The key-rewrite pass: what one step writes -/

theorem handleOtherKey_get? {ext : Extern} {msg msg1 : Record} {k : String} {v : Value}
    (h : handleOtherKey ext msg k v = some msg1) {j : String} (hj : j ≠ k)
    (hw : j ∉ writtenKeys) : msg1.get? j = msg.get? j := by
  simp only [writtenKeys, List.mem_cons, List.mem_singleton, List.not_mem_nil, or_false,
    not_or] at hw
  obtain ⟨w1, w2, w3, w4, w5⟩ := hw
  have hj' := Ne.symm hj
  unfold handleOtherKey at h
  split_ifs at h with h1 h2 h3 h4 h5 h6 h7 h8
  · subst h1
    simp only at h
    split at h
    · simp at h
    · split at h
      · simp at h
        subst h
        simp [Record.get?_set, Record.get?_delete, hj', Ne.symm w1, Ne.symm w2]
      · simp at h
  · subst h2
    simp at h
    subst h
    simp [Record.get?_delete, hj']
  · subst h3
    simp at h
    subst h
    simp [Record.get?_delete, hj']
  · subst h4
    simp at h
    subst h
    simp [Record.get?_set, Record.get?_delete, hj', Ne.symm w3]
  · subst h5
    simp at h
    subst h
    simp [Record.get?_set, Record.get?_delete, hj', Ne.symm w1]
  · split at h
    · split at h <;> simp at h <;> subst h <;> simp [Record.get?_set, hj']
    · simp at h
      subst h
      rfl
  · split at h
    · split at h <;> simp at h <;> subst h <;> simp [Record.get?_set, hj']
    · simp at h
    · split at h
      · split at h
        · split at h
          · split at h
            · simp at h
              subst h
              simp [Record.get?_set, Ne.symm w4, Ne.symm w5]
            · simp at h
              subst h
              rfl
          · simp at h
            subst h
            rfl
        · simp at h
          subst h
          rfl
      · simp at h
        subst h
        rfl
    · simp at h
      subst h
      rfl
  · split at h
    · split at h <;> simp at h <;> subst h <;> simp [Record.get?_set, hj']
    · simp at h
      subst h
      rfl
  · simp at h
    subst h
    rfl

/-- A key without a case of its own is passed over. -/
theorem handleOtherKey_inert (ext : Extern) (msg : Record) {k : String} (v : Value)
    (hk : k ∉ specialKeys) : handleOtherKey ext msg k v = some msg := by
  simp only [specialKeys, List.mem_cons, List.mem_singleton, List.not_mem_nil, or_false,
    not_or] at hk
  obtain ⟨k1, k2, k3, k4, k5, k6, k7, k8, k9, k10, k11⟩ := hk
  unfold handleOtherKey
  simp [k1, k2, k3, k4, k5, k6, k7, k8, k9, k10, k11]

/-- Only the `ioc_type` case writes the fields of the decoded query. -/
theorem handleOtherKey_ioc_get? {ext : Extern} {msg msg1 : Record} {k : String} {v : Value}
    (h : handleOtherKey ext msg k v = some msg1) (hk : k ≠ "ioc_type") {j : String}
    (hj : j ∈ ["ioc_value", "ioc_query_index", "ioc_query_string"]) :
    msg1.get? j = msg.get? j := by
  by_cases hs : k ∈ specialKeys
  · have hjk : j ≠ k := by
      intro e
      subst e
      simp only [List.mem_cons, List.mem_singleton, List.not_mem_nil, or_false] at hj
      rcases hj with rfl | rfl | rfl <;> exact absurd hs (by decide)
    by_cases hw : j ∈ writtenKeys
    · -- `j` is one of the two query fields, `k` a special key other than `ioc_type`
      have hj2 : j = "ioc_query_index" ∨ j = "ioc_query_string" := by
        simp only [List.mem_cons, List.mem_singleton, List.not_mem_nil, or_false] at hj
        rcases hj with rfl | rfl | rfl
        · exact absurd hw (by decide)
        · exact Or.inl rfl
        · exact Or.inr rfl
      have hne1 : j ≠ "hostname" ∧ j ≠ "sensor_id" ∧ j ≠ "event_timestamp" := by
        rcases hj2 with rfl | rfl <;> decide
      obtain ⟨n1, n2, n3⟩ := hne1
      have hj' := Ne.symm hjk
      unfold handleOtherKey at h
      split_ifs at h with h1 h2 h3 h4 h5 h6 h7
      · subst h1
        simp only at h
        split at h
        · simp at h
        · split at h
          · simp at h
            subst h
            simp [Record.get?_set, Record.get?_delete, hj', Ne.symm n1, Ne.symm n2]
          · simp at h
      · subst h2
        simp at h
        subst h
        simp [Record.get?_delete, hj']
      · subst h3
        simp at h
        subst h
        simp [Record.get?_delete, hj']
      · subst h4
        simp at h
        subst h
        simp [Record.get?_set, Record.get?_delete, hj', Ne.symm n3]
      · subst h5
        simp at h
        subst h
        simp [Record.get?_set, Record.get?_delete, hj', Ne.symm n1]
      · split at h
        · split at h <;> simp at h <;> subst h <;> simp [Record.get?_set, hj']
        · simp at h
          subst h
          rfl
      · split at h
        · split at h <;> simp at h <;> subst h <;> simp [Record.get?_set, hj']
        · simp at h
          subst h
          rfl
      · simp at h
        subst h
        rfl
    · exact handleOtherKey_get? h hjk hw
  · rw [handleOtherKey_inert ext msg v hs] at h
    simp at h
    subst h
    rfl

/-! ## The key-rewrite pass: alliance keys -/

theorem SourceMap.lookup_set (m : SourceMap) (k k' : String) (v : Record) :
    (m.set k v).get? k' = if k = k' then some v else m.get? k' := by
  induction m with
  | nil => simp [SourceMap.set, SourceMap.get?]
  | cons p m ih =>
    obtain ⟨a, w⟩ := p
    by_cases h : a = k
    · subst h
      by_cases h' : a = k' <;> simp [SourceMap.set, SourceMap.get?, h']
    · by_cases h' : a = k'
      · subst h'
        simp [SourceMap.set, SourceMap.get?, h, Ne.symm h]
      · simp [SourceMap.set, SourceMap.get?, h, h', ih]

theorem splitChars_no_sep (sep : Char) (s : List Char) (h : sep ∉ s) :
    splitChars sep s = [s] := by
  induction s with
  | nil => rfl
  | cons c cs ih =>
    have hc : c ≠ sep := fun e => h (e ▸ List.mem_cons_self _ _)
    have := ih (fun hm => h (List.mem_cons_of_mem _ hm))
    simp [splitChars, hc, this]

theorem splitChars_append (sep : Char) (a b : List Char) (h : sep ∉ a) :
    splitChars sep (a ++ sep :: b) = a :: splitChars sep b := by
  induction a with
  | nil => simp [splitChars]
  | cons c cs ih =>
    have hc : c ≠ sep := fun e => h (e ▸ List.mem_cons_self _ _)
    have := ih (fun hm => h (List.mem_cons_of_mem _ hm))
    simp [splitChars, hc, this]

theorem containsChars_append (pat t : List Char) : containsChars pat (pat ++ t) = true := by
  cases hp : pat ++ t with
  | nil =>
    have : pat = [] := (List.append_eq_nil.mp hp).1
    simp [containsChars, this]
  | cons c cs =>
    simp only [containsChars, Bool.or_eq_true]
    left
    rw [← hp, List.isPrefixOf_iff_prefix]
    exact List.prefix_append _ _

theorem AllianceKey.data {k f s : String} (h : AllianceKey k f s) :
    k.data = "alliance".data ++ '_' :: (f.data ++ '_' :: s.data) := by
  rw [h.1]
  simp only [String.data_append]
  simp

theorem AllianceKey.split {k f s : String} (h : AllianceKey k f s) :
    strings.Split k '_' = ["alliance", f, s] := by
  unfold strings.Split
  rw [h.data, splitChars_append _ _ _ (by decide), splitChars_append _ _ _ h.2.1,
    splitChars_no_sep _ _ h.2.2]
  rfl

theorem AllianceKey.contains {k f s : String} (h : AllianceKey k f s) :
    strings.Contains k "alliance_" = true := by
  unfold strings.Contains
  have h1 : ("alliance_" : String).data = "alliance".data ++ ['_'] := by decide
  rw [h.data, h1]
  have : "alliance".data ++ '_' :: (f.data ++ '_' :: s.data) =
      ("alliance".data ++ ['_']) ++ (f.data ++ '_' :: s.data) := by simp
  rw [this]
  exact containsChars_append _ _

theorem AllianceKey.ne_alliance_data {k f s : String} (h : AllianceKey k f s) :
    k ≠ "alliance_data" := by
  intro e
  have hs := h.split
  rw [e] at hs
  have h2 : strings.Split "alliance_data" '_' = ["alliance", "data"] := by decide
  rw [h2] at hs
  simp at hs

theorem not_written_of_contains {k : String} (h : strings.Contains k "alliance_" = true) :
    k ∉ writtenKeys := by
  intro hm
  simp only [writtenKeys, List.mem_cons, List.mem_singleton, List.not_mem_nil, or_false] at hm
  rcases hm with rfl | rfl | rfl | rfl | rfl <;> exact absurd h (by decide)

theorem foldAllianceKey_insert (amap : SourceMap) {k p f s : String} (v : Value)
    (h : strings.Split k '_' = [p, f, s]) : AllianceEntry (foldAllianceKey amap k v) f s v := by
  unfold foldAllianceKey
  rw [h]
  simp only
  cases amap.get? s with
  | none =>
    exact ⟨Record.set [] f v, by simp [SourceMap.lookup_set], by simp [Record.get?_set]⟩
  | some flds =>
    exact ⟨flds.set f v, by simp [SourceMap.lookup_set], by simp [Record.get?_set]⟩

theorem foldAllianceKey_keeps {amap : SourceMap} {k' f s : String} {v : Value} (v' : Value)
    (he : AllianceEntry amap f s v) (h : ∀ p, strings.Split k' '_' ≠ [p, f, s]) :
    AllianceEntry (foldAllianceKey amap k' v') f s v := by
  obtain ⟨flds, h1, h2⟩ := he
  unfold foldAllianceKey
  split
  · rename_i p f' s' hs
    have hne : ¬ (f' = f ∧ s' = s) := by
      rintro ⟨rfl, rfl⟩
      exact h p hs
    by_cases hss : s' = s
    · subst hss
      have hf : f' ≠ f := fun e => hne ⟨e, rfl⟩
      simp only [h1]
      exact ⟨flds.set f' v', by simp [SourceMap.lookup_set], by simp [Record.get?_set, hf, h2]⟩
    · cases amap.get? s' with
      | none => exact ⟨flds, by simp [SourceMap.lookup_set, hss, h1], h2⟩
      | some x => exact ⟨flds, by simp [SourceMap.lookup_set, hss, h1], h2⟩
  · exact ⟨flds, h1, h2⟩

/-- One step of the loop, seen from a key `k` that contains `alliance_`: the
step at `k` removes it, a step at another key leaves it alone. -/
theorem handleKeyValue_alliance_get? {ext : Extern} {st st1 : KeyValueState} {k' : String}
    {v' : Value} (h : handleKeyValue ext st k' v' = some st1) {k : String}
    (hc : strings.Contains k "alliance_" = true) :
    (k ≠ k' → st1.msg.get? k = st.msg.get? k) ∧ (k = k' → st1.msg.get? k = none) := by
  unfold handleKeyValue at h
  split_ifs at h with hc'
  · simp at h
    subst h
    constructor
    · intro hne
      simp [Record.get?_delete, Ne.symm hne]
    · intro e
      simp [Record.get?_delete, e]
  · split at h
    · simp at h
    · rename_i msg1 hm
      simp at h
      subst h
      constructor
      · intro hne
        exact handleOtherKey_get? hm hne (not_written_of_contains hc)
      · intro e
        subst e
        exact absurd hc hc'

theorem rangeKeyValues_keeps {ext : Extern} {k f s : String} {v : Value}
    (hc : strings.Contains k "alliance_" = true) :
    ∀ (ks : List String) (st st' : KeyValueState), rangeKeyValues ext ks st = some st' →
      st.msg.get? k = none → AllianceEntry st.alliance_data_map f s v →
      SoleAllianceKey st.msg k f s →
      st'.msg.get? k = none ∧ AllianceEntry st'.alliance_data_map f s v := by
  intro ks
  induction ks with
  | nil =>
    intro st st' h hk he _
    simp [rangeKeyValues] at h
    subst h
    exact ⟨hk, he⟩
  | cons k' ks ih =>
    intro st st' h hk he hu
    simp only [rangeKeyValues] at h
    split at h
    · exact ih _ _ h hk he hu
    · rename_i v' hv'
      split at h
      · simp at h
      · rename_i st1 hst
        have hne : k ≠ k' := by
          intro e
          subst e
          rw [hk] at hv'
          simp at hv'
        have hfr := handleKeyValue_alliance_get? hst hc
        have hu1 : SoleAllianceKey st1.msg k f s := by
          intro k'' p hp hc'' hs
          refine hu k'' p ?_ hc'' hs
          have h2 := handleKeyValue_alliance_get? hst hc''
          by_cases e : k'' = k'
          · subst e
            rw [hv']
            simp
          · rw [← h2.1 e]
            exact hp
        refine ih _ _ h (by rw [hfr.1 hne]; exact hk) ?_ hu1
        unfold handleKeyValue at hst
        split_ifs at hst with hc'
        · simp at hst
          subst hst
          refine foldAllianceKey_keeps v' he ?_
          intro p hs
          exact hne (hu k' p (by rw [hv']; simp) hc' hs).symm
        · split at hst
          · simp at hst
          · simp at hst
            subst hst
            exact he

theorem rangeKeyValues_folds {ext : Extern} {k f s : String} {v : Value}
    (hk : AllianceKey k f s) :
    ∀ (ks : List String) (st st' : KeyValueState), rangeKeyValues ext ks st = some st' →
      st.msg.get? k = some v → k ∈ ks → SoleAllianceKey st.msg k f s →
      st'.msg.get? k = none ∧ AllianceEntry st'.alliance_data_map f s v := by
  intro ks
  induction ks with
  | nil =>
    intro st st' _ _ hm
    simp at hm
  | cons k' ks ih =>
    intro st st' h hv hm hu
    simp only [rangeKeyValues] at h
    by_cases e : k' = k
    · subst e
      simp only [hv] at h
      split at h
      · simp at h
      · rename_i st1 hst
        have hfr := handleKeyValue_alliance_get? hst hk.contains
        have hu1 : SoleAllianceKey st1.msg k' f s := by
          intro k'' p hp hc'' hs
          refine hu k'' p ?_ hc'' hs
          have h2 := handleKeyValue_alliance_get? hst hc''
          by_cases e : k'' = k'
          · subst e
            rw [hv]
            simp
          · rw [← h2.1 e]
            exact hp
        refine rangeKeyValues_keeps hk.contains _ _ _ h (hfr.2 rfl) ?_ hu1
        unfold handleKeyValue at hst
        simp only [hk.contains, if_true] at hst
        simp at hst
        subst hst
        exact foldAllianceKey_insert _ v hk.split
    · have hmem : k ∈ ks := by
        rcases List.mem_cons.mp hm with h1 | h1
        · exact absurd h1.symm e
        · exact h1
      split at h
      · exact ih _ _ h hv hmem hu
      · rename_i v' hv'
        split at h
        · simp at h
        · rename_i st1 hst
          have hfr := handleKeyValue_alliance_get? hst hk.contains
          have hu1 : SoleAllianceKey st1.msg k f s := by
            intro k'' p hp hc'' hs
            refine hu k'' p ?_ hc'' hs
            have h2 := handleKeyValue_alliance_get? hst hc''
            by_cases e2 : k'' = k'
            · subst e2
              rw [hv']
              simp
            · rw [← h2.1 e2]
              exact hp
          exact ih _ _ h (by rw [hfr.1 (Ne.symm e)]; exact hv) hmem hu1

/-- A key that contains `alliance_` and is visited is absent after the loop. -/
theorem rangeKeyValues_removes {ext : Extern} {k : String}
    (hc : strings.Contains k "alliance_" = true) :
    ∀ (ks : List String) (st st' : KeyValueState), rangeKeyValues ext ks st = some st' →
      (k ∈ ks ∨ st.msg.get? k = none) → st'.msg.get? k = none := by
  intro ks
  induction ks with
  | nil =>
    intro st st' h hm
    simp [rangeKeyValues] at h
    subst h
    simpa using hm
  | cons k' ks ih =>
    intro st st' h hm
    simp only [rangeKeyValues] at h
    split at h
    · rename_i hnone
      refine ih _ _ h ?_
      rcases hm with hm | hm
      · rcases List.mem_cons.mp hm with e | hm
        · subst e
          exact Or.inr hnone
        · exact Or.inl hm
      · exact Or.inr hm
    · rename_i v' hv'
      split at h
      · simp at h
      · rename_i st1 hst
        have hfr := handleKeyValue_alliance_get? hst hc
        refine ih _ _ h ?_
        by_cases e : k = k'
        · exact Or.inr (hfr.2 e)
        · rcases hm with hm | hm
          · rcases List.mem_cons.mp hm with e' | hm
            · exact absurd e' e
            · exact Or.inl hm
          · exact Or.inr (by rw [hfr.1 e]; exact hm)

theorem Record.mem_keys_of_get? {m : Record} {k : String} {v : Value} (h : m.get? k = some v) :
    k ∈ m.keys := by
  induction m with
  | nil => simp [Record.get?] at h
  | cons p m ih =>
    obtain ⟨a, w⟩ := p
    by_cases ha : a = k
    · simp [Record.keys, ha]
    · simp [Record.get?, ha] at h
      have := ih h
      simp only [Record.keys, List.map_cons, List.mem_cons]
      exact Or.inr this

/-- C9 (as amended): when the key-rewrite pass completes, an input key of the
form `alliance_<field>_<source>` (three parts between underscores) that the
pass visits has been removed; and when no other key of the record that
contains `alliance_` splits into three parts with the same field and source,
`alliance_data` is a mapping that maps the source to a mapping that maps the
field to the original value.  The keys `alliance_score_bit9`,
`alliance_link_bit9`, `alliance_data_bit9` are replaced by a single
`alliance_data` with source `bit9` and the fields `score`, `link`, `data`. -/
theorem handleKeyValues_alliance (ext : Extern) (order : List String) (m m' : Record)
    (k field source : String) (v a b c : Value) (hk : AllianceKey k field source)
    (hv : m.get? k = some v) (hord : k ∈ order)
    (h : handleKeyValuesIn ext order m = some m') :
    m'.get? k = none ∧
    (SoleAllianceKey m k field source → AllianceDataHolds m' field source v) ∧
    handleKeyValues ext
        [("alliance_score_bit9", a), ("alliance_link_bit9", b), ("alliance_data_bit9", c)] =
      some [("alliance_data", .srcs [("bit9", [("score", a), ("link", b), ("data", c)])])] := by
  refine ⟨?_, ?_, rfl⟩
  · unfold handleKeyValuesIn at h
    split at h
    · simp at h
    · rename_i st hst
      have hrm := rangeKeyValues_removes hk.contains order _ _ hst (Or.inl hord)
      split_ifs at h
      · simp at h
        subst h
        rw [Record.get?_set_ne _ _ (Ne.symm hk.ne_alliance_data)]
        exact hrm
      · simp at h
        subst h
        exact hrm
  · intro hu
    unfold handleKeyValuesIn at h
    split at h
    · simp at h
    · rename_i st hst
      obtain ⟨-, flds, hf1, hf2⟩ := rangeKeyValues_folds hk order _ _ hst hv hord hu
      have hlen : st.alliance_data_map.length > 0 := by
        cases hmap : st.alliance_data_map with
        | nil =>
          rw [hmap] at hf1
          simp [SourceMap.get?] at hf1
        | cons x xs => simp
      simp only [hlen, if_true] at h
      simp at h
      subst h
      exact ⟨st.alliance_data_map, flds, by simp [Record.get?_set], hf1, hf2⟩

/-- C9, witness: the pass on a record with the keys `alliance_score_bit9` and
`hostname`. -/
theorem handleKeyValues_alliance_witness :
    Record.get? [("hostname", .str "h"), ("alliance_data", .srcs [("bit9", [("score", .num "100")])])]
      "alliance_score_bit9" = none ∧
    AllianceDataHolds
      [("hostname", .str "h"), ("alliance_data", .srcs [("bit9", [("score", .num "100")])])]
      "score" "bit9" (.num "100") :=
  ⟨(handleKeyValues_alliance stubExtern ["alliance_score_bit9", "hostname"]
      [("alliance_score_bit9", .num "100"), ("hostname", .str "h")] _
      "alliance_score_bit9" "score" "bit9" (.num "100") .null .null .null
      ⟨rfl, by decide, by decide⟩ rfl (by decide) rfl).1,
   (handleKeyValues_alliance stubExtern ["alliance_score_bit9", "hostname"]
      [("alliance_score_bit9", .num "100"), ("hostname", .str "h")] _
      "alliance_score_bit9" "score" "bit9" (.num "100") .null .null .null
      ⟨rfl, by decide, by decide⟩ rfl (by decide) rfl).2.1 (by
        intro k' p hp hc _
        by_cases e1 : "alliance_score_bit9" = k'
        · exact e1.symm
        · by_cases e2 : "hostname" = k'
          · subst e2
            exact absurd hc (by decide)
          · simp [Record.get?, e1, e2] at hp)⟩

/-- C9, counterexample: with the keys `alliance_score_bit9` and
`xalliance_score_bit9`, visited in this order, the field `score` of source
`bit9` holds the value of the second key, not the original value of
`alliance_score_bit9`. -/
theorem handleKeyValues_alliance_collision :
    AllianceKey "alliance_score_bit9" "score" "bit9" ∧
    handleKeyValues stubExtern
        [("alliance_score_bit9", .num "1"), ("xalliance_score_bit9", .num "2")] =
      some [("alliance_data", .srcs [("bit9", [("score", .num "2")])])] ∧
    ¬ AllianceDataHolds [("alliance_data", .srcs [("bit9", [("score", .num "2")])])]
      "score" "bit9" (.num "1") := by
  refine ⟨⟨rfl, by decide, by decide⟩, rfl, ?_⟩
  rintro ⟨g, flds, h1, h2, h3⟩
  simp [Record.get?] at h1
  subst h1
  simp [SourceMap.get?] at h2
  subst h2
  simp [Record.get?] at h3

/-! ## The key-rewrite pass: a second pass -/

theorem toUpper_char_idem (c : Char) : c.toUpper.toUpper = c.toUpper := by
  by_cases h : c.toNat ≥ 97 ∧ c.toNat ≤ 122
  · have hc : c = Char.ofNat c.toNat := (Char.ofNat_toNat c).symm
    obtain ⟨h1, h2⟩ := h
    generalize c.toNat = n at hc h1 h2
    subst hc
    interval_cases n <;> decide
  · have : c.toUpper = c := by
      unfold Char.toUpper
      simp only [h, if_false]
    rw [this, this]

theorem toUpper_char_ascii (c : Char) (h : c.toNat < 128) : c.toUpper.toNat < 128 := by
  have hc : c = Char.ofNat c.toNat := (Char.ofNat_toNat c).symm
  generalize c.toNat = n at hc h
  subst hc
  interval_cases n <;> decide

/-- The law of `unicode.ToUpper`: the upper case of a rune is its own upper
case. -/
theorem unicode_ToUpper_idem (ext : Extern) (r : Char) :
    unicode.ToUpper ext.ToUpperRune (unicode.ToUpper ext.ToUpperRune r) =
      unicode.ToUpper ext.ToUpperRune r := by
  by_cases h : r.toNat < 128
  · have h2 := toUpper_char_ascii r h
    simp only [unicode.ToUpper, h, h2, if_true, toUpper_char_idem]
  · have e : unicode.ToUpper ext.ToUpperRune r = ext.ToUpperRune r := by
      simp only [unicode.ToUpper, h, if_false]
    rw [e]
    exact ext.ToUpperRune_idem r (Nat.le_of_not_lt h)

theorem ToUpper_idem (ext : Extern) (s : String) :
    strings.ToUpper ext (strings.ToUpper ext s) = strings.ToUpper ext s := by
  unfold strings.ToUpper
  simp [List.map_map, Function.comp_def, unicode_ToUpper_idem]

theorem Record.get?_of_set_eq {m : Record} {k : String} {x : Value} (h : m.set k x = m) :
    m.get? k = some x := by
  rw [← h]
  exact Record.get?_set_self _ _ _

/-- After its case of the `switch` has run, a key is stable. -/
theorem handleOtherKey_settles {ext : Extern} {msg msg1 : Record} {k : String} {v v1 : Value}
    (h : handleOtherKey ext msg k v = some msg1) (hv : msg.get? k = some v)
    (hv1 : msg1.get? k = some v1) : handleOtherKey ext msg1 k v1 = some msg1 := by
  have h0 := h
  -- the step that changes nothing
  have same : msg1 = msg → handleOtherKey ext msg1 k v1 = some msg1 := by
    intro e
    subst e
    rw [hv] at hv1
    cases hv1
    exact h0
  unfold handleOtherKey at h
  split_ifs at h with h1 h2 h3 h4 h5 h6 h7 h8
  · subst h1
    simp only at h
    split at h
    · simp at h
    · split at h
      · simp at h
        subst h
        simp [Record.get?_delete] at hv1
      · simp at h
  · subst h2
    simp at h
    subst h
    simp [Record.get?_delete] at hv1
  · subst h3
    simp at h
    subst h
    simp [Record.get?_delete] at hv1
  · subst h4
    simp at h
    subst h
    simp [Record.get?_delete] at hv1
  · subst h5
    simp at h
    subst h
    simp [Record.get?_delete] at hv1
  · split at h
    · rename_i md5
      split at h
      · simp at h
        subst h
        simp [Record.get?_set] at hv1
        subst hv1
        unfold handleOtherKey
        simp only [h1, h2, h3, h4, h5, h6, if_false, if_true]
        rw [ToUpper_idem, Record.set_eq_self _ _ _ (Record.get?_set_self _ _ _)]
        split <;> rfl
      · exact same (by simpa using h.symm)
    · exact same (by simpa using h.symm)
  · subst h7
    split at h
    · rename_i iocType
      split at h
      · rename_i md5 hmd5
        simp at h
        subst h
        simp [Record.get?_set] at hv1
        subst hv1
        unfold handleOtherKey
        simp only [h1, h2, h3, h4, h5, h6, if_false, if_true, Record.get?_set_self]
        rw [ToUpper_idem, Record.set_eq_self (Record.set iocType "md5" _) _ _
          (Record.get?_set_self _ _ _), Record.set_eq_self _ _ _ (Record.get?_set_self _ _ _)]
      · exact same (by simpa using h.symm)
    · simp at h
    · split at h
      · rename_i hq
        split at h
        · rename_i raw hraw
          split at h
          · rename_i iocValue hun
            split at h
            · rename_i idx q hpq
              simp at h
              subst h
              simp [Record.get?_set] at hv1
              rw [hv] at hv1
              simp at hv1
              subst hv1
              have hraw' : (((msg.set "ioc_query_index" (.str idx)).set "ioc_query_string"
                  (.str q)).get? "ioc_value") = some (.str raw) := by
                simp [Record.get?_set, hraw]
              unfold handleOtherKey
              simp only [h1, h2, h3, h4, h5, h6, if_false, if_true, hq, hraw', hun, hpq]
              have e1 : ((msg.set "ioc_query_index" (.str idx)).set "ioc_query_string"
                  (.str q)).set "ioc_query_index" (.str idx) =
                  (msg.set "ioc_query_index" (.str idx)).set "ioc_query_string" (.str q) :=
                Record.set_eq_self _ _ _ (by simp [Record.get?_set])
              rw [e1, Record.set_eq_self _ _ _ (Record.get?_set_self _ _ _)]
            · exact same (by simpa using h.symm)
          · exact same (by simpa using h.symm)
        · exact same (by simpa using h.symm)
      · exact same (by simpa using h.symm)
    · exact same (by simpa using h.symm)
  · split at h
    · split at h
      · rename_i ipaddr hp
        simp at h
        subst h
        simp [Record.get?_set] at hv1
        subst hv1
        unfold handleOtherKey
        simp only [h1, h2, h3, h4, h5, h6, h7, h8, if_false, if_true]
      · exact same (by simpa using h.symm)
    · exact same (by simpa using h.symm)
  · exact same (by simpa using h.symm)

/-- Whether a key is stable depends on its own value only and, for `ioc_type`,
on the fields of the query. -/
theorem handleOtherKey_agree {ext : Extern} {msg msg' : Record} {k : String} {v : Value}
    (hs : handleOtherKey ext msg k v = some msg) (hv : msg.get? k = some v)
    (hk : msg'.get? k = msg.get? k)
    (hioc : k = "ioc_type" → ∀ j ∈ ["ioc_value", "ioc_query_index", "ioc_query_string"],
      msg'.get? j = msg.get? j) :
    handleOtherKey ext msg' k v = some msg' := by
  -- a case that removes the key is not stable
  have gone : ∀ m0 : Record, m0.delete k = msg → False := by
    intro m0 e
    have := Record.get?_delete m0 k k
    rw [e, hv] at this
    simp at this
  unfold handleOtherKey at hs
  split_ifs at hs with h1 h2 h3 h4 h5 h6 h7 h8
  · subst h1
    simp only at hs
    split at hs
    · simp at hs
    · split at hs
      · simp at hs
        exact absurd hs (gone _)
      · simp at hs
  · subst h2
    simp at hs
    exact absurd hs (gone _)
  · subst h3
    simp at hs
    exact absurd hs (gone _)
  · subst h4
    simp at hs
    exact absurd hs (gone _)
  · subst h5
    simp at hs
    exact absurd hs (gone _)
  · unfold handleOtherKey
    simp only [h1, h2, h3, h4, h5, h6, if_false, if_true]
    split at hs
    · rename_i md5
      split at hs
      · rename_i hlen
        simp at hs
        have hg := Record.get?_of_set_eq hs
        simp only [hlen, if_true]
        rw [Record.set_eq_self _ _ _ (by rw [hk, hg])]
      · rename_i hlen
        simp only [hlen, if_false]
    · rfl
  · subst h7
    have hiocs := hioc rfl
    unfold handleOtherKey
    simp only [h1, h2, h3, h4, h5, h6, if_false, if_true]
    split at hs
    · rename_i iocType
      split at hs
      · rename_i md5 hmd5
        simp at hs
        have hg := Record.get?_of_set_eq hs
        rw [Record.set_eq_self _ _ _ (by rw [hk, hg])]
      · rfl
    · simp at hs
    · rename_i iocType
      split at hs
      · rename_i hq
        simp only [hq, if_true]
        rw [hiocs "ioc_value" (by simp)]
        split at hs
        · rename_i raw hraw
          split at hs
          · rename_i iocValue hun
            split at hs
            · rename_i idx q hpq
              simp at hs
              have g2 : msg.get? "ioc_query_string" = some (.str q) := by
                have := congrArg (fun m => Record.get? m "ioc_query_string") hs
                simpa [Record.get?_set] using this.symm
              have g1 : msg.get? "ioc_query_index" = some (.str idx) := by
                have := congrArg (fun m => Record.get? m "ioc_query_index") hs
                simpa [Record.get?_set] using this.symm
              rw [Record.set_eq_self msg' "ioc_query_index" _
                (by rw [hiocs "ioc_query_index" (by simp), g1]),
                Record.set_eq_self msg' "ioc_query_string" _
                (by rw [hiocs "ioc_query_string" (by simp), g2])]
            · rfl
          · rfl
        · rfl
      · rename_i hq
        simp only [hq, if_false]
    · rfl
  · unfold handleOtherKey
    simp only [h1, h2, h3, h4, h5, h6, h7, h8, if_false, if_true]
    split at hs
    · rename_i t
      split at hs
      · rename_i ipaddr hp
        simp at hs
        have hg := Record.get?_of_set_eq hs
        rw [hv] at hg
        simp at hg
      · rfl
    · rfl
  · unfold handleOtherKey
    simp only [h1, h2, h3, h4, h5, h6, h7, h8, if_false]


theorem Stable.of_absent (ext : Extern) {msg : Record} {k : String} (h : msg.get? k = none) :
    Stable ext msg k := by
  intro v hv
  rw [h] at hv
  simp at hv

theorem Stable.transfer {ext : Extern} {msg msg' : Record} {k : String}
    (hk : msg'.get? k = msg.get? k)
    (hioc : k = "ioc_type" → ∀ j ∈ ["ioc_value", "ioc_query_index", "ioc_query_string"],
      msg'.get? j = msg.get? j)
    (hs : Stable ext msg k) : Stable ext msg' k := by
  intro v hv
  have hv0 : msg.get? k = some v := by
    rw [← hk]
    exact hv
  obtain ⟨hc, h⟩ := hs v hv0
  exact ⟨hc, handleOtherKey_agree h hv0 hk hioc⟩

theorem special_not_written {k : String} (h : k ∈ specialKeys) : k ∉ writtenKeys := by
  simp only [specialKeys, List.mem_cons, List.mem_singleton, List.not_mem_nil, or_false] at h
  rcases h with rfl | rfl | rfl | rfl | rfl | rfl | rfl | rfl | rfl | rfl | rfl <;> decide

theorem written_not_alliance {k : String} (h : k ∈ writtenKeys) :
    strings.Contains k "alliance_" = false := by
  simp only [writtenKeys, List.mem_cons, List.mem_singleton, List.not_mem_nil, or_false] at h
  rcases h with rfl | rfl | rfl | rfl | rfl <;> decide

theorem ioc_not_alliance {j : String}
    (h : j ∈ ["ioc_value", "ioc_query_index", "ioc_query_string"]) :
    strings.Contains j "alliance_" = false := by
  simp only [List.mem_cons, List.mem_singleton, List.not_mem_nil, or_false] at h
  rcases h with rfl | rfl | rfl <;> decide

/-- One step of the loop settles the visited key and keeps the stable keys
stable. -/
theorem handleKeyValue_stable {ext : Extern} {st st1 : KeyValueState} {k' : String} {v' : Value}
    (h : handleKeyValue ext st k' v' = some st1) (hv' : st.msg.get? k' = some v') :
    ∀ k, (k = k' ∨ Stable ext st.msg k) → Stable ext st1.msg k := by
  unfold handleKeyValue at h
  split_ifs at h with hc
  · simp at h
    subst h
    intro k hk
    by_cases e : k = k'
    · subst e
      exact Stable.of_absent ext (by simp [Record.get?_delete])
    · rcases hk with hk | hk
      · exact absurd hk e
      · refine Stable.transfer ?_ ?_ hk
        · simp [Record.get?_delete, Ne.symm e]
        · intro _ j hj
          have hjk : k' ≠ j := by
            intro e2
            subst e2
            rw [ioc_not_alliance hj] at hc
            simp at hc
          simp [Record.get?_delete, hjk]
  · split at h
    · simp at h
    · rename_i msg1 hm
      simp at h
      subst h
      intro k hk
      by_cases e : k = k'
      · subst e
        intro v1 hv1
        exact ⟨by simpa using hc, handleOtherKey_settles hm hv' hv1⟩
      · rcases hk with hk | hk
        · exact absurd hk e
        · by_cases hs : k ∈ specialKeys
          · refine Stable.transfer ?_ ?_ hk
            · exact handleOtherKey_get? hm e (special_not_written hs)
            · intro e2 j hj
              exact handleOtherKey_ioc_get? hm (fun e3 => e (e2.trans e3.symm)) hj
          · intro v1 hv1
            refine ⟨?_, handleOtherKey_inert ext _ v1 hs⟩
            by_cases hw : k ∈ writtenKeys
            · exact written_not_alliance hw
            · have := handleOtherKey_get? hm e hw
              rw [this] at hv1
              exact (hk v1 hv1).1

/-- After the loop has visited every key, every key is stable. -/
theorem rangeKeyValues_stable {ext : Extern} :
    ∀ (ks : List String) (st st' : KeyValueState), rangeKeyValues ext ks st = some st' →
      (∀ k, k ∈ ks ∨ Stable ext st.msg k) → ∀ k, Stable ext st'.msg k := by
  intro ks
  induction ks with
  | nil =>
    intro st st' h hall k
    simp [rangeKeyValues] at h
    subst h
    rcases hall k with hk | hk
    · simp at hk
    · exact hk
  | cons k' ks ih =>
    intro st st' h hall
    simp only [rangeKeyValues] at h
    split at h
    · rename_i hnone
      refine ih _ _ h ?_
      intro k
      rcases hall k with hk | hk
      · rcases List.mem_cons.mp hk with e | hk
        · subst e
          exact Or.inr (Stable.of_absent ext hnone)
        · exact Or.inl hk
      · exact Or.inr hk
    · rename_i v' hv'
      split at h
      · simp at h
      · rename_i st1 hst
        refine ih _ _ h ?_
        intro k
        rcases hall k with hk | hk
        · rcases List.mem_cons.mp hk with e | hk
          · exact Or.inr (handleKeyValue_stable hst hv' k (Or.inl e))
          · exact Or.inl hk
        · exact Or.inr (handleKeyValue_stable hst hv' k (Or.inr hk))

theorem foldAllianceKey_alliance_data (amap : SourceMap) (v : Value) :
    foldAllianceKey amap "alliance_data" v = amap := by
  unfold foldAllianceKey
  have h2 : strings.Split "alliance_data" '_' = ["alliance", "data"] := by decide
  rw [h2]

/-- The loop over a message whose keys, `alliance_data` apart, are stable:
`alliance_data` is removed when it is visited, nothing else changes. -/
theorem rangeKeyValues_of_stable {ext : Extern} :
    ∀ (ks : List String) (msg : Record),
      (∀ k, k ≠ "alliance_data" → Stable ext msg k) →
      rangeKeyValues ext ks ⟨msg, []⟩ =
        some ⟨if "alliance_data" ∈ ks then msg.delete "alliance_data" else msg, []⟩ := by
  intro ks
  induction ks with
  | nil =>
    intro msg _
    simp [rangeKeyValues]
  | cons k ks ih =>
    intro msg hall
    simp only [rangeKeyValues]
    cases hv : msg.get? k with
    | none =>
      simp only
      rw [ih msg hall]
      by_cases e : k = "alliance_data"
      · subst e
        simp [Record.delete_eq_self _ _ hv]
      · have e' : ¬ "alliance_data" = k := fun x => e x.symm
        simp [List.mem_cons, e']
    | some v =>
      simp only
      by_cases e : k = "alliance_data"
      · subst e
        have hstep : handleKeyValue ext ⟨msg, []⟩ "alliance_data" v =
            some ⟨msg.delete "alliance_data", []⟩ := by
          unfold handleKeyValue
          have hc : strings.Contains "alliance_data" "alliance_" = true := by decide
          simp only [hc, if_true, foldAllianceKey_alliance_data]
        rw [hstep]
        simp only
        rw [ih (msg.delete "alliance_data") ?_]
        · have hd : (msg.delete "alliance_data").delete "alliance_data" =
              msg.delete "alliance_data" :=
            Record.delete_eq_self _ _ (by simp [Record.get?_delete])
          simp [hd]
        · intro k hk
          refine Stable.transfer ?_ ?_ (hall k hk)
          · simp [Record.get?_delete, Ne.symm hk]
          · intro _ j hj
            have hjk : "alliance_data" ≠ j := by
              intro e2
              subst e2
              exact absurd (ioc_not_alliance hj) (by decide)
            simp [Record.get?_delete, hjk]
      · obtain ⟨hc, hstep⟩ := hall k e v hv
        have hstep' : handleKeyValue ext ⟨msg, []⟩ k v = some ⟨msg, []⟩ := by
          unfold handleKeyValue
          simp only [hc, hstep]
          simp
        rw [hstep']
        simp only
        rw [ih msg hall]
        have e' : ¬ "alliance_data" = k := fun x => e x.symm
        simp [List.mem_cons, e']

/-- C10 (as amended): when the key-rewrite pass over all keys of a record
completes, a second pass over all keys of the rewritten record completes as
well and removes the `alliance_data` field that the first pass attached,
changing nothing else; so the pass is idempotent exactly on the records whose
first pass attached no `alliance_data`. -/
theorem handleKeyValues_twice (ext : Extern) (order₁ order₂ : List String) (m m₁ : Record)
    (hcov₁ : ∀ k, m.get? k ≠ none → k ∈ order₁)
    (h : handleKeyValuesIn ext order₁ m = some m₁)
    (hcov₂ : ∀ k, m₁.get? k ≠ none → k ∈ order₂) :
    handleKeyValuesIn ext order₂ m₁ = some (m₁.delete "alliance_data") ∧
    (m₁.get? "alliance_data" = none → handleKeyValuesIn ext order₂ m₁ = some m₁) := by
  have main : handleKeyValuesIn ext order₂ m₁ = some (m₁.delete "alliance_data") := by
    unfold handleKeyValuesIn at h
    split at h
    · simp at h
    · rename_i st hst
      have hst' : ∀ k, Stable ext st.msg k := by
        refine rangeKeyValues_stable order₁ _ _ hst ?_
        intro k
        cases hk : m.get? k with
        | none => exact Or.inr (Stable.of_absent ext hk)
        | some v => exact Or.inl (hcov₁ k (by rw [hk]; simp))
      have hm₁ : ∀ k, k ≠ "alliance_data" → Stable ext m₁ k := by
        intro k hk
        split_ifs at h
        · simp at h
          subst h
          refine Stable.transfer ?_ ?_ (hst' k)
          · simp [Record.get?_set, Ne.symm hk]
          · intro _ j hj
            have hjk : "alliance_data" ≠ j := by
              intro e2
              subst e2
              exact absurd (ioc_not_alliance hj) (by decide)
            simp [Record.get?_set, hjk]
        · simp at h
          subst h
          exact hst' k
      unfold handleKeyValuesIn
      rw [rangeKeyValues_of_stable order₂ m₁ hm₁]
      simp only [List.length_nil, gt_iff_lt, lt_self_iff_false, if_false]
      by_cases hin : "alliance_data" ∈ order₂
      · simp [hin]
      · have hnone : m₁.get? "alliance_data" = none := by
          by_contra hne
          exact hin (hcov₂ _ hne)
        simp [hin, Record.delete_eq_self _ _ hnone]
  refine ⟨main, ?_⟩
  intro hnone
  rw [main, Record.delete_eq_self _ _ hnone]

/-- C10, witness: a record with a lower-case MD5 and a `timestamp`; the second
pass leaves the rewritten record as it is. -/
theorem handleKeyValues_twice_witness :
    handleKeyValuesIn stubExtern ["md5", "event_timestamp"]
        [("md5", .str "D41D8CD98F00B204E9800998ECF8427E"), ("event_timestamp", .num "5")] =
      some (Record.delete
        [("md5", .str "D41D8CD98F00B204E9800998ECF8427E"), ("event_timestamp", .num "5")]
        "alliance_data") ∧
    (Record.get?
        [("md5", .str "D41D8CD98F00B204E9800998ECF8427E"), ("event_timestamp", .num "5")]
        "alliance_data" = none →
      handleKeyValuesIn stubExtern ["md5", "event_timestamp"]
        [("md5", .str "D41D8CD98F00B204E9800998ECF8427E"), ("event_timestamp", .num "5")] =
      some [("md5", .str "D41D8CD98F00B204E9800998ECF8427E"), ("event_timestamp", .num "5")]) :=
  handleKeyValues_twice stubExtern ["md5", "timestamp"] ["md5", "event_timestamp"]
    [("md5", .str "d41d8cd98f00b204e9800998ecf8427e"), ("timestamp", .num "5")]
    [("md5", .str "D41D8CD98F00B204E9800998ECF8427E"), ("event_timestamp", .num "5")]
    (by
      intro k hk
      by_cases e1 : "md5" = k
      · simp [← e1]
      · by_cases e2 : "timestamp" = k
        · simp [← e2]
        · simp [Record.get?, e1, e2] at hk)
    rfl
    (by
      intro k hk
      by_cases e1 : "md5" = k
      · simp [← e1]
      · by_cases e2 : "event_timestamp" = k
        · simp [← e2]
        · simp [Record.get?, e1, e2] at hk)

/-- C10, counterexample: the first pass on a record with the key
`alliance_score_bit9` attaches `alliance_data`; the second pass removes it, so
the second result differs from the first. -/
theorem handleKeyValues_not_idempotent :
    handleKeyValues stubExtern [("alliance_score_bit9", .num "100")] =
      some [("alliance_data", .srcs [("bit9", [("score", .num "100")])])] ∧
    handleKeyValues stubExtern [("alliance_data", .srcs [("bit9", [("score", .num "100")])])] =
      some [] ∧
    handleKeyValues stubExtern [("alliance_data", .srcs [("bit9", [("score", .num "100")])])] ≠
      some [("alliance_data", .srcs [("bit9", [("score", .num "100")])])] := by
  refine ⟨rfl, rfl, ?_⟩
  intro h
  have h2 : handleKeyValues stubExtern
      [("alliance_data", .srcs [("bit9", [("score", .num "100")])])] = some [] := rfl
  rw [h2] at h
  simp at h

/-! ## A panic in `copyAllianceInformation` -/

/-- C5: on the routing key `feed.storage.hit.process`, a record with the key
`alliance_x` (two parts between underscores) and one sub-document makes
`ProcessJSONMessage` panic: `copyAllianceInformation` indexes the third part of
the key without the length check that `handleKeyValues` makes. -/
theorem ProcessJSONMessage_alliance_panic (ext : Extern) (cfg : Config) :
    ProcessJSONMessage ext (NewJSONProcessor ext cfg)
      [("alliance_x", .num "1"), ("docs", .arr [.obj []])] "feed.storage.hit.process" = none :=
  rfl

/-- C2: on the routing key `feed.storage.hit.process`, a record with the key
`alliance_score` whose `docs` holds two sub-documents and one string makes the
handler panic instead of returning two records. -/
theorem feedStorageHitProcess_docs_panic (ext : Extern) (cfg : Config) :
    ProcessJSONMessage ext (NewJSONProcessor ext cfg)
      [("alliance_score", .num "5"), ("docs", .arr [.obj [], .str "x", .obj []])]
      "feed.storage.hit.process" = none :=
  rfl

/-! ## Handlers that explode `docs` -/

theorem rangeDocs_skip (body : Record → Option Record) (d : Value) (docs : List Value)
    (acc : List Record) (hd : ∀ s, d ≠ Value.obj s) :
    rangeDocs body (d :: docs) acc = rangeDocs body docs acc ∧
      recordsOf (d :: docs) = recordsOf docs := by
  cases d with
  | obj s => exact absurd rfl (hd s)
  | _ => exact ⟨by simp [rangeDocs], by simp [recordsOf]⟩

theorem rangeDocs_eq {body : Record → Option Record} :
    ∀ (docs : List Value) (acc : List Record),
      (∀ sub ∈ recordsOf docs, ∃ r, body sub = some r) →
      ∃ outs, rangeDocs body docs acc = some (acc ++ outs) ∧
        List.Forall₂ (fun sub r => body sub = some r) (recordsOf docs) outs := by
  intro docs
  induction docs with
  | nil =>
    intro acc _
    exact ⟨[], by simp [rangeDocs], by simp [recordsOf]⟩
  | cons d docs ih =>
    intro acc hall
    by_cases hd : ∃ s, d = Value.obj s
    · obtain ⟨sub, rfl⟩ := hd
      have hrec : recordsOf (Value.obj sub :: docs) = sub :: recordsOf docs := by
        simp [recordsOf]
      rw [hrec] at hall ⊢
      obtain ⟨r, hr⟩ := hall sub (List.mem_cons_self _ _)
      obtain ⟨outs, h1, h2⟩ := ih (acc ++ [r]) (fun s hs => hall s (List.mem_cons_of_mem _ hs))
      refine ⟨r :: outs, ?_, List.Forall₂.cons hr h2⟩
      simp only [rangeDocs, hr, h1]
      simp
    · obtain ⟨e1, e2⟩ := rangeDocs_skip body d docs acc (fun s e => hd ⟨s, e⟩)
      rw [e2] at hall ⊢
      rw [e1]
      exact ih acc hall

theorem explodeDocs_eq {body : Record → Option Record} (inmsg : Record)
    (hall : ∀ sub ∈ subDocuments inmsg, ∃ r, body sub = some r) :
    ∃ outs, explodeDocs inmsg body = some outs ∧
      List.Forall₂ (fun sub r => body sub = some r) (subDocuments inmsg) outs := by
  unfold explodeDocs
  split
  · rename_i subdocs hd
    have hs : subDocuments inmsg = recordsOf subdocs := by simp [subDocuments, hd]
    rw [hs] at hall ⊢
    obtain ⟨outs, h1, h2⟩ := rangeDocs_eq subdocs [] hall
    exact ⟨outs, by simpa using h1, h2⟩
  · rename_i hn
    have hs : subDocuments inmsg = [] := by
      unfold subDocuments
      split
      · rename_i subdocs hd
        exact absurd hd (hn subdocs)
      · rfl
    rw [hs]
    exact ⟨[], rfl, List.Forall₂.nil⟩

theorem Record.get?_nil (k : String) : Record.get? [] k = none := rfl

theorem forall₂_mem_right {α β : Type} {R : α → β → Prop} {l1 : List α} {l2 : List β}
    (h : List.Forall₂ R l1 l2) : ∀ b ∈ l2, ∃ a ∈ l1, R a b := by
  induction h with
  | nil => simp
  | cons hab _ ih =>
    intro b hb
    rcases List.mem_cons.mp hb with e | e
    · subst e
      exact ⟨_, List.mem_cons_self _ _, hab⟩
    · obtain ⟨a, ha, hr⟩ := ih b e
      exact ⟨a, List.mem_cons_of_mem _ ha, hr⟩

theorem forall₂_chain {α β γ : Type} {R : α → β → Prop} {S : β → γ → Prop} {l1 : List α}
    {l2 : List β} (h : List.Forall₂ R l1 l2) :
    ∀ {l3 : List γ}, List.Forall₂ S l2 l3 →
      List.Forall₂ (fun a c => ∃ b, R a b ∧ S b c) l1 l3 := by
  induction h with
  | nil =>
    intro l3 h3
    cases h3
    exact List.Forall₂.nil
  | cons hab _ ih =>
    intro l3 h3
    cases h3 with
    | cons hcd hrest => exact List.Forall₂.cons ⟨_, hab, hcd⟩ (ih hrest)

theorem addLinksToMessages_forall₂ {ext : Extern} {jsp : JsonMessageProcessor} :
    ∀ {outs outs' : List Record}, addLinksToMessages ext jsp outs = some outs' →
      List.Forall₂ (fun r r' => addLinksToMessage ext jsp r = some r') outs outs' := by
  intro outs
  induction outs with
  | nil =>
    intro outs' h
    simp [addLinksToMessages] at h
    subst h
    exact List.Forall₂.nil
  | cons r outs ih =>
    intro outs' h
    simp only [addLinksToMessages] at h
    split at h
    · simp at h
    · rename_i r' hr
      split at h
      · simp at h
      · rename_i rest hrest
        simp at h
        subst h
        exact List.Forall₂.cons hr (ih hrest)

theorem guidOk_watchlistHitProcessDoc (ext : Extern) (inmsg sub : Record) :
    GuidOk (watchlistHitProcessDoc ext inmsg sub) := by
  constructor <;>
    simp [watchlistHitProcessDoc, copySensorMetadata, copyProcessMetadata,
      copyParentMetadata, copyEventCounts, eventCountKeys, Record.get?_set]

theorem guidOk_watchlistStorageHitProcessDoc (ext : Extern) (inmsg sub : Record) :
    GuidOk (watchlistStorageHitProcessDoc ext inmsg sub) := by
  constructor <;>
    simp [watchlistStorageHitProcessDoc, copyProcessMetadata,
      copyParentMetadata, copyEventCounts, eventCountKeys, Record.get?_set]

theorem guidOk_watchlistHitBinaryDoc (inmsg sub : Record) :
    GuidOk (watchlistHitBinaryDoc inmsg sub) := by
  constructor <;>
    simp [watchlistHitBinaryDoc, copyBinaryMetadata, copyObject_get?, Record.get?_set,
      Record.get?_nil]

theorem guidOk_watchlistStorageHitBinaryDoc (inmsg sub : Record) :
    GuidOk (watchlistStorageHitBinaryDoc inmsg sub) := by
  unfold watchlistStorageHitBinaryDoc
  constructor <;>
    · simp only
      split <;> simp [copyBinaryMetadata, Record.get?_set, Record.get?_nil]

theorem guidOk_feedStorageHitProcessDoc {ext : Extern} {t : String} {inmsg sub r : Record}
    (h : feedStorageHitProcessDoc ext t inmsg sub = some r) : GuidOk r := by
  unfold feedStorageHitProcessDoc at h
  simp only at h
  split at h
  · simp at h
  · simp at h
    subst h
    constructor <;>
      simp [copyProcessMetadata, copyParentMetadata, copyEventCounts, eventCountKeys,
        Record.get?_set]

theorem guidOk_docRecord {ext : Extern} {t : String} {inmsg sub r : Record}
    (h : docRecord ext t inmsg sub = some r) : GuidOk r := by
  unfold docRecord at h
  split_ifs at h
  · simp at h
    subst h
    exact guidOk_watchlistHitProcessDoc ext inmsg sub
  · simp at h
    subst h
    exact guidOk_watchlistStorageHitProcessDoc ext inmsg sub
  · simp at h
    subst h
    exact guidOk_watchlistHitBinaryDoc inmsg sub
  · simp at h
    subst h
    exact guidOk_watchlistStorageHitBinaryDoc inmsg sub
  · exact guidOk_feedStorageHitProcessDoc h

/-- The handler registered for a docs-exploding type runs the loop over `docs`
with `docRecord` as its body. -/
theorem docs_lookup (ext : Extern) (cfg : Config) {t : String} (ht : t ∈ docsTypes) :
    fixupMessageType t = t ∧
    ∃ h, lookupHandler (NewJSONProcessor ext cfg).messageHandlers t = some h ∧
      ∀ inmsg, h t inmsg =
        match explodeDocs inmsg (docRecord ext t inmsg) with
        | none => none
        | some outmsgs => some (outmsgs, none) := by
  simp only [docsTypes, List.mem_cons, List.mem_singleton, List.not_mem_nil, or_false] at ht
  rcases ht with rfl | rfl | rfl | rfl | rfl | rfl
  · exact ⟨by decide, _, rfl, fun _ => rfl⟩
  · exact ⟨by decide, _, rfl, fun _ => rfl⟩
  · exact ⟨by decide, _, rfl, fun _ => rfl⟩
  · exact ⟨by decide, _, rfl, fun _ => rfl⟩
  · exact ⟨by decide, _, rfl, fun _ => rfl⟩
  · exact ⟨by decide, _, rfl, fun _ => rfl⟩

/-- The docs-exploding handlers, when no sub-document makes them panic: one
record per element of `docs` that is a record, in the order of `docs`, each
the record built from that element with its links added; no record when `docs`
is absent or not a sequence. -/
theorem docs_explode (ext : Extern) (cfg : Config) (msg : Record) (t : String)
    (ht : t ∈ docsTypes)
    (hok : ∀ sub ∈ subDocuments msg, ∃ r, docRecord ext t msg sub = some r) :
    ∃ outs, ProcessJSONMessage ext (NewJSONProcessor ext cfg) msg t = some (outs, none) ∧
      List.Forall₂
        (fun sub r => ∃ r0, docRecord ext t msg sub = some r0 ∧
          addLinksToMessage ext (NewJSONProcessor ext cfg) r0 = some r)
        (subDocuments msg) outs := by
  obtain ⟨hfix, h, hl, hh⟩ := docs_lookup ext cfg ht
  obtain ⟨outs0, h1, h2⟩ := explodeDocs_eq msg hok
  have hg : ∀ r ∈ outs0, GuidOk r := by
    intro r hr
    obtain ⟨sub, -, hsub⟩ := forall₂_mem_right h2 r hr
    exact guidOk_docRecord hsub
  obtain ⟨outs, hlink⟩ := addLinksToMessages_isSome ext (NewJSONProcessor ext cfg) outs0 hg
  refine ⟨outs, ?_, forall₂_chain h2 (addLinksToMessages_forall₂ hlink)⟩
  unfold ProcessJSONMessage
  simp only [hfix, hl, hh, h1, hlink]

theorem allianceSources_isSome :
    ∀ (keys sources : List String),
      (∀ k ∈ keys, strings.HasPrefix k "alliance_" = true → 3 ≤ (strings.Split k '_').length) →
      ∃ out, allianceSources keys sources = some out := by
  intro keys
  induction keys with
  | nil => exact fun sources _ => ⟨sources, rfl⟩
  | cons k keys ih =>
    intro sources h
    have hk := h k (List.mem_cons_self _ _)
    have hrest : ∀ k' ∈ keys, strings.HasPrefix k' "alliance_" = true →
        3 ≤ (strings.Split k' '_').length := fun k' hk' => h k' (List.mem_cons_of_mem _ hk')
    unfold allianceSources
    by_cases hp : strings.HasPrefix k "alliance_" = true
    · simp only [hp, if_true]
      have hlen := hk hp
      match hs : strings.Split k '_', hlen with
      | a :: b :: c :: rest, _ =>
        simp only
        exact ih _ hrest
    · simp only [hp]
      exact ih _ hrest

theorem allianceEntry_isSome {msg : Record} (hns : NoStringSlices msg) (source : String) :
    ∃ temp, allianceEntry msg source = some temp := by
  unfold allianceEntry
  simp only
  cases hv : msg.get? ("alliance_data_" ++ source) with
  | none => exact ⟨_, rfl⟩
  | some v =>
    cases v with
    | strs l => exact absurd hv (hns _ _)
    | _ => exact ⟨_, rfl⟩

theorem allianceEntries_isSome {msg : Record} (hns : NoStringSlices msg) :
    ∀ (sources : List String) (acc : List Record),
      ∃ out, allianceEntries msg sources acc = some out := by
  intro sources
  induction sources with
  | nil => exact fun acc => ⟨acc, rfl⟩
  | cons s sources ih =>
    intro acc
    obtain ⟨temp, ht⟩ := allianceEntry_isSome hns s
    obtain ⟨out, ho⟩ := ih (acc ++ [temp])
    exact ⟨out, by simp only [allianceEntries, ht, ho]⟩

theorem copyAllianceInformation_isSome {msg : Record} (hwf : AllianceKeysWellFormed msg)
    (hns : NoStringSlices msg) (o : Record) : ∃ o', copyAllianceInformation msg o = some o' := by
  obtain ⟨srcs, h1⟩ := allianceSources_isSome msg.keys [] hwf
  obtain ⟨l, h2⟩ := allianceEntries_isSome hns srcs []
  exact ⟨o.set "alliance_data" (.objs l), by simp only [copyAllianceInformation, h1, h2]⟩

/-- Building the record of a sub-document panics for `feed.storage.hit.process`
only, and there only on a malformed alliance key (or a `[]string` field). -/
theorem docRecord_isSome (ext : Extern) (t : String) (msg sub : Record)
    (h : t = "feed.storage.hit.process" → AllianceKeysWellFormed msg ∧ NoStringSlices msg) :
    ∃ r, docRecord ext t msg sub = some r := by
  unfold docRecord
  split_ifs with h1 h2 h3 h4
  · exact ⟨_, rfl⟩
  · exact ⟨_, rfl⟩
  · exact ⟨_, rfl⟩
  · exact ⟨_, rfl⟩
  · unfold feedStorageHitProcessDoc
    simp only
    by_cases ht : t = "feed.storage.hit.process"
    · obtain ⟨hwf, hns⟩ := h ht
      obtain ⟨o', ho⟩ := copyAllianceInformation_isSome hwf hns
        ((((((((Record.set [] "type" (.str t)).set "schema_version" (.int 2)).set "feed_name"
          (.str (getString msg "feed_name" ""))).set "feed_id"
          (.num (getNumber msg "feed_id" "0"))).set "cb_version"
          (.str (getString msg "cb_version" ""))).set "event_timestamp"
          (.num (getNumber msg "event_timestamp" "0"))).set "report_id"
          (.str (getString msg "report_id" ""))).set "report_score"
          (.num (getNumber msg "report_score" "0")))
      simp only [ht, if_true] at ho ⊢
      rw [ho]
      exact ⟨_, rfl⟩
    · simp only [ht, if_false]
      exact ⟨_, rfl⟩

/-- The docs-exploding handlers on the records that do not trigger the panic of
`copyAllianceInformation`: as `docs_explode`, without a side condition for the
five types other than `feed.storage.hit.process`. -/
theorem docs_explode_wellFormed (ext : Extern) (cfg : Config) (msg : Record) (t : String)
    (ht : t ∈ docsTypes)
    (h : t = "feed.storage.hit.process" → AllianceKeysWellFormed msg ∧ NoStringSlices msg) :
    ∃ outs, ProcessJSONMessage ext (NewJSONProcessor ext cfg) msg t = some (outs, none) ∧
      outs.length = (subDocuments msg).length ∧
      List.Forall₂
        (fun sub r => ∃ r0, docRecord ext t msg sub = some r0 ∧
          addLinksToMessage ext (NewJSONProcessor ext cfg) r0 = some r)
        (subDocuments msg) outs := by
  obtain ⟨outs, h1, h2⟩ := docs_explode ext cfg msg t ht
    (fun sub _ => docRecord_isSome ext t msg sub h)
  exact ⟨outs, h1, h2.length_eq.symm, h2⟩

/-- The example of the specification: three sub-documents and one malformed
element of `docs` give three `watchlist.hit.process` records. -/
theorem watchlistHitProcess_three_of_four (ext : Extern) (cfg : Config) :
    ∃ r1 r2 r3, ProcessJSONMessage ext (NewJSONProcessor ext cfg)
      [("docs", .arr [.obj [("process_name", .str "a")], .num "7",
        .obj [("process_name", .str "b")], .obj [("process_name", .str "c")]])]
      "watchlist.hit.process" = some ([r1, r2, r3], none) := by
  obtain ⟨outs, h1, h2, -⟩ := docs_explode_wellFormed ext cfg
    [("docs", .arr [.obj [("process_name", .str "a")], .num "7",
      .obj [("process_name", .str "b")], .obj [("process_name", .str "c")]])]
    "watchlist.hit.process" (by decide) (fun e => absurd e (by decide))
  have h3 : outs.length = 3 := h2
  match outs, h3 with
  | [r1, r2, r3], _ => exact ⟨r1, r2, r3, h1⟩


/-! ## Where `ProcessJSONMessage` completes -/

theorem ProcessJSONMessage_congr (ext : Extern) (jsp : JsonMessageProcessor) (msg : Record)
    {rk rk' : String} (h : fixupMessageType rk = fixupMessageType rk') :
    ProcessJSONMessage ext jsp msg rk = ProcessJSONMessage ext jsp msg rk' := by
  unfold ProcessJSONMessage
  simp only [h]

theorem guidOk_feedIngressHitProcess (t : String) (msg : Record) :
    ∃ r0, feedIngressHitProcess t msg = some ([r0], none) ∧ GuidOk r0 := by
  refine ⟨_, rfl, ?_⟩
  constructor <;> simp [copyFeedSensorMetadata, Record.get?_set, Record.get?_nil]

theorem guidOk_binarystoreFileAdded (t : String) (msg : Record) :
    ∃ r0, binarystoreFileAdded t msg = some ([r0], none) ∧ GuidOk r0 := by
  refine ⟨_, rfl, ?_⟩
  constructor <;> simp [Record.get?_set, Record.get?_nil]

theorem guidOk_binaryinfoObserved (t : String) (msg : Record) :
    ∃ r0, binaryinfoObserved t msg = some ([r0], none) ∧ GuidOk r0 := by
  refine ⟨_, rfl, ?_⟩
  constructor <;>
    · simp only
      split
      · simp [copyObject_get?, Record.get?_set, Record.get?_nil]
      · split <;> simp [copyObject_get?, Record.get?_set, Record.get?_nil]

/-- The handlers that return one record on every message. -/
theorem single_lookup (ext : Extern) (cfg : Config) {t : String}
    (ht : t ∈ ["feed.ingress.hit.process", "binarystore.file.added", "binaryinfo.observed",
      "binaryinfo.host.observed", "binaryinfo.group.observed"]) :
    ∃ h, lookupHandler (NewJSONProcessor ext cfg).messageHandlers t = some h ∧
      ∀ msg, ∃ r0, h t msg = some ([r0], none) ∧ GuidOk r0 := by
  simp only [List.mem_cons, List.mem_singleton, List.not_mem_nil, or_false] at ht
  rcases ht with rfl | rfl | rfl | rfl | rfl
  · exact ⟨_, rfl, guidOk_feedIngressHitProcess _⟩
  · exact ⟨_, rfl, guidOk_binarystoreFileAdded _⟩
  · exact ⟨_, rfl, guidOk_binaryinfoObserved _⟩
  · exact ⟨_, rfl, guidOk_binaryinfoObserved _⟩
  · exact ⟨_, rfl, guidOk_binaryinfoObserved _⟩

/-- Apart from the panic of `copyAllianceInformation`, `ProcessJSONMessage`
completes on every routing key and record, with records and no error or with
an error and no record. -/
theorem ProcessJSONMessage_completes (ext : Extern) (cfg : Config) (msg : Record)
    (rk : String)
    (h : fixupMessageType rk = "feed.storage.hit.process" →
      AllianceKeysWellFormed msg ∧ NoStringSlices msg) :
    ∃ outs err, ProcessJSONMessage ext (NewJSONProcessor ext cfg) msg rk = some (outs, err) ∧
      (err ≠ none → outs = []) := by
  by_cases hd : fixupMessageType rk ∈ docsTypes
  · obtain ⟨hfix, -⟩ := docs_lookup ext cfg hd
    obtain ⟨outs, h1, -⟩ := docs_explode_wellFormed ext cfg msg _ hd h
    rw [← ProcessJSONMessage_congr ext _ msg hfix.symm] at h1
    exact ⟨outs, none, h1, fun e => absurd rfl e⟩
  · by_cases ha : fixupMessageType rk ∈ alertTypes
    · obtain ⟨hfix, -⟩ := alert_lookup ext cfg ha
      obtain ⟨h1, h2⟩ := alert_outcome ext cfg msg _ ha
      rw [← ProcessJSONMessage_congr ext _ msg hfix.symm] at h1 h2
      by_cases hu : FeedIdUnparseable msg
      · obtain ⟨e, he⟩ := h1 hu
        exact ⟨[], some e, he, fun _ => rfl⟩
      · obtain ⟨r, hr⟩ := h2 hu
        exact ⟨[r], none, hr, fun e => absurd rfl e⟩
    · by_cases hs : fixupMessageType rk ∈ ["feed.ingress.hit.process",
          "binarystore.file.added", "binaryinfo.observed", "binaryinfo.host.observed",
          "binaryinfo.group.observed"]
      · obtain ⟨hh, hl, hall⟩ := single_lookup ext cfg hs
        obtain ⟨r0, hr0, hg⟩ := hall msg
        obtain ⟨r, hr, -⟩ := ProcessJSONMessage_single ext cfg msg rk hl hr0 hg
        exact ⟨[r], none, hr, fun e => absurd rfl e⟩
      · refine ⟨[], none, ?_, fun e => absurd rfl e⟩
        unfold ProcessJSONMessage
        simp only
        rw [lookupHandler_none]
        rw [messageHandlers_keys]
        intro hreg
        simp only [registeredTypes, List.mem_cons, List.mem_singleton, List.not_mem_nil,
          or_false] at hreg
        simp only [docsTypes, alertTypes, List.mem_cons, List.mem_singleton, List.not_mem_nil,
          or_false, not_or] at hd ha hs
        obtain ⟨d1, d2, d3, d4, d5, d6⟩ := hd
        obtain ⟨a1, a2, a3, a4, a5⟩ := ha
        obtain ⟨s1, s2, s3, s4, s5⟩ := hs
        rcases hreg with e | e | e | e | e | e | e | e | e | e | e | e | e | e | e | e <;>
          first
            | exact d1 e | exact d2 e | exact d3 e | exact d4 e | exact d5 e | exact d6 e
            | exact a1 e | exact a2 e | exact a3 e | exact a4 e | exact a5 e
            | exact s1 e | exact s2 e | exact s3 e | exact s4 e | exact s5 e

/-! ## Field extraction -/

theorem getString_of_str {m : Record} {k s : String} (dv : String)
    (h : m.get? k = some (.str s)) : getString m k dv = s := by
  simp [getString, h]

theorem getString_default {m : Record} {k : String} (dv : String)
    (h : ∀ s, m.get? k ≠ some (.str s)) : getString m k dv = dv := by
  unfold getString
  split
  · rename_i strval hv
    exact absurd hv (h strval)
  · rfl

/-- C19: `getString` returns the stored value when the key holds a string and
the default otherwise; `getNumber` returns the stored number, as its text, when
the key holds a number and the default otherwise; `getBool` returns the stored
boolean when the key holds a boolean and the nil interface otherwise, which is
not the boolean false.  The accessors return a value only: they have no access
to the record beyond reading it. -/
theorem accessors_spec (m : Record) (k dv : String) :
    (∀ s, m.get? k = some (.str s) → getString m k dv = s) ∧
    ((∀ s, m.get? k ≠ some (.str s)) → getString m k dv = dv) ∧
    (∀ t, m.get? k = some (.num t) → getNumber m k dv = t) ∧
    ((∀ t, m.get? k ≠ some (.num t)) → getNumber m k dv = dv) ∧
    (∀ b, m.get? k = some (.bool b) → getBool m k = .bool b) ∧
    ((∀ b, m.get? k ≠ some (.bool b)) → getBool m k = .null) ∧
    Value.null ≠ Value.bool false := by
  refine ⟨fun s h => getString_of_str dv h, getString_default dv,
    fun t h => getNumber_of_num dv h, getNumber_default dv, ?_, ?_, by simp⟩
  · intro b h
    simp [getBool, h]
  · intro h
    unfold getBool
    split
    · rename_i b hv
      exact absurd hv (h b)
    · rfl

/-- C19, witness: the accessors on a record with a string, a number and a
boolean. -/
theorem accessors_spec_witness :
    getString [("name", .str "x"), ("n", .num "5"), ("b", .bool false)] "name" "d" = "x" ∧
    getNumber [("name", .str "x"), ("n", .num "5"), ("b", .bool false)] "n" "0" = "5" ∧
    getNumber [("name", .str "x"), ("n", .num "5"), ("b", .bool false)] "name" "0" = "0" ∧
    getBool [("name", .str "x"), ("n", .num "5"), ("b", .bool false)] "b" = .bool false :=
  ⟨(accessors_spec [("name", .str "x"), ("n", .num "5"), ("b", .bool false)] "name" "d").1
      "x" rfl,
    (accessors_spec [("name", .str "x"), ("n", .num "5"), ("b", .bool false)] "n" "0").2.2.1
      "5" rfl,
    (accessors_spec [("name", .str "x"), ("n", .num "5"), ("b", .bool false)] "name"
      "0").2.2.2.1 (fun t h => by simp [Record.get?] at h),
    (accessors_spec [("name", .str "x"), ("n", .num "5"), ("b", .bool false)] "b"
      "").2.2.2.2.1 false rfl⟩

/-- C20 (as amended): `getIPAddress` returns the stored string when the value is
a string; when the value is a number whose text parses as a base-10 signed
32-bit integer it returns the result of the signed-to-IPv4 decoder on that
integer; it returns the default when the key is absent, when the value is
neither a number nor a string, and when the value is a number that does not
parse as a signed 32-bit integer. -/
theorem getIPAddress_spec (ext : Extern) (m : Record) (k dv : String) :
    (∀ s, m.get? k = some (.str s) → getIPAddress ext m k dv = s) ∧
    (∀ t n, m.get? k = some (.num t) → strconv.ParseInt t 32 = (n, none) →
      getIPAddress ext m k dv = ext.GetIPv4AddressSigned n) ∧
    (∀ t, m.get? k = some (.num t) → (strconv.ParseInt t 32).2 ≠ none →
      getIPAddress ext m k dv = dv) ∧
    (m.get? k = none → getIPAddress ext m k dv = dv) ∧
    (∀ v, m.get? k = some v → (∀ t, v ≠ .num t) → (∀ s, v ≠ .str s) →
      getIPAddress ext m k dv = dv) := by
  refine ⟨?_, ?_, ?_, ?_, ?_⟩
  · intro s h
    simp [getIPAddress, h]
  · intro t n h hp
    simp [getIPAddress, h, hp]
  · intro t h hp
    unfold getIPAddress
    simp only [h]
    split
    · rename_i ip hq
      rw [hq] at hp
      exact absurd rfl hp
    · rfl
  · intro h
    simp [getIPAddress, h]
  · intro v h hn hs
    unfold getIPAddress
    rw [h]
    split
    · rename_i t e
      simp at e
      exact absurd e (hn t)
    · rename_i s e
      simp at e
      exact absurd e (hs s)
    · rfl

/-- C20, witness: a string, a number in range, a number out of range, an absent
key and a boolean. -/
theorem getIPAddress_spec_witness :
    getIPAddress stubExtern [("comms_ip", .str "10.0.0.1")] "comms_ip" "none" = "10.0.0.1" ∧
    getIPAddress stubExtern [("comms_ip", .num "-1062731520")] "comms_ip" "none" =
      stubExtern.GetIPv4AddressSigned (-1062731520) ∧
    getIPAddress stubExtern [("comms_ip", .num "3232235776")] "comms_ip" "none" = "none" ∧
    getIPAddress stubExtern [] "comms_ip" "none" = "none" ∧
    getIPAddress stubExtern [("comms_ip", .bool true)] "comms_ip" "none" = "none" :=
  ⟨(getIPAddress_spec stubExtern [("comms_ip", .str "10.0.0.1")] "comms_ip" "none").1 _ rfl,
   (getIPAddress_spec stubExtern [("comms_ip", .num "-1062731520")] "comms_ip" "none").2.1
      _ _ rfl (by decide),
   (getIPAddress_spec stubExtern [("comms_ip", .num "3232235776")] "comms_ip" "none").2.2.1
      _ rfl (by decide),
   (getIPAddress_spec stubExtern [] "comms_ip" "none").2.2.2.1 rfl,
   (getIPAddress_spec stubExtern [("comms_ip", .bool true)] "comms_ip" "none").2.2.2.2
      _ rfl (by simp) (by simp)⟩

/-- C20, counterexample: the number 3232235776 is not a signed 32-bit integer;
`getIPAddress` returns the default, which no result of the decoder equals. -/
theorem getIPAddress_out_of_range :
    getIPAddress stubExtern [("comms_ip", .num "3232235776")] "comms_ip" "none" = "none" ∧
    ∀ n : Int, stubExtern.GetIPv4AddressSigned n ≠
      getIPAddress stubExtern [("comms_ip", .num "3232235776")] "comms_ip" "none" :=
  ⟨rfl, fun _ h => by
    have h2 : ("" : String) = "none" := h
    exact absurd h2 (by decide)⟩

/-! ## Link enrichment -/

theorem addLinksToMessages_no_url (ext : Extern) (jsp : JsonMessageProcessor)
    (h : jsp.CbServerURL = "") : ∀ outs, addLinksToMessages ext jsp outs = some outs := by
  intro outs
  induction outs with
  | nil => rfl
  | cons r outs ih =>
    have hr : addLinksToMessage ext jsp r = some r := by
      unfold addLinksToMessage
      simp only [h, if_true]
    simp only [addLinksToMessages, hr, ih]

/-- C16: without a base server URL, `addLinksToMessage` leaves every record as
it is, and `ProcessJSONMessage` returns what the handler returns. -/
theorem addLinksToMessage_no_url (ext : Extern) (jsp : JsonMessageProcessor)
    (msg m : Record) (routingKey : String) (h : jsp.CbServerURL = "") :
    addLinksToMessage ext jsp m = some m ∧
    ProcessJSONMessage ext jsp msg routingKey =
      match lookupHandler jsp.messageHandlers (fixupMessageType routingKey) with
      | some processfunc => processfunc (fixupMessageType routingKey) msg
      | none => some ([], none) := by
  constructor
  · unfold addLinksToMessage
    simp only [h, if_true]
  · unfold ProcessJSONMessage
    cases hl : lookupHandler jsp.messageHandlers (fixupMessageType routingKey) with
    | none => simp only [hl]
    | some processfunc =>
      simp only [hl]
      cases hp : processfunc (fixupMessageType routingKey) msg with
      | none => rfl
      | some res =>
        obtain ⟨outs, err⟩ := res
        simp only [addLinksToMessages_no_url ext jsp h]

/-- C16, witness: a record with a sensor id and a 32-character MD5 gets no link
when no URL is configured. -/
theorem addLinksToMessage_no_url_witness :
    addLinksToMessage stubExtern (NewJSONProcessor stubExtern plainConfig)
        [("sensor_id", .num "7"), ("md5", .str "D41D8CD98F00B204E9800998ECF8427E")] =
      some [("sensor_id", .num "7"), ("md5", .str "D41D8CD98F00B204E9800998ECF8427E")] ∧
    ProcessJSONMessage stubExtern (NewJSONProcessor stubExtern plainConfig)
        [("sensor_id", .num "7"), ("md5", .str "D41D8CD98F00B204E9800998ECF8427E")]
        "binaryinfo.host.observed" =
      binaryinfoObserved "binaryinfo.host.observed"
        [("sensor_id", .num "7"), ("md5", .str "D41D8CD98F00B204E9800998ECF8427E")] :=
  addLinksToMessage_no_url stubExtern (NewJSONProcessor stubExtern plainConfig)
    [("sensor_id", .num "7"), ("md5", .str "D41D8CD98F00B204E9800998ECF8427E")]
    [("sensor_id", .num "7"), ("md5", .str "D41D8CD98F00B204E9800998ECF8427E")]
    "binaryinfo.host.observed" rfl

theorem addBinaryLink_other (url : String) (m : Record) (key : String) {j : String}
    (hj : "link_" ++ key ≠ j) : (addBinaryLink url m key).get? j = m.get? j := by
  unfold addBinaryLink
  split
  · split
    · exact Record.get?_set_ne _ _ hj
    · rfl
  · rfl

theorem addBinaryLink_hit (url : String) {m : Record} {key s : String}
    (h : m.get? key = some (.str s)) (hlen : len s = 32) :
    (addBinaryLink url m key).get? ("link_" ++ key) =
      some (.str (url ++ "#/binary/" ++ s)) := by
  unfold addBinaryLink
  simp only [h, hlen, if_true]
  exact Record.get?_set_self _ _ _

theorem addBinaryLink_miss (url : String) {m : Record} {key : String}
    (h : ∀ s, m.get? key = some (.str s) → len s ≠ 32) : addBinaryLink url m key = m := by
  unfold addBinaryLink
  split
  · rename_i s hs
    simp only [h s hs, if_false]
  · rfl

theorem addSensorLink_other (url : String) (m : Record) {j : String}
    (hj : "link_sensor" ≠ j) : (addSensorLink url m).get? j = m.get? j := by
  unfold addSensorLink
  split
  · split
    · exact Record.get?_set_ne _ _ hj
    · rfl
  · rfl

theorem addSensorLink_hit (url : String) {m : Record} {t : String} {n : Int}
    (h : m.get? "sensor_id" = some (.num t)) (hp : strconv.ParseInt t 32 = (n, none)) :
    addSensorLink url m = m.set "link_sensor" (.str (url ++ "#/host/" ++ formatInt n)) := by
  unfold addSensorLink
  simp only [h, hp]

theorem addSensorLink_miss (url : String) {m : Record} {t : String}
    (h : m.get? "sensor_id" = some (.num t)) (hp : (strconv.ParseInt t 32).2 ≠ none) :
    addSensorLink url m = m := by
  unfold addSensorLink
  simp only [h]
  split
  · rename_i n hq
    rw [hq] at hp
    exact absurd rfl hp
  · rfl

/-- With a base URL, `addLinksToMessage` is the sensor link, the three binary
links and the two GUID links, one after the other. -/
theorem addLinksToMessage_steps {ext : Extern} {jsp : JsonMessageProcessor} {m m' : Record}
    (hurl : jsp.CbServerURL ≠ "") (h : addLinksToMessage ext jsp m = some m') :
    ∃ m1, addGuidLink ext jsp.CbServerURL
        (addBinaryLink jsp.CbServerURL (addBinaryLink jsp.CbServerURL
          (addBinaryLink jsp.CbServerURL (addSensorLink jsp.CbServerURL m) "md5") "parent_md5")
          "process_md5") "process_guid" "link_process" = some m1 ∧
      addGuidLink ext jsp.CbServerURL m1 "parent_guid" "link_parent" = some m' := by
  unfold addLinksToMessage at h
  simp only [hurl, if_false, List.foldl] at h
  split at h
  · simp at h
  · rename_i m1 h1
    exact ⟨m1, h1, h⟩

/-- What `addLinksToMessage` does to the sensor link of one record. -/
theorem addLinksToMessage_link_sensor {ext : Extern} {jsp : JsonMessageProcessor}
    {m m' : Record} (hurl : jsp.CbServerURL ≠ "") (h : addLinksToMessage ext jsp m = some m') :
    (∀ t n, m.get? "sensor_id" = some (.num t) → strconv.ParseInt t 32 = (n, none) →
      m'.get? "link_sensor" = some (.str (jsp.CbServerURL ++ "#/host/" ++ formatInt n))) ∧
    (∀ t, m.get? "sensor_id" = some (.num t) → (strconv.ParseInt t 32).2 ≠ none →
      m'.get? "link_sensor" = m.get? "link_sensor") := by
  obtain ⟨m1, h1, h2⟩ := addLinksToMessage_steps hurl h
  have hfr : m'.get? "link_sensor" =
      (addSensorLink jsp.CbServerURL m).get? "link_sensor" := by
    rw [addGuidLink_get? h2 (by decide), addGuidLink_get? h1 (by decide),
      addBinaryLink_other _ _ _ (by decide), addBinaryLink_other _ _ _ (by decide),
      addBinaryLink_other _ _ _ (by decide)]
  constructor
  · intro t n hs hp
    rw [hfr, addSensorLink_hit _ hs hp]
    exact Record.get?_set_self _ _ _
  · intro t hs hp
    rw [hfr, addSensorLink_miss _ hs hp]

/-- Every record that `ProcessJSONMessage` returns is a record of the handler
after link enrichment. -/
theorem ProcessJSONMessage_mem {ext : Extern} {jsp : JsonMessageProcessor} {msg : Record}
    {routingKey : String} {outs : List Record} {err : Option Error}
    (h : ProcessJSONMessage ext jsp msg routingKey = some (outs, err)) :
    ∀ r ∈ outs, ∃ processfunc outs0 r0,
      lookupHandler jsp.messageHandlers (fixupMessageType routingKey) = some processfunc ∧
      processfunc (fixupMessageType routingKey) msg = some (outs0, err) ∧ r0 ∈ outs0 ∧
      addLinksToMessage ext jsp r0 = some r := by
  intro r hr
  unfold ProcessJSONMessage at h
  cases hl : lookupHandler jsp.messageHandlers (fixupMessageType routingKey) with
  | none =>
    simp only [hl] at h
    simp at h
    rw [h.1] at hr
    simp at hr
  | some processfunc =>
    simp only [hl] at h
    cases hp : processfunc (fixupMessageType routingKey) msg with
    | none => simp [hp] at h
    | some res =>
      obtain ⟨outs0, err0⟩ := res
      simp only [hp] at h
      cases ha : addLinksToMessages ext jsp outs0 with
      | none => simp [ha] at h
      | some outs1 =>
        simp only [ha] at h
        simp at h
        obtain ⟨h1, h2⟩ := h
        rw [← h1] at hr
        obtain ⟨r0, hr0, hlink⟩ := addLinksToMessages_mem ha r hr
        exact ⟨processfunc, outs0, r0, rfl, by rw [hp, h2], hr0, hlink⟩

/-- The record built for a sub-document of `watchlist.storage.hit.binary` has
no `link_sensor` field and no `sensor_id` that is a `json.Number`. -/
theorem watchlistStorageHitBinaryDoc_sensor (inmsg sub : Record) :
    (∀ t, (watchlistStorageHitBinaryDoc inmsg sub).get? "sensor_id" ≠ some (.num t)) ∧
    (watchlistStorageHitBinaryDoc inmsg sub).get? "link_sensor" = none := by
  unfold watchlistStorageHitBinaryDoc
  simp only
  split <;> simp [copyBinaryMetadata, Record.get?_set, Record.get?_nil]

/-- C17 (as amended): with a non-empty base server URL, for every record whose
`sensor_id` is a `json.Number` whose text parses as a base-10 signed 32-bit
integer, link enrichment sets `link_sensor` to the base URL followed by
`#/host/` and the decimal sensor id; this holds for every record returned by
`ProcessJSONMessage` that carries such a `sensor_id`. The records of
`watchlist.storage.hit.binary` hold no `json.Number` under `sensor_id` and get
no `link_sensor`. -/
theorem link_sensor_spec (ext : Extern) (cfg : Config) (hurl : cfg.CbServerURL ≠ "") :
    (∀ m m' t n, addLinksToMessage ext (NewJSONProcessor ext cfg) m = some m' →
      m.get? "sensor_id" = some (.num t) → strconv.ParseInt t 32 = (n, none) →
      m'.get? "link_sensor" = some (.str (cfg.CbServerURL ++ "#/host/" ++ formatInt n))) ∧
    (∀ msg routingKey outs err,
      ProcessJSONMessage ext (NewJSONProcessor ext cfg) msg routingKey = some (outs, err) →
      ∀ r ∈ outs, ∀ t n, r.get? "sensor_id" = some (.num t) →
        strconv.ParseInt t 32 = (n, none) →
        r.get? "link_sensor" = some (.str (cfg.CbServerURL ++ "#/host/" ++ formatInt n))) ∧
    (∀ msg outs err,
      ProcessJSONMessage ext (NewJSONProcessor ext cfg) msg "watchlist.storage.hit.binary" =
        some (outs, err) →
      ∀ r ∈ outs, (∀ t, r.get? "sensor_id" ≠ some (.num t)) ∧ r.get? "link_sensor" = none) := by
  have hurl2 : (NewJSONProcessor ext cfg).CbServerURL ≠ "" := hurl
  refine ⟨?_, ?_, ?_⟩
  · intro m m' t n h hs hp
    exact (addLinksToMessage_link_sensor hurl2 h).1 t n hs hp
  · intro msg routingKey outs err h r hr t n hs hp
    obtain ⟨_, _, r0, -, -, -, hlink⟩ := ProcessJSONMessage_mem h r hr
    rw [addLinksToMessage_get? hlink (by decide)] at hs
    exact (addLinksToMessage_link_sensor hurl2 hlink).1 t n hs hp
  · intro msg outs err h r hr
    obtain ⟨processfunc, outs0, r0, hl, hp, hr0, hlink⟩ := ProcessJSONMessage_mem h r hr
    have hf : processfunc = watchlistStorageHitBinary := by
      have hl2 : lookupHandler (NewJSONProcessor ext cfg).messageHandlers
          (fixupMessageType "watchlist.storage.hit.binary") = some watchlistStorageHitBinary := rfl
      rw [hl2] at hl
      exact (Option.some.inj hl).symm
    rw [hf] at hp
    unfold watchlistStorageHitBinary at hp
    split at hp
    · simp at hp
    · rename_i o ho
      simp at hp
      rw [← hp.1] at hr0
      have hdoc := explodeDocs_forall
        (P := fun r => (∀ t, r.get? "sensor_id" ≠ some (.num t)) ∧ r.get? "link_sensor" = none)
        (fun sub r hr => by
          simp at hr
          subst hr
          exact watchlistStorageHitBinaryDoc_sensor msg sub) ho r0 hr0
      obtain ⟨m1, h1, h2⟩ := addLinksToMessage_steps hurl2 hlink
      refine ⟨?_, ?_⟩
      · intro t
        rw [addLinksToMessage_get? hlink (by decide)]
        exact hdoc.1 t
      · rw [addGuidLink_get? h2 (by decide), addGuidLink_get? h1 (by decide),
          addBinaryLink_other _ _ _ (by decide), addBinaryLink_other _ _ _ (by decide),
          addBinaryLink_other _ _ _ (by decide)]
        have hsame : addSensorLink (NewJSONProcessor ext cfg).CbServerURL r0 = r0 := by
          unfold addSensorLink
          split
          · rename_i value hv
            exact absurd hv (hdoc.1 value)
          · rfl
        rw [hsame]
        exact hdoc.2

/-- C17, witness: base `https://cb.local/` and sensor id 7. -/
theorem link_sensor_spec_witness :
    linkConfig.CbServerURL ≠ "" ∧
    addLinksToMessage stubExtern (NewJSONProcessor stubExtern linkConfig)
        [("sensor_id", .num "7")] =
      some [("sensor_id", .num "7"), ("link_sensor", .str "https://cb.local/#/host/7")] ∧
    Record.get? [("sensor_id", .num "7"), ("link_sensor", .str "https://cb.local/#/host/7")]
        "link_sensor" =
      some (.str (linkConfig.CbServerURL ++ "#/host/" ++ formatInt 7)) :=
  ⟨by decide, rfl,
    (link_sensor_spec stubExtern linkConfig (by decide)).1 [("sensor_id", .num "7")]
      [("sensor_id", .num "7"), ("link_sensor", .str "https://cb.local/#/host/7")] "7" 7
      rfl rfl rfl⟩

/-- C17, counterexample: with the base URL `https://cb.local/`, the record of
`binaryinfo.host.observed` for the numeric sensor id 4294967303 carries that
number under `sensor_id` and has no `link_sensor`; the record of
`watchlist.storage.hit.binary` for the endpoint `WIN-HOST|7` carries the sensor
id 7 as a 64-bit integer and has no `link_sensor`. -/
theorem link_sensor_missing :
    (ProcessJSONMessage stubExtern (NewJSONProcessor stubExtern linkConfig)
        [("sensor_id", .num "4294967303")] "binaryinfo.host.observed").map
      (fun res => res.1.map fun r => (r.get? "sensor_id", r.get? "link_sensor")) =
      some [(some (.num "4294967303"), none)] ∧
    (ProcessJSONMessage stubExtern (NewJSONProcessor stubExtern linkConfig)
        [("docs", .arr [.obj [("endpoint", .str "WIN-HOST|7")]])]
        "watchlist.storage.hit.binary").map
      (fun res => res.1.map fun r => (r.get? "sensor_id", r.get? "link_sensor")) =
      some [(some (.int64 7), none)] :=
  ⟨rfl, rfl⟩

/-- C18: with a non-empty base server URL, for each key `k` among `md5`,
`parent_md5`, `process_md5`, link enrichment sets `link_<k>` to the base URL
followed by `#/binary/` and the value of `k` when `k` holds a string of
length 32, leaves `link_<k>` as it was otherwise, and leaves `k` unchanged. -/
theorem link_binary_spec (ext : Extern) (jsp : JsonMessageProcessor) (m m' : Record)
    (k : String) (hurl : jsp.CbServerURL ≠ "")
    (hk : k ∈ ["md5", "parent_md5", "process_md5"])
    (h : addLinksToMessage ext jsp m = some m') :
    (∀ s, m.get? k = some (.str s) → len s = 32 →
      m'.get? ("link_" ++ k) = some (.str (jsp.CbServerURL ++ "#/binary/" ++ s))) ∧
    ((∀ s, m.get? k = some (.str s) → len s ≠ 32) →
      m'.get? ("link_" ++ k) = m.get? ("link_" ++ k)) ∧
    m'.get? k = m.get? k := by
  obtain ⟨m1, h1, h2⟩ := addLinksToMessage_steps hurl h
  have hs0 : ∀ j, "link_sensor" ≠ j →
      (addSensorLink jsp.CbServerURL m).get? j = m.get? j := fun j hj =>
    addSensorLink_other _ _ hj
  simp only [List.mem_cons, List.mem_singleton, List.not_mem_nil, or_false] at hk
  rcases hk with rfl | rfl | rfl
  · refine ⟨?_, ?_, addLinksToMessage_get? h (by decide)⟩
    · intro s hs hlen
      rw [addGuidLink_get? h2 (by decide), addGuidLink_get? h1 (by decide),
        addBinaryLink_other _ _ _ (by decide), addBinaryLink_other _ _ _ (by decide)]
      exact addBinaryLink_hit _ (by rw [hs0 _ (by decide)]; exact hs) hlen
    · intro hmiss
      rw [addGuidLink_get? h2 (by decide), addGuidLink_get? h1 (by decide),
        addBinaryLink_other _ _ _ (by decide), addBinaryLink_other _ _ _ (by decide),
        addBinaryLink_miss _ (by rw [hs0 _ (by decide)]; exact hmiss)]
      exact hs0 _ (by decide)
  · have hkeep : (addBinaryLink jsp.CbServerURL (addSensorLink jsp.CbServerURL m) "md5").get?
        "parent_md5" = m.get? "parent_md5" := by
      rw [addBinaryLink_other _ _ _ (by decide), hs0 _ (by decide)]
    refine ⟨?_, ?_, addLinksToMessage_get? h (by decide)⟩
    · intro s hs hlen
      rw [addGuidLink_get? h2 (by decide), addGuidLink_get? h1 (by decide),
        addBinaryLink_other _ _ _ (by decide)]
      exact addBinaryLink_hit _ (by rw [hkeep]; exact hs) hlen
    · intro hmiss
      rw [addGuidLink_get? h2 (by decide), addGuidLink_get? h1 (by decide),
        addBinaryLink_other _ _ _ (by decide),
        addBinaryLink_miss _ (by rw [hkeep]; exact hmiss),
        addBinaryLink_other _ _ _ (by decide)]
      exact hs0 _ (by decide)
  · have hkeep : (addBinaryLink jsp.CbServerURL
        (addBinaryLink jsp.CbServerURL (addSensorLink jsp.CbServerURL m) "md5")
        "parent_md5").get? "process_md5" = m.get? "process_md5" := by
      rw [addBinaryLink_other _ _ _ (by decide), addBinaryLink_other _ _ _ (by decide),
        hs0 _ (by decide)]
    refine ⟨?_, ?_, addLinksToMessage_get? h (by decide)⟩
    · intro s hs hlen
      rw [addGuidLink_get? h2 (by decide), addGuidLink_get? h1 (by decide)]
      exact addBinaryLink_hit _ (by rw [hkeep]; exact hs) hlen
    · intro hmiss
      rw [addGuidLink_get? h2 (by decide), addGuidLink_get? h1 (by decide),
        addBinaryLink_miss _ (by rw [hkeep]; exact hmiss),
        addBinaryLink_other _ _ _ (by decide), addBinaryLink_other _ _ _ (by decide)]
      exact hs0 _ (by decide)

/-- C18, witness: a 32-character `md5` gets its link, a 31-character
`parent_md5` gets none. -/
theorem link_binary_spec_witness :
    addLinksToMessage stubExtern (NewJSONProcessor stubExtern linkConfig)
        [("md5", .str "d41d8cd98f00b204e9800998ecf8427e"),
         ("parent_md5", .str "d41d8cd98f00b204e9800998ecf8427")] =
      some [("md5", .str "d41d8cd98f00b204e9800998ecf8427e"),
         ("parent_md5", .str "d41d8cd98f00b204e9800998ecf8427"),
         ("link_md5", .str "https://cb.local/#/binary/d41d8cd98f00b204e9800998ecf8427e")] ∧
    len "d41d8cd98f00b204e9800998ecf8427e" = 32 ∧
    Record.get? [("md5", .str "d41d8cd98f00b204e9800998ecf8427e"),
         ("parent_md5", .str "d41d8cd98f00b204e9800998ecf8427"),
         ("link_md5", .str "https://cb.local/#/binary/d41d8cd98f00b204e9800998ecf8427e")]
        ("link_" ++ "md5") =
      some (.str ((NewJSONProcessor stubExtern linkConfig).CbServerURL ++ "#/binary/" ++
        "d41d8cd98f00b204e9800998ecf8427e")) :=
  ⟨rfl, by decide,
    (link_binary_spec stubExtern (NewJSONProcessor stubExtern linkConfig)
      [("md5", .str "d41d8cd98f00b204e9800998ecf8427e"),
       ("parent_md5", .str "d41d8cd98f00b204e9800998ecf8427")]
      [("md5", .str "d41d8cd98f00b204e9800998ecf8427e"),
       ("parent_md5", .str "d41d8cd98f00b204e9800998ecf8427"),
       ("link_md5", .str "https://cb.local/#/binary/d41d8cd98f00b204e9800998ecf8427e")]
      "md5" (by decide) (by decide) rfl).1 "d41d8cd98f00b204e9800998ecf8427e" rfl (by decide)⟩

/-! ## The key-rewrite pass: renames, removals and MD5 fields -/

theorem handleKeyValue_cases {ext : Extern} {st st1 : KeyValueState} {k : String} {v : Value}
    (h : handleKeyValue ext st k v = some st1) :
    (strings.Contains k "alliance_" = true ∧ st1.msg = st.msg.delete k) ∨
    (strings.Contains k "alliance_" = false ∧ handleOtherKey ext st.msg k v = some st1.msg) := by
  unfold handleKeyValue at h
  split_ifs at h with hc
  · simp at h
    subst h
    exact Or.inl ⟨hc, rfl⟩
  · split at h
    · simp at h
    · rename_i msg1 hm
      simp at h
      subst h
      exact Or.inr ⟨by simpa using hc, hm⟩

/-- A property of the message kept by every step of the loop is kept by the
loop. -/
theorem rangeKeyValues_inv {ext : Extern} {P : Record → Prop}
    (hstep : ∀ (st st1 : KeyValueState) k v, P st.msg → st.msg.get? k = some v →
      handleKeyValue ext st k v = some st1 → P st1.msg) :
    ∀ (ks : List String) (st st' : KeyValueState), rangeKeyValues ext ks st = some st' →
      P st.msg → P st'.msg := by
  intro ks
  induction ks with
  | nil =>
    intro st st' h hp
    simp [rangeKeyValues] at h
    subst h
    exact hp
  | cons k ks ih =>
    intro st st' h hp
    simp only [rangeKeyValues] at h
    split at h
    · exact ih _ _ h hp
    · rename_i v hv
      split at h
      · simp at h
      · rename_i st1 hst
        exact ih _ _ h (hstep st st1 k v hp hv hst)

/-- The loop completes when every step completes on the messages that satisfy
a property kept by every step. -/
theorem rangeKeyValues_total {ext : Extern} {P : Record → Prop}
    (hstep : ∀ (st st1 : KeyValueState) k v, P st.msg → st.msg.get? k = some v →
      handleKeyValue ext st k v = some st1 → P st1.msg)
    (hok : ∀ (st : KeyValueState) k v, P st.msg → st.msg.get? k = some v →
      ∃ st1, handleKeyValue ext st k v = some st1) :
    ∀ (ks : List String) (st : KeyValueState), P st.msg →
      ∃ st', rangeKeyValues ext ks st = some st' := by
  intro ks
  induction ks with
  | nil => exact fun st _ => ⟨st, rfl⟩
  | cons k ks ih =>
    intro st hp
    simp only [rangeKeyValues]
    cases hv : st.msg.get? k with
    | none => exact ih st hp
    | some v =>
      obtain ⟨st1, hst⟩ := hok st k v hp hv
      simp only [hst]
      exact ih st1 (hstep st st1 k v hp hv hst)

/-- A step of the loop leaves an absent key absent, unless the key is one of
the keys that the cases write. -/
theorem handleKeyValue_absent {ext : Extern} {st st1 : KeyValueState} {k : String} {v : Value}
    (h : handleKeyValue ext st k v = some st1) (hv : st.msg.get? k = some v) {j : String}
    (hw : j ∉ writtenKeys) (hj : st.msg.get? j = none) : st1.msg.get? j = none := by
  rcases handleKeyValue_cases h with ⟨-, e⟩ | ⟨-, e⟩
  · rw [e, Record.get?_delete]
    split
    · rfl
    · exact hj
  · have hjk : j ≠ k := by
      intro e2
      subst e2
      rw [hj] at hv
      simp at hv
    rw [handleOtherKey_get? e hjk hw]
    exact hj

/-- A step of the loop leaves the value of a key as it is when the key has no
case of its own and is not written by a case. -/
theorem handleKeyValue_frame {ext : Extern} {st st1 : KeyValueState} {k : String} {v : Value}
    (h : handleKeyValue ext st k v = some st1) {j : String}
    (hc : strings.Contains j "alliance_" = false) (hs : j ∉ specialKeys)
    (hw : j ∉ writtenKeys) : st1.msg.get? j = st.msg.get? j := by
  rcases handleKeyValue_cases h with ⟨hk, e⟩ | ⟨-, e⟩
  · have hjk : k ≠ j := by
      intro e2
      subst e2
      rw [hc] at hk
      simp at hk
    rw [e, Record.get?_delete, if_neg hjk]
  · by_cases hjk : j = k
    · subst hjk
      rw [handleOtherKey_inert ext st.msg v hs] at e
      rw [← Option.some.inj e]
    · exact handleOtherKey_get? e hjk hw

/-- The cases other than `endpoint`: only `timestamp` writes `event_timestamp`,
only `computer_name` writes `hostname`. -/
theorem handleOtherKey_renamed {ext : Extern} {msg msg1 : Record} {k : String} {v : Value}
    (h : handleOtherKey ext msg k v = some msg1) (hend : k ≠ "endpoint") :
    (k ≠ "timestamp" → msg1.get? "event_timestamp" = msg.get? "event_timestamp") ∧
    (k ≠ "computer_name" → msg1.get? "hostname" = msg.get? "hostname") := by
  unfold handleOtherKey at h
  split_ifs at h with h1 h2 h3 h4 h5 h6 h7 h8
  · exact absurd h1 hend
  · subst h2
    simp at h
    subst h
    simp [Record.get?_delete]
  · subst h3
    simp at h
    subst h
    simp [Record.get?_delete]
  · subst h4
    simp at h
    subst h
    simp [Record.get?_set, Record.get?_delete]
  · subst h5
    simp at h
    subst h
    simp [Record.get?_set, Record.get?_delete]
  · split at h
    · split at h <;> simp at h <;> subst h <;> rcases h6 with rfl | rfl | rfl <;>
        simp [Record.get?_set]
    · simp at h
      subst h
      simp
  · subst h7
    split at h
    · split at h <;> simp at h <;> subst h <;> simp [Record.get?_set]
    · simp at h
    · split at h
      · split at h
        · split at h
          · split at h
            · simp at h
              subst h
              simp [Record.get?_set]
            · simp at h
              subst h
              simp
          · simp at h
            subst h
            simp
        · simp at h
          subst h
          simp
      · simp at h
        subst h
        simp
    · simp at h
      subst h
      simp
  · split at h
    · split at h <;> simp at h <;> subst h <;> rcases h8 with rfl | rfl <;>
        simp [Record.get?_set]
    · simp at h
      subst h
      simp
  · simp at h
    subst h
    simp

theorem Record.keys_cover (m : Record) : ∀ k, m.get? k ≠ none → k ∈ m.keys := by
  intro k hk
  cases hv : m.get? k with
  | none => exact absurd hv hk
  | some v => exact Record.mem_keys_of_get? hv

/-- What a completed pass leaves: the message at the end of the loop is stable
at every key, and the result differs from it at most under `alliance_data`. -/
theorem handleKeyValuesIn_end {ext : Extern} {order : List String} {m m' : Record}
    (hcov : ∀ k, m.get? k ≠ none → k ∈ order)
    (h : handleKeyValuesIn ext order m = some m') :
    ∃ st, rangeKeyValues ext order ⟨m, []⟩ = some st ∧ (∀ k, Stable ext st.msg k) ∧
      ∀ j, j ≠ "alliance_data" → m'.get? j = st.msg.get? j := by
  unfold handleKeyValuesIn at h
  split at h
  · simp at h
  · rename_i st hst
    refine ⟨st, hst, ?_, ?_⟩
    · refine rangeKeyValues_stable order _ _ hst ?_
      intro k
      cases hk : m.get? k with
      | none => exact Or.inr (Stable.of_absent ext hk)
      | some v => exact Or.inl (hcov k (by rw [hk]; simp))
    · intro j hj
      split_ifs at h
      · simp at h
        subst h
        exact Record.get?_set_ne _ _ (Ne.symm hj)
      · simp at h
        subst h
        rfl

/-- A key that its case removes is absent from a message that is stable at it. -/
theorem Stable.dropped {ext : Extern} {msg : Record} {d : String}
    (hd : d ∈ ["timestamp", "computer_name", "highlights", "highlights_by_doc"])
    (hs : Stable ext msg d) : msg.get? d = none := by
  cases hv : msg.get? d with
  | none => rfl
  | some v =>
    exfalso
    obtain ⟨-, h⟩ := hs v hv
    simp only [List.mem_cons, List.mem_singleton, List.not_mem_nil, or_false] at hd
    have hnone : ∀ r : Record, r.delete d = msg → False := fun r hr => by
      have h2 : (r.delete d).get? d = none := by simp [Record.get?_delete]
      rw [hr, hv] at h2
      simp at h2
    rcases hd with rfl | rfl | rfl | rfl <;> simp [handleOtherKey] at h <;>
      exact hnone _ h

/-- The state of a rename from `src` to `dst` of the value `v`: either `src`
still holds `v`, or `src` is gone and `dst` holds `v`. -/
theorem handleKeyValue_rename {ext : Extern} {st st1 : KeyValueState} {k : String}
    {val v : Value} {src dst : String}
    (hp : (src = "timestamp" ∧ dst = "event_timestamp") ∨
      (src = "computer_name" ∧ dst = "hostname"))
    (h : handleKeyValue ext st k val = some st1) (hv : st.msg.get? k = some val)
    (hend : st.msg.get? "endpoint" = none)
    (hinv : st.msg.get? src = some v ∨ (st.msg.get? src = none ∧ st.msg.get? dst = some v)) :
    st1.msg.get? src = some v ∨ (st1.msg.get? src = none ∧ st1.msg.get? dst = some v) := by
  have hsrc : strings.Contains src "alliance_" = false ∧ src ∉ writtenKeys := by
    rcases hp with ⟨rfl, rfl⟩ | ⟨rfl, rfl⟩ <;> exact ⟨by decide, by decide⟩
  have hdst : strings.Contains dst "alliance_" = false := by
    rcases hp with ⟨rfl, rfl⟩ | ⟨rfl, rfl⟩ <;> decide
  rcases handleKeyValue_cases h with ⟨hc, e⟩ | ⟨-, e⟩
  · have h1 : k ≠ src := by
      intro e2
      subst e2
      rw [hsrc.1] at hc
      simp at hc
    have h2 : k ≠ dst := by
      intro e2
      subst e2
      rw [hdst] at hc
      simp at hc
    rw [e, Record.get?_delete, Record.get?_delete, if_neg h1, if_neg h2]
    exact hinv
  · have hke : k ≠ "endpoint" := by
      intro e2
      subst e2
      rw [hend] at hv
      simp at hv
    by_cases hks : k = src
    · subst hks
      have hval : val = v := by
        rcases hinv with hl | ⟨hr, -⟩
        · rw [hl] at hv
          exact (Option.some.inj hv).symm
        · rw [hr] at hv
          simp at hv
      subst hval
      right
      rcases hp with ⟨rfl, rfl⟩ | ⟨rfl, rfl⟩ <;> simp [handleOtherKey] at e <;> rw [← e] <;>
        simp [Record.get?_set, Record.get?_delete]
    · have hsame : st1.msg.get? src = st.msg.get? src :=
        handleOtherKey_get? e (Ne.symm hks) hsrc.2
      have hd : st1.msg.get? dst = st.msg.get? dst := by
        rcases hp with ⟨rfl, rfl⟩ | ⟨rfl, rfl⟩
        · exact (handleOtherKey_renamed e hke).1 hks
        · exact (handleOtherKey_renamed e hke).2 hks
      rw [hsame, hd]
      exact hinv

theorem rangeKeyValues_rename {ext : Extern} {v : Value} {src dst : String}
    (hp : (src = "timestamp" ∧ dst = "event_timestamp") ∨
      (src = "computer_name" ∧ dst = "hostname"))
    (ks : List String) (st st' : KeyValueState) (h : rangeKeyValues ext ks st = some st')
    (hend : st.msg.get? "endpoint" = none) (hv : st.msg.get? src = some v) :
    st'.msg.get? src = some v ∨ (st'.msg.get? src = none ∧ st'.msg.get? dst = some v) := by
  have hall := rangeKeyValues_inv
    (P := fun msg => msg.get? "endpoint" = none ∧
      (msg.get? src = some v ∨ (msg.get? src = none ∧ msg.get? dst = some v)))
    (fun st st1 k val hP hval hst =>
      ⟨handleKeyValue_absent hst hval (by decide) hP.1,
        handleKeyValue_rename hp hst hval hP.1 hP.2⟩)
    ks st st' h ⟨hend, Or.inl hv⟩
  exact hall.2

/-- The cases complete, except `endpoint` and an `ioc_type` whose value is a
map of maps. -/
theorem handleOtherKey_isSome (ext : Extern) (msg : Record) {k : String} {v : Value}
    (hend : k ≠ "endpoint") (hioc : k = "ioc_type" → ∀ g, v ≠ .srcs g) :
    ∃ msg1, handleOtherKey ext msg k v = some msg1 := by
  unfold handleOtherKey
  split_ifs with h1 h2 h3 h4 h5 h6 h7 h8
  · exact absurd h1 hend
  · exact ⟨_, rfl⟩
  · exact ⟨_, rfl⟩
  · exact ⟨_, rfl⟩
  · exact ⟨_, rfl⟩
  · split
    · split <;> exact ⟨_, rfl⟩
    · exact ⟨_, rfl⟩
  · split
    · split <;> exact ⟨_, rfl⟩
    · rename_i g
      exact absurd rfl (hioc h7 g)
    · split
      · split
        · split
          · split <;> exact ⟨_, rfl⟩
          · exact ⟨_, rfl⟩
        · exact ⟨_, rfl⟩
      · exact ⟨_, rfl⟩
    · exact ⟨_, rfl⟩
  · split
    · split <;> exact ⟨_, rfl⟩
    · exact ⟨_, rfl⟩
  · exact ⟨_, rfl⟩

/-- The `ioc_type` case does not store a map of maps under `ioc_type`. -/
theorem handleOtherKey_ioc_type {ext : Extern} {msg msg1 : Record} {k : String} {v : Value}
    (h : handleOtherKey ext msg k v = some msg1)
    (hm : ∀ g, msg.get? "ioc_type" ≠ some (.srcs g)) :
    ∀ g, msg1.get? "ioc_type" ≠ some (.srcs g) := by
  by_cases hk : k = "ioc_type"
  · subst hk
    simp only [handleOtherKey] at h
    simp at h
    split at h
    · split at h <;> simp at h <;> subst h
      · intro g
        simp [Record.get?_set]
      · exact hm
    · simp at h
    · split at h
      · split at h
        · split at h
          · split at h
            · simp at h
              subst h
              intro g
              simp [Record.get?_set]
              exact hm g
            · simp at h
              subst h
              exact hm
          · simp at h
            subst h
            exact hm
        · simp at h
          subst h
          exact hm
      · simp at h
        subst h
        exact hm
    · simp at h
      subst h
      exact hm
  · intro g
    rw [handleOtherKey_get? h (Ne.symm hk) (by decide)]
    exact hm g

/-- The loop completes on a message without `endpoint` whose `ioc_type` is not
a map of maps. -/
theorem rangeKeyValues_completes (ext : Extern) (ks : List String) (st : KeyValueState)
    (hend : st.msg.get? "endpoint" = none)
    (hioc : ∀ g, st.msg.get? "ioc_type" ≠ some (.srcs g)) :
    ∃ st', rangeKeyValues ext ks st = some st' := by
  refine rangeKeyValues_total
    (P := fun msg => msg.get? "endpoint" = none ∧ ∀ g, msg.get? "ioc_type" ≠ some (.srcs g))
    ?_ ?_ ks st ⟨hend, hioc⟩
  · intro st st1 k v hP hv hst
    refine ⟨handleKeyValue_absent hst hv (by decide) hP.1, ?_⟩
    rcases handleKeyValue_cases hst with ⟨-, e⟩ | ⟨-, e⟩
    · intro g
      rw [e, Record.get?_delete]
      split
      · simp
      · exact hP.2 g
    · exact handleOtherKey_ioc_type e hP.2
  · intro st k v hP hv
    unfold handleKeyValue
    split_ifs
    · exact ⟨_, rfl⟩
    · have hke : k ≠ "endpoint" := by
        intro e2
        subst e2
        rw [hP.1] at hv
        simp at hv
      have hv2 : k = "ioc_type" → ∀ g, v ≠ .srcs g := by
        intro e g hg
        subst e
        subst hg
        exact hP.2 g hv
      obtain ⟨msg1, h1⟩ := handleOtherKey_isSome ext st.msg hke hv2
      rw [h1]
      exact ⟨_, rfl⟩

/-- C11: the key-rewrite pass panics on a record whose `endpoint` is a string
without `|`, an empty sequence, or a sequence whose first element is not a
string: the index `parts[1]`, the index `[0]` and the type assertion to
`string` are unchecked. -/
theorem handleKeyValues_endpoint_panic (ext : Extern) :
    handleKeyValues ext [("endpoint", .str "WIN-HOST")] = none ∧
    handleKeyValues ext [("endpoint", .arr [])] = none ∧
    handleKeyValues ext [("endpoint", .arr [.num "7"])] = none ∧
    handleKeyValues ext [("endpoint", .str "WIN-HOST|7")] =
      some [("hostname", .str "WIN-HOST"), ("sensor_id", .str "7")] :=
  ⟨rfl, rfl, rfl, rfl⟩

/-! ## The MD5 keys in the key-rewrite pass -/

theorem utf8Size_ascii (c : Char) (h : c.val ≤ 0x7F) : c.utf8Size = 1 := by
  simp [Char.utf8Size, h]

theorem utf8ByteSize_go_ascii : ∀ cs : List Char, (∀ c ∈ cs, c.val ≤ 0x7F) →
    String.utf8ByteSize.go cs = cs.length := by
  intro cs
  induction cs with
  | nil => intro _; rfl
  | cons c cs ih =>
    intro h
    simp only [String.utf8ByteSize.go, List.length_cons]
    rw [ih (fun x hx => h x (List.mem_cons_of_mem _ hx)),
      utf8Size_ascii c (h c (List.mem_cons_self _ _))]

/-- On a string of ASCII characters, the length in bytes is the number of
characters. -/
theorem len_ascii (s : String) (h : ∀ c ∈ s.data, c.val ≤ 0x7F) : len s = s.length := by
  cases s with
  | mk cs => exact utf8ByteSize_go_ascii cs h

/-- The case of the MD5 keys. -/
theorem handleOtherKey_md5_case (ext : Extern) (msg : Record) (k : String) (v : Value)
    (hk : k = "md5" ∨ k = "parent_md5" ∨ k = "process_md5") :
    handleOtherKey ext msg k v =
      match v with
      | .str md5 =>
        if len md5 = 32 then some (msg.set k (.str (strings.ToUpper ext md5))) else some msg
      | _ => some msg := by
  rcases hk with rfl | rfl | rfl <;> cases v <;> simp [handleOtherKey]

/-- What a step of the loop does to one of the MD5 keys: it leaves the value
as it is, or replaces a string of length 32 by its upper-cased form. -/
theorem handleKeyValue_md5 {ext : Extern} {st st1 : KeyValueState} {k' : String} {v' : Value}
    (h : handleKeyValue ext st k' v' = some st1) (hv' : st.msg.get? k' = some v') {k : String}
    (hk : k ∈ ["md5", "parent_md5", "process_md5"]) :
    st1.msg.get? k = st.msg.get? k ∨
    ∃ s, st.msg.get? k = some (.str s) ∧ len s = 32 ∧
      st1.msg.get? k = some (.str (strings.ToUpper ext s)) := by
  simp only [List.mem_cons, List.mem_singleton, List.not_mem_nil, or_false] at hk
  have hc : strings.Contains k "alliance_" = false := by
    rcases hk with rfl | rfl | rfl <;> decide
  have hw : k ∉ writtenKeys := by
    rcases hk with rfl | rfl | rfl <;> decide
  rcases handleKeyValue_cases h with ⟨hc', e⟩ | ⟨-, e⟩
  · have hne : k' ≠ k := by
      intro e2
      subst e2
      rw [hc] at hc'
      simp at hc'
    left
    rw [e, Record.get?_delete, if_neg hne]
  · by_cases hkk : k = k'
    · subst hkk
      have e2 := e
      rw [handleOtherKey_md5_case ext st.msg k v' hk] at e2
      clear e h
      cases v' with
      | str s =>
        simp only at e2
        split_ifs at e2 with hlen
        · right
          refine ⟨s, hv', hlen, ?_⟩
          rw [← Option.some.inj e2]
          exact Record.get?_set_self _ _ _
        · left
          rw [← Option.some.inj e2]
      | _ =>
        left
        simp only at e2
        rw [← Option.some.inj e2]
    · left
      exact handleOtherKey_get? e hkk hw

/-- Through the loop, an MD5 key holds its first value or, when that value is
a string of length 32, its upper-cased form. -/
theorem rangeKeyValues_md5 {ext : Extern} {k : String}
    (hk : k ∈ ["md5", "parent_md5", "process_md5"]) (orig : Option Value)
    (ks : List String) (st st' : KeyValueState) (h : rangeKeyValues ext ks st = some st')
    (h0 : st.msg.get? k = orig) :
    st'.msg.get? k = orig ∨
    ∃ s, orig = some (.str s) ∧ len s = 32 ∧ st'.msg.get? k = some (.str (strings.ToUpper ext s)) := by
  refine rangeKeyValues_inv
    (P := fun msg => msg.get? k = orig ∨
      ∃ s, orig = some (.str s) ∧ len s = 32 ∧ msg.get? k = some (.str (strings.ToUpper ext s)))
    ?_ ks st st' h (Or.inl h0)
  intro st0 st1 k' v' hP hv' hstep
  rcases handleKeyValue_md5 hstep hv' hk with hsame | ⟨s, hs, hlen, hup⟩
  · rcases hP with hl | ⟨s, ho, hlen, hr⟩
    · exact Or.inl (hsame.trans hl)
    · exact Or.inr ⟨s, ho, hlen, hsame.trans hr⟩
  · rcases hP with hl | ⟨s0, ho, hlen0, hr⟩
    · exact Or.inr ⟨s, hl.symm.trans hs, hlen, hup⟩
    · refine Or.inr ⟨s0, ho, hlen0, ?_⟩
      rw [hr] at hs
      have e : strings.ToUpper ext s0 = s := by
        have := Option.some.inj hs
        injection this
      rw [hup, ← e, ToUpper_idem]

/-- A message that is stable at an MD5 key holding a string of length 32 holds
an upper-cased string. -/
theorem Stable.md5 {ext : Extern} {msg : Record} {k s : String}
    (hk : k ∈ ["md5", "parent_md5", "process_md5"]) (hs : Stable ext msg k)
    (hv : msg.get? k = some (.str s)) (hlen : len s = 32) : strings.ToUpper ext s = s := by
  obtain ⟨-, h⟩ := hs _ hv
  simp only [List.mem_cons, List.mem_singleton, List.not_mem_nil, or_false] at hk
  have e2 : msg.set k (.str (strings.ToUpper ext s)) = msg := by
    rw [handleOtherKey_md5_case ext msg k _ hk] at h
    simpa [hlen] using h
  have h3 := Record.get?_of_set_eq e2
  rw [hv] at h3
  have := Option.some.inj h3
  injection this with h4
  exact h4.symm

/-! ## The entry point -/

/-- C15 (as amended): `ProcessJSON` returns what `ProcessJSONMessage` returns
on the decoded body itself, without a key-rewrite pass, and a decode error
with no records when the body does not decode. -/
theorem ProcessJSON_spec (ext : Extern) (jsp : JsonMessageProcessor) (routingKey indata : String) :
    (∀ msg, ext.Decode indata = some msg →
      ProcessJSON ext jsp routingKey indata = ProcessJSONMessage ext jsp msg routingKey) ∧
    (ext.Decode indata = none →
      ProcessJSON ext jsp routingKey indata = some ([], some .decode)) := by
  constructor
  · intro msg h
    simp only [ProcessJSON, h]
  · intro h
    simp only [ProcessJSON, h]

/-- C15, witness: a `binarystore.file.added` body that carries `timestamp`
and no `event_timestamp` yields a record whose `event_timestamp` is 0. -/
theorem ProcessJSON_spec_witness :
    stubExtern.Decode "\x7b\"timestamp\": 5\x7d" = some [("timestamp", .num "5")] ∧
    ProcessJSON stubExtern (NewJSONProcessor stubExtern plainConfig) "binarystore.file.added"
        "\x7b\"timestamp\": 5\x7d" =
      ProcessJSONMessage stubExtern (NewJSONProcessor stubExtern plainConfig)
        [("timestamp", .num "5")] "binarystore.file.added" ∧
    ProcessJSONMessage stubExtern (NewJSONProcessor stubExtern plainConfig)
        [("timestamp", .num "5")] "binarystore.file.added" =
      some ([[("type", .str "binarystore.file.added"), ("schema_version", .int 2),
        ("md5", .str ""), ("size", .num "0"), ("compressed_size", .num "0"),
        ("node_id", .num "0"), ("file_path", .str ""), ("event_timestamp", .num "0")]], none) :=
  ⟨rfl,
    (ProcessJSON_spec stubExtern (NewJSONProcessor stubExtern plainConfig)
      "binarystore.file.added" "\x7b\"timestamp\": 5\x7d").1 [("timestamp", .num "5")] rfl,
    rfl⟩

/-- C15, counterexample: for the `binarystore.file.added` body whose one field
is `timestamp` with the number 5, the entry point returns a record whose
`event_timestamp` is 0; dispatching the record that `handleKeyValues` makes of
the decoded body returns a record whose `event_timestamp` is 5. -/
theorem ProcessJSON_skips_rewrite :
    stubExtern.Decode "\x7b\"timestamp\": 5\x7d" = some [("timestamp", .num "5")] ∧
    handleKeyValues stubExtern [("timestamp", .num "5")] = some [("event_timestamp", .num "5")] ∧
    (ProcessJSON stubExtern (NewJSONProcessor stubExtern plainConfig) "binarystore.file.added"
        "\x7b\"timestamp\": 5\x7d").map
      (fun res => res.1.map fun r => r.get? "event_timestamp") = some [some (.num "0")] ∧
    (ProcessJSONMessage stubExtern (NewJSONProcessor stubExtern plainConfig)
        [("event_timestamp", .num "5")] "binarystore.file.added").map
      (fun res => res.1.map fun r => r.get? "event_timestamp") = some [some (.num "5")] ∧
    ProcessJSON stubExtern (NewJSONProcessor stubExtern plainConfig) "binarystore.file.added"
        "\x7b\"timestamp\": 5\x7d" ≠
      ((stubExtern.Decode "\x7b\"timestamp\": 5\x7d").bind (handleKeyValues stubExtern)).bind
        (fun msg => ProcessJSONMessage stubExtern (NewJSONProcessor stubExtern plainConfig) msg
          "binarystore.file.added") := by
  refine ⟨rfl, rfl, rfl, rfl, ?_⟩
  intro h
  have h2 := congrArg
    (fun o : Option (List Record × Option Error) =>
      o.map (fun res => res.1.map fun r => getNumber r "event_timestamp" "")) h
  have h3 : (some ["0"] : Option (List String)) = some ["5"] := h2
  exact absurd h3 (by decide)

/-! ## MD5 fields of the output records -/

theorem rangeDocs_forall_mem {P : Record → Prop} {body : Record → Option Record} :
    ∀ (docs : List Value) (acc outs : List Record), (∀ r ∈ acc, P r) →
      (∀ sub ∈ recordsOf docs, ∀ r, body sub = some r → P r) →
      rangeDocs body docs acc = some outs → ∀ r ∈ outs, P r := by
  intro docs
  induction docs with
  | nil =>
    intro acc outs hacc _ h
    simp [rangeDocs] at h
    subst h
    exact hacc
  | cons d docs ih =>
    intro acc outs hacc hbody h
    by_cases hd : ∃ s, d = Value.obj s
    · obtain ⟨s, rfl⟩ := hd
      have hrec : recordsOf (Value.obj s :: docs) = s :: recordsOf docs := by
        simp [recordsOf]
      rw [hrec] at hbody
      simp only [rangeDocs] at h
      split at h
      · simp at h
      · rename_i o ho
        refine ih _ _ ?_ (fun sub hsub => hbody sub (List.mem_cons_of_mem _ hsub)) h
        intro r hr
        rcases List.mem_append.mp hr with hr | hr
        · exact hacc r hr
        · simp at hr
          subst hr
          exact hbody s (List.mem_cons_self _ _) _ ho
    · have hd2 : ∀ s, d ≠ Value.obj s := fun s e => hd ⟨s, e⟩
      obtain ⟨h1, h2⟩ := rangeDocs_skip body d docs acc hd2
      rw [h1] at h
      rw [h2] at hbody
      exact ih _ _ hacc hbody h

theorem explodeDocs_forall_mem {P : Record → Prop} {body : Record → Option Record}
    {inmsg : Record} {outs : List Record}
    (hbody : ∀ sub ∈ subDocuments inmsg, ∀ r, body sub = some r → P r)
    (h : explodeDocs inmsg body = some outs) : ∀ r ∈ outs, P r := by
  unfold explodeDocs at h
  split at h
  · rename_i subdocs hd
    have hs : subDocuments inmsg = recordsOf subdocs := by simp [subDocuments, hd]
    rw [hs] at hbody
    exact rangeDocs_forall_mem _ _ _ (by simp) hbody h
  · simp at h
    subst h
    simp

/-! ## Report enrichment -/

/-- What `PostprocessJSONMessage` does on a record whose `feed_id` is a
`json.Number` and whose `report_id` is a string, and on a record that lacks one
of the two. -/
theorem PostprocessJSONMessage_typed (ext : Extern) (msg : Record) :
    ((msg.get? "feed_id" = none ∨ msg.get? "report_id" = none) →
      PostprocessJSONMessage ext msg = some msg) ∧
    (∀ t rid, msg.get? "feed_id" = some (.num t) → msg.get? "report_id" = some (.str rid) →
      ((Number.Int64 t).2 ≠ none → PostprocessJSONMessage ext msg = some msg) ∧
      (∀ n, Number.Int64 t = (n, none) →
        (ext.GetReport n rid = none → PostprocessJSONMessage ext msg = some msg) ∧
        (∀ title score link, ext.GetReport n rid = some (title, score, link) →
          PostprocessJSONMessage ext msg =
            some (((msg.set "report_title" (.str title)).set "report_score" (.int score)).set
              "report_link" (.str link))))) := by
  constructor
  · intro h
    unfold PostprocessJSONMessage
    rcases h with h | h
    · rw [h]
    · rw [h]
      cases msg.get? "feed_id" <;> rfl
  · intro t rid hf hr
    refine ⟨?_, ?_⟩
    · intro he
      unfold PostprocessJSONMessage
      simp only [hf, hr, kindIsString]
      split
      · rename_i n hq
        rw [hq] at he
        exact absurd rfl he
      · rfl
    · intro n hn
      constructor
      · intro hg
        unfold PostprocessJSONMessage
        simp only [hf, hr, kindIsString, hn, hg]
      · intro title score link hg
        unfold PostprocessJSONMessage
        simp only [hf, hr, kindIsString, hn, hg]

/-- C21: `PostprocessJSONMessage` panics on a record whose `feed_id` is a plain
string, whose `feed_id` or `report_id` is null, or whose `report_id` is a
number, instead of returning the record unmodified; on a record with a numeric
`feed_id` and a string `report_id` whose lookup fails it returns the record. -/
theorem PostprocessJSONMessage_panic (ext : Extern) :
    PostprocessJSONMessage ext [("feed_id", .str "5"), ("report_id", .str "r")] = none ∧
    PostprocessJSONMessage ext [("feed_id", .null), ("report_id", .str "r")] = none ∧
    PostprocessJSONMessage ext [("feed_id", .num "5"), ("report_id", .null)] = none ∧
    PostprocessJSONMessage ext [("feed_id", .num "5"), ("report_id", .num "7")] = none ∧
    PostprocessJSONMessage stubExtern [("feed_id", .num "5"), ("report_id", .str "r")] =
      some [("feed_id", .num "5"), ("report_id", .str "r")] :=
  ⟨rfl, rfl, rfl, rfl, rfl⟩

/-! ## Alert records: the IOC value and the host names -/

/-- The `ioc_value` of the record that `copyAlertMetadata` fills. -/
theorem copyAlertMetadata_ioc_value {t : String} {inmsg o : Record}
    (h : copyAlertMetadata t inmsg (alertBase t) = (o, none)) :
    (t = "alert.watchlist.hit.query.process" → o.get? "ioc_value" = none) ∧
    (t ≠ "alert.watchlist.hit.query.process" →
      o.get? "ioc_value" = some (.str (getString inmsg "ioc_value" ""))) := by
  rcases copyAlertMetadata_cases t inmsg (alertBase t) with ⟨-, e, he⟩ | ⟨-, o', ho', hfr⟩
  · rw [he] at h
    simp at h
  · rw [ho'] at h
    have ho : o = copyAlertFields t inmsg o' := (congrArg Prod.fst h).symm
    have hb : o'.get? "ioc_value" = none := by
      rw [hfr _ (by decide)]
      simp [alertBase, Record.get?_set, Record.get?_nil]
    rw [ho]
    constructor
    · intro ht
      simp [copyAlertFields, ht, Record.get?_set, hb]
    · intro ht
      simp [copyAlertFields, ht, Record.get?_set]

/-- The handlers of the alert types write `ioc_value` only through
`copyAlertMetadata`. -/
theorem alert_handler_ioc_value (ext : Extern) {h : JSONMessageHandlerFunc}
    (hh : h = alertWatchlistHitProcess ext ∨ h = alertWatchlistHitBinary ∨
      h = alertWatchlistHitHost) {t : String} {msg : Record} {outs : List Record}
    {err : Option Error} (hr : h t msg = some (outs, err)) :
    ∀ r ∈ outs,
      (t = "alert.watchlist.hit.query.process" → r.get? "ioc_value" = none) ∧
      (t ≠ "alert.watchlist.hit.query.process" →
        r.get? "ioc_value" = some (.str (getString msg "ioc_value" ""))) := by
  intro r hmem
  rcases hh with rfl | rfl | rfl
  · unfold alertWatchlistHitProcess at hr
    simp only at hr
    split at hr
    · simp at hr
      rw [hr.1] at hmem
      simp at hmem
    · rename_i o ho
      have hio := copyAlertMetadata_ioc_value ho
      simp at hr
      rw [← hr.1] at hmem
      simp at hmem
      rw [hmem]
      simpa [copyEventCounts, eventCountKeys, Record.get?_set] using hio
  · unfold alertWatchlistHitBinary at hr
    simp only at hr
    split at hr
    · simp at hr
      rw [hr.1] at hmem
      simp at hmem
    · rename_i o ho
      have hio := copyAlertMetadata_ioc_value ho
      simp at hr
      rw [← hr.1] at hmem
      simp at hmem
      rw [hmem]
      simpa [copyObject_get?, Record.get?_set] using hio
  · unfold alertWatchlistHitHost at hr
    simp only at hr
    split at hr
    · simp at hr
      rw [hr.1] at hmem
      simp at hmem
    · rename_i o ho
      have hio := copyAlertMetadata_ioc_value ho
      simp at hr
      rw [← hr.1] at hmem
      simp at hmem
      rw [hmem]
      simpa [Record.get?_set] using hio

/-- The handler registered for an alert type is one of the three alert
handlers, and an alert type is its own canonical type. -/
theorem alert_handler_cases (ext : Extern) (cfg : Config) {rk : String}
    (hrk : rk ∈ alertTypes) {h : JSONMessageHandlerFunc}
    (hl : lookupHandler (NewJSONProcessor ext cfg).messageHandlers (fixupMessageType rk) =
      some h) :
    fixupMessageType rk = rk ∧
    (h = alertWatchlistHitProcess ext ∨ h = alertWatchlistHitBinary ∨
      h = alertWatchlistHitHost) := by
  simp only [alertTypes, List.mem_cons, List.mem_singleton, List.not_mem_nil, or_false] at hrk
  rcases hrk with rfl | rfl | rfl | rfl | rfl
  · exact ⟨by decide, Or.inl (Option.some.inj hl).symm⟩
  · exact ⟨by decide, Or.inl (Option.some.inj hl).symm⟩
  · exact ⟨by decide, Or.inr (Or.inl (Option.some.inj hl).symm)⟩
  · exact ⟨by decide, Or.inr (Or.inl (Option.some.inj hl).symm)⟩
  · exact ⟨by decide, Or.inr (Or.inr (Option.some.inj hl).symm)⟩

/-- C26: every record returned for an alert type other than
`alert.watchlist.hit.query.process` has `ioc_value` equal to the string
`ioc_value` of the input, the empty string when that is absent or not a
string; a record returned for `alert.watchlist.hit.query.process` has no
`ioc_value`. -/
theorem alert_ioc_value (ext : Extern) (cfg : Config) (msg : Record) (rk : String)
    (outs : List Record) (err : Option Error) (hrk : rk ∈ alertTypes)
    (h : ProcessJSONMessage ext (NewJSONProcessor ext cfg) msg rk = some (outs, err)) :
    ∀ r ∈ outs,
      (rk = "alert.watchlist.hit.query.process" → r.get? "ioc_value" = none) ∧
      (rk ≠ "alert.watchlist.hit.query.process" →
        r.get? "ioc_value" = some (.str (getString msg "ioc_value" ""))) := by
  intro r hr
  obtain ⟨processfunc, outs0, r0, hl, hp, hr0, hlink⟩ := ProcessJSONMessage_mem h r hr
  obtain ⟨hfix, hcases⟩ := alert_handler_cases ext cfg hrk hl
  rw [hfix] at hp
  have h0 := alert_handler_ioc_value ext hcases hp r0 hr0
  rw [addLinksToMessage_get? hlink (by decide)]
  exact h0

/-- C26, witness: the record of an `alert.watchlist.hit.ingress.host` alert has
the `ioc_value` of the input, the record of an
`alert.watchlist.hit.query.process` alert has none. -/
theorem alert_ioc_value_witness :
    (∃ outs, ProcessJSONMessage stubExtern (NewJSONProcessor stubExtern plainConfig)
        [("ioc_value", .str "10.0.0.1")] "alert.watchlist.hit.ingress.host" =
          some (outs, none) ∧ outs ≠ [] ∧
      ∀ r ∈ outs, r.get? "ioc_value" = some (.str "10.0.0.1")) ∧
    (∃ outs, ProcessJSONMessage stubExtern (NewJSONProcessor stubExtern plainConfig)
        [("ioc_value", .str "10.0.0.1")] "alert.watchlist.hit.query.process" =
          some (outs, none) ∧ outs ≠ [] ∧
      ∀ r ∈ outs, r.get? "ioc_value" = none) :=
  ⟨⟨_, rfl, List.cons_ne_nil _ _, fun r hr =>
      ((alert_ioc_value stubExtern plainConfig [("ioc_value", .str "10.0.0.1")]
        "alert.watchlist.hit.ingress.host" _ none (by decide) rfl) r hr).2 (by decide)⟩,
    ⟨_, rfl, List.cons_ne_nil _ _, fun r hr =>
      ((alert_ioc_value stubExtern plainConfig [("ioc_value", .str "10.0.0.1")]
        "alert.watchlist.hit.query.process" _ none (by decide) rfl) r hr).1 rfl⟩⟩

/-- A record of the JSON decoder holds no `[]string`. -/
theorem fieldsJSON_not_strs : ∀ (m : Record), Value.fieldsJSON m = true →
    ∀ k l, Record.get? m k ≠ some (.strs l) := by
  intro m
  induction m with
  | nil =>
    intro _ k l h
    simp [Record.get?] at h
  | cons p m ih =>
    obtain ⟨k0, v0⟩ := p
    intro hj k l h
    simp only [Value.fieldsJSON, Bool.and_eq_true] at hj
    simp only [Record.get?] at h
    split_ifs at h with hk
    · have hv : v0 = .strs l := Option.some.inj h
      rw [hv] at hj
      simp [Value.isJSON] at hj
    · exact ih hj.2 k l h

/-- The `hostnames` of the record of `alertWatchlistHitBinary`: the primary
host name when it is a non-empty string, followed by the elements of
`other_hostnames` when that is a `[]string`. -/
theorem alertWatchlistHitBinary_hostnames {t : String} {msg : Record} {outs : List Record}
    {err : Option Error} (h : alertWatchlistHitBinary t msg = some (outs, err)) :
    ∀ r ∈ outs, r.get? "hostnames" =
      some (.strs ((if getString msg "hostname" "" ≠ "" then [getString msg "hostname" ""]
          else []) ++
        (match msg.get? "other_hostnames" with
          | some (.strs objval) => objval
          | _ => []))) := by
  intro r hmem
  have hfold : ∀ (l acc : List String),
      l.foldl (fun hostnames hostname => hostnames ++ [hostname]) acc = acc ++ l := by
    intro l
    induction l with
    | nil => simp
    | cons a l ih =>
      intro acc
      simp [List.foldl, ih]
  unfold alertWatchlistHitBinary at h
  simp only at h
  split at h
  · simp at h
    rw [h.1] at hmem
    simp at hmem
  · rename_i o ho
    simp at h
    rw [← h.1] at hmem
    simp at hmem
    rw [hmem]
    simp only [Record.get?_set]
    simp only [if_neg (by decide : ¬ "hostnames" = "event_timestamp"),
      if_neg (by decide : ¬ "created_time" = "hostnames"),
      if_neg (by decide : ¬ "event_timestamp" = "hostnames"), if_true]
    congr 2
    cases hv : msg.get? "other_hostnames" with
    | none => simp
    | some v => cases v <;> simp [hfold]

/-- On a record of the JSON decoder, the `hostnames` of the record of
`alertWatchlistHitBinary` never holds an element of `other_hostnames`. -/
theorem alertWatchlistHitBinary_hostnames_json {t : String} {msg : Record}
    {outs : List Record} {err : Option Error} (hj : Record.IsJSON msg)
    (h : alertWatchlistHitBinary t msg = some (outs, err)) :
    ∀ r ∈ outs, r.get? "hostnames" =
      some (.strs (if getString msg "hostname" "" ≠ "" then [getString msg "hostname" ""]
          else [])) := by
  intro r hmem
  rw [alertWatchlistHitBinary_hostnames h r hmem]
  have hno := fieldsJSON_not_strs msg hj "other_hostnames"
  cases hv : msg.get? "other_hostnames" with
  | none => simp
  | some v =>
    cases v with
    | strs l => exact absurd hv (hno l)
    | _ => simp

/-- C24: for both binary alert types, the record of the JSON body with hostname
`h` and other_hostnames `a`, `b` has the hostnames `h` only: the decoder yields
a `[]interface{}` and the handler copies `other_hostnames` only when it is a
`[]string`, as in the third record. -/
theorem alert_other_hostnames_dropped :
    Record.IsJSON [("hostname", .str "h"), ("other_hostnames", .arr [.str "a", .str "b"])] ∧
    (ProcessJSONMessage stubExtern (NewJSONProcessor stubExtern plainConfig)
        [("hostname", .str "h"), ("other_hostnames", .arr [.str "a", .str "b"])]
        "alert.watchlist.hit.ingress.binary").map
      (fun res => res.1.map fun r => r.get? "hostnames") = some [some (.strs ["h"])] ∧
    (ProcessJSONMessage stubExtern (NewJSONProcessor stubExtern plainConfig)
        [("hostname", .str "h"), ("other_hostnames", .arr [.str "a", .str "b"])]
        "alert.watchlist.hit.query.binary").map
      (fun res => res.1.map fun r => r.get? "hostnames") = some [some (.strs ["h"])] ∧
    (ProcessJSONMessage stubExtern (NewJSONProcessor stubExtern plainConfig)
        [("hostname", .str "h"), ("other_hostnames", .strs ["a", "b"])]
        "alert.watchlist.hit.ingress.binary").map
      (fun res => res.1.map fun r => r.get? "hostnames") =
      some [some (.strs ["h", "a", "b"])] :=
  ⟨rfl, rfl, rfl, rfl⟩

/-! ## The per-endpoint details of `watchlist.hit.binary` -/

/-- The record that `watchlistHitBinary` builds for a sub-document holds, under
each of `observed_filename`, `endpoint` and `group`, the object that the outer
record holds under that key, and an empty object when the outer record holds
none or a value of another type. -/
theorem watchlistHitBinaryDoc_details (inmsg sub : Record) {k : String}
    (hk : k ∈ ["observed_filename", "endpoint", "group"]) :
    (watchlistHitBinaryDoc inmsg sub).get? k =
      some (match inmsg.get? k with
        | some (.obj objval) => .obj objval
        | _ => .obj []) := by
  simp only [List.mem_cons, List.mem_singleton, List.not_mem_nil, or_false] at hk
  have hc : ∀ (o : Record) (key : String), (copyObject inmsg o key).get? key =
      some (match inmsg.get? key with
        | some (.obj objval) => .obj objval
        | _ => .obj []) := by
    intro o key
    cases hv : inmsg.get? key with
    | none => simp [copyObject, hv, Record.get?_set]
    | some v => cases v <;> simp [copyObject, hv, Record.get?_set, deepcopy.Iface]
  unfold watchlistHitBinaryDoc
  simp only [List.foldl]
  rcases hk with rfl | rfl | rfl
  · rw [copyObject_get? _ _ (by decide), copyObject_get? _ _ (by decide)]
    exact hc _ _
  · rw [copyObject_get? _ _ (by decide)]
    exact hc _ _
  · exact hc _ _

/-- C25: the record of `watchlist.hit.binary` for an outer record that holds
arrays under `observed_filename`, `endpoint` and `group` carries empty objects
under these keys, not the arrays: only a value that is an object is copied, as
for the second record. -/
theorem watchlistHitBinary_arrays_dropped :
    (ProcessJSONMessage stubExtern (NewJSONProcessor stubExtern plainConfig)
        [("observed_filename", .arr [.str "c:\\a.exe"]), ("endpoint", .arr [.str "WIN-HOST|7"]),
         ("group", .arr [.str "Default Group"]), ("docs", .arr [.obj []])]
        "watchlist.hit.binary").map
      (fun res => res.1.map fun r =>
        (r.get? "observed_filename", r.get? "endpoint", r.get? "group")) =
      some [(some (.obj []), some (.obj []), some (.obj []))] ∧
    (ProcessJSONMessage stubExtern (NewJSONProcessor stubExtern plainConfig)
        [("endpoint", .obj [("0", .str "WIN-HOST|7")]), ("docs", .arr [.obj []])]
        "watchlist.hit.binary").map
      (fun res => res.1.map fun r => r.get? "endpoint") =
      some [some (.obj [("0", .str "WIN-HOST|7")])] :=
  ⟨rfl, rfl⟩

/-! ## The endpoint of `watchlist.storage.hit.binary` -/

theorem AllianceKey.hasPrefix {k f s : String} (h : AllianceKey k f s) :
    strings.HasPrefix k "alliance_" = true := by
  rw [h.1, String.append_assoc, String.append_assoc]
  exact hasPrefix_append _ _

/-- The first loop of `copyAllianceInformation` on well-shaped keys: the
sources it collects are the sources collected before and the source suffixes
of the keys, each once. -/
theorem allianceSources_spec :
    ∀ (keys acc out : List String),
      (∀ k ∈ keys, strings.HasPrefix k "alliance_" = true → ∃ f s, AllianceKey k f s) →
      allianceSources keys acc = some out → acc.Nodup →
      out.Nodup ∧ ∀ s, s ∈ out ↔ s ∈ acc ∨ ∃ k ∈ keys, ∃ f, AllianceKey k f s := by
  intro keys
  induction keys with
  | nil =>
    intro acc out _ h hnd
    simp [allianceSources] at h
    subst h
    exact ⟨hnd, fun s => by simp⟩
  | cons k keys ih =>
    intro acc out hshape h hnd
    have hrest : ∀ k' ∈ keys, strings.HasPrefix k' "alliance_" = true →
        ∃ f s, AllianceKey k' f s := fun k' hk' => hshape k' (List.mem_cons_of_mem _ hk')
    simp only [allianceSources] at h
    by_cases hp : strings.HasPrefix k "alliance_" = true
    · obtain ⟨f, s0, hk⟩ := hshape k (List.mem_cons_self _ _) hp
      simp only [hp, if_true, hk.split] at h
      have hnd2 : (if s0 ∈ acc then acc else acc ++ [s0]).Nodup := by
        split_ifs with hm
        · exact hnd
        · exact List.Nodup.append hnd (List.nodup_singleton _) (by simpa using hm)
      obtain ⟨h1, h2⟩ := ih _ _ hrest h hnd2
      refine ⟨h1, ?_⟩
      intro s
      rw [h2 s]
      constructor
      · rintro (hm | ⟨k', hk', f', hf'⟩)
        · split_ifs at hm with hin
          · exact Or.inl hm
          · rcases List.mem_append.mp hm with hm | hm
            · exact Or.inl hm
            · simp at hm
              subst hm
              exact Or.inr ⟨k, List.mem_cons_self _ _, f, hk⟩
        · exact Or.inr ⟨k', List.mem_cons_of_mem _ hk', f', hf'⟩
      · rintro (hm | ⟨k', hk', f', hf'⟩)
        · left
          split_ifs
          · exact hm
          · exact List.mem_append_left _ hm
        · rcases List.mem_cons.mp hk' with e | hk'
          · subst e
            have hsp := hf'.split
            rw [hk.split] at hsp
            have hs : s0 = s := by
              simp at hsp
              exact hsp.2
            subst hs
            left
            split_ifs with hin
            · exact hin
            · simp
          · exact Or.inr ⟨k', hk', f', hf'⟩
    · simp only [hp] at h
      obtain ⟨h1, h2⟩ := ih _ _ hrest h hnd
      refine ⟨h1, ?_⟩
      intro s
      rw [h2 s]
      constructor
      · rintro (hm | ⟨k', hk', f', hf'⟩)
        · exact Or.inl hm
        · exact Or.inr ⟨k', List.mem_cons_of_mem _ hk', f', hf'⟩
      · rintro (hm | ⟨k', hk', f', hf'⟩)
        · exact Or.inl hm
        · rcases List.mem_cons.mp hk' with e | hk'
          · subst e
            exact absurd hf'.hasPrefix hp
          · exact Or.inr ⟨k', hk', f', hf'⟩

/-- Without a key that starts with `alliance_`, the first loop collects
nothing. -/
theorem allianceSources_none :
    ∀ (keys acc : List String), (∀ k ∈ keys, strings.HasPrefix k "alliance_" = false) →
      allianceSources keys acc = some acc := by
  intro keys
  induction keys with
  | nil => exact fun _ _ => rfl
  | cons k keys ih =>
    intro acc h
    simp only [allianceSources, h k (List.mem_cons_self _ _)]
    exact ih acc (fun k' hk' => h k' (List.mem_cons_of_mem _ hk'))

/-- The second loop of `copyAllianceInformation` appends one entry per source,
in order. -/
theorem allianceEntries_spec (msg : Record) :
    ∀ (sources : List String) (acc out : List Record),
      allianceEntries msg sources acc = some out →
      ∃ es, out = acc ++ es ∧
        List.Forall₂ (fun s e => allianceEntry msg s = some e) sources es := by
  intro sources
  induction sources with
  | nil =>
    intro acc out h
    simp [allianceEntries] at h
    exact ⟨[], by simp [h], List.Forall₂.nil⟩
  | cons s sources ih =>
    intro acc out h
    simp only [allianceEntries] at h
    cases he : allianceEntry msg s with
    | none => simp [he] at h
    | some e =>
      simp only [he] at h
      obtain ⟨es, h1, h2⟩ := ih _ _ h
      exact ⟨e :: es, by simp [h1], List.Forall₂.cons he h2⟩

/-- The entry that the second loop builds for a source. -/
theorem allianceEntry_spec {msg : Record} {s : String} {e : Record}
    (h : allianceEntry msg s = some e) : AllianceListEntry msg s e := by
  unfold allianceEntry at h
  simp only at h
  cases hv : msg.get? ("alliance_data_" ++ s) with
  | none =>
    simp only [hv] at h
    have he := (Option.some.inj h).symm
    subst he
    refine ⟨?_, ?_, ?_, ?_, ?_, ?_, ?_⟩ <;> simp [Record.get?_set, Record.get?_nil, hv]
  | some v =>
    cases v with
    | strs l =>
      simp only [hv] at h
      cases hl : l.getLast? with
      | none => simp [hl] at h
      | some last =>
        simp only [hl] at h
        have he := (Option.some.inj h).symm
        subst he
        refine ⟨?_, ?_, ?_, ?_, ?_, ?_, ?_⟩ <;> simp [Record.get?_set, Record.get?_nil, hv]
    | str d =>
      simp only [hv] at h
      have he := (Option.some.inj h).symm
      subst he
      refine ⟨?_, ?_, ?_, ?_, ?_, ?_, ?_⟩ <;> simp [Record.get?_set, Record.get?_nil, hv]
    | _ =>
      simp only [hv] at h
      have he := (Option.some.inj h).symm
      subst he
      refine ⟨?_, ?_, ?_, ?_, ?_, ?_, ?_⟩ <;> simp [Record.get?_set, Record.get?_nil, hv]

theorem forall₂_mem_left {α β : Type} {R : α → β → Prop} {l1 : List α} {l2 : List β}
    (h : List.Forall₂ R l1 l2) : ∀ a ∈ l1, ∃ b ∈ l2, R a b := by
  induction h with
  | nil => simp
  | cons hab _ ih =>
    intro a ha
    rcases List.mem_cons.mp ha with e | e
    · subst e
      exact ⟨_, List.mem_cons_self _ _, hab⟩
    · obtain ⟨b, hb, hr⟩ := ih a e
      exact ⟨b, List.mem_cons_of_mem _ hb, hr⟩

/-- The list that `copyAllianceInformation` stores under `alliance_data`. -/
theorem copyAllianceInformation_list {msg o o' : Record}
    (h : copyAllianceInformation msg o = some o') :
    ∃ l, o' = o.set "alliance_data" (.objs l) ∧
      ((∀ k ∈ msg.keys, strings.HasPrefix k "alliance_" = false) → l = []) ∧
      (AllianceKeysShaped msg →
        (l.map (fun e => Record.get? e "source")).Nodup ∧
        (∀ s, AllianceSource msg s → ∃ e ∈ l, AllianceListEntry msg s e) ∧
        (∀ e ∈ l, ∃ s, AllianceSource msg s ∧ AllianceListEntry msg s e)) := by
  unfold copyAllianceInformation at h
  cases hs : allianceSources msg.keys [] with
  | none => simp [hs] at h
  | some srcs =>
    simp only [hs] at h
    cases he : allianceEntries msg srcs [] with
    | none => simp [he] at h
    | some l =>
      simp only [he] at h
      refine ⟨l, (Option.some.inj h).symm, ?_, ?_⟩
      · intro hno
        rw [allianceSources_none _ _ hno] at hs
        have e2 : srcs = [] := (Option.some.inj hs).symm
        subst e2
        simp [allianceEntries] at he
        exact he
      · intro hshape
        obtain ⟨hnd, hmem⟩ := allianceSources_spec _ _ _ hshape hs List.nodup_nil
        obtain ⟨es, h1, h2⟩ := allianceEntries_spec msg _ _ _ he
        simp at h1
        subst h1
        have hsrc : ∀ s, s ∈ srcs ↔ AllianceSource msg s := by
          intro s
          rw [hmem s]
          simp [AllianceSource]
        have hmap : l.map (fun e => Record.get? e "source") =
            srcs.map (fun s => some (Value.str s)) := by
          clear hnd hmem hsrc he hs h
          induction h2 with
          | nil => rfl
          | cons hab _ ih =>
            simp only [List.map_cons, ih]
            rw [(allianceEntry_spec hab).1]
        refine ⟨?_, ?_, ?_⟩
        · rw [hmap]
          refine List.Nodup.map ?_ hnd
          intro a b hab
          injection hab with h3
          injection h3
        · intro s hs2
          obtain ⟨e, hel, hent⟩ := forall₂_mem_left h2 s ((hsrc s).mpr hs2)
          exact ⟨e, hel, allianceEntry_spec hent⟩
        · intro e hel
          obtain ⟨s, hsl, hent⟩ := forall₂_mem_right h2 e hel
          exact ⟨s, (hsrc s).mp hsl, allianceEntry_spec hent⟩

theorem rangeDocs_body_isSome {body : Record → Option Record} :
    ∀ (docs : List Value) (acc outs : List Record), rangeDocs body docs acc = some outs →
      ∀ sub ∈ recordsOf docs, ∃ r, body sub = some r := by
  intro docs
  induction docs with
  | nil =>
    intro acc outs _ sub hsub
    simp [recordsOf] at hsub
  | cons d docs ih =>
    intro acc outs h sub hsub
    by_cases hd : ∃ s, d = Value.obj s
    · obtain ⟨s, rfl⟩ := hd
      have hrec : recordsOf (Value.obj s :: docs) = s :: recordsOf docs := by
        simp [recordsOf]
      rw [hrec] at hsub
      simp only [rangeDocs] at h
      cases hb : body s with
      | none => simp [hb] at h
      | some o =>
        simp only [hb] at h
        rcases List.mem_cons.mp hsub with e | hm
        · subst e
          exact ⟨o, hb⟩
        · exact ih _ _ h sub hm
    · have hd2 : ∀ s, d ≠ Value.obj s := fun s e => hd ⟨s, e⟩
      obtain ⟨h1, h2⟩ := rangeDocs_skip body d docs acc hd2
      rw [h1] at h
      rw [h2] at hsub
      exact ih _ _ h sub hsub

/-- When the loop over `docs` completes, the body has completed on every
sub-document. -/
theorem explodeDocs_body_isSome {body : Record → Option Record} {inmsg : Record}
    {outs : List Record} (h : explodeDocs inmsg body = some outs) :
    ∀ sub ∈ subDocuments inmsg, ∃ r, body sub = some r := by
  intro sub hsub
  unfold explodeDocs at h
  unfold subDocuments at hsub
  cases hd : inmsg.get? "docs" with
  | none => simp [hd] at hsub
  | some v =>
    cases v with
    | arr subdocs =>
      simp only [hd] at h hsub
      exact rangeDocs_body_isSome _ _ _ h sub hsub
    | _ => simp [hd] at hsub

/-- The record that `feedStorageHitProcess` builds for a sub-document of a
`feed.storage.hit.process` message holds under `alliance_data` what
`copyAllianceInformation` has stored there. -/
theorem feedStorageHitProcessDoc_alliance {ext : Extern} {msg sub r0 : Record}
    (h : feedStorageHitProcessDoc ext "feed.storage.hit.process" msg sub = some r0) :
    ∃ o o1, copyAllianceInformation msg o = some o1 ∧
      r0.get? "alliance_data" = o1.get? "alliance_data" := by
  unfold feedStorageHitProcessDoc at h
  simp only [if_true] at h
  split at h
  · simp at h
  · rename_i o1 ho1
    simp at h
    subst h
    refine ⟨_, o1, ho1, ?_⟩
    simp [copyProcessMetadata, copyParentMetadata, copyEventCounts, eventCountKeys,
      Record.get?_set]

/-- The handler behind `ProcessJSONMessage` and the link loop, when a handler
is registered. -/
theorem ProcessJSONMessage_handler {ext : Extern} {jsp : JsonMessageProcessor} {msg : Record}
    {routingKey : String} {outs : List Record} {err : Option Error}
    {processfunc : JSONMessageHandlerFunc}
    (hl : lookupHandler jsp.messageHandlers (fixupMessageType routingKey) = some processfunc)
    (h : ProcessJSONMessage ext jsp msg routingKey = some (outs, err)) :
    ∃ outs0, processfunc (fixupMessageType routingKey) msg = some (outs0, err) ∧
      addLinksToMessages ext jsp outs0 = some outs := by
  unfold ProcessJSONMessage at h
  simp only [hl] at h
  cases hp : processfunc (fixupMessageType routingKey) msg with
  | none => simp [hp] at h
  | some res =>
    obtain ⟨outs0, err0⟩ := res
    simp only [hp] at h
    cases ha : addLinksToMessages ext jsp outs0 with
    | none => simp [ha] at h
    | some outs1 =>
      simp only [ha] at h
      simp at h
      exact ⟨outs0, by rw [h.2], by rw [ha, h.1]⟩

/-- The records of `feed.storage.hit.process`, each with the sub-document it
was built from. -/
theorem feedStorage_records {ext : Extern} {cfg : Config} {msg : Record}
    {outs : List Record} {err : Option Error}
    (h : ProcessJSONMessage ext (NewJSONProcessor ext cfg) msg "feed.storage.hit.process" =
      some (outs, err)) :
    err = none ∧
    List.Forall₂
      (fun sub r => ∃ r0,
        feedStorageHitProcessDoc ext "feed.storage.hit.process" msg sub = some r0 ∧
        addLinksToMessage ext (NewJSONProcessor ext cfg) r0 = some r)
      (subDocuments msg) outs := by
  have hl : lookupHandler (NewJSONProcessor ext cfg).messageHandlers
      (fixupMessageType "feed.storage.hit.process") = some (feedStorageHitProcess ext) := rfl
  obtain ⟨outs0, hp, hlinks⟩ := ProcessJSONMessage_handler hl h
  have hfix : fixupMessageType "feed.storage.hit.process" = "feed.storage.hit.process" := by
    decide
  rw [hfix] at hp
  unfold feedStorageHitProcess at hp
  cases he : explodeDocs msg (feedStorageHitProcessDoc ext "feed.storage.hit.process" msg) with
  | none => simp [he] at hp
  | some o =>
    simp only [he] at hp
    simp at hp
    obtain ⟨rfl, rfl⟩ := hp
    refine ⟨rfl, ?_⟩
    have hbody := explodeDocs_body_isSome he
    obtain ⟨outs1, h1, h2⟩ := explodeDocs_eq msg hbody
    rw [he] at h1
    have e : o = outs1 := Option.some.inj h1
    subst e
    exact forall₂_chain h2 (addLinksToMessages_forall₂ hlinks)

/-- C22: for a `feed.storage.hit.process` message whose keys that start with
`alliance_` all have the shape `alliance_<field>_<source>`, the `alliance_data`
of every record returned is a list that holds one entry for each source suffix
among these keys, no two entries for one source and no entry for anything
else; the entry for a source holds the source, the numeric score (0 when
absent), the strings link and updated (empty when absent) and, when the key
`alliance_data_<source>` is present, its string as data. -/
theorem feedStorageHitProcess_alliance_list (ext : Extern) (cfg : Config) (msg : Record)
    (outs : List Record) (err : Option Error) (hshape : AllianceKeysShaped msg)
    (h : ProcessJSONMessage ext (NewJSONProcessor ext cfg) msg "feed.storage.hit.process" =
      some (outs, err)) :
    ∀ r ∈ outs, ∃ l, r.get? "alliance_data" = some (.objs l) ∧
      (l.map (fun e => Record.get? e "source")).Nodup ∧
      (∀ s, AllianceSource msg s → ∃ e ∈ l, AllianceListEntry msg s e) ∧
      (∀ e ∈ l, ∃ s, AllianceSource msg s ∧ AllianceListEntry msg s e) := by
  intro r hr
  obtain ⟨-, hrec⟩ := feedStorage_records h
  obtain ⟨sub, -, r0, hr0, hlink⟩ := forall₂_mem_right hrec r hr
  obtain ⟨o, o1, hco, hget⟩ := feedStorageHitProcessDoc_alliance hr0
  obtain ⟨l, hl, -, hspec⟩ := copyAllianceInformation_list hco
  refine ⟨l, ?_, hspec hshape⟩
  rw [addLinksToMessage_get? hlink (by decide), hget, hl]
  exact Record.get?_set_self _ _ _

/-- C22, witness: a message with the score and the link of the source `bit9`
and one sub-document gives one record whose `alliance_data` holds the one
entry of `bit9`. -/
theorem feedStorageHitProcess_alliance_list_witness :
    AllianceKeysShaped [("alliance_score_bit9", .num "100"),
      ("alliance_link_bit9", .str "https://example.org/1"), ("docs", .arr [.obj []])] ∧
    ∃ outs, ProcessJSONMessage stubExtern (NewJSONProcessor stubExtern plainConfig)
        [("alliance_score_bit9", .num "100"),
         ("alliance_link_bit9", .str "https://example.org/1"), ("docs", .arr [.obj []])]
        "feed.storage.hit.process" = some (outs, none) ∧
      outs.map (fun r => Record.get? r "alliance_data") =
        [some (.objs [[("source", .str "bit9"), ("score", .num "100"),
          ("link", .str "https://example.org/1"), ("updated", .str "")]])] ∧
      ∀ r ∈ outs, ∃ l, r.get? "alliance_data" = some (.objs l) ∧
        (l.map (fun e => Record.get? e "source")).Nodup ∧
        (∀ s, AllianceSource [("alliance_score_bit9", .num "100"),
            ("alliance_link_bit9", .str "https://example.org/1"), ("docs", .arr [.obj []])] s →
          ∃ e ∈ l, AllianceListEntry [("alliance_score_bit9", .num "100"),
            ("alliance_link_bit9", .str "https://example.org/1"), ("docs", .arr [.obj []])]
            s e) ∧
        (∀ e ∈ l, ∃ s, AllianceSource [("alliance_score_bit9", .num "100"),
            ("alliance_link_bit9", .str "https://example.org/1"), ("docs", .arr [.obj []])] s ∧
          AllianceListEntry [("alliance_score_bit9", .num "100"),
            ("alliance_link_bit9", .str "https://example.org/1"), ("docs", .arr [.obj []])]
            s e) := by
  have hshape : AllianceKeysShaped [("alliance_score_bit9", .num "100"),
      ("alliance_link_bit9", .str "https://example.org/1"), ("docs", .arr [.obj []])] := by
    intro k hk hp
    simp only [Record.keys, List.map_cons, List.map_nil, List.mem_cons, List.mem_singleton,
      List.not_mem_nil, or_false] at hk
    rcases hk with rfl | rfl | rfl
    · exact ⟨"score", "bit9", rfl, by decide, by decide⟩
    · exact ⟨"link", "bit9", rfl, by decide, by decide⟩
    · exact absurd hp (by decide)
  exact ⟨hshape, _, rfl, rfl,
    feedStorageHitProcess_alliance_list stubExtern plainConfig _ _ none hshape rfl⟩

/-! ## Which records carry `alliance_data` -/

theorem docsHandler_no_alliance (doc : Record → Record → Record) {m : Record}
    {outs : List Record}
    (hdoc : ∀ sub, (doc m sub).get? "alliance_data" = none)
    (h : explodeDocs m (fun subdoc => some (doc m subdoc)) = some outs) :
    ∀ r ∈ outs, r.get? "alliance_data" = none := by
  refine explodeDocs_forall ?_ h
  intro sub r hr
  simp at hr
  subst hr
  exact hdoc sub

theorem watchlistHitProcess_no_alliance (ext : Extern) {t : String} {m : Record}
    {outs : List Record} {err : Option Error}
    (h : watchlistHitProcess ext t m = some (outs, err)) :
    ∀ r ∈ outs, r.get? "alliance_data" = none := by
  unfold watchlistHitProcess at h
  split at h
  · simp at h
  · rename_i o ho
    simp at h
    obtain ⟨rfl, -⟩ := h
    refine docsHandler_no_alliance (watchlistHitProcessDoc ext) ?_ ho
    intro sub
    simp [watchlistHitProcessDoc, copySensorMetadata, copyProcessMetadata,
      copyParentMetadata, copyEventCounts, eventCountKeys, Record.get?_set, Record.get?_nil]

theorem watchlistStorageHitProcess_no_alliance {ext : Extern} {t : String} {m : Record}
    {outs : List Record} {err : Option Error}
    (h : watchlistStorageHitProcess ext t m = some (outs, err)) :
    ∀ r ∈ outs, r.get? "alliance_data" = none := by
  unfold watchlistStorageHitProcess at h
  split at h
  · simp at h
  · rename_i o ho
    simp at h
    obtain ⟨rfl, -⟩ := h
    refine docsHandler_no_alliance (watchlistStorageHitProcessDoc ext) ?_ ho
    intro sub
    simp [watchlistStorageHitProcessDoc, copyProcessMetadata,
      copyParentMetadata, copyEventCounts, eventCountKeys, Record.get?_set, Record.get?_nil]

theorem watchlistHitBinary_no_alliance {t : String} {m : Record}
    {outs : List Record} {err : Option Error}
    (h : watchlistHitBinary t m = some (outs, err)) :
    ∀ r ∈ outs, r.get? "alliance_data" = none := by
  unfold watchlistHitBinary at h
  split at h
  · simp at h
  · rename_i o ho
    simp at h
    obtain ⟨rfl, -⟩ := h
    refine docsHandler_no_alliance watchlistHitBinaryDoc ?_ ho
    intro sub
    simp [watchlistHitBinaryDoc, copyBinaryMetadata, copyObject_get?, Record.get?_set,
      Record.get?_nil]

theorem watchlistStorageHitBinary_no_alliance {t : String} {m : Record}
    {outs : List Record} {err : Option Error}
    (h : watchlistStorageHitBinary t m = some (outs, err)) :
    ∀ r ∈ outs, r.get? "alliance_data" = none := by
  unfold watchlistStorageHitBinary at h
  split at h
  · simp at h
  · rename_i o ho
    simp at h
    obtain ⟨rfl, -⟩ := h
    refine docsHandler_no_alliance watchlistStorageHitBinaryDoc ?_ ho
    intro sub
    unfold watchlistStorageHitBinaryDoc
    simp only
    split <;> simp [copyBinaryMetadata, Record.get?_set, Record.get?_nil]

theorem feedIngressHitProcess_no_alliance {t : String} {m : Record}
    {outs : List Record} {err : Option Error}
    (h : feedIngressHitProcess t m = some (outs, err)) :
    ∀ r ∈ outs, r.get? "alliance_data" = none := by
  intro r hr
  simp [feedIngressHitProcess] at h
  obtain ⟨rfl, -⟩ := h
  simp at hr
  subst hr
  simp [copyFeedSensorMetadata, Record.get?_set, Record.get?_nil]

theorem feedStorageHitProcess_no_alliance (ext : Extern) {t : String} {m : Record}
    {outs : List Record} {err : Option Error} (ht : t ≠ "feed.storage.hit.process")
    (h : feedStorageHitProcess ext t m = some (outs, err)) :
    ∀ r ∈ outs, r.get? "alliance_data" = none := by
  unfold feedStorageHitProcess at h
  split at h
  · simp at h
  · rename_i o ho
    simp at h
    obtain ⟨rfl, -⟩ := h
    refine explodeDocs_forall ?_ ho
    intro sub r hr
    unfold feedStorageHitProcessDoc at hr
    simp only [if_neg ht] at hr
    simp at hr
    subst hr
    simp [copyProcessMetadata, copyParentMetadata, copyEventCounts, eventCountKeys,
      Record.get?_set, Record.get?_nil]

/-- The alert metadata holds no `alliance_data`. -/
theorem copyAlertMetadata_no_alliance {t : String} {inmsg o : Record}
    (h : copyAlertMetadata t inmsg
      ((Record.set [] "type" (.str t)).set "schema_version" (.int 2)) = (o, none)) :
    o.get? "alliance_data" = none := by
  rcases copyAlertMetadata_cases t inmsg
    ((Record.set [] "type" (.str t)).set "schema_version" (.int 2)) with
    ⟨-, e, he⟩ | ⟨-, o', ho', hfr⟩
  · rw [he] at h
    simp at h
  · rw [ho'] at h
    have ho : o = copyAlertFields t inmsg o' := (congrArg Prod.fst h).symm
    rw [ho, copyAlertFields_get? t inmsg o' (by decide), hfr _ (by decide)]
    simp [Record.get?_set, Record.get?_nil]

theorem alertWatchlistHitProcess_no_alliance (ext : Extern) {t : String} {m : Record}
    {outs : List Record} {err : Option Error}
    (h : alertWatchlistHitProcess ext t m = some (outs, err)) :
    ∀ r ∈ outs, r.get? "alliance_data" = none := by
  intro r hr
  unfold alertWatchlistHitProcess at h
  simp only at h
  split at h
  · simp at h
    rw [h.1] at hr
    simp at hr
  · rename_i o ho
    have h1 := copyAlertMetadata_no_alliance ho
    simp at h
    obtain ⟨rfl, -⟩ := h
    simp at hr
    rw [hr]
    simp [copyEventCounts, eventCountKeys, Record.get?_set, h1]

theorem alertWatchlistHitBinary_no_alliance {t : String} {m : Record}
    {outs : List Record} {err : Option Error}
    (h : alertWatchlistHitBinary t m = some (outs, err)) :
    ∀ r ∈ outs, r.get? "alliance_data" = none := by
  intro r hr
  unfold alertWatchlistHitBinary at h
  simp only at h
  split at h
  · simp at h
    rw [h.1] at hr
    simp at hr
  · rename_i o ho
    have h1 := copyAlertMetadata_no_alliance ho
    simp at h
    obtain ⟨rfl, -⟩ := h
    simp at hr
    rw [hr]
    simp [copyObject_get?, Record.get?_set, h1]

theorem alertWatchlistHitHost_no_alliance {t : String} {m : Record}
    {outs : List Record} {err : Option Error}
    (h : alertWatchlistHitHost t m = some (outs, err)) :
    ∀ r ∈ outs, r.get? "alliance_data" = none := by
  intro r hr
  unfold alertWatchlistHitHost at h
  simp only at h
  split at h
  · simp at h
    rw [h.1] at hr
    simp at hr
  · rename_i o ho
    have h1 := copyAlertMetadata_no_alliance ho
    simp at h
    obtain ⟨rfl, -⟩ := h
    simp at hr
    rw [hr]
    simp [Record.get?_set, h1]

theorem binarystoreFileAdded_no_alliance {t : String} {m : Record}
    {outs : List Record} {err : Option Error}
    (h : binarystoreFileAdded t m = some (outs, err)) :
    ∀ r ∈ outs, r.get? "alliance_data" = none := by
  intro r hr
  simp [binarystoreFileAdded] at h
  obtain ⟨rfl, -⟩ := h
  simp at hr
  subst hr
  simp [Record.get?_set, Record.get?_nil]

theorem binaryinfoObserved_no_alliance {t : String} {m : Record}
    {outs : List Record} {err : Option Error}
    (h : binaryinfoObserved t m = some (outs, err)) :
    ∀ r ∈ outs, r.get? "alliance_data" = none := by
  intro r hr
  simp only [binaryinfoObserved] at h
  simp at h
  obtain ⟨rfl, -⟩ := h
  simp at hr
  subst hr
  split
  · simp [copyObject_get?, Record.get?_set, Record.get?_nil]
  · split <;> simp [copyObject_get?, Record.get?_set, Record.get?_nil]

/-- No registered handler called with a type other than
`feed.storage.hit.process` returns a record with `alliance_data`. -/
theorem messageHandlers_no_alliance (ext : Extern) (cfg : Config) :
    ∀ p ∈ (NewJSONProcessor ext cfg).messageHandlers,
      ∀ t m outs err, t ≠ "feed.storage.hit.process" → p.2 t m = some (outs, err) →
        ∀ r ∈ outs, r.get? "alliance_data" = none := by
  simp only [NewJSONProcessor, List.forall_mem_cons]
  refine ⟨fun _ _ _ _ _ h => watchlistHitProcess_no_alliance ext h,
    fun _ _ _ _ _ h => watchlistStorageHitProcess_no_alliance h,
    fun _ _ _ _ _ h => watchlistHitBinary_no_alliance h,
    fun _ _ _ _ _ h => watchlistStorageHitBinary_no_alliance h,
    fun _ _ _ _ _ h => feedIngressHitProcess_no_alliance h,
    fun _ _ _ _ ht h => feedStorageHitProcess_no_alliance ext ht h,
    fun _ _ _ _ ht h => feedStorageHitProcess_no_alliance ext ht h,
    fun _ _ _ _ _ h => alertWatchlistHitProcess_no_alliance ext h,
    fun _ _ _ _ _ h => alertWatchlistHitProcess_no_alliance ext h,
    fun _ _ _ _ _ h => alertWatchlistHitBinary_no_alliance h,
    fun _ _ _ _ _ h => alertWatchlistHitBinary_no_alliance h,
    fun _ _ _ _ _ h => alertWatchlistHitHost_no_alliance h,
    fun _ _ _ _ _ h => binarystoreFileAdded_no_alliance h,
    fun _ _ _ _ _ h => binaryinfoObserved_no_alliance h,
    fun _ _ _ _ _ h => binaryinfoObserved_no_alliance h,
    fun _ _ _ _ _ h => binaryinfoObserved_no_alliance h, ?_⟩
  simp

/-! ## Link enrichment reads six fields -/

theorem addSensorLink_agree (url : String) {m1 m2 : Record}
    (hr : m1.get? "sensor_id" = m2.get? "sensor_id") {k : String}
    (hk : m1.get? k = m2.get? k) :
    (addSensorLink url m1).get? k = (addSensorLink url m2).get? k := by
  unfold addSensorLink
  rw [hr]
  cases m2.get? "sensor_id" with
  | none => exact hk
  | some v =>
    cases v with
    | num t =>
      simp only
      split
      · simp only [Record.get?_set, hk]
      · exact hk
    | _ => exact hk

theorem addBinaryLink_agree (url : String) (key : String) {m1 m2 : Record}
    (hr : m1.get? key = m2.get? key) {k : String} (hk : m1.get? k = m2.get? k) :
    (addBinaryLink url m1 key).get? k = (addBinaryLink url m2 key).get? k := by
  unfold addBinaryLink
  rw [hr]
  cases m2.get? key with
  | none => exact hk
  | some v =>
    cases v with
    | str s =>
      simp only
      split_ifs
      · simp only [Record.get?_set, hk]
      · exact hk
    | _ => exact hk

theorem addGuidLink_agree {ext : Extern} {url g l : String} {m1 m2 m1' m2' : Record}
    (h1 : addGuidLink ext url m1 g l = some m1') (h2 : addGuidLink ext url m2 g l = some m2')
    (hr : m1.get? g = m2.get? g) {k : String} (hk : m1.get? k = m2.get? k) :
    m1'.get? k = m2'.get? k := by
  unfold addGuidLink at h1 h2
  rw [hr] at h1
  cases hv : m2.get? g with
  | none =>
    simp only [hv] at h1 h2
    rw [← Option.some.inj h1, ← Option.some.inj h2]
    exact hk
  | some v =>
    cases v with
    | str s =>
      simp only [hv] at h1 h2
      cases hp : ext.ParseFullGUID s with
      | none =>
        simp only [hp] at h1 h2
        rw [← Option.some.inj h1, ← Option.some.inj h2]
        exact hk
      | some p =>
        simp only [hp] at h1 h2
        rw [← Option.some.inj h1, ← Option.some.inj h2]
        simp only [Record.get?_set, hk]
    | _ => simp [hv] at h2

/-- Two records that agree on the fields that link enrichment reads, and on
the key `k`, agree on `k` after link enrichment. -/
theorem addLinksToMessage_agree {ext : Extern} {jsp : JsonMessageProcessor}
    {m1 m2 m1' m2' : Record} (h1 : addLinksToMessage ext jsp m1 = some m1')
    (h2 : addLinksToMessage ext jsp m2 = some m2')
    (hread : ∀ j ∈ ["sensor_id", "md5", "parent_md5", "process_md5", "process_guid",
      "parent_guid"], m1.get? j = m2.get? j)
    {k : String} (hk : m1.get? k = m2.get? k) : m1'.get? k = m2'.get? k := by
  by_cases hurl : jsp.CbServerURL = ""
  · unfold addLinksToMessage at h1 h2
    simp only [hurl, if_true] at h1 h2
    rw [← Option.some.inj h1, ← Option.some.inj h2]
    exact hk
  · obtain ⟨a1, ha1, hb1⟩ := addLinksToMessage_steps hurl h1
    obtain ⟨a2, ha2, hb2⟩ := addLinksToMessage_steps hurl h2
    have s0 : ∀ j, m1.get? j = m2.get? j →
        (addSensorLink jsp.CbServerURL m1).get? j = (addSensorLink jsp.CbServerURL m2).get? j :=
      fun j hj => addSensorLink_agree _ (hread _ (by decide)) hj
    have s1 : ∀ j, m1.get? j = m2.get? j →
        (addBinaryLink jsp.CbServerURL (addSensorLink jsp.CbServerURL m1) "md5").get? j =
        (addBinaryLink jsp.CbServerURL (addSensorLink jsp.CbServerURL m2) "md5").get? j :=
      fun j hj => addBinaryLink_agree _ _ (s0 _ (hread _ (by decide))) (s0 j hj)
    have s2 : ∀ j, m1.get? j = m2.get? j →
        (addBinaryLink jsp.CbServerURL (addBinaryLink jsp.CbServerURL
          (addSensorLink jsp.CbServerURL m1) "md5") "parent_md5").get? j =
        (addBinaryLink jsp.CbServerURL (addBinaryLink jsp.CbServerURL
          (addSensorLink jsp.CbServerURL m2) "md5") "parent_md5").get? j :=
      fun j hj => addBinaryLink_agree _ _ (s1 _ (hread _ (by decide))) (s1 j hj)
    have s3 : ∀ j, m1.get? j = m2.get? j →
        (addBinaryLink jsp.CbServerURL (addBinaryLink jsp.CbServerURL (addBinaryLink
          jsp.CbServerURL (addSensorLink jsp.CbServerURL m1) "md5") "parent_md5")
          "process_md5").get? j =
        (addBinaryLink jsp.CbServerURL (addBinaryLink jsp.CbServerURL (addBinaryLink
          jsp.CbServerURL (addSensorLink jsp.CbServerURL m2) "md5") "parent_md5")
          "process_md5").get? j :=
      fun j hj => addBinaryLink_agree _ _ (s2 _ (hread _ (by decide))) (s2 j hj)
    have s4 : ∀ j, m1.get? j = m2.get? j → a1.get? j = a2.get? j :=
      fun j hj => addGuidLink_agree ha1 ha2 (s3 _ (hread _ (by decide))) (s3 j hj)
    exact addGuidLink_agree hb1 hb2 (s4 _ (hread _ (by decide))) (s4 k hk)

/-- The records that `feedStorageHitProcess` builds for one sub-document under
two types differ at most under `type` and `alliance_data`. -/
theorem feedStorageHitProcessDoc_agree {ext : Extern} {t1 t2 : String}
    {msg sub r1 r2 : Record} (h1 : feedStorageHitProcessDoc ext t1 msg sub = some r1)
    (h2 : feedStorageHitProcessDoc ext t2 msg sub = some r2) {k : String}
    (hk1 : k ≠ "type") (hk2 : k ≠ "alliance_data") : r1.get? k = r2.get? k := by
  have key : ∀ {t : String} {r : Record}, feedStorageHitProcessDoc ext t msg sub = some r →
      r.get? k = (copyEventCounts sub (copyParentMetadata sub (copyProcessMetadata ext sub
        ((((((((((((((Record.set [] "schema_version" (.int 2)).set
          "feed_name" (.str (getString msg "feed_name" ""))).set
          "feed_id" (.num (getNumber msg "feed_id" "0"))).set
          "cb_version" (.str (getString msg "cb_version" ""))).set
          "event_timestamp" (.num (getNumber msg "event_timestamp" "0"))).set
          "report_id" (.str (getString msg "report_id" ""))).set
          "report_score" (.num (getNumber msg "report_score" "0"))).set
          "sensor_id" (.num (getNumber msg "sensor_id" "0"))).set
          "hostname" (.str (getString msg "hostname" ""))).set
          "group" (.str (getString msg "group" ""))).set
          "comms_ip" (.str (getIPAddress ext msg "comms_ip" ""))).set
          "interface_ip" (.str (getIPAddress ext msg "interface_ip" ""))).set
          "host_type" (.str (getString sub "host_type" ""))).set
          "os_type" (.str (getString sub "os_type" "")))))).get? k := by
    intro t r h
    have e1 : ¬ "type" = k := fun e => hk1 e.symm
    have e2 : ¬ "alliance_data" = k := fun e => hk2 e.symm
    unfold feedStorageHitProcessDoc at h
    simp only at h
    split at h
    · simp at h
    · rename_i o ho
      simp at h
      subst h
      split at ho
      · obtain ⟨l, rfl⟩ := copyAllianceInformation_eq ho
        simp [copyProcessMetadata, copyParentMetadata, copyEventCounts, eventCountKeys,
          Record.get?_set, Record.get?_nil, e1, e2]
      · simp at ho
        subst ho
        simp [copyProcessMetadata, copyParentMetadata, copyEventCounts, eventCountKeys,
          Record.get?_set, Record.get?_nil, e1, e2]
  rw [key h1, key h2]

theorem forall₂_join {α β γ : Type} {R : α → β → Prop} {S : α → γ → Prop} {l : List α}
    {a : List β} (h : List.Forall₂ R l a) :
    ∀ {b : List γ}, List.Forall₂ S l b →
      List.Forall₂ (fun x y => ∃ z, R z x ∧ S z y) a b := by
  induction h with
  | nil =>
    intro b hb
    cases hb
    exact List.Forall₂.nil
  | cons hab _ ih =>
    intro b hb
    cases hb with
    | cons hcd hrest => exact List.Forall₂.cons ⟨_, hab, hcd⟩ (ih hrest)

/-- C23: every record returned for `feed.storage.hit.process` has an
`alliance_data` that is a list, empty when no key of the input starts with
`alliance_`; no record returned for a routing key with another canonical type
has `alliance_data`; and when `feed.storage.hit.process` returns records for an
input, `feed.query.hit.process` returns as many for it, which hold the same
value as the former under every key other than `type` and `alliance_data`. -/
theorem alliance_data_storage_only (ext : Extern) (cfg : Config) (msg : Record) :
    (∀ outs err,
      ProcessJSONMessage ext (NewJSONProcessor ext cfg) msg "feed.storage.hit.process" =
        some (outs, err) →
      ∀ r ∈ outs, ∃ l, r.get? "alliance_data" = some (.objs l) ∧
        ((∀ k ∈ msg.keys, strings.HasPrefix k "alliance_" = false) → l = [])) ∧
    (∀ rk outs err, fixupMessageType rk ≠ "feed.storage.hit.process" →
      ProcessJSONMessage ext (NewJSONProcessor ext cfg) msg rk = some (outs, err) →
      ∀ r ∈ outs, r.get? "alliance_data" = none) ∧
    (∀ outs err,
      ProcessJSONMessage ext (NewJSONProcessor ext cfg) msg "feed.storage.hit.process" =
        some (outs, err) →
      ∃ outs', ProcessJSONMessage ext (NewJSONProcessor ext cfg) msg "feed.query.hit.process" =
          some (outs', err) ∧
        List.Forall₂
          (fun r r' => ∀ k, k ≠ "type" → k ≠ "alliance_data" → r.get? k = r'.get? k)
          outs outs') := by
  refine ⟨?_, ?_, ?_⟩
  · intro outs err h r hr
    obtain ⟨-, hrec⟩ := feedStorage_records h
    obtain ⟨sub, -, r0, hr0, hlink⟩ := forall₂_mem_right hrec r hr
    obtain ⟨o, o1, hco, hget⟩ := feedStorageHitProcessDoc_alliance hr0
    obtain ⟨l, hl, hempty, -⟩ := copyAllianceInformation_list hco
    refine ⟨l, ?_, hempty⟩
    rw [addLinksToMessage_get? hlink (by decide), hget, hl]
    exact Record.get?_set_self _ _ _
  · intro rk outs err hne h r hr
    obtain ⟨processfunc, outs0, r0, hl, hp, hr0, hlink⟩ := ProcessJSONMessage_mem h r hr
    rw [addLinksToMessage_get? hlink (by decide)]
    exact messageHandlers_no_alliance ext cfg _ (lookupHandler_mem hl) _ _ _ _ hne hp r0 hr0
  · intro outs err h
    obtain ⟨herr, hrec⟩ := feedStorage_records h
    subst herr
    obtain ⟨outs', hq, hrecq⟩ := docs_explode ext cfg msg "feed.query.hit.process"
      (by decide) (fun sub _ => docRecord_isSome ext _ msg sub (fun e => absurd e (by decide)))
    refine ⟨outs', hq, ?_⟩
    refine (forall₂_join hrec hrecq).imp ?_
    intro r r' hz k hk1 hk2
    obtain ⟨sub, ⟨r0, hr0, hlink⟩, ⟨r0', hr0', hlink'⟩⟩ := hz
    have hdoc : docRecord ext "feed.query.hit.process" msg sub =
        feedStorageHitProcessDoc ext "feed.query.hit.process" msg sub := by
      simp [docRecord]
    rw [hdoc] at hr0'
    have hag : ∀ j, j ≠ "type" → j ≠ "alliance_data" → r0.get? j = r0'.get? j :=
      fun j h1 h2 => feedStorageHitProcessDoc_agree hr0 hr0' h1 h2
    refine addLinksToMessage_agree hlink hlink' ?_ (hag k hk1 hk2)
    intro j hj
    simp only [List.mem_cons, List.mem_singleton, List.not_mem_nil, or_false] at hj
    rcases hj with rfl | rfl | rfl | rfl | rfl | rfl <;> exact hag _ (by decide) (by decide)

/-- C23, witness: for one message, the record of `feed.storage.hit.process` has
the list, the record of `feed.query.hit.process` has no `alliance_data`, and
the two hold the same `process_md5`. -/
theorem alliance_data_storage_only_witness :
    (∃ outs', ProcessJSONMessage stubExtern (NewJSONProcessor stubExtern plainConfig)
        [("alliance_score_bit9", .num "100"), ("docs", .arr [.obj [("process_md5", .str "ab")]])]
        "feed.query.hit.process" = some (outs', none) ∧
      List.Forall₂
        (fun r r' => ∀ k, k ≠ "type" → k ≠ "alliance_data" →
          Record.get? r k = Record.get? r' k)
        [[("type", .str "feed.storage.hit.process"), ("schema_version", .int 2),
          ("feed_name", .str ""), ("feed_id", .num "0"), ("cb_version", .str ""),
          ("event_timestamp", .num "0"), ("report_id", .str ""), ("report_score", .num "0"),
          ("alliance_data", .objs [[("source", .str "bit9"), ("score", .num "100"),
            ("link", .str ""), ("updated", .str "")]]),
          ("sensor_id", .num "0"), ("hostname", .str ""), ("group", .str ""),
          ("comms_ip", .str ""), ("interface_ip", .str ""), ("host_type", .str ""),
          ("os_type", .str ""), ("process_md5", .str "AB"), ("process_guid", .str ""),
          ("process_name", .str ""), ("cmdline", .str ""), ("process_pid", .num "0"),
          ("username", .str ""), ("path", .str ""), ("last_update", .str ""),
          ("start", .str ""), ("parent_name", .str ""), ("parent_guid", .str ""),
          ("parent_pid", .num "0"), ("modload_count", .num "0"), ("filemod_count", .num "0"),
          ("regmod_count", .num "0"), ("emet_count", .num "0"), ("netconn_count", .num "0"),
          ("crossproc_count", .num "0"), ("processblock_count", .num "0"),
          ("childproc_count", .num "0")]] outs') ∧
    (ProcessJSONMessage stubExtern (NewJSONProcessor stubExtern plainConfig)
        [("alliance_score_bit9", .num "100"), ("docs", .arr [.obj [("process_md5", .str "ab")]])]
        "feed.query.hit.process").map
      (fun res => res.1.map fun r => (r.get? "alliance_data", r.get? "process_md5")) =
      some [(none, some (.str "AB"))] :=
  ⟨(alliance_data_storage_only stubExtern plainConfig
      [("alliance_score_bit9", .num "100"),
       ("docs", .arr [.obj [("process_md5", .str "ab")]])]).2.2 _ none rfl,
    rfl⟩

/-! ## The key-rewrite pass and the order of the keys -/

/-! ## The key-rewrite pass: the order of the visit -/

/-- After a completed loop that has visited every key of the message, the
message is stable at every key. -/
theorem rangeKeyValues_settled {ext : Extern} {m : Record} {amap : SourceMap}
    {ks : List String} {st : KeyValueState} (hcov : ∀ k, m.get? k ≠ none → k ∈ ks)
    (h : rangeKeyValues ext ks ⟨m, amap⟩ = some st) : ∀ k, Stable ext st.msg k := by
  refine rangeKeyValues_stable ks _ _ h ?_
  intro k
  cases hk : m.get? k with
  | none => exact Or.inr (Stable.of_absent ext hk)
  | some v => exact Or.inl (hcov k (by rw [hk]; simp))

/-- A key that does not contain `alliance_` is left alone by the step at a key
that does. -/
theorem handleKeyValue_other {ext : Extern} {st st1 : KeyValueState} {k : String} {v : Value}
    (h : handleKeyValue ext st k v = some st1) {j : String}
    (hc : strings.Contains j "alliance_" = false) :
    (strings.Contains k "alliance_" = true ∧ st1.msg.get? j = st.msg.get? j) ∨
    (strings.Contains k "alliance_" = false ∧ handleOtherKey ext st.msg k v = some st1.msg) := by
  rcases handleKeyValue_cases h with ⟨hk, e⟩ | ⟨hk, e⟩
  · left
    refine ⟨hk, ?_⟩
    have hne : k ≠ j := by
      intro e2
      subst e2
      rw [hc] at hk
      simp at hk
    rw [e, Record.get?_delete, if_neg hne]
  · exact Or.inr ⟨hk, e⟩

/-- A key that its own case rewrites in place with `g`, and that no other case
writes, holds `g` of its first value after the pass, whatever the order. -/
theorem rangeKeyValues_inplace {ext : Extern} {m : Record} {j : String} (g : Value → Value)
    (hg : ∀ v, g (g v) = g v)
    (hself : ∀ (msg msg1 : Record) v, handleOtherKey ext msg j v = some msg1 →
      msg.get? j = some v → msg1.get? j = some (g v))
    (hw : j ∉ writtenKeys) (hc : strings.Contains j "alliance_" = false)
    {amap : SourceMap} {ks : List String} {st : KeyValueState}
    (hcov : ∀ k, m.get? k ≠ none → k ∈ ks)
    (h : rangeKeyValues ext ks ⟨m, amap⟩ = some st) :
    st.msg.get? j = (m.get? j).map g := by
  have hinv := rangeKeyValues_inv
    (P := fun msg => msg.get? j = m.get? j ∨ msg.get? j = (m.get? j).map g)
    (fun st0 st1 k v hP hv hstep => by
      rcases handleKeyValue_other hstep hc with ⟨-, e⟩ | ⟨-, e⟩
      · rw [e]
        exact hP
      · by_cases hjk : j = k
        · subst hjk
          right
          rw [hself _ _ _ e hv]
          rcases hP with hP | hP
          · rw [← hP, hv]
            rfl
          · rw [hv] at hP
            cases hm : m.get? j with
            | none =>
              rw [hm] at hP
              simp at hP
            | some v0 =>
              rw [hm] at hP
              simp at hP
              simp [hP, hg]
        · rw [handleOtherKey_get? e hjk hw]
          exact hP)
    ks _ st h (Or.inl rfl)
  rcases hinv with hl | hr
  · cases hv : st.msg.get? j with
    | none =>
      rw [← hl, hv]
      rfl
    | some v =>
      obtain ⟨-, hs⟩ := rangeKeyValues_settled hcov h j v hv
      have h2 := hself _ _ _ hs hv
      rw [hv] at h2
      rw [← hl, hv]
      simpa using (Option.some.inj h2)
  · exact hr
theorem md5Rewrite_idem (ext : Extern) (v : Value) :
    md5Rewrite ext (md5Rewrite ext v) = md5Rewrite ext v := by
  cases v with
  | str s =>
    by_cases hl : len s = 32
    · simp only [md5Rewrite, hl, if_true]
      split_ifs
      · rw [ToUpper_idem]
      · rfl
    · simp only [md5Rewrite, hl, if_false]
  | _ => rfl

theorem ipRewrite_idem (ext : Extern) (v : Value) :
    ipRewrite ext (ipRewrite ext v) = ipRewrite ext v := by
  cases v with
  | num t =>
    cases hp : strconv.ParseInt t 32 with
    | mk n e =>
      cases e with
      | none => simp [ipRewrite, hp]
      | some e' => simp [ipRewrite, hp]
  | _ => rfl

theorem iocTypeRewrite_idem (ext : Extern) (v : Value) :
    iocTypeRewrite ext (iocTypeRewrite ext v) = iocTypeRewrite ext v := by
  cases v with
  | obj o =>
    cases ho : Record.get? o "md5" with
    | none => simp [iocTypeRewrite, ho]
    | some w =>
      cases w with
      | str s =>
        simp only [iocTypeRewrite, ho, Record.get?_set_self, ToUpper_idem]
        rw [Record.set_eq_self _ _ _ (Record.get?_set_self _ _ _)]
      | _ => simp [iocTypeRewrite, ho]
  | _ => rfl

theorem handleOtherKey_md5_self {ext : Extern} {msg msg1 : Record} {j : String} {v : Value}
    (hk : j = "md5" ∨ j = "parent_md5" ∨ j = "process_md5")
    (hh : handleOtherKey ext msg j v = some msg1) (hv : msg.get? j = some v) :
    msg1.get? j = some (md5Rewrite ext v) := by
  rw [handleOtherKey_md5_case ext msg j v hk] at hh
  cases v with
  | str s =>
    by_cases hl : len s = 32
    · simp only [hl, if_true] at hh
      simp only [md5Rewrite, hl, if_true]
      rw [← Option.some.inj hh]
      exact Record.get?_set_self _ _ _
    · simp only [hl, if_false] at hh
      simp only [md5Rewrite, hl, if_false]
      rw [← Option.some.inj hh]
      exact hv
  | _ =>
    simp only at hh
    rw [← Option.some.inj hh]
    exact hv

theorem handleOtherKey_ip_self {ext : Extern} {msg msg1 : Record} {j : String} {v : Value}
    (hk : j = "comms_ip" ∨ j = "interface_ip")
    (hh : handleOtherKey ext msg j v = some msg1) (hv : msg.get? j = some v) :
    msg1.get? j = some (ipRewrite ext v) := by
  cases v with
  | num t =>
    cases hp : strconv.ParseInt t 32 with
    | mk n e =>
      cases e with
      | none =>
        have e1 : msg1 = msg.set j (.str (ext.GetIPv4AddressSigned n)) := by
          rcases hk with rfl | rfl <;> simpa [handleOtherKey, hp] using hh.symm
        simp only [ipRewrite, hp]
        rw [e1]
        exact Record.get?_set_self _ _ _
      | some e' =>
        have e1 : msg1 = msg := by
          rcases hk with rfl | rfl <;> simpa [handleOtherKey, hp] using hh.symm
        simp only [ipRewrite, hp]
        rw [e1]
        exact hv
  | _ =>
    have e1 : msg1 = msg := by
      rcases hk with rfl | rfl <;> simpa [handleOtherKey] using hh.symm
    rw [e1]
    exact hv

/-- The case of `ioc_type` leaves the value of `ioc_type` as it is, except the
`md5` of an object. -/
theorem handleOtherKey_ioc_type_self {ext : Extern} {msg msg1 : Record} {v : Value}
    (hh : handleOtherKey ext msg "ioc_type" v = some msg1)
    (hv : msg.get? "ioc_type" = some v) :
    msg1.get? "ioc_type" = some (iocTypeRewrite ext v) := by
  simp only [handleOtherKey] at hh
  simp at hh
  cases v with
  | obj o =>
    simp only at hh
    cases ho : Record.get? o "md5" with
    | none =>
      simp only [ho] at hh
      simp only [iocTypeRewrite, ho]
      rw [← Option.some.inj hh]
      exact hv
    | some w =>
      cases w with
      | str s =>
        simp only [ho] at hh
        simp only [iocTypeRewrite, ho]
        rw [← Option.some.inj hh]
        exact Record.get?_set_self _ _ _
      | _ =>
        simp only [ho] at hh
        simp only [iocTypeRewrite, ho]
        rw [← Option.some.inj hh]
        exact hv
  | srcs g => simp at hh
  | str s =>
    simp only at hh
    have hkeep : msg1.get? "ioc_type" = msg.get? "ioc_type" := by
      split at hh
      · split at hh
        · split at hh
          · split at hh
            · rw [← Option.some.inj hh]
              simp [Record.get?_set]
            · rw [← Option.some.inj hh]
          · rw [← Option.some.inj hh]
        · rw [← Option.some.inj hh]
      · rw [← Option.some.inj hh]
    rw [hkeep]
    exact hv
  | _ =>
    simp only at hh
    rw [← Option.some.inj hh]
    exact hv

/-- The keys that their own case rewrites in place hold, after the pass, the
rewritten form of their first value, whatever the order. -/
theorem rangeKeyValues_inplace_keys (ext : Extern) (m : Record) {j : String}
    (hj : j ∈ ["md5", "parent_md5", "process_md5", "ioc_type", "comms_ip", "interface_ip"]) :
    ∃ g : Value → Value, ∀ (amap : SourceMap) (ks : List String) (st : KeyValueState),
      (∀ k, m.get? k ≠ none → k ∈ ks) → rangeKeyValues ext ks ⟨m, amap⟩ = some st →
      st.msg.get? j = (m.get? j).map g := by
  simp only [List.mem_cons, List.mem_singleton, List.not_mem_nil, or_false] at hj
  have hmd5 : j = "md5" ∨ j = "parent_md5" ∨ j = "process_md5" →
      ∃ g : Value → Value, ∀ (amap : SourceMap) (ks : List String) (st : KeyValueState),
        (∀ k, m.get? k ≠ none → k ∈ ks) → rangeKeyValues ext ks ⟨m, amap⟩ = some st →
        st.msg.get? j = (m.get? j).map g := by
    intro hk
    refine ⟨md5Rewrite ext, fun amap ks st hcov h =>
      rangeKeyValues_inplace _ (md5Rewrite_idem ext)
        (fun msg msg1 v hh hv => handleOtherKey_md5_self hk hh hv) ?_ ?_ hcov h⟩
    · rcases hk with rfl | rfl | rfl <;> decide
    · rcases hk with rfl | rfl | rfl <;> decide
  have hip : j = "comms_ip" ∨ j = "interface_ip" →
      ∃ g : Value → Value, ∀ (amap : SourceMap) (ks : List String) (st : KeyValueState),
        (∀ k, m.get? k ≠ none → k ∈ ks) → rangeKeyValues ext ks ⟨m, amap⟩ = some st →
        st.msg.get? j = (m.get? j).map g := by
    intro hk
    refine ⟨ipRewrite ext, fun amap ks st hcov h =>
      rangeKeyValues_inplace _ (ipRewrite_idem ext)
        (fun msg msg1 v hh hv => handleOtherKey_ip_self hk hh hv) ?_ ?_ hcov h⟩
    · rcases hk with rfl | rfl <;> decide
    · rcases hk with rfl | rfl <;> decide
  rcases hj with h1 | h1 | h1 | h1 | h1 | h1
  · exact hmd5 (Or.inl h1)
  · exact hmd5 (Or.inr (Or.inl h1))
  · exact hmd5 (Or.inr (Or.inr h1))
  · subst h1
    exact ⟨iocTypeRewrite ext, fun amap ks st hcov h =>
      rangeKeyValues_inplace _ (iocTypeRewrite_idem ext)
        (fun msg msg1 v hh hv => handleOtherKey_ioc_type_self hh hv) (by decide) (by decide)
        hcov h⟩
  · exact hip (Or.inl h1)
  · exact hip (Or.inr h1)
/-- The `endpoint` case, in terms of the parts it reads. -/
theorem handleOtherKey_endpoint (ext : Extern) (msg : Record) (v : Value) :
    handleOtherKey ext msg "endpoint" v =
      (endpointParts v).map fun p =>
        ((msg.set "hostname" (.str p.1)).set "sensor_id" (.str p.2)).delete "endpoint" := by
  have key : ∀ s : String,
      (match strings.Split s '|' with
        | hostname :: sensorID :: _ =>
          some (((msg.set "hostname" (.str hostname)).set "sensor_id" (.str sensorID)).delete
            "endpoint")
        | _ => none) =
      Option.map
        (fun p : String × String =>
          ((msg.set "hostname" (.str p.1)).set "sensor_id" (.str p.2)).delete "endpoint")
        (match strings.Split s '|' with
          | hostname :: sensorID :: _ => some (hostname, sensorID)
          | _ => none) := by
    intro s
    cases strings.Split s '|' with
    | nil => rfl
    | cons a t => cases t <;> rfl
  simp only [handleOtherKey, endpointParts, if_true]
  cases v with
  | str s => exact key s
  | arr l =>
    cases l with
    | nil => rfl
    | cons a t => cases a <;> first | rfl | exact key _
  | _ => exact key ""

/-- Only the `timestamp` case writes `event_timestamp`, and only the `endpoint`
case writes `sensor_id`. -/
theorem handleOtherKey_targets {ext : Extern} {msg msg1 : Record} {k : String} {v : Value}
    (h : handleOtherKey ext msg k v = some msg1) :
    (k ≠ "timestamp" → msg1.get? "event_timestamp" = msg.get? "event_timestamp") ∧
    (k ≠ "endpoint" → msg1.get? "sensor_id" = msg.get? "sensor_id") := by
  by_cases hend : k = "endpoint"
  · subst hend
    rw [handleOtherKey_endpoint] at h
    cases hp : endpointParts v with
    | none => simp [hp] at h
    | some p =>
      simp [hp] at h
      subst h
      refine ⟨fun _ => ?_, fun e => absurd rfl e⟩
      simp [Record.get?_set, Record.get?_delete]
  · refine ⟨(handleOtherKey_renamed h hend).1, fun _ => ?_⟩
    unfold handleOtherKey at h
    split_ifs at h with h2 h3 h4 h5 h6 h7 h8
    · subst h2
      simp at h
      subst h
      simp [Record.get?_delete]
    · subst h3
      simp at h
      subst h
      simp [Record.get?_delete]
    · subst h4
      simp at h
      subst h
      simp [Record.get?_set, Record.get?_delete]
    · subst h5
      simp at h
      subst h
      simp [Record.get?_set, Record.get?_delete]
    · split at h
      · split at h <;> simp at h <;> subst h <;> rcases h6 with rfl | rfl | rfl <;>
          simp [Record.get?_set]
      · simp at h
        subst h
        rfl
    · subst h7
      split at h
      · split at h <;> simp at h <;> subst h <;> simp [Record.get?_set]
      · simp at h
      · split at h
        · split at h
          · split at h
            · split at h
              · simp at h
                subst h
                simp [Record.get?_set]
              · simp at h
                subst h
                rfl
            · simp at h
              subst h
              rfl
          · simp at h
            subst h
            rfl
        · simp at h
          subst h
          rfl
      · simp at h
        subst h
        rfl
    · split at h
      · split at h <;> simp at h <;> subst h <;> rcases h8 with rfl | rfl <;>
          simp [Record.get?_set]
      · simp at h
        subst h
        rfl
    · simp at h
      subst h
      rfl

/-- A key `j` that is written only by the case of the key `w`, which removes
`w`: after the pass it holds what the case of `w` writes for the first value of
`w`, and its own first value when the message has no `w`. -/
theorem rangeKeyValues_derived {ext : Extern} {m : Record} {w j : String}
    (F : Value → Option Value) (P : Record → Prop)
    (hwc : strings.Contains w "alliance_" = false)
    (hjc : strings.Contains j "alliance_" = false) (hww : w ∉ writtenKeys)
    (hP0 : P m)
    (hPstep : ∀ (st st1 : KeyValueState) k v, P st.msg → st.msg.get? k = some v →
      handleKeyValue ext st k v = some st1 → P st1.msg)
    (hw : ∀ (msg msg1 : Record) v, handleOtherKey ext msg w v = some msg1 →
      msg1.get? w = none ∧ msg1.get? j = F v)
    (hoth : ∀ (msg msg1 : Record) k v, P msg → msg.get? k = some v → k ≠ w →
      handleOtherKey ext msg k v = some msg1 → msg1.get? j = msg.get? j)
    {amap : SourceMap} {ks : List String} {st : KeyValueState}
    (hcov : ∀ k, m.get? k ≠ none → k ∈ ks)
    (h : rangeKeyValues ext ks ⟨m, amap⟩ = some st) :
    st.msg.get? j = match m.get? w with
      | none => m.get? j
      | some v => F v := by
  have hinv := rangeKeyValues_inv
    (P := fun msg => P msg ∧
      ((msg.get? w = m.get? w ∧ msg.get? j = m.get? j) ∨
       (msg.get? w = none ∧ ∃ v, m.get? w = some v ∧ msg.get? j = F v)))
    (fun st0 st1 k v hI hv hstep => by
      obtain ⟨hP, hd⟩ := hI
      refine ⟨hPstep st0 st1 k v hP hv hstep, ?_⟩
      rcases handleKeyValue_cases hstep with ⟨hk, e⟩ | ⟨hk, e⟩
      · have hkw : k ≠ w := by
          intro e2
          subst e2
          rw [hwc] at hk
          simp at hk
        have hkj : k ≠ j := by
          intro e2
          subst e2
          rw [hjc] at hk
          simp at hk
        rw [e, Record.get?_delete, Record.get?_delete, if_neg hkw, if_neg hkj]
        exact hd
      · by_cases hkw : k = w
        · subst hkw
          obtain ⟨h1, h2⟩ := hw _ _ _ e
          rcases hd with ⟨hl, -⟩ | ⟨hr, -⟩
          · right
            exact ⟨h1, v, by rw [← hl, hv], h2⟩
          · rw [hr] at hv
            simp at hv
        · rw [handleOtherKey_get? e (Ne.symm hkw) hww, hoth _ _ _ _ hP hv hkw e]
          exact hd)
    ks _ st h ⟨hP0, Or.inl ⟨rfl, rfl⟩⟩
  obtain ⟨-, hd⟩ := hinv
  cases hm : m.get? w with
  | none =>
    rcases hd with ⟨-, hl⟩ | ⟨-, v, hv, -⟩
    · exact hl
    · rw [hm] at hv
      simp at hv
  | some v0 =>
    rcases hd with ⟨hl, -⟩ | ⟨-, v, hv, hj⟩
    · exfalso
      rw [hm] at hl
      obtain ⟨-, hs⟩ := rangeKeyValues_settled hcov h w v0 hl
      have h1 := (hw _ _ _ hs).1
      rw [hl] at h1
      simp at h1
    · rw [hm] at hv
      rw [hj, ← Option.some.inj hv]

/-- The keys that the case of another key writes, apart from those of the
decoded query: `event_timestamp`, `hostname` and `sensor_id`. -/
theorem rangeKeyValues_derived_keys (ext : Extern) (m : Record)
    (hhost : m.get? "computer_name" = none ∨ m.get? "endpoint" = none) {j : String}
    (hj : j ∈ ["event_timestamp", "hostname", "sensor_id"]) :
    ∃ x : Option Value, ∀ (amap : SourceMap) (ks : List String) (st : KeyValueState),
      (∀ k, m.get? k ≠ none → k ∈ ks) → rangeKeyValues ext ks ⟨m, amap⟩ = some st →
      st.msg.get? j = x := by
  simp only [List.mem_cons, List.mem_singleton, List.not_mem_nil, or_false] at hj
  rcases hj with rfl | rfl | rfl
  · refine ⟨_, fun amap ks st hcov h =>
      rangeKeyValues_derived (w := "timestamp") (fun v => some v) (fun _ => True)
        (by decide) (by decide) (by decide) trivial (fun _ _ _ _ _ _ _ => trivial) ?_ ?_
        hcov h⟩
    · intro msg msg1 v hh
      simp [handleOtherKey] at hh
      subst hh
      simp [Record.get?_set, Record.get?_delete]
    · intro msg msg1 k v _ _ hk hh
      exact (handleOtherKey_targets hh).1 hk
  · rcases hhost with hc | he
    · refine ⟨_, fun amap ks st hcov h =>
        rangeKeyValues_derived (w := "endpoint")
          (fun v => (endpointParts v).map fun p => Value.str p.1)
          (fun msg => msg.get? "computer_name" = none)
          (by decide) (by decide) (by decide) hc
          (fun st0 st1 k v hP hv hstep => handleKeyValue_absent hstep hv (by decide) hP)
          ?_ ?_ hcov h⟩
      · intro msg msg1 v hh
        rw [handleOtherKey_endpoint] at hh
        cases hp : endpointParts v with
        | none => simp [hp] at hh
        | some p =>
          simp [hp] at hh
          subst hh
          simp [Record.get?_set, Record.get?_delete, hp]
      · intro msg msg1 k v hP hv hk hh
        have hk2 : k ≠ "computer_name" := by
          intro e
          subst e
          rw [hP] at hv
          simp at hv
        exact (handleOtherKey_renamed hh hk).2 hk2
    · refine ⟨_, fun amap ks st hcov h =>
        rangeKeyValues_derived (w := "computer_name") (fun v => some v)
          (fun msg => msg.get? "endpoint" = none)
          (by decide) (by decide) (by decide) he
          (fun st0 st1 k v hP hv hstep => handleKeyValue_absent hstep hv (by decide) hP)
          ?_ ?_ hcov h⟩
      · intro msg msg1 v hh
        simp [handleOtherKey] at hh
        subst hh
        simp [Record.get?_set, Record.get?_delete]
      · intro msg msg1 k v hP hv hk hh
        have hk2 : k ≠ "endpoint" := by
          intro e
          subst e
          rw [hP] at hv
          simp at hv
        exact (handleOtherKey_renamed hh hk2).2 hk
  · refine ⟨_, fun amap ks st hcov h =>
      rangeKeyValues_derived (w := "endpoint")
        (fun v => (endpointParts v).map fun p => Value.str p.2) (fun _ => True)
        (by decide) (by decide) (by decide) trivial (fun _ _ _ _ _ _ _ => trivial) ?_ ?_
        hcov h⟩
    · intro msg msg1 v hh
      rw [handleOtherKey_endpoint] at hh
      cases hp : endpointParts v with
      | none => simp [hp] at hh
      | some p =>
        simp [hp] at hh
        subst hh
        simp [Record.get?_set, Record.get?_delete, hp]
    · intro msg msg1 k v _ _ hk hh
      exact (handleOtherKey_targets hh).2 hk
/-- The `ioc_type` case and the decoded query: the case leaves `ioc_value` as
it is, and stores the index and the string of the query when there is one. -/
theorem handleOtherKey_ioc_query {ext : Extern} {msg msg1 : Record} {v : Value}
    (hv : msg.get? "ioc_type" = some v)
    (hh : handleOtherKey ext msg "ioc_type" v = some msg1) :
    msg1.get? "ioc_value" = msg.get? "ioc_value" ∧
    (∀ q, iocQuery ext msg = some q →
      msg1.get? "ioc_query_index" = some (.str q.1) ∧
      msg1.get? "ioc_query_string" = some (.str q.2)) ∧
    (iocQuery ext msg = none →
      msg1.get? "ioc_query_index" = msg.get? "ioc_query_index" ∧
      msg1.get? "ioc_query_string" = msg.get? "ioc_query_string") := by
  have same : msg1 = msg → iocQuery ext msg = none →
      msg1.get? "ioc_value" = msg.get? "ioc_value" ∧
      (∀ q, iocQuery ext msg = some q →
        msg1.get? "ioc_query_index" = some (.str q.1) ∧
        msg1.get? "ioc_query_string" = some (.str q.2)) ∧
      (iocQuery ext msg = none →
        msg1.get? "ioc_query_index" = msg.get? "ioc_query_index" ∧
        msg1.get? "ioc_query_string" = msg.get? "ioc_query_string") := by
    intro e hq
    subst e
    refine ⟨rfl, ?_, fun _ => ⟨rfl, rfl⟩⟩
    intro q hq2
    rw [hq] at hq2
    simp at hq2
  simp only [handleOtherKey] at hh
  simp at hh
  cases v with
  | obj o =>
    have hq : iocQuery ext msg = none := by simp [iocQuery, hv]
    simp only at hh
    cases ho : Record.get? o "md5" with
    | none =>
      simp only [ho] at hh
      exact same (Option.some.inj hh).symm hq
    | some w =>
      cases w with
      | str s =>
        simp only [ho] at hh
        have e := (Option.some.inj hh).symm
        subst e
        refine ⟨by simp [Record.get?_set], ?_, fun _ => by simp [Record.get?_set]⟩
        intro q hq2
        rw [hq] at hq2
        simp at hq2
      | _ =>
        simp only [ho] at hh
        exact same (Option.some.inj hh).symm hq
  | srcs g => simp at hh
  | str s =>
    simp only at hh
    by_cases hs : s = "query"
    · subst hs
      simp only [if_true] at hh
      rcases Option.eq_none_or_eq_some (msg.get? "ioc_value") with hval | ⟨w, hval⟩
      · simp only [hval] at hh
        exact same (Option.some.inj hh).symm (by simp [iocQuery, hv, hval])
      · cases w with
        | str raw =>
          simp only [hval] at hh
          cases hu : ext.UnmarshalStringMap raw with
          | none =>
            simp only [hu] at hh
            exact same (Option.some.inj hh).symm (by simp [iocQuery, hv, hval, hu])
          | some iv =>
            simp only [hu] at hh
            cases hpq : parseQueryString ext iv with
            | none =>
              simp only [hpq] at hh
              exact same (Option.some.inj hh).symm (by simp [iocQuery, hv, hval, hu, hpq])
            | some q0 =>
              obtain ⟨qi, rq⟩ := q0
              simp only [hpq] at hh
              have e := (Option.some.inj hh).symm
              subst e
              have hq : iocQuery ext msg = some (qi, rq) := by
                simp [iocQuery, hv, hval, hu, hpq]
              refine ⟨by simp [Record.get?_set], ?_, ?_⟩
              · intro q hq2
                rw [hq] at hq2
                have e2 := (Option.some.inj hq2).symm
                subst e2
                simp [Record.get?_set]
              · intro hq2
                rw [hq] at hq2
                simp at hq2
        | _ =>
          simp only [hval] at hh
          exact same (Option.some.inj hh).symm (by simp [iocQuery, hv, hval])
    · simp only [if_neg hs] at hh
      exact same (Option.some.inj hh).symm (by simp [iocQuery, hv, hs])
  | _ =>
    simp only at hh
    exact same (Option.some.inj hh).symm (by simp [iocQuery, hv])

theorem iocQuery_congr (ext : Extern) {msg msg1 : Record}
    (h1 : msg1.get? "ioc_type" = msg.get? "ioc_type")
    (h2 : msg1.get? "ioc_value" = msg.get? "ioc_value") :
    iocQuery ext msg1 = iocQuery ext msg := by
  unfold iocQuery
  rw [h1, h2]

theorem iocQuery_rewrite (ext : Extern) {msg msg1 : Record} {v : Value}
    (hv : msg.get? "ioc_type" = some v)
    (h1 : msg1.get? "ioc_type" = some (iocTypeRewrite ext v))
    (h2 : msg1.get? "ioc_value" = msg.get? "ioc_value") :
    iocQuery ext msg1 = iocQuery ext msg := by
  cases v with
  | obj o =>
    have e1 : iocQuery ext msg = none := by simp [iocQuery, hv]
    rw [e1]
    unfold iocQuery
    rw [h1]
    simp only [iocTypeRewrite]
    cases ho : Record.get? o "md5" with
    | none => simp
    | some w => cases w <;> simp
  | _ =>
    refine iocQuery_congr ext ?_ h2
    rw [h1, hv]
    rfl

/-- The keys of the decoded query hold, after the pass, the index and the
string of the query that the first message encodes, whatever the order. -/
theorem rangeKeyValues_query_keys (ext : Extern) (m : Record) {j : String}
    (hj : j ∈ ["ioc_query_index", "ioc_query_string"]) :
    ∃ x : Option Value, ∀ (amap : SourceMap) (ks : List String) (st : KeyValueState),
      (∀ k, m.get? k ≠ none → k ∈ ks) → rangeKeyValues ext ks ⟨m, amap⟩ = some st →
      st.msg.get? j = x := by
  have hjc : strings.Contains j "alliance_" = false := ioc_not_alliance (by
    simp only [List.mem_cons, List.mem_singleton, List.not_mem_nil, or_false] at hj ⊢
    exact Or.inr hj)
  have hjm : j ∈ ["ioc_value", "ioc_query_index", "ioc_query_string"] := by
    simp only [List.mem_cons, List.mem_singleton, List.not_mem_nil, or_false] at hj ⊢
    exact Or.inr hj
  refine ⟨match iocQuery ext m with
    | some q => some (.str (if j = "ioc_query_index" then q.1 else q.2))
    | none => m.get? j, ?_⟩
  intro amap ks st hcov h
  have hinv := rangeKeyValues_inv
    (P := fun msg => iocQuery ext msg = iocQuery ext m ∧
      (msg.get? j = m.get? j ∨
        ∃ q, iocQuery ext m = some q ∧
          msg.get? j = some (.str (if j = "ioc_query_index" then q.1 else q.2))))
    (fun st0 st1 k v hI hv hstep => by
      obtain ⟨hQ, hd⟩ := hI
      rcases handleKeyValue_cases hstep with ⟨hk, e⟩ | ⟨hk, e⟩
      · have hne : ∀ i, strings.Contains i "alliance_" = false → k ≠ i := by
          intro i hi e2
          subst e2
          rw [hi] at hk
          simp at hk
        have hget : ∀ i, strings.Contains i "alliance_" = false →
            st1.msg.get? i = st0.msg.get? i := fun i hi => by
          rw [e, Record.get?_delete, if_neg (hne i hi)]
        refine ⟨?_, ?_⟩
        · rw [← hQ]
          exact iocQuery_congr ext (hget _ (by decide)) (hget _ (by decide))
        · rw [hget j hjc]
          exact hd
      · by_cases hki : k = "ioc_type"
        · subst hki
          obtain ⟨h1, h2, h3⟩ := handleOtherKey_ioc_query hv e
          have hty := handleOtherKey_ioc_type_self e hv
          refine ⟨?_, ?_⟩
          · rw [← hQ]
            exact iocQuery_rewrite ext hv hty h1
          · cases hq : iocQuery ext st0.msg with
            | none =>
              have h4 := h3 hq
              have : st1.msg.get? j = st0.msg.get? j := by
                simp only [List.mem_cons, List.mem_singleton, List.not_mem_nil, or_false] at hj
                rcases hj with rfl | rfl
                · exact h4.1
                · exact h4.2
              rw [this]
              exact hd
            | some q =>
              right
              refine ⟨q, by rw [← hQ, hq], ?_⟩
              have h4 := h2 q hq
              simp only [List.mem_cons, List.mem_singleton, List.not_mem_nil, or_false] at hj
              rcases hj with rfl | rfl
              · simpa using h4.1
              · simpa using h4.2
        · have hio := fun i hi => handleOtherKey_ioc_get? (j := i) e hki hi
          refine ⟨?_, ?_⟩
          · rw [← hQ]
            exact iocQuery_congr ext
              (handleOtherKey_get? e (Ne.symm hki) (by decide)) (hio _ (by decide))
          · rw [hio j hjm]
            exact hd)
    ks _ st h ⟨rfl, Or.inl rfl⟩
  obtain ⟨hQ, hd⟩ := hinv
  cases hq : iocQuery ext m with
  | none =>
    simp only
    rcases hd with hl | ⟨q, hq2, -⟩
    · exact hl
    · rw [hq] at hq2
      simp at hq2
  | some q =>
    simp only
    rcases hd with hl | ⟨q2, hq2, hr⟩
    · -- the message still holds the string `query` under `ioc_type`
      rw [hq] at hQ
      have hty : ∃ v, st.msg.get? "ioc_type" = some v := by
        cases hv : st.msg.get? "ioc_type" with
        | none => simp [iocQuery, hv] at hQ
        | some v => exact ⟨v, rfl⟩
      obtain ⟨v, hv⟩ := hty
      obtain ⟨-, hs⟩ := rangeKeyValues_settled hcov h "ioc_type" v hv
      have h4 := (handleOtherKey_ioc_query hv hs).2.1 q hQ
      simp only [List.mem_cons, List.mem_singleton, List.not_mem_nil, or_false] at hj
      rcases hj with rfl | rfl
      · simpa using h4.1
      · simpa using h4.2
    · rw [hq] at hq2
      rw [hr, ← Option.some.inj hq2]
/-- The key `endpoint` is absent from a message that is stable at it. -/
theorem Stable.endpoint {ext : Extern} {msg : Record} (hs : Stable ext msg "endpoint") :
    msg.get? "endpoint" = none := by
  cases hv : msg.get? "endpoint" with
  | none => rfl
  | some v =>
    exfalso
    obtain ⟨-, h⟩ := hs v hv
    rw [handleOtherKey_endpoint] at h
    cases hp : endpointParts v with
    | none => simp [hp] at h
    | some p =>
      simp only [hp, Option.map_some'] at h
      have h2 := congrArg (fun r => Record.get? r "endpoint") (Option.some.inj h)
      simp only [Record.get?_delete, if_true, hv] at h2
      simp at h2

/-- The value under every key of the message at the end of the loop is fixed
by the first message alone, whatever the order in which the keys are visited,
when the message does not hold both `computer_name` and `endpoint`. -/
theorem rangeKeyValues_order_free (ext : Extern) (m : Record)
    (hhost : m.get? "computer_name" = none ∨ m.get? "endpoint" = none) (j : String) :
    ∃ x : Option Value, ∀ (amap : SourceMap) (ks : List String) (st : KeyValueState),
      (∀ k, m.get? k ≠ none → k ∈ ks) → rangeKeyValues ext ks ⟨m, amap⟩ = some st →
      st.msg.get? j = x := by
  by_cases hc : strings.Contains j "alliance_" = true
  · refine ⟨none, fun amap ks st hcov h => ?_⟩
    refine rangeKeyValues_removes hc ks _ _ h ?_
    by_cases hv : m.get? j = none
    · exact Or.inr hv
    · exact Or.inl (hcov j hv)
  have hc : strings.Contains j "alliance_" = false := by simpa using hc
  by_cases hd : j ∈ ["timestamp", "computer_name", "highlights", "highlights_by_doc"]
  · exact ⟨none, fun amap ks st hcov h =>
      Stable.dropped hd (rangeKeyValues_settled hcov h j)⟩
  by_cases he : j = "endpoint"
  · subst he
    exact ⟨none, fun amap ks st hcov h => Stable.endpoint (rangeKeyValues_settled hcov h _)⟩
  by_cases hi : j ∈ ["md5", "parent_md5", "process_md5", "ioc_type", "comms_ip", "interface_ip"]
  · obtain ⟨g, hg⟩ := rangeKeyValues_inplace_keys ext m hi
    exact ⟨(m.get? j).map g, hg⟩
  by_cases hr : j ∈ ["event_timestamp", "hostname", "sensor_id"]
  · exact rangeKeyValues_derived_keys ext m hhost hr
  by_cases hq : j ∈ ["ioc_query_index", "ioc_query_string"]
  · exact rangeKeyValues_query_keys ext m hq
  have hs : j ∉ specialKeys := by
    simp only [specialKeys, List.mem_cons, List.mem_singleton, List.not_mem_nil, or_false,
      not_or] at hd hi ⊢
    tauto
  have hw : j ∉ writtenKeys := by
    simp only [writtenKeys, List.mem_cons, List.mem_singleton, List.not_mem_nil, or_false,
      not_or] at hr hq ⊢
    tauto
  refine ⟨m.get? j, fun amap ks st hcov h => ?_⟩
  exact rangeKeyValues_inv (P := fun msg => msg.get? j = m.get? j)
    (fun st0 st1 k v hP _ hstep => by
      show st1.msg.get? j = m.get? j
      rw [handleKeyValue_frame hstep hc hs hw]
      exact hP)
    ks _ st h rfl
/-- A state property kept by every step of the loop is kept by the loop. -/
theorem rangeKeyValues_inv_state {ext : Extern} {P : KeyValueState → Prop}
    (hstep : ∀ (st st1 : KeyValueState) k v, P st → st.msg.get? k = some v →
      handleKeyValue ext st k v = some st1 → P st1) :
    ∀ (ks : List String) (st st' : KeyValueState), rangeKeyValues ext ks st = some st' →
      P st → P st' := by
  intro ks
  induction ks with
  | nil =>
    intro st st' h hp
    simp [rangeKeyValues] at h
    subst h
    exact hp
  | cons k ks ih =>
    intro st st' h hp
    simp only [rangeKeyValues] at h
    split at h
    · exact ih _ _ h hp
    · rename_i v hv
      split at h
      · simp at h
      · rename_i st1 hst
        exact ih _ _ h (hstep st st1 k v hp hv hst)

theorem foldAllianceKey_field (amap : SourceMap) {k p f' s' : String} (v : Value)
    (h : strings.Split k '_' = [p, f', s']) (s f : String) :
    SourceMap.field (foldAllianceKey amap k v) s f =
      if s' = s ∧ f' = f then some v else SourceMap.field amap s f := by
  unfold foldAllianceKey
  rw [h]
  simp only [SourceMap.field]
  by_cases hs : s' = s
  · subst hs
    cases hg : SourceMap.get? amap s' with
    | none =>
      by_cases hf : f' = f <;> simp [SourceMap.lookup_set, Record.get?_set, hf, Record.get?_nil]
    | some flds =>
      by_cases hf : f' = f <;> simp [SourceMap.lookup_set, Record.get?_set, hf]
  · cases hg : SourceMap.get? amap s' with
    | none => simp [SourceMap.lookup_set, hs]
    | some flds => simp [SourceMap.lookup_set, hs]

theorem foldAllianceKey_source (amap : SourceMap) {k p f' s' : String} (v : Value)
    (h : strings.Split k '_' = [p, f', s']) (s : String) :
    SourceMap.get? (foldAllianceKey amap k v) s = none ↔
      s' ≠ s ∧ SourceMap.get? amap s = none := by
  unfold foldAllianceKey
  rw [h]
  simp only
  by_cases hs : s' = s
  · cases hg : SourceMap.get? amap s' <;> simp [SourceMap.lookup_set, hs]
  · cases hg : SourceMap.get? amap s' <;> simp [SourceMap.lookup_set, hs]

theorem foldAllianceKey_unshaped (amap : SourceMap) {k : String} (v : Value)
    (h : ∀ p f s, strings.Split k '_' ≠ [p, f, s]) : foldAllianceKey amap k v = amap := by
  unfold foldAllianceKey
  split
  · rename_i p f s hs
    exact absurd hs (h p f s)
  · rfl

theorem FoldedKey.congr {m msg msg1 : Record} {s f : String} {v : Value}
    (h : ∀ k, strings.Contains k "alliance_" = true → msg1.get? k = msg.get? k) :
    FoldedKey m msg1 s f v ↔ FoldedKey m msg s f v := by
  constructor
  · rintro ⟨k, p, hc, hs, hm, hn⟩
    exact ⟨k, p, hc, hs, hm, by rw [← h k hc]; exact hn⟩
  · rintro ⟨k, p, hc, hs, hm, hn⟩
    exact ⟨k, p, hc, hs, hm, by rw [h k hc]; exact hn⟩

/-- The keys gone after `k` is removed: those gone before, and `k`. -/
theorem FoldedKey.delete {m msg : Record} {k : String} {s f : String} {v : Value}
    (hc : strings.Contains k "alliance_" = true) :
    FoldedKey m (msg.delete k) s f v ↔
      FoldedKey m msg s f v ∨ ((∃ p, strings.Split k '_' = [p, f, s]) ∧ m.get? k = some v) := by
  constructor
  · rintro ⟨k2, p, hc2, hs, hm, hn⟩
    by_cases e : k = k2
    · subst e
      exact Or.inr ⟨⟨p, hs⟩, hm⟩
    · rw [Record.get?_delete, if_neg e] at hn
      exact Or.inl ⟨k2, p, hc2, hs, hm, hn⟩
  · rintro (⟨k2, p, hc2, hs, hm, hn⟩ | ⟨⟨p, hs⟩, hm⟩)
    · refine ⟨k2, p, hc2, hs, hm, ?_⟩
      rw [Record.get?_delete]
      split
      · rfl
      · exact hn
    · exact ⟨k, p, hc, hs, hm, by simp [Record.get?_delete]⟩

/-- Every step of the loop keeps `AllianceFolded`, on a message without two
keys folded into the same field of the same source. -/
theorem handleKeyValue_folded {ext : Extern} {m : Record} (hsole : NoAllianceCollision m)
    {st st1 : KeyValueState} {k : String} {v : Value} (hI : AllianceFolded m st)
    (hv : st.msg.get? k = some v) (hstep : handleKeyValue ext st k v = some st1) :
    AllianceFolded m st1 := by
  obtain ⟨h1, h2, h3⟩ := hI
  unfold handleKeyValue at hstep
  split_ifs at hstep with hc
  · simp at hstep
    subst hstep
    have hmv : m.get? k = some v := by
      rcases h1 k hc with e | e
      · rw [← e]
        exact hv
      · rw [e] at hv
        simp at hv
    refine ⟨?_, ?_, ?_⟩
    · intro k2 hc2
      show (st.msg.delete k).get? k2 = m.get? k2 ∨ (st.msg.delete k).get? k2 = none
      rw [Record.get?_delete]
      split
      · exact Or.inr rfl
      · exact h1 k2 hc2
    · intro s f v2
      show SourceMap.field (foldAllianceKey st.alliance_data_map k v) s f = some v2 ↔
        FoldedKey m (st.msg.delete k) s f v2
      rw [FoldedKey.delete hc]
      by_cases h3p : ∃ p f' s', strings.Split k '_' = [p, f', s']
      · obtain ⟨p, f', s', hs⟩ := h3p
        rw [foldAllianceKey_field _ _ hs]
        by_cases hsf : s' = s ∧ f' = f
        · obtain ⟨rfl, rfl⟩ := hsf
          simp only [and_self, if_true]
          constructor
          · intro e
            exact Or.inr ⟨⟨p, hs⟩, by rw [hmv, ← Option.some.inj e]⟩
          · rintro (⟨k2, p2, hc2, hs2, hm2, -⟩ | ⟨-, hm2⟩)
            · have e := hsole k p f' s' (by rw [hmv]; simp) hc hs k2 p2
                (by rw [hm2]; simp) hc2 hs2
              subst e
              rw [← hmv, hm2]
            · rw [← hmv, hm2]
        · rw [if_neg hsf, h2]
          constructor
          · exact Or.inl
          · rintro (hf | ⟨⟨p2, hs2⟩, -⟩)
            · exact hf
            · rw [hs] at hs2
              simp at hs2
              exact absurd ⟨hs2.2.2, hs2.2.1⟩ hsf
      · have hno : ∀ p f s, strings.Split k '_' ≠ [p, f, s] := fun p f s e => h3p ⟨p, f, s, e⟩
        rw [foldAllianceKey_unshaped _ _ hno, h2]
        constructor
        · exact Or.inl
        · rintro (hf | ⟨⟨p2, hs2⟩, -⟩)
          · exact hf
          · exact absurd hs2 (hno _ _ _)
    · intro s
      show SourceMap.get? (foldAllianceKey st.alliance_data_map k v) s = none ↔
        ¬ ∃ f v2, FoldedKey m (st.msg.delete k) s f v2
      simp only [FoldedKey.delete hc]
      by_cases h3p : ∃ p f' s', strings.Split k '_' = [p, f', s']
      · obtain ⟨p, f', s', hs⟩ := h3p
        rw [foldAllianceKey_source _ _ hs, h3]
        constructor
        · rintro ⟨hne, hno⟩ ⟨f, v2, hf | ⟨⟨p2, hs2⟩, -⟩⟩
          · exact hno ⟨f, v2, hf⟩
          · rw [hs] at hs2
            simp at hs2
            exact hne hs2.2.2
        · intro hno
          refine ⟨?_, ?_⟩
          · intro e
            subst e
            exact hno ⟨f', v, Or.inr ⟨⟨p, hs⟩, hmv⟩⟩
          · rintro ⟨f, v2, hf⟩
            exact hno ⟨f, v2, Or.inl hf⟩
      · have hno : ∀ p f s, strings.Split k '_' ≠ [p, f, s] := fun p f s e => h3p ⟨p, f, s, e⟩
        rw [foldAllianceKey_unshaped _ _ hno, h3]
        constructor
        · rintro hn ⟨f, v2, hf | ⟨⟨p2, hs2⟩, -⟩⟩
          · exact hn ⟨f, v2, hf⟩
          · exact absurd hs2 (hno _ _ _)
        · rintro hn ⟨f, v2, hf⟩
          exact hn ⟨f, v2, Or.inl hf⟩
  · split at hstep
    · simp at hstep
    · rename_i msg1 hm
      simp at hstep
      subst hstep
      have hc0 : strings.Contains k "alliance_" = false := by simpa using hc
      have hfr : ∀ k2, strings.Contains k2 "alliance_" = true →
          msg1.get? k2 = st.msg.get? k2 := by
        intro k2 hc2
        refine handleOtherKey_get? hm ?_ (not_written_of_contains hc2)
        intro e
        subst e
        rw [hc2] at hc0
        simp at hc0
      refine ⟨?_, ?_, ?_⟩
      · intro k2 hc2
        show msg1.get? k2 = m.get? k2 ∨ msg1.get? k2 = none
        rw [hfr k2 hc2]
        exact h1 k2 hc2
      · intro s f v2
        show SourceMap.field st.alliance_data_map s f = some v2 ↔ FoldedKey m msg1 s f v2
        rw [FoldedKey.congr hfr]
        exact h2 s f v2
      · intro s
        show SourceMap.get? st.alliance_data_map s = none ↔ ¬ ∃ f v2, FoldedKey m msg1 s f v2
        simp only [FoldedKey.congr hfr]
        exact h3 s

theorem AllianceFolded.start (m : Record) : AllianceFolded m ⟨m, []⟩ := by
  refine ⟨fun k _ => Or.inl rfl, ?_, ?_⟩
  · intro s f v
    constructor
    · intro h
      simp [SourceMap.field, SourceMap.get?] at h
    · rintro ⟨k, p, -, -, hm, hn⟩
      rw [show (KeyValueState.mk m []).msg = m from rfl, hm] at hn
      simp at hn
  · intro s
    constructor
    · rintro - ⟨f, v, k, p, -, -, hm, hn⟩
      rw [show (KeyValueState.mk m []).msg = m from rfl, hm] at hn
      simp at hn
    · intro _
      rfl

theorem SourceMap.length_pos (g : SourceMap) : g.length > 0 ↔ ∃ s, SourceMap.get? g s ≠ none := by
  cases g with
  | nil => simp [SourceMap.get?]
  | cons p g =>
    obtain ⟨a, w⟩ := p
    simp only [List.length_cons, gt_iff_lt, Nat.zero_lt_succ, true_iff]
    exact ⟨a, by simp [SourceMap.get?]⟩

/-- What the loop leaves in `alliance_data_map`, whatever the order: the field
`f` of the source `s` holds `v` exactly when a key of the first message that
contains `alliance_` and has the three parts `_, f, s` holds `v`; a source is
present exactly when some key names it. -/
theorem rangeKeyValues_alliance_map {ext : Extern} {m : Record} (hsole : NoAllianceCollision m)
    {ks : List String} {st : KeyValueState} (hcov : ∀ k, m.get? k ≠ none → k ∈ ks)
    (h : rangeKeyValues ext ks ⟨m, []⟩ = some st) :
    (∀ s f v, SourceMap.field st.alliance_data_map s f = some v ↔
      ∃ k p, strings.Contains k "alliance_" = true ∧ strings.Split k '_' = [p, f, s] ∧
        m.get? k = some v) ∧
    (∀ s, SourceMap.get? st.alliance_data_map s = none ↔
      ¬ ∃ f v k p, strings.Contains k "alliance_" = true ∧ strings.Split k '_' = [p, f, s] ∧
        m.get? k = some v) := by
  obtain ⟨-, h2, h3⟩ := rangeKeyValues_inv_state (P := AllianceFolded m)
    (fun st0 st1 k v hI hv hstep => handleKeyValue_folded hsole hI hv hstep)
    ks _ st h (AllianceFolded.start m)
  have hgone : ∀ k, strings.Contains k "alliance_" = true → st.msg.get? k = none := by
    intro k hc
    refine rangeKeyValues_removes hc ks _ _ h ?_
    by_cases hv : m.get? k = none
    · exact Or.inr hv
    · exact Or.inl (hcov k hv)
  have hF : ∀ s f v, FoldedKey m st.msg s f v ↔
      ∃ k p, strings.Contains k "alliance_" = true ∧ strings.Split k '_' = [p, f, s] ∧
        m.get? k = some v := by
    intro s f v
    constructor
    · rintro ⟨k, p, hc, hs, hm, -⟩
      exact ⟨k, p, hc, hs, hm⟩
    · rintro ⟨k, p, hc, hs, hm⟩
      exact ⟨k, p, hc, hs, hm, hgone k hc⟩
  refine ⟨fun s f v => (h2 s f v).trans (hF s f v), fun s => ?_⟩
  rw [h3]
  simp only [hF]

/-- The value under `alliance_data` after the pass: the map built by the loop
when it is not empty, nothing otherwise. -/
theorem handleKeyValuesIn_alliance_data {ext : Extern} {order : List String} {m m' : Record}
    (hcov : ∀ k, m.get? k ≠ none → k ∈ order)
    (h : handleKeyValuesIn ext order m = some m') :
    ∃ st, rangeKeyValues ext order ⟨m, []⟩ = some st ∧
      m'.get? "alliance_data" =
        if st.alliance_data_map.length > 0 then some (.srcs st.alliance_data_map) else none := by
  unfold handleKeyValuesIn at h
  split at h
  · simp at h
  · rename_i st hst
    refine ⟨st, hst, ?_⟩
    split_ifs at h with hl
    · simp at h
      subst h
      simp [Record.get?_set, hl]
    · simp at h
      subst h
      rw [if_neg hl]
      refine rangeKeyValues_removes (by decide) order _ _ hst ?_
      by_cases hv : m.get? "alliance_data" = none
      · exact Or.inr hv
      · exact Or.inl (hcov _ hv)
/-- The pass completes, in any order, on a message whose `endpoint`, if any,
has the two parts that the case reads, and whose `ioc_type` is not a map of
maps. -/
theorem rangeKeyValues_completes_parts (ext : Extern) (ks : List String) (st : KeyValueState)
    (hend : ∀ v, st.msg.get? "endpoint" = some v → endpointParts v ≠ none)
    (hioc : ∀ g, st.msg.get? "ioc_type" ≠ some (.srcs g)) :
    ∃ st', rangeKeyValues ext ks st = some st' := by
  refine rangeKeyValues_total
    (P := fun msg => (∀ v, msg.get? "endpoint" = some v → endpointParts v ≠ none) ∧
      ∀ g, msg.get? "ioc_type" ≠ some (.srcs g))
    ?_ ?_ ks st ⟨hend, hioc⟩
  · intro st st1 k v hP hv hst
    rcases handleKeyValue_cases hst with ⟨hc, e⟩ | ⟨-, e⟩
    · refine ⟨?_, ?_⟩
      · intro w hw
        rw [e, Record.get?_delete] at hw
        split at hw
        · simp at hw
        · exact hP.1 w hw
      · intro g
        rw [e, Record.get?_delete]
        split
        · simp
        · exact hP.2 g
    · refine ⟨?_, handleOtherKey_ioc_type e hP.2⟩
      intro w hw
      by_cases hk : k = "endpoint"
      · subst hk
        rw [handleOtherKey_endpoint] at e
        cases hp : endpointParts v with
        | none => simp [hp] at e
        | some p =>
          simp only [hp, Option.map_some'] at e
          rw [← Option.some.inj e] at hw
          simp [Record.get?_delete] at hw
      · rw [handleOtherKey_get? e (Ne.symm hk) (by decide)] at hw
        exact hP.1 w hw
  · intro st k v hP hv
    unfold handleKeyValue
    split_ifs
    · exact ⟨_, rfl⟩
    · by_cases hke : k = "endpoint"
      · subst hke
        rw [handleOtherKey_endpoint]
        cases hp : endpointParts v with
        | none => exact absurd hp (hP.1 v hv)
        | some p => exact ⟨_, rfl⟩
      · have hv2 : k = "ioc_type" → ∀ g, v ≠ .srcs g := by
          intro e g hg
          subst e
          subst hg
          exact hP.2 g hv
        obtain ⟨msg1, h1⟩ := handleOtherKey_isSome ext st.msg hke hv2
        rw [h1]
        exact ⟨_, rfl⟩

/-- A completed pass that visits every key shows that the `endpoint` of the
first message has the two parts that the case reads and that its `ioc_type`
is not a map of maps. -/
theorem rangeKeyValues_completed {ext : Extern} {m : Record} {amap : SourceMap}
    {ks : List String} {st : KeyValueState} (hcov : ∀ k, m.get? k ≠ none → k ∈ ks)
    (h : rangeKeyValues ext ks ⟨m, amap⟩ = some st) :
    (∀ v, m.get? "endpoint" = some v → endpointParts v ≠ none) ∧
    ∀ g, m.get? "ioc_type" ≠ some (.srcs g) := by
  have hst := rangeKeyValues_settled hcov h
  refine ⟨?_, ?_⟩
  · intro v hv
    have hinv := rangeKeyValues_inv
      (P := fun msg => msg.get? "endpoint" = some v ∨ endpointParts v ≠ none)
      (fun st0 st1 k w hP hw hstep => by
        rcases hP with hP | hP
        · by_cases hk : k = "endpoint"
          · subst hk
            rcases handleKeyValue_cases hstep with ⟨hc, -⟩ | ⟨-, e⟩
            · exact absurd hc (by decide)
            · rw [hP] at hw
              have e2 := Option.some.inj hw
              subst e2
              rw [handleOtherKey_endpoint] at e
              right
              intro hp
              simp [hp] at e
          · left
            show st1.msg.get? "endpoint" = some v
            rcases handleKeyValue_cases hstep with ⟨-, e⟩ | ⟨-, e⟩
            · rw [e, Record.get?_delete, if_neg hk]
              exact hP
            · rw [handleOtherKey_get? e (Ne.symm hk) (by decide)]
              exact hP
        · exact Or.inr hP)
      ks _ st h (Or.inl hv)
    rcases hinv with hl | hr
    · rw [Stable.endpoint (hst _)] at hl
      simp at hl
    · exact hr
  · intro g hg
    have hinv := rangeKeyValues_inv
      (P := fun msg => msg.get? "ioc_type" = some (.srcs g))
      (fun st0 st1 k w hP hw hstep => by
        show st1.msg.get? "ioc_type" = some (.srcs g)
        by_cases hk : k = "ioc_type"
        · subst hk
          exfalso
          rcases handleKeyValue_cases hstep with ⟨hc, -⟩ | ⟨-, e⟩
          · exact absurd hc (by decide)
          · rw [hP] at hw
            have e2 := Option.some.inj hw
            subst e2
            simp [handleOtherKey] at e
        · rcases handleKeyValue_cases hstep with ⟨-, e⟩ | ⟨-, e⟩
          · rw [e, Record.get?_delete, if_neg hk]
            exact hP
          · rw [handleOtherKey_get? e (Ne.symm hk) (by decide)]
            exact hP)
      ks _ st h hg
    obtain ⟨-, e⟩ := hst "ioc_type" _ hinv
    simp [handleOtherKey] at e

/-- A set of keys of which at most one contains `alliance_` has no two keys
folded into the same field of the same source. -/
theorem NoAllianceCollision.of_single {m : Record} (k0 : String)
    (h : ∀ k ∈ m.keys, strings.Contains k "alliance_" = true → k = k0) :
    NoAllianceCollision m := by
  intro k p f s hk hc _ k2 p2 hk2 hc2 _
  rw [h k (Record.keys_cover m k hk) hc, h k2 (Record.keys_cover m k2 hk2) hc2]
/-- C28 (as amended): the result of the key-rewrite pass does not depend on
the order in which the keys of the record are visited, for a record that does
not carry both `computer_name` and `endpoint` and has no two keys containing
`alliance_` with the same field and source parts: when the pass completes
under one visiting order of the keys, it completes under any other, and the
two rewritten records hold the same value under every key, the mappings under
`alliance_data` having the same sources and the same value for every field of
every source. -/
theorem handleKeyValues_order (ext : Extern) (order₁ order₂ : List String) (m m₁ : Record)
    (hcov₁ : ∀ k, m.get? k ≠ none → k ∈ order₁) (hcov₂ : ∀ k, m.get? k ≠ none → k ∈ order₂)
    (hhost : m.get? "computer_name" = none ∨ m.get? "endpoint" = none)
    (hsole : NoAllianceCollision m)
    (h₁ : handleKeyValuesIn ext order₁ m = some m₁) :
    ∃ m₂, handleKeyValuesIn ext order₂ m = some m₂ ∧ SameRecord m₁ m₂ := by
  obtain ⟨st₁, hst₁, -, hfr₁⟩ := handleKeyValuesIn_end hcov₁ h₁
  obtain ⟨hend, hioc⟩ := rangeKeyValues_completed hcov₁ hst₁
  obtain ⟨st₂, hst₂⟩ := rangeKeyValues_completes_parts ext order₂ ⟨m, []⟩ hend hioc
  have h₂ : ∃ m₂, handleKeyValuesIn ext order₂ m = some m₂ := by
    unfold handleKeyValuesIn
    rw [hst₂]
    simp only
    split_ifs <;> exact ⟨_, rfl⟩
  obtain ⟨m₂, h₂⟩ := h₂
  refine ⟨m₂, h₂, ?_, ?_⟩
  · intro j hj
    obtain ⟨st, hst, -, hfr₂⟩ := handleKeyValuesIn_end hcov₂ h₂
    rw [hst₂] at hst
    have e := Option.some.inj hst
    subst e
    obtain ⟨x, hx⟩ := rangeKeyValues_order_free ext m hhost j
    rw [hfr₁ j hj, hfr₂ j hj, hx [] order₁ st₁ hcov₁ hst₁, hx [] order₂ st₂ hcov₂ hst₂]
  · obtain ⟨sa, hsa, a₁⟩ := handleKeyValuesIn_alliance_data hcov₁ h₁
    rw [hst₁] at hsa
    have e := Option.some.inj hsa
    subst e
    obtain ⟨sb, hsb, a₂⟩ := handleKeyValuesIn_alliance_data hcov₂ h₂
    rw [hst₂] at hsb
    have e := Option.some.inj hsb
    subst e
    obtain ⟨c₁, d₁⟩ := rangeKeyValues_alliance_map hsole hcov₁ hst₁
    obtain ⟨c₂, d₂⟩ := rangeKeyValues_alliance_map hsole hcov₂ hst₂
    have hsrc : ∀ s, SourceMap.get? st₁.alliance_data_map s = none ↔
        SourceMap.get? st₂.alliance_data_map s = none := fun s => by rw [d₁, d₂]
    have hlen : st₁.alliance_data_map.length > 0 ↔ st₂.alliance_data_map.length > 0 := by
      rw [SourceMap.length_pos, SourceMap.length_pos]
      constructor
      · rintro ⟨s, hs⟩
        exact ⟨s, fun e => hs ((hsrc s).mpr e)⟩
      · rintro ⟨s, hs⟩
        exact ⟨s, fun e => hs ((hsrc s).mp e)⟩
    rw [a₁, a₂]
    by_cases hl : st₁.alliance_data_map.length > 0
    · rw [if_pos hl, if_pos (hlen.mp hl)]
      simp only [SameAllianceData]
      intro s
      refine ⟨hsrc s, fun f => ?_⟩
      refine Option.ext fun v => ?_
      simp only [Option.mem_def]
      rw [c₁, c₂]
    · rw [if_neg hl, if_neg (fun h => hl (hlen.mpr h))]
      simp only [SameAllianceData]

/-- C28, witness: a record with `endpoint`, `timestamp`, `md5` and one alliance
key, visited in the order of the record and in the reverse order. -/
theorem handleKeyValues_order_witness :
    ∃ m₂, handleKeyValuesIn stubExtern ["md5", "alliance_score_bit9", "timestamp", "endpoint"]
        [("endpoint", .str "WIN|7"), ("timestamp", .num "1"),
         ("alliance_score_bit9", .num "100"),
         ("md5", .str "0123456789abcdef0123456789abcdef")] = some m₂ ∧
      SameRecord
        [("md5", .str "0123456789ABCDEF0123456789ABCDEF"), ("hostname", .str "WIN"),
         ("sensor_id", .str "7"), ("event_timestamp", .num "1"),
         ("alliance_data", .srcs [("bit9", [("score", .num "100")])])] m₂ :=
  handleKeyValues_order stubExtern
    ["endpoint", "timestamp", "alliance_score_bit9", "md5"]
    ["md5", "alliance_score_bit9", "timestamp", "endpoint"]
    [("endpoint", .str "WIN|7"), ("timestamp", .num "1"),
     ("alliance_score_bit9", .num "100"),
     ("md5", .str "0123456789abcdef0123456789abcdef")] _
    (Record.keys_cover _)
    (fun k hk => by
      have h2 := Record.keys_cover _ k hk
      simp only [Record.keys, List.map_cons, List.map_nil, List.mem_cons, List.mem_singleton,
        List.not_mem_nil, or_false] at h2 ⊢
      tauto)
    (Or.inl rfl)
    (NoAllianceCollision.of_single "alliance_score_bit9" (fun k hk hc => by
      simp only [Record.keys, List.map_cons, List.map_nil, List.mem_cons, List.mem_singleton,
        List.not_mem_nil, or_false] at hk
      rcases hk with rfl | rfl | rfl | rfl
      · exact absurd hc (by decide)
      · exact absurd hc (by decide)
      · rfl
      · exact absurd hc (by decide)))
    rfl

/-- C28, counterexample: on a record that carries both `computer_name` and
`endpoint`, the `hostname` of the result is the one written by the key visited
last; on a record with the keys `alliance_score_bit9` and
`xalliance_score_bit9`, the field `score` of the source `bit9` holds the value
of the key visited last.  In both cases the two orders give different
records. -/
theorem handleKeyValues_order_dependent :
    (∃ m₁ m₂,
      handleKeyValuesIn stubExtern ["computer_name", "endpoint"]
        [("computer_name", .str "A"), ("endpoint", .str "B|7")] = some m₁ ∧
      handleKeyValuesIn stubExtern ["endpoint", "computer_name"]
        [("computer_name", .str "A"), ("endpoint", .str "B|7")] = some m₂ ∧
      m₁.get? "hostname" = some (.str "B") ∧ m₂.get? "hostname" = some (.str "A") ∧
      ¬ SameRecord m₁ m₂) ∧
    (∃ m₁ m₂,
      handleKeyValuesIn stubExtern ["alliance_score_bit9", "xalliance_score_bit9"]
        [("alliance_score_bit9", .num "1"), ("xalliance_score_bit9", .num "2")] = some m₁ ∧
      handleKeyValuesIn stubExtern ["xalliance_score_bit9", "alliance_score_bit9"]
        [("alliance_score_bit9", .num "1"), ("xalliance_score_bit9", .num "2")] = some m₂ ∧
      m₁.get? "alliance_data" = some (.srcs [("bit9", [("score", .num "2")])]) ∧
      m₂.get? "alliance_data" = some (.srcs [("bit9", [("score", .num "1")])]) ∧
      ¬ SameRecord m₁ m₂) := by
  refine ⟨⟨_, _, rfl, rfl, rfl, rfl, ?_⟩, ⟨_, _, rfl, rfl, rfl, rfl, ?_⟩⟩
  · rintro ⟨h, -⟩
    have h2 := h "hostname" (by decide)
    have h3 := congrArg (fun o => o.map fun v => getString [("x", v)] "x" "") h2
    revert h3
    decide
  · rintro ⟨-, h⟩
    have h2 := (h "bit9").2 "score"
    have h3 := congrArg (fun o => o.map fun v => getNumber [("x", v)] "x" "") h2
    revert h3
    decide

/-! ## The key-rewrite pass: renames and removals, as amended -/

/-- C12 (as amended): on a record without `endpoint` whose keys are all
visited, the pass completes when `ioc_type` is not a map of maps; after the
pass `timestamp`, `computer_name`, `highlights` and `highlights_by_doc` are
absent, `event_timestamp` holds the former value of `timestamp`, `hostname`
holds the former value of `computer_name`, every key that contains `alliance_`
is removed, whatever the number of its parts, `alliance_data` then being absent
or holding the mapping built by the pass, and every key that has no case of
its own, is not written by a case and does not contain `alliance_` keeps its
value. -/
theorem handleKeyValues_renames (ext : Extern) (order : List String) (m : Record)
    (hend : m.get? "endpoint" = none) (hcov : ∀ k, m.get? k ≠ none → k ∈ order) :
    ((∀ g, m.get? "ioc_type" ≠ some (.srcs g)) →
      ∃ m', handleKeyValuesIn ext order m = some m') ∧
    ∀ m', handleKeyValuesIn ext order m = some m' →
      m'.get? "timestamp" = none ∧ m'.get? "computer_name" = none ∧
      m'.get? "highlights" = none ∧ m'.get? "highlights_by_doc" = none ∧
      (∀ v, m.get? "timestamp" = some v → m'.get? "event_timestamp" = some v) ∧
      (∀ v, m.get? "computer_name" = some v → m'.get? "hostname" = some v) ∧
      (∀ k, strings.Contains k "alliance_" = true → k ≠ "alliance_data" →
        m'.get? k = none) ∧
      (m'.get? "alliance_data" = none ∨ ∃ g, m'.get? "alliance_data" = some (.srcs g)) ∧
      (∀ k, strings.Contains k "alliance_" = false → k ∉ specialKeys → k ∉ writtenKeys →
        m'.get? k = m.get? k) := by
  constructor
  · intro hioc
    obtain ⟨st, hst⟩ := rangeKeyValues_completes ext order ⟨m, []⟩ hend hioc
    unfold handleKeyValuesIn
    rw [hst]
    simp only
    split_ifs
    · exact ⟨_, rfl⟩
    · exact ⟨_, rfl⟩
  · intro m' h
    obtain ⟨st, hst, hstable, hsame⟩ := handleKeyValuesIn_end hcov h
    have hdrop : ∀ d ∈ ["timestamp", "computer_name", "highlights", "highlights_by_doc"],
        st.msg.get? d = none := fun d hd => Stable.dropped hd (hstable d)
    refine ⟨?_, ?_, ?_, ?_, ?_, ?_, ?_, ?_, ?_⟩
    · rw [hsame _ (by decide)]
      exact hdrop _ (by decide)
    · rw [hsame _ (by decide)]
      exact hdrop _ (by decide)
    · rw [hsame _ (by decide)]
      exact hdrop _ (by decide)
    · rw [hsame _ (by decide)]
      exact hdrop _ (by decide)
    · intro v hv
      rw [hsame _ (by decide)]
      rcases rangeKeyValues_rename (Or.inl ⟨rfl, rfl⟩) order _ st hst hend hv with hl | ⟨-, hr⟩
      · rw [hdrop _ (by decide)] at hl
        simp at hl
      · exact hr
    · intro v hv
      rw [hsame _ (by decide)]
      rcases rangeKeyValues_rename (Or.inr ⟨rfl, rfl⟩) order _ st hst hend hv with hl | ⟨-, hr⟩
      · rw [hdrop _ (by decide)] at hl
        simp at hl
      · exact hr
    · intro k hc hk
      rw [hsame k hk]
      refine rangeKeyValues_removes hc order _ _ hst ?_
      by_cases hv : m.get? k = none
      · exact Or.inr hv
      · exact Or.inl (hcov k hv)
    · obtain ⟨sa, -, ha⟩ := handleKeyValuesIn_alliance_data hcov h
      rw [ha]
      split_ifs
      · exact Or.inr ⟨_, rfl⟩
      · exact Or.inl rfl
    · intro k hc hs hw
      have hk : k ≠ "alliance_data" := by
        intro e
        subst e
        exact absurd hc (by decide)
      rw [hsame k hk]
      exact rangeKeyValues_inv (P := fun msg => msg.get? k = m.get? k)
        (fun st0 st1 k' v' hP _ hstep =>
          (handleKeyValue_frame hstep hc hs hw).trans hP)
        order _ st hst rfl

/-- C12, witness: a record with `timestamp`, `computer_name`, `highlights`,
`alliance_x` and `pid`. -/
theorem handleKeyValues_renames_witness :
    (∃ m', handleKeyValuesIn stubExtern
      ["timestamp", "computer_name", "highlights", "alliance_x", "pid"]
      [("timestamp", .num "5"), ("computer_name", .str "WIN-HOST"), ("highlights", .arr []),
       ("alliance_x", .num "1"), ("pid", .num "4")] = some m') ∧
    handleKeyValuesIn stubExtern
      ["timestamp", "computer_name", "highlights", "alliance_x", "pid"]
      [("timestamp", .num "5"), ("computer_name", .str "WIN-HOST"), ("highlights", .arr []),
       ("alliance_x", .num "1"), ("pid", .num "4")] =
      some [("pid", .num "4"), ("event_timestamp", .num "5"), ("hostname", .str "WIN-HOST")] ∧
    Record.get? [("pid", .num "4"), ("event_timestamp", .num "5"), ("hostname", .str "WIN-HOST")]
      "timestamp" = none :=
  ⟨(handleKeyValues_renames stubExtern
      ["timestamp", "computer_name", "highlights", "alliance_x", "pid"]
      [("timestamp", .num "5"), ("computer_name", .str "WIN-HOST"), ("highlights", .arr []),
       ("alliance_x", .num "1"), ("pid", .num "4")] rfl (Record.keys_cover _)).1
      (fun g => by simp [Record.get?]),
    rfl,
    ((handleKeyValues_renames stubExtern
      ["timestamp", "computer_name", "highlights", "alliance_x", "pid"]
      [("timestamp", .num "5"), ("computer_name", .str "WIN-HOST"), ("highlights", .arr []),
       ("alliance_x", .num "1"), ("pid", .num "4")] rfl (Record.keys_cover _)).2 _ rfl).1⟩

/-- C12, counterexample: the key `alliance_x` has two parts, so no rewrite rule
names it, and it has no case of its own and is not written by a case; the
pass on a record without `endpoint` removes it all the same, while `pid` keeps
its value. -/
theorem handleKeyValues_unnamed_removed :
    Record.get? [("alliance_x", .num "1"), ("pid", .num "4")] "endpoint" = none ∧
    strings.Split "alliance_x" '_' = ["alliance", "x"] ∧
    "alliance_x" ∉ specialKeys ∧ "alliance_x" ∉ writtenKeys ∧
    handleKeyValues stubExtern [("alliance_x", .num "1"), ("pid", .num "4")] =
      some [("pid", .num "4")] ∧
    Record.get? [("alliance_x", .num "1"), ("pid", .num "4")] "alliance_x" = some (.num "1") ∧
    Record.get? [("pid", .num "4")] "alliance_x" = none :=
  ⟨rfl, by decide, by decide, by decide, rfl, rfl, rfl⟩
/-! ## The MD5 keys in the key-rewrite pass: the claim -/

theorem ascii_val (c : Char) (h : c.toNat < 128) : c.val ≤ 0x7F := by
  have h2 : c.val.toNat < 128 := h
  rw [UInt32.le_def]
  change c.val.val ≤ (0x7F : UInt32).val
  rw [Fin.le_def]
  have h3 : ((0x7F : UInt32).val : Nat) = 127 := rfl
  have h4 : (c.val.val : Nat) = c.val.toNat := rfl
  omega

/-- On a string of ASCII characters `strings.ToUpper` maps the letters `a` to
`z` to `A` to `Z` and keeps the other characters, whatever the case tables. -/
theorem ToUpper_ascii (ext : Extern) (s : String) (h : ∀ c ∈ s.data, c.toNat < 128) :
    strings.ToUpper ext s = ⟨s.data.map Char.toUpper⟩ := by
  unfold strings.ToUpper
  congr 1
  refine List.map_congr_left ?_
  intro c hc
  simp [unicode.ToUpper, h c hc]

/-- C13: on a record whose keys are all visited, the pass completes when
`endpoint`, if present, has the two parts that its case reads and `ioc_type`
is not a map of maps; after the pass each of `md5`, `parent_md5`,
`process_md5` holds the upper-cased form of its original value when that value
is a string of length 32, and its original value in every other case.  The
length is that of Go `len`; on a string of ASCII characters, such as a
hexadecimal digest, it is the number of characters, and the upper-cased form
is the string with `a` to `z` replaced by `A` to `Z`. -/
theorem handleKeyValues_md5 (ext : Extern) (order : List String) (m : Record) (k : String)
    (hk : k ∈ ["md5", "parent_md5", "process_md5"])
    (hcov : ∀ j, m.get? j ≠ none → j ∈ order) :
    ((∀ v, m.get? "endpoint" = some v → endpointParts v ≠ none) →
      (∀ g, m.get? "ioc_type" ≠ some (.srcs g)) →
      ∃ m', handleKeyValuesIn ext order m = some m') ∧
    (∀ m', handleKeyValuesIn ext order m = some m' →
      (∀ s, m.get? k = some (.str s) → len s = 32 →
        m'.get? k = some (.str (strings.ToUpper ext s))) ∧
      ((∀ s, m.get? k = some (.str s) → len s ≠ 32) → m'.get? k = m.get? k)) ∧
    ∀ s : String, (∀ c ∈ s.data, c.toNat < 128) →
      len s = s.length ∧ strings.ToUpper ext s = ⟨s.data.map Char.toUpper⟩ := by
  refine ⟨?_, ?_, ?_⟩
  · intro hend hioc
    obtain ⟨st, hst⟩ := rangeKeyValues_completes_parts ext order ⟨m, []⟩ hend hioc
    unfold handleKeyValuesIn
    rw [hst]
    simp only
    split_ifs
    · exact ⟨_, rfl⟩
    · exact ⟨_, rfl⟩
  · intro m' h
    obtain ⟨st, hst, hstable, hsame⟩ := handleKeyValuesIn_end hcov h
    have hne : k ≠ "alliance_data" := by
      simp only [List.mem_cons, List.mem_singleton, List.not_mem_nil, or_false] at hk
      rcases hk with rfl | rfl | rfl <;> decide
    have hinv := rangeKeyValues_md5 hk (m.get? k) order _ st hst rfl
    rw [hsame k hne]
    constructor
    · intro s hs hlen
      rcases hinv with hl | ⟨s0, ho, -, hr⟩
      · rw [hl, hs, Stable.md5 hk (hstable k) (hl.trans hs) hlen]
      · rw [hs] at ho
        have e : s = s0 := by
          have := Option.some.inj ho
          injection this
        rw [hr, e]
    · intro hmiss
      rcases hinv with hl | ⟨s0, ho, hlen, -⟩
      · exact hl
      · exact absurd hlen (hmiss s0 ho)
  · intro s hs
    exact ⟨len_ascii s (fun c hc => ascii_val c (hs c hc)), ToUpper_ascii ext s hs⟩

/-- C13, witness: a lower-case `md5` of 32 characters is upper-cased, a
`parent_md5` of 31 characters is kept; with case tables that know `é`, a
string of 32 bytes made of that letter is upper-cased too. -/
theorem handleKeyValues_md5_witness :
    (∃ m', handleKeyValuesIn stubExtern ["md5", "parent_md5"]
      [("md5", .str "d41d8cd98f00b204e9800998ecf8427e"),
       ("parent_md5", .str "d41d8cd98f00b204e9800998ecf8427")] = some m') ∧
    handleKeyValuesIn stubExtern ["md5", "parent_md5"]
      [("md5", .str "d41d8cd98f00b204e9800998ecf8427e"),
       ("parent_md5", .str "d41d8cd98f00b204e9800998ecf8427")] =
      some [("md5", .str "D41D8CD98F00B204E9800998ECF8427E"),
       ("parent_md5", .str "d41d8cd98f00b204e9800998ecf8427")] ∧
    len "d41d8cd98f00b204e9800998ecf8427e" = 32 ∧
    Record.get? [("md5", .str "D41D8CD98F00B204E9800998ECF8427E"),
       ("parent_md5", .str "d41d8cd98f00b204e9800998ecf8427")] "md5" =
      some (.str (strings.ToUpper stubExtern "d41d8cd98f00b204e9800998ecf8427e")) ∧
    len "éééééééééééééééé" = 32 ∧
    handleKeyValuesIn accentExtern ["md5"] [("md5", .str "éééééééééééééééé")] =
      some [("md5", .str "ÉÉÉÉÉÉÉÉÉÉÉÉÉÉÉÉ")] :=
  ⟨(handleKeyValues_md5 stubExtern ["md5", "parent_md5"]
      [("md5", .str "d41d8cd98f00b204e9800998ecf8427e"),
       ("parent_md5", .str "d41d8cd98f00b204e9800998ecf8427")] "md5" (by decide)
      (Record.keys_cover _)).1 (fun v hv => by simp [Record.get?] at hv)
      (fun g => by simp [Record.get?]),
    rfl, by decide,
    ((handleKeyValues_md5 stubExtern ["md5", "parent_md5"]
      [("md5", .str "d41d8cd98f00b204e9800998ecf8427e"),
       ("parent_md5", .str "d41d8cd98f00b204e9800998ecf8427")] "md5" (by decide)
      (Record.keys_cover _)).2.1 _ rfl).1 "d41d8cd98f00b204e9800998ecf8427e" rfl (by decide),
    by decide, rfl⟩
/-! ## MD5 fields of the output records, type by type -/

theorem BodyMd5Fields.of_binary {t : String} {msg r : Record} (ht : t ∈ bodyBinaryTypes)
    (h1 : r.get? "parent_md5" = none)
    (h2 : r.get? "md5" = some (.str (getString msg "md5" "")))
    (h3 : r.get? "process_md5" = none) : BodyMd5Fields t msg r := by
  have hp : t ∉ processAlertTypes := by
    simp only [bodyBinaryTypes, List.mem_cons, List.mem_singleton, List.not_mem_nil,
      or_false] at ht
    rcases ht with rfl | rfl | rfl | rfl | rfl | rfl <;> decide
  refine ⟨?_, ?_, h1⟩
  · rw [if_pos ht]
    exact h2
  · rw [if_neg hp]
    exact h3

theorem BodyMd5Fields.of_alert {t : String} {msg r : Record} (ht : t ∈ processAlertTypes)
    (h1 : r.get? "parent_md5" = none) (h2 : r.get? "md5" = none)
    (h3 : r.get? "process_md5" = some (.str (getString msg "md5" ""))) :
    BodyMd5Fields t msg r := by
  have hp : t ∉ bodyBinaryTypes := by
    simp only [processAlertTypes, List.mem_cons, List.mem_singleton, List.not_mem_nil,
      or_false] at ht
    rcases ht with rfl | rfl <;> decide
  refine ⟨?_, ?_, h1⟩
  · rw [if_neg hp]
    exact h2
  · rw [if_pos ht]
    exact h3

theorem BodyMd5Fields.of_none {t : String} {msg r : Record} (hb : t ∉ bodyBinaryTypes)
    (hp : t ∉ processAlertTypes) (h1 : r.get? "parent_md5" = none)
    (h2 : r.get? "md5" = none) (h3 : r.get? "process_md5" = none) :
    BodyMd5Fields t msg r := by
  refine ⟨?_, ?_, h1⟩
  · rw [if_neg hb]
    exact h2
  · rw [if_neg hp]
    exact h3

theorem docsHandler_md5 {t : String} (h : JSONMessageHandlerFunc) (ht : t ∈ docsTypes) :
    HandlerMd5 t h := fun hn => absurd ht hn

theorem feedIngressHitProcess_md5 :
    HandlerMd5 "feed.ingress.hit.process" feedIngressHitProcess := by
  intro _ m outs err h r hr
  simp [feedIngressHitProcess] at h
  obtain ⟨rfl, -⟩ := h
  simp at hr
  subst hr
  refine BodyMd5Fields.of_none (by decide) (by decide) ?_ ?_ ?_ <;>
    simp [copyFeedSensorMetadata, Record.get?_set, Record.get?_nil]

/-- The alert metadata holds none of the MD5 fields. -/
theorem copyAlertMetadata_md5 {t : String} {inmsg o : Record}
    (h : copyAlertMetadata t inmsg
      ((Record.set [] "type" (.str t)).set "schema_version" (.int 2)) = (o, none)) :
    ∀ k ∈ ["md5", "parent_md5", "process_md5"], o.get? k = none := by
  intro k hk
  rcases copyAlertMetadata_cases t inmsg
    ((Record.set [] "type" (.str t)).set "schema_version" (.int 2)) with
    ⟨-, e, he⟩ | ⟨-, o', ho', hfr⟩
  · rw [he] at h
    simp at h
  · rw [ho'] at h
    have ho : o = copyAlertFields t inmsg o' := (congrArg Prod.fst h).symm
    simp only [List.mem_cons, List.mem_singleton, List.not_mem_nil, or_false] at hk
    rw [ho]
    rcases hk with rfl | rfl | rfl
    · rw [copyAlertFields_get? t inmsg o' (by decide), hfr _ (by decide)]
      simp [Record.get?_set, Record.get?_nil]
    · rw [copyAlertFields_get? t inmsg o' (by decide), hfr _ (by decide)]
      simp [Record.get?_set, Record.get?_nil]
    · rw [copyAlertFields_get? t inmsg o' (by decide), hfr _ (by decide)]
      simp [Record.get?_set, Record.get?_nil]

theorem alertWatchlistHitProcess_md5 (ext : Extern) {t : String} (ht : t ∈ processAlertTypes) :
    HandlerMd5 t (alertWatchlistHitProcess ext) := by
  intro _ m outs err h r hr
  unfold alertWatchlistHitProcess at h
  simp only at h
  split at h
  · simp at h
    obtain ⟨rfl, -⟩ := h
    simp at hr
  · rename_i o ho
    have hmd := copyAlertMetadata_md5 ho
    have h1 := hmd "md5" (by decide)
    have h2 := hmd "parent_md5" (by decide)
    simp at h
    obtain ⟨rfl, -⟩ := h
    simp at hr
    rw [hr]
    refine BodyMd5Fields.of_alert ht ?_ ?_ ?_ <;>
      simp [copyEventCounts, eventCountKeys, Record.get?_set, h1, h2]

theorem alertWatchlistHitBinary_md5 {t : String}
    (ht : t ∈ ["alert.watchlist.hit.ingress.binary", "alert.watchlist.hit.query.binary"]) :
    HandlerMd5 t alertWatchlistHitBinary := by
  have htb : t ∈ bodyBinaryTypes := by
    simp only [List.mem_cons, List.mem_singleton, List.not_mem_nil, or_false] at ht
    rcases ht with rfl | rfl <;> decide
  intro _ m outs err h r hr
  unfold alertWatchlistHitBinary at h
  simp only at h
  split at h
  · simp at h
    obtain ⟨rfl, -⟩ := h
    simp at hr
  · rename_i o ho
    have hmd := copyAlertMetadata_md5 ho
    have h2 := hmd "parent_md5" (by decide)
    have h3 := hmd "process_md5" (by decide)
    simp at h
    obtain ⟨rfl, -⟩ := h
    simp at hr
    rw [hr]
    refine BodyMd5Fields.of_binary htb ?_ ?_ ?_ <;>
      simp [copyObject_get?, Record.get?_set, h2, h3]

theorem alertWatchlistHitHost_md5 :
    HandlerMd5 "alert.watchlist.hit.ingress.host" alertWatchlistHitHost := by
  intro _ m outs err h r hr
  unfold alertWatchlistHitHost at h
  simp only at h
  split at h
  · simp at h
    obtain ⟨rfl, -⟩ := h
    simp at hr
  · rename_i o ho
    have hmd := copyAlertMetadata_md5 ho
    have h1 := hmd "md5" (by decide)
    have h2 := hmd "parent_md5" (by decide)
    have h3 := hmd "process_md5" (by decide)
    simp at h
    obtain ⟨rfl, -⟩ := h
    simp at hr
    rw [hr]
    refine BodyMd5Fields.of_none (by decide) (by decide) ?_ ?_ ?_ <;>
      simp [Record.get?_set, h1, h2, h3]

theorem binarystoreFileAdded_md5 : HandlerMd5 "binarystore.file.added" binarystoreFileAdded := by
  intro _ m outs err h r hr
  simp [binarystoreFileAdded] at h
  obtain ⟨rfl, -⟩ := h
  simp at hr
  subst hr
  refine BodyMd5Fields.of_binary (by decide) ?_ ?_ ?_ <;>
    simp [Record.get?_set, Record.get?_nil]

theorem binaryinfoObserved_md5 {t : String}
    (ht : t ∈ ["binaryinfo.observed", "binaryinfo.host.observed",
      "binaryinfo.group.observed"]) : HandlerMd5 t binaryinfoObserved := by
  have htb : t ∈ bodyBinaryTypes := by
    simp only [List.mem_cons, List.mem_singleton, List.not_mem_nil, or_false] at ht
    rcases ht with rfl | rfl | rfl <;> decide
  intro _ m outs err h r hr
  simp only [binaryinfoObserved] at h
  simp at h
  obtain ⟨rfl, -⟩ := h
  simp at hr
  subst hr
  refine BodyMd5Fields.of_binary htb ?_ ?_ ?_
  · split
    · simp [copyObject_get?, Record.get?_set, Record.get?_nil]
    · split <;> simp [copyObject_get?, Record.get?_set, Record.get?_nil]
  · split
    · simp [copyObject_get?, Record.get?_set, Record.get?_nil]
    · split <;> simp [copyObject_get?, Record.get?_set, Record.get?_nil]
  · split
    · simp [copyObject_get?, Record.get?_set, Record.get?_nil]
    · split <;> simp [copyObject_get?, Record.get?_set, Record.get?_nil]

theorem messageHandlers_md5 (ext : Extern) (cfg : Config) :
    ∀ p ∈ (NewJSONProcessor ext cfg).messageHandlers, HandlerMd5 p.1 p.2 := by
  simp only [NewJSONProcessor, List.forall_mem_cons]
  refine ⟨docsHandler_md5 _ (by decide), docsHandler_md5 _ (by decide),
    docsHandler_md5 _ (by decide), docsHandler_md5 _ (by decide), feedIngressHitProcess_md5,
    docsHandler_md5 _ (by decide), docsHandler_md5 _ (by decide),
    alertWatchlistHitProcess_md5 ext (by decide), alertWatchlistHitProcess_md5 ext (by decide),
    alertWatchlistHitBinary_md5 (by decide), alertWatchlistHitBinary_md5 (by decide),
    alertWatchlistHitHost_md5, binarystoreFileAdded_md5, binaryinfoObserved_md5 (by decide),
    binaryinfoObserved_md5 (by decide), binaryinfoObserved_md5 (by decide), ?_⟩
  simp

/-- The MD5 fields of the record that `feedStorageHitProcess` builds from a
sub-document. -/
theorem feedStorageHitProcessDoc_md5 {ext : Extern} {t : String} {m sub r : Record}
    (hr : feedStorageHitProcessDoc ext t m sub = some r) :
    r.get? "md5" = none ∧
    r.get? "process_md5" =
      some (.str (strings.ToUpper ext (getString sub "process_md5" ""))) ∧
    r.get? "parent_md5" = none := by
  unfold feedStorageHitProcessDoc at hr
  simp only at hr
  split at hr
  · simp at hr
  · rename_i o1 ho1
    simp at hr
    subst hr
    split at ho1
    · obtain ⟨l, rfl⟩ := copyAllianceInformation_eq ho1
      refine ⟨?_, ?_, ?_⟩ <;>
        simp [copyProcessMetadata, copyParentMetadata, copyEventCounts,
          eventCountKeys, Record.get?_set, Record.get?_nil]
    · simp at ho1
      subst ho1
      refine ⟨?_, ?_, ?_⟩ <;>
        simp [copyProcessMetadata, copyParentMetadata, copyEventCounts,
          eventCountKeys, Record.get?_set, Record.get?_nil]

/-- The MD5 fields of the record that the handler of a docs-exploding type
builds from a sub-document. -/
theorem docRecord_md5 {ext : Extern} {t : String} {msg sub r0 : Record} (ht : t ∈ docsTypes)
    (h : docRecord ext t msg sub = some r0) : DocMd5Fields ext t sub r0 := by
  simp only [docsTypes, List.mem_cons, List.mem_singleton, List.not_mem_nil, or_false] at ht
  rcases ht with rfl | rfl | rfl | rfl | rfl | rfl
  · simp [docRecord] at h
    subst h
    refine ⟨?_, ?_, ?_⟩ <;>
      simp [docBinaryTypes, docProcessTypes, watchlistHitProcessDoc, copySensorMetadata,
        copyProcessMetadata, copyParentMetadata, copyEventCounts, eventCountKeys,
        Record.get?_set, Record.get?_nil]
  · simp [docRecord] at h
    subst h
    refine ⟨?_, ?_, ?_⟩ <;>
      simp [docBinaryTypes, docProcessTypes, watchlistStorageHitProcessDoc,
        copyProcessMetadata, copyParentMetadata, copyEventCounts, eventCountKeys,
        Record.get?_set, Record.get?_nil]
  · simp [docRecord] at h
    subst h
    refine ⟨?_, ?_, ?_⟩ <;>
      simp [docBinaryTypes, docProcessTypes, watchlistHitBinaryDoc, copyBinaryMetadata,
        copyObject_get?, Record.get?_set, Record.get?_nil]
  · simp [docRecord] at h
    subst h
    refine ⟨?_, ?_, ?_⟩ <;>
      unfold watchlistStorageHitBinaryDoc <;> simp only <;> split <;>
      simp [docBinaryTypes, docProcessTypes, copyBinaryMetadata, Record.get?_set,
        Record.get?_nil]
  · simp [docRecord] at h
    obtain ⟨h1, h2, h3⟩ := feedStorageHitProcessDoc_md5 h
    exact ⟨by rw [h1]; simp [docBinaryTypes], by rw [h2]; simp [docProcessTypes], h3⟩
  · simp [docRecord] at h
    obtain ⟨h1, h2, h3⟩ := feedStorageHitProcessDoc_md5 h
    exact ⟨by rw [h1]; simp [docBinaryTypes], by rw [h2]; simp [docProcessTypes], h3⟩

/-- The records of a docs-exploding type, each with the sub-document it was
built from. -/
theorem docs_records {ext : Extern} {cfg : Config} {msg : Record} {rk : String}
    {outs : List Record} {err : Option Error} (ht : fixupMessageType rk ∈ docsTypes)
    (h : ProcessJSONMessage ext (NewJSONProcessor ext cfg) msg rk = some (outs, err)) :
    err = none ∧
    List.Forall₂
      (fun sub r => ∃ r0, docRecord ext (fixupMessageType rk) msg sub = some r0 ∧
        addLinksToMessage ext (NewJSONProcessor ext cfg) r0 = some r)
      (subDocuments msg) outs := by
  obtain ⟨-, hh, hl, hdef⟩ := docs_lookup ext cfg ht
  obtain ⟨outs0, hp, hlinks⟩ := ProcessJSONMessage_handler hl h
  rw [hdef] at hp
  cases he : explodeDocs msg (docRecord ext (fixupMessageType rk) msg) with
  | none => simp [he] at hp
  | some o =>
    simp only [he] at hp
    simp at hp
    obtain ⟨rfl, rfl⟩ := hp
    refine ⟨rfl, ?_⟩
    have hbody := explodeDocs_body_isSome he
    obtain ⟨outs1, h1, h2⟩ := explodeDocs_eq msg hbody
    rw [he] at h1
    have e : o = outs1 := Option.some.inj h1
    subst e
    exact forall₂_chain h2 (addLinksToMessages_forall₂ hlinks)

/-- C14 (as amended): for every routing key and body processed through
`ProcessJSON`, no record is returned when the body does not decode, and the
MD5 fields of the output records are taken from the decoded body without
regard to their length.  For a docs-exploding type the records correspond to
the sub-documents, in order: the record of a binary watchlist type has the
`md5` string of its sub-document, unchanged, and no `process_md5`; the record
of a process watchlist or feed type has the upper-cased `process_md5` string
of its sub-document and no `md5`.  For every other type, the record of a
binary alert, of `binarystore.file.added` and of the binary info types has the
`md5` string of the body, unchanged, and no `process_md5`; the record of a
process alert has the `md5` string of the body, unchanged, as `process_md5`
and no `md5`; the other records have neither.  No record has `parent_md5`. -/
theorem ProcessJSON_md5 (ext : Extern) (cfg : Config) (routingKey indata : String)
    (outs : List Record) (err : Option Error)
    (h : ProcessJSON ext (NewJSONProcessor ext cfg) routingKey indata = some (outs, err)) :
    (ext.Decode indata = none → outs = []) ∧
    ∀ msg, ext.Decode indata = some msg →
      (fixupMessageType routingKey ∈ docsTypes →
        List.Forall₂ (fun sub r => DocMd5Fields ext (fixupMessageType routingKey) sub r)
          (subDocuments msg) outs) ∧
      (fixupMessageType routingKey ∉ docsTypes →
        ∀ r ∈ outs, BodyMd5Fields (fixupMessageType routingKey) msg r) := by
  constructor
  · intro hd
    simp only [ProcessJSON, hd] at h
    simp at h
    exact h.1
  · intro msg hd
    simp only [ProcessJSON, hd] at h
    constructor
    · intro ht
      obtain ⟨-, hall⟩ := docs_records ht h
      refine hall.imp ?_
      rintro sub r ⟨r0, h0, hlink⟩
      have hm := docRecord_md5 ht h0
      unfold DocMd5Fields at hm ⊢
      rw [addLinksToMessage_get? hlink (by decide), addLinksToMessage_get? hlink (by decide),
        addLinksToMessage_get? hlink (by decide)]
      exact hm
    · intro ht r hr
      obtain ⟨processfunc, outs0, r0, hl, hp, hr0, hlink⟩ := ProcessJSONMessage_mem h r hr
      have hmd := messageHandlers_md5 ext cfg _ (lookupHandler_mem hl) ht _ _ _ hp r0 hr0
      unfold BodyMd5Fields at hmd ⊢
      rw [addLinksToMessage_get? hlink (by decide), addLinksToMessage_get? hlink (by decide),
        addLinksToMessage_get? hlink (by decide)]
      exact hmd

/-- C14, witness: the record returned for the `binarystore.file.added` body
with a lower-case `md5` of 32 characters, and the record returned for the
`watchlist.hit.process` body whose sub-document has a lower-case `process_md5`
of 31 characters. -/
theorem ProcessJSON_md5_witness :
    BodyMd5Fields (fixupMessageType "binarystore.file.added")
      [("md5", .str "d41d8cd98f00b204e9800998ecf8427e")]
      [("type", .str "binarystore.file.added"), ("schema_version", .int 2),
       ("md5", .str "d41d8cd98f00b204e9800998ecf8427e"), ("size", .num "0"),
       ("compressed_size", .num "0"), ("node_id", .num "0"), ("file_path", .str ""),
       ("event_timestamp", .num "0")] ∧
    ∃ outs,
      ProcessJSON stubExtern (NewJSONProcessor stubExtern plainConfig) "watchlist.hit.process"
        "\x7b\"docs\": [\x7b\"process_md5\": \"d41d8cd98f00b204e9800998ecf8427\"\x7d]\x7d" =
        some (outs, none) ∧
      List.Forall₂
        (fun sub r => DocMd5Fields stubExtern (fixupMessageType "watchlist.hit.process") sub r)
        (subDocuments [("docs", .arr [.obj [("process_md5",
          .str "d41d8cd98f00b204e9800998ecf8427")]])]) outs :=
  ⟨((ProcessJSON_md5 stubExtern plainConfig "binarystore.file.added"
      "\x7b\"md5\": \"d41d8cd98f00b204e9800998ecf8427e\"\x7d"
      [[("type", .str "binarystore.file.added"), ("schema_version", .int 2),
        ("md5", .str "d41d8cd98f00b204e9800998ecf8427e"), ("size", .num "0"),
        ("compressed_size", .num "0"), ("node_id", .num "0"), ("file_path", .str ""),
        ("event_timestamp", .num "0")]] none rfl).2 _ rfl).2 (by decide) _
      (List.mem_cons_self _ _),
   ⟨_, rfl,
    ((ProcessJSON_md5 stubExtern plainConfig "watchlist.hit.process"
      "\x7b\"docs\": [\x7b\"process_md5\": \"d41d8cd98f00b204e9800998ecf8427\"\x7d]\x7d"
      _ none rfl).2 _ rfl).1 (by decide)⟩⟩

/-- C14, counterexample: through `ProcessJSON`, the lower-case `md5` of 32
characters of a `binarystore.file.added` body comes out in lower case, and the
lower-case `process_md5` of 31 characters of a `watchlist.hit.process`
sub-document comes out upper-cased. -/
theorem ProcessJSON_md5_not_normalised :
    (ProcessJSON stubExtern (NewJSONProcessor stubExtern plainConfig) "binarystore.file.added"
        "\x7b\"md5\": \"d41d8cd98f00b204e9800998ecf8427e\"\x7d").map
      (fun res => res.1.map fun r => r.get? "md5") =
      some [some (.str "d41d8cd98f00b204e9800998ecf8427e")] ∧
    len "d41d8cd98f00b204e9800998ecf8427e" = 32 ∧
    strings.ToUpper stubExtern "d41d8cd98f00b204e9800998ecf8427e" ≠
      "d41d8cd98f00b204e9800998ecf8427e" ∧
    (ProcessJSON stubExtern (NewJSONProcessor stubExtern plainConfig) "watchlist.hit.process"
        "\x7b\"docs\": [\x7b\"process_md5\": \"d41d8cd98f00b204e9800998ecf8427\"\x7d]\x7d").map
      (fun res => res.1.map fun r => r.get? "process_md5") =
      some [some (.str "D41D8CD98F00B204E9800998ECF8427")] ∧
    len "d41d8cd98f00b204e9800998ecf8427" = 31 ∧
    "D41D8CD98F00B204E9800998ECF8427" ≠ "d41d8cd98f00b204e9800998ecf8427" :=
  ⟨rfl, by decide, by decide, rfl, by decide, by decide⟩

end messageprocessor
